import Mathlib

/-!
# Power Tab v1.7 importer: a shallow embedding of `powertaboldimporter.cpp`

The legacy document model (`PowerTabDocument::*`) and the target score model
(`Score`, `System`, `Staff`, ...) are plain records.  Every `convert` overload of
the importer is a function from the legacy record to the target record; code
that mutates its output argument takes the old value and returns the new one.

Unsigned legacy quantities (positions, staff numbers, masks) are natural
numbers.  Enumerations on which the importer does arithmetic (`ChordName::Key`)
are integers, so that the C++ truncating remainder can be followed exactly.
-/

namespace PowerTabOldImporter

/-! ## Enumerations -/

namespace PowerTabDocument.ChordName

/-- Modelled from the spec: the twelve legacy keys ("legacyKey ∈ 12 enharmonic
values"), in chromatic order.  The legacy header declaring them is not part of
the sources; the importer only compares against the names. -/
def C : Nat := 0
/-- Legacy key C sharp. -/
def CSharp : Nat := 1
/-- Legacy key D. -/
def D : Nat := 2
/-- Legacy key E flat. -/
def EFlat : Nat := 3
/-- Legacy key E. -/
def E : Nat := 4
/-- Legacy key F. -/
def F : Nat := 5
/-- Legacy key F sharp. -/
def FSharp : Nat := 6
/-- Legacy key G. -/
def G : Nat := 7
/-- Legacy key A flat. -/
def AFlat : Nat := 8
/-- Legacy key A. -/
def A : Nat := 9
/-- Legacy key B flat. -/
def BFlat : Nat := 10
/-- Legacy key B. -/
def B : Nat := 11

/-- Modelled from the spec: the three legacy key variations
("legacyVariation ∈ {Normal, Up, Down}"); the importer only compares against
the names `variationUp` and `variationDown`. -/
def variationDown : Nat := 0
/-- Legacy variation Normal. -/
def variationDefault : Nat := 1
/-- Legacy variation Up. -/
def variationUp : Nat := 2

end PowerTabDocument.ChordName

namespace ChordName

/-- Modelled from the spec: the target `ChordName::Key` enumeration
("Key ∈ C,D,E,F,G,A,B"), numbered from zero, followed by the count `NumKeys`.
A key is kept as the integer the enumeration value holds. -/
def C : Int := 0
/-- Target key D. -/
def D : Int := 1
/-- Target key E. -/
def E : Int := 2
/-- Target key F. -/
def F : Int := 3
/-- Target key G. -/
def G : Int := 4
/-- Target key A. -/
def A : Int := 5
/-- Target key B. -/
def B : Int := 6
/-- Number of key letters. -/
def NumKeys : Int := 7

/-- Modelled from the spec: the target `ChordName::Variation` enumeration
("Variation ∈ None, Flat, Sharp, DoubleFlat, DoubleSharp"). -/
def DoubleFlat : Int := -2
/-- Target variation Flat. -/
def Flat : Int := -1
/-- Target variation None. -/
def NoVariation : Int := 0
/-- Target variation Sharp. -/
def Sharp : Int := 1
/-- Target variation DoubleSharp. -/
def DoubleSharp : Int := 2

/-- A key value that names one of the seven letters. -/
def isKey (k : Int) : Prop :=
  k = C ∨ k = D ∨ k = E ∨ k = F ∨ k = G ∨ k = A ∨ k = B

instance (k : Int) : Decidable (isKey k) := by
  unfold isKey; infer_instance

/-- A variation value that names one of the five variations. -/
def isVariation (v : Int) : Prop :=
  v = NoVariation ∨ v = Flat ∨ v = Sharp ∨ v = DoubleFlat ∨ v = DoubleSharp

instance (v : Int) : Decidable (isVariation v) := by
  unfold isVariation; infer_instance

end ChordName

/-! ## The legacy document model

Each record lists the values the importer reads through the accessors of the
legacy class of the same name (`GetPosition()`, `IsShown()`, ...).  The byte-level
decoding behind the accessors belongs to the legacy reader. -/

namespace PowerTabDocument

/-- Legacy key signature, as seen through its accessors. -/
structure KeySignature where
  keyType : Nat
  keyAccidentalsIncludingCancel : Nat
  usesSharps : Bool
  isShown : Bool
  isCancellation : Bool
  deriving DecidableEq, Repr, Inhabited

/-- Legacy time signature, as seen through its accessors. -/
structure TimeSignature where
  isCutTime : Bool
  isCommonTime : Bool
  beatsPerMeasure : Nat
  beatAmount : Nat
  beamingPattern : List Nat
  pulses : Nat
  isShown : Bool
  deriving DecidableEq, Repr, Inhabited

/-- Legacy rehearsal sign. -/
structure RehearsalSign where
  isSet : Bool
  letter : Char
  description : String
  deriving DecidableEq, Repr, Inhabited

/-- Legacy barline. -/
structure Barline where
  position : Nat
  type : Nat
  repeatCount : Nat
  rehearsalSign : RehearsalSign
  keySignature : KeySignature
  timeSignature : TimeSignature
  deriving DecidableEq, Repr, Inhabited

/-- Legacy tempo marker; `system` is the index of the system it belongs to. -/
structure TempoMarker where
  system : Nat
  position : Nat
  type : Nat
  beatType : Nat
  listessoBeatType : Nat
  tripletFeelType : Nat
  isRitardando : Bool
  isAccelerando : Bool
  beatsPerMinute : Nat
  description : String
  deriving DecidableEq, Repr, Inhabited

/-- Legacy alternate ending; `system` is the index of the system it belongs to. -/
structure AlternateEnding where
  system : Nat
  position : Nat
  listOfNumbers : List Nat
  isDaCapoSet : Bool
  isDalSegnoSet : Bool
  isDalSegnoSegnoSet : Bool
  deriving DecidableEq, Repr, Inhabited

/-- One symbol of a legacy direction: the three bytes `GetSymbol` returns. -/
structure DirectionSymbol where
  type : Nat
  active : Nat
  repeatNumber : Nat
  deriving DecidableEq, Repr, Inhabited

/-- Legacy direction. -/
structure Direction where
  position : Nat
  symbols : List DirectionSymbol
  deriving DecidableEq, Repr, Inhabited

/-- Legacy chord name.  `formulaModifications` is the flag word tested by
`IsFormulaModificationFlagSet`. -/
structure ChordName where
  tonic : Nat
  tonicVariation : Nat
  bassNote : Nat
  bassNoteVariation : Nat
  formula : Nat
  formulaModifications : Nat
  hasBrackets : Bool
  isNoChord : Bool
  deriving DecidableEq, Repr, Inhabited

/-- Legacy chord text. -/
structure ChordText where
  position : Nat
  chordName : ChordName
  deriving DecidableEq, Repr, Inhabited

/-- Legacy dynamic, keyed to (system, staff, position). -/
structure Dynamic where
  system : Nat
  staff : Nat
  position : Nat
  isStaffVolumeSet : Bool
  staffVolume : Nat
  deriving DecidableEq, Repr, Inhabited

/-- Legacy note. -/
structure Note where
  fretNumber : Nat
  string : Nat
  hasTappedHarmonic : Bool
  tappedHarmonic : Nat
  hasTrill : Bool
  trill : Nat
  hasArtificialHarmonic : Bool
  artificialHarmonicKey : Nat
  artificialHarmonicVariation : Nat
  artificialHarmonicOctave : Nat
  hasBend : Bool
  bendType : Nat
  bentPitch : Nat
  releasePitch : Nat
  bendDuration : Nat
  drawStartPoint : Nat
  drawEndPoint : Nat
  isTied : Bool
  isMuted : Bool
  hasHammerOn : Bool
  hasPullOff : Bool
  hasHammerOnFromNowhere : Bool
  hasPullOffToNowhere : Bool
  isNaturalHarmonic : Bool
  isGhostNote : Bool
  isOctave8va : Bool
  isOctave8vb : Bool
  isOctave15ma : Bool
  isOctave15mb : Bool
  hasSlideIntoFromBelow : Bool
  hasSlideIntoFromAbove : Bool
  hasShiftSlide : Bool
  hasLegatoSlide : Bool
  hasSlideOutOfDownwards : Bool
  hasSlideOutOfUpwards : Bool
  deriving DecidableEq, Repr, Inhabited

/-- Legacy position (one rhythmic slot of a voice). -/
structure Position where
  position : Nat
  durationType : Nat
  isDotted : Bool
  isDoubleDotted : Bool
  isRest : Bool
  hasVibrato : Bool
  hasWideVibrato : Bool
  hasArpeggioUp : Bool
  hasArpeggioDown : Bool
  hasPickStrokeUp : Bool
  hasPickStrokeDown : Bool
  isStaccato : Bool
  hasMarcato : Bool
  hasSforzando : Bool
  hasTremoloPicking : Bool
  hasPalmMuting : Bool
  hasTap : Bool
  isAcciaccatura : Bool
  isTripletFeel1st : Bool
  isTripletFeel2nd : Bool
  hasLetRing : Bool
  hasFermata : Bool
  hasMultibarRest : Bool
  multibarRest : Nat
  isIrregularGroupingStart : Bool
  isIrregularGroupingMiddle : Bool
  isIrregularGroupingEnd : Bool
  notesPlayed : Nat
  notesPlayedOver : Nat
  notes : List Note
  deriving DecidableEq, Repr, Inhabited

/-- Number of voices of a legacy staff (`Staff::NUM_STAFF_VOICES`; the spec:
"legacy fixes 2 voices per staff"). -/
def Staff.NUM_STAFF_VOICES : Nat := 2

/-- Legacy staff; `positions` holds the position array of each voice. -/
structure Staff where
  clef : Nat
  tablatureStaffType : Nat
  positions : List (List Position)
  deriving DecidableEq, Repr, Inhabited

/-- The positions of one voice (`GetPositionCount(voice)` / `GetPosition(voice, i)`). -/
def Staff.getPositions (s : Staff) (voice : Nat) : List Position :=
  s.positions.getD voice []

/-- Legacy system: dedicated start and end bars, interior barlines, directions,
chord texts and staves. -/
structure System where
  startBar : Barline
  endBar : Barline
  barlines : List Barline
  directions : List Direction
  chordTexts : List ChordText
  staves : List Staff
  deriving DecidableEq, Repr, Inhabited

/-- Legacy tuning. -/
structure Tuning where
  name : String
  tuningNotes : List Nat
  musicNotationOffset : Int
  usesSharps : Bool
  deriving DecidableEq, Repr, Inhabited

/-- Legacy guitar. -/
structure Guitar where
  description : String
  pan : Nat
  tuning : Tuning
  capo : Nat
  preset : Nat
  initialVolume : Nat
  deriving DecidableEq, Repr, Inhabited

/-- Legacy guitar-in, keyed to (system, staff, position). -/
structure GuitarIn where
  system : Nat
  staff : Nat
  position : Nat
  hasStaffGuitarsSet : Bool
  staffGuitars : Nat
  deriving DecidableEq, Repr, Inhabited

/-- Legacy score: guitars and systems, and the score-level arrays of
tempo markers, alternate endings, dynamics and guitar-ins. -/
structure Score where
  guitars : List Guitar
  systems : List System
  tempoMarkers : List TempoMarker
  alternateEndings : List AlternateEnding
  dynamics : List Dynamic
  guitarIns : List GuitarIn
  deriving DecidableEq, Repr, Inhabited

/-- Modelled from the spec: `Score::GetTempoMarkersInSystem`, which is part of the
legacy reader.  The spec: tempo markers "scoped to this system are converted in
legacy order"; `system` is the index of the system in the score. -/
def Score.getTempoMarkersInSystem (s : Score) (system : Nat) : List TempoMarker :=
  s.tempoMarkers.filter (fun t => t.system = system)

/-- Modelled from the spec: `Score::GetAlternateEndingsInSystem` of the legacy
reader; alternate endings "scoped to this system", in legacy order. -/
def Score.getAlternateEndingsInSystem (s : Score) (system : Nat) :
    List AlternateEnding :=
  s.alternateEndings.filter (fun t => t.system = system)

/-- Modelled from the spec: `Score::GetDynamicsInSystem` of the legacy reader;
"dynamics scoped to this system", in legacy order. -/
def Score.getDynamicsInSystem (s : Score) (system : Nat) : List Dynamic :=
  s.dynamics.filter (fun t => t.system = system)

/-- Modelled from the spec: `Score::GetGuitarInsInSystem` of the legacy reader;
the spec: "Gather its Guitar Ins in legacy order". -/
def Score.getGuitarInsInSystem (s : Score) (system : Nat) : List GuitarIn :=
  s.guitarIns.filter (fun t => t.system = system)

end PowerTabDocument

/-! ## The target score model

The classes of the new score model (`score/*.h`) are not part of the sources.
Their records hold the fields the specification lists for each entity; a
default-constructed object is the record `default`, and the importer overwrites
every field of it that it later relies on. -/

/-- Modelled from the spec: target key signature ("type, accidental count,
sharps/flats flag, visible flag, cancellation flag"). -/
structure KeySignature where
  keyType : Nat
  numAccidentals : Nat
  sharps : Bool
  visible : Bool
  cancellation : Bool
  deriving DecidableEq, Repr, Inhabited

/-- The setter `KeySignature::setVisible`. -/
def KeySignature.setVisible (k : KeySignature) (visible : Bool) : KeySignature :=
  { k with visible := visible }

/-- Modelled from the spec: meter type "{Normal, CutTime, CommonTime}". -/
inductive TimeSignature.MeterType where
  | Normal
  | CutTime
  | CommonTime
  deriving DecidableEq, Repr, Inhabited

/-- Modelled from the spec: target time signature ("meter type, beats per
measure, beat value, 4-element beaming pattern, number of pulses, visible
flag"). -/
structure TimeSignature where
  meterType : TimeSignature.MeterType
  beatsPerMeasure : Nat
  beatValue : Nat
  beamingPattern : List Nat
  numPulses : Nat
  visible : Bool
  deriving DecidableEq, Repr, Inhabited

/-- The setter `TimeSignature::setVisible`. -/
def TimeSignature.setVisible (t : TimeSignature) (visible : Bool) : TimeSignature :=
  { t with visible := visible }

/-- Modelled from the spec: target rehearsal sign ("letters = single legacy
char as 1-char string, description"). -/
structure RehearsalSign where
  letters : String
  description : String
  deriving DecidableEq, Repr, Inhabited

/-- Modelled from the spec: target barline ("position index, bar type enum,
repeat count, optional rehearsal sign, key signature, time signature"). -/
structure Barline where
  position : Nat
  barType : Nat
  repeatCount : Nat
  rehearsalSign : Option RehearsalSign
  keySignature : KeySignature
  timeSignature : TimeSignature
  deriving DecidableEq, Repr, Inhabited

/-- Modelled from the spec: alteration of pace "{None, Ritardando,
Accelerando}". -/
inductive TempoMarker.AlterationOfPaceType where
  | NoAlterationOfPace
  | Ritardando
  | Accelerando
  deriving DecidableEq, Repr, Inhabited

/-- Modelled from the spec: target tempo marker.  `beatsPerMinute` keeps the
value of the default-constructed marker unless the importer sets it. -/
structure TempoMarker where
  position : Nat
  markerType : Nat
  beatType : Nat
  listessoBeatType : Nat
  tripletFeel : Nat
  alterationOfPace : TempoMarker.AlterationOfPaceType
  beatsPerMinute : Nat
  description : String
  deriving DecidableEq, Repr, Inhabited

/-- Modelled from the spec: target alternate ending ("position, ordered list
of ending numbers, da-capo/dal-segno/dal-segno-segno flags"). -/
structure AlternateEnding where
  position : Nat
  numbers : List Nat
  daCapo : Bool
  dalSegno : Bool
  dalSegnoSegno : Bool
  deriving DecidableEq, Repr, Inhabited

/-- Modelled from the spec: target direction symbol ("symbol type,
active-symbol type, repeat count"). -/
structure DirectionSymbol where
  symbolType : Nat
  activeSymbolType : Nat
  repeatCount : Nat
  deriving DecidableEq, Repr, Inhabited

/-- Modelled from the spec: target direction ("position, ordered symbols"). -/
structure Direction where
  position : Nat
  symbols : List DirectionSymbol
  deriving DecidableEq, Repr, Inhabited

/-- Modelled from the spec: target chord name ("tonic {Key, Variation}, bass
key+variation, formula enum, formula-modification set, brackets flag, no-chord
flag").  The modification set lists each modification once. -/
structure ChordName where
  tonicKey : Int
  tonicVariation : Int
  bassKey : Int
  bassVariation : Int
  formula : Nat
  modifications : List Int
  brackets : Bool
  noChord : Bool
  deriving DecidableEq, Repr, Inhabited

/-- Modelled from the spec: `ChordName::setModification` adds one element to
the formula-modification set. -/
def ChordName.setModification (n : ChordName) (m : Int) : ChordName :=
  { n with modifications := if m ∈ n.modifications then n.modifications
                            else n.modifications ++ [m] }

/-- Modelled from the spec: target chord text ("position", chord name). -/
structure ChordText where
  position : Nat
  chordName : ChordName
  deriving DecidableEq, Repr, Inhabited

/-- Modelled from the spec: target dynamic ("position, volume level enum"). -/
structure Dynamic where
  position : Nat
  volume : Nat
  deriving DecidableEq, Repr, Inhabited

/-- Modelled from the spec: artificial harmonic ("key, variation, octave"). -/
structure ArtificialHarmonic where
  key : Int
  variation : Int
  octave : Nat
  deriving DecidableEq, Repr, Inhabited

/-- Modelled from the spec: bend ("type, bent pitch, release pitch, duration,
draw start point, draw end point"). -/
structure Bend where
  bendType : Nat
  bentPitch : Nat
  releasePitch : Nat
  duration : Nat
  drawStartPoint : Nat
  drawEndPoint : Nat
  deriving DecidableEq, Repr, Inhabited

/-- The simple properties of a target note that the importer sets. -/
inductive Note.SimpleProperty where
  | Tied | Muted | HammerOnOrPullOff | HammerOnFromNowhere | PullOffToNowhere
  | NaturalHarmonic | GhostNote | Octave8va | Octave8vb | Octave15ma | Octave15mb
  | SlideIntoFromBelow | SlideIntoFromAbove | ShiftSlide | LegatoSlide
  | SlideOutOfDownwards | SlideOutOfUpwards
  deriving DecidableEq, Repr, Inhabited

/-- Modelled from the spec: target note ("string index, fret number, optional
tapped-harmonic fret, optional trill fret, optional artificial harmonic,
optional bend, property set"). -/
structure Note where
  string : Nat
  fretNumber : Nat
  tappedHarmonicFret : Option Nat
  trilledFret : Option Nat
  artificialHarmonic : Option ArtificialHarmonic
  bend : Option Bend
  properties : List Note.SimpleProperty
  deriving DecidableEq, Repr, Inhabited

/-- Modelled from the spec: `Note::setProperty` adds a property to the set. -/
def Note.setProperty (n : Note) (p : Note.SimpleProperty) : Note :=
  { n with properties := if p ∈ n.properties then n.properties
                         else n.properties ++ [p] }

/-- The simple properties of a target position that the importer sets. -/
inductive Position.SimpleProperty where
  | Dotted | DoubleDotted | Rest | Vibrato | WideVibrato | ArpeggioUp
  | ArpeggioDown | PickStrokeUp | PickStrokeDown | Staccato | Marcato
  | Sforzando | TremoloPicking | PalmMuting | Tap | Acciaccatura
  | TripletFeelFirst | TripletFeelSecond | LetRing | Fermata
  deriving DecidableEq, Repr, Inhabited

/-- Modelled from the spec: target position ("position index, duration type,
boolean property set, optional multi-bar rest count, notes"). -/
structure Position where
  position : Nat
  durationType : Nat
  properties : List Position.SimpleProperty
  multiBarRest : Option Nat
  notes : List Note
  deriving DecidableEq, Repr, Inhabited

/-- Modelled from the spec: `Position::setProperty` adds a property to the set. -/
def Position.setProperty (p : Position) (x : Position.SimpleProperty) : Position :=
  { p with properties := if x ∈ p.properties then p.properties
                         else p.properties ++ [x] }

/-- Modelled from the spec: `Position::setRest` ("Rest (via setRest())") marks
the position as a rest. -/
def Position.setRest (p : Position) : Position :=
  p.setProperty Position.SimpleProperty.Rest

/-- Modelled from the spec: `Position::insertNote` adds a note to the
position. -/
def Position.insertNote (p : Position) (n : Note) : Position :=
  { p with notes := p.notes ++ [n] }

/-- Modelled from the spec: irregular grouping ("start position, position
count, notes-played, notes-played-over"). -/
structure IrregularGrouping where
  position : Nat
  length : Nat
  notesPlayed : Nat
  notesPlayedOver : Nat
  deriving DecidableEq, Repr, Inhabited

/-- Modelled from the spec: a voice holds "ordered positions and irregular
groupings". -/
structure Voice where
  positions : List Position
  irregularGroupings : List IrregularGrouping
  deriving DecidableEq, Repr, Inhabited

/-- Modelled from the spec: `Voice::insertPosition`; the importer inserts the
positions of a voice "in order". -/
def Voice.insertPosition (v : Voice) (p : Position) : Voice :=
  { v with positions := v.positions ++ [p] }

/-- Modelled from the spec: `Voice::insertIrregularGrouping`. -/
def Voice.insertIrregularGrouping (v : Voice) (g : IrregularGrouping) : Voice :=
  { v with irregularGroupings := v.irregularGroupings ++ [g] }

/-- Modelled from the spec: view type "{GuitarView, BassView}". -/
inductive Staff.ViewType where
  | GuitarView
  | BassView
  deriving DecidableEq, Repr, Inhabited

/-- Number of voices of a target staff (the spec: "N voices (N = 2)"). -/
def Staff.NUM_VOICES : Nat := 2

/-- Modelled from the spec: target staff ("clef type, string count, view type,
per-voice dynamics, N voices (N = 2)"). -/
structure Staff where
  clefType : Nat
  stringCount : Nat
  viewType : Staff.ViewType
  dynamics : List Dynamic
  voices : List Voice
  deriving DecidableEq, Repr

/-- A default-constructed staff: no dynamics and `NUM_VOICES` empty voices.
Clef, string count and view type are overwritten by the importer. -/
instance : Inhabited Staff :=
  ⟨{ clefType := 0, stringCount := 0, viewType := Staff.ViewType.GuitarView,
     dynamics := [], voices := List.replicate Staff.NUM_VOICES default }⟩

/-- Modelled from the spec: `Staff::insertDynamic`. -/
def Staff.insertDynamic (s : Staff) (d : Dynamic) : Staff :=
  { s with dynamics := s.dynamics ++ [d] }

/-- Modelled from the spec: an active player ("player index, instrument
index"). -/
structure ActivePlayer where
  playerNumber : Nat
  instrumentNumber : Nat
  deriving DecidableEq, Repr, Inhabited

/-- Modelled from the spec: player change ("position; for each staff index, a
set of ActivePlayer records"), kept as the list of (staff, player) entries in
insertion order. -/
structure PlayerChange where
  position : Nat
  activePlayers : List (Int × ActivePlayer)
  deriving DecidableEq, Repr, Inhabited

/-- Modelled from the spec: `PlayerChange::insertActivePlayer(staff, player)`. -/
def PlayerChange.insertActivePlayer (c : PlayerChange) (staff : Int)
    (player : ActivePlayer) : PlayerChange :=
  { c with activePlayers := c.activePlayers ++ [(staff, player)] }

/-- Modelled from the spec: `PlayerChange::getActivePlayers(staff)`, the active
players recorded for one staff. -/
def PlayerChange.getActivePlayers (c : PlayerChange) (staff : Int) :
    List ActivePlayer :=
  (c.activePlayers.filter (fun e => e.1 = staff)).map (fun e => e.2)

/-- Modelled from the spec: target system ("ordered barlines (with two sentinel
start/end bars always present at indices 0 and 1), tempo markers, alternate
endings, directions, chord texts, staves, player changes"). -/
structure System where
  barlines : List Barline
  tempoMarkers : List TempoMarker
  alternateEndings : List AlternateEnding
  directions : List Direction
  chords : List ChordText
  staves : List Staff
  playerChanges : List PlayerChange
  deriving DecidableEq, Repr

/-- A default-constructed system: the two sentinel barlines and nothing else. -/
instance : Inhabited System :=
  ⟨{ barlines := [default, default], tempoMarkers := [], alternateEndings := [],
     directions := [], chords := [], staves := [], playerChanges := [] }⟩

/-- Modelled from the spec: `System::insertBarline`.  The spec: "Every System has
at least two barlines: indices 0 and 1 are start and end sentinels; additional
barlines lie strictly between them", and interior barlines "are appended in
order".  The new barline goes after the barlines inserted before it and before
the end sentinel, which stays `getBarlines().back()`. -/
def System.insertBarline (s : System) (b : Barline) : System :=
  { s with barlines := s.barlines.dropLast ++ [b] ++ s.barlines.getLast?.toList }

/-- Assignment through the reference `getBarlines()[i]`. -/
def System.modifyBarline (s : System) (i : Nat) (f : Barline → Barline) : System :=
  { s with barlines := s.barlines.modify f i }

/-- Assignment through the reference `getBarlines().back()`. -/
def System.modifyLastBarline (s : System) (f : Barline → Barline) : System :=
  { s with barlines := s.barlines.modify f (s.barlines.length - 1) }

/-- Modelled from the spec: `System::insertTempoMarker`. -/
def System.insertTempoMarker (s : System) (t : TempoMarker) : System :=
  { s with tempoMarkers := s.tempoMarkers ++ [t] }

/-- Modelled from the spec: `System::insertAlternateEnding`. -/
def System.insertAlternateEnding (s : System) (e : AlternateEnding) : System :=
  { s with alternateEndings := s.alternateEndings ++ [e] }

/-- Modelled from the spec: `System::insertDirection`. -/
def System.insertDirection (s : System) (d : Direction) : System :=
  { s with directions := s.directions ++ [d] }

/-- Modelled from the spec: `System::insertChord`. -/
def System.insertChord (s : System) (c : ChordText) : System :=
  { s with chords := s.chords ++ [c] }

/-- Modelled from the spec: `System::insertStaff`; "staves are converted in
order". -/
def System.insertStaff (s : System) (st : Staff) : System :=
  { s with staves := s.staves ++ [st] }

/-- Modelled from the spec: `System::insertPlayerChange`; "player changes are
stored at the System level". -/
def System.insertPlayerChange (s : System) (c : PlayerChange) : System :=
  { s with playerChanges := s.playerChanges ++ [c] }

/-- Modelled from the spec: target tuning ("name, ordered string-pitch list,
notation offset, sharps flag, capo"). -/
structure Tuning where
  name : String
  notes : List Nat
  musicNotationOffset : Int
  sharps : Bool
  capo : Nat
  deriving DecidableEq, Repr, Inhabited

/-- Modelled from the spec: player ("description, pan, Tuning"). -/
structure Player where
  description : String
  pan : Nat
  tuning : Tuning
  deriving DecidableEq, Repr, Inhabited

/-- Modelled from the spec: instrument ("MIDI preset index, description"). -/
structure Instrument where
  midiPreset : Nat
  description : String
  deriving DecidableEq, Repr, Inhabited

/-- Modelled from the spec: the score as far as `convert` and `merge` touch it:
players, instruments and systems. -/
structure Score where
  players : List Player
  instruments : List Instrument
  systems : List System
  deriving DecidableEq, Repr

/-- A default-constructed score is empty. -/
instance : Inhabited Score := ⟨{ players := [], instruments := [], systems := [] }⟩

/-- Modelled from the spec: `Score::insertPlayer`; "the i-th Player corresponds
to the i-th Instrument", both "inserted in parallel". -/
def Score.insertPlayer (s : Score) (p : Player) : Score :=
  { s with players := s.players ++ [p] }

/-- Modelled from the spec: `Score::insertInstrument`. -/
def Score.insertInstrument (s : Score) (i : Instrument) : Score :=
  { s with instruments := s.instruments ++ [i] }

/-- Modelled from the spec: `Score::insertSystem`; one target system "for each
legacy system in order". -/
def Score.insertSystem (s : Score) (sys : System) : Score :=
  { s with systems := s.systems ++ [sys] }

/-- Collaborators of the importer whose definitions are outside the sources. -/
structure Externals where
  /-- The table `Midi::getPresetNames()`. -/
  presetNames : List String
  /-- The constant `PowerTabDocument::Score::MAX_NUM_GUITARS`. -/
  MAX_NUM_GUITARS : Nat
  /-- The value of `static_cast<int>(std::log(i) / std::log(2))`, a quotient of
  two double-precision logarithms truncated to `int`. -/
  log2 : Nat → Int

/-! ## `convertKey` -/

/-- The `switch (oldKey)` of `convertKey`: the two output arguments are
assigned for the twelve legacy keys and left as they were for any other byte. -/
def convertKeyBase (oldKey : Nat) (key variation : Int) : Int × Int :=
  if oldKey = PowerTabDocument.ChordName.C then (ChordName.C, ChordName.NoVariation)
  else if oldKey = PowerTabDocument.ChordName.CSharp then (ChordName.C, ChordName.Sharp)
  else if oldKey = PowerTabDocument.ChordName.D then (ChordName.D, ChordName.NoVariation)
  else if oldKey = PowerTabDocument.ChordName.EFlat then (ChordName.E, ChordName.Flat)
  else if oldKey = PowerTabDocument.ChordName.E then (ChordName.E, ChordName.NoVariation)
  else if oldKey = PowerTabDocument.ChordName.F then (ChordName.F, ChordName.NoVariation)
  else if oldKey = PowerTabDocument.ChordName.FSharp then (ChordName.F, ChordName.Sharp)
  else if oldKey = PowerTabDocument.ChordName.G then (ChordName.G, ChordName.NoVariation)
  else if oldKey = PowerTabDocument.ChordName.AFlat then (ChordName.A, ChordName.Flat)
  else if oldKey = PowerTabDocument.ChordName.A then (ChordName.A, ChordName.NoVariation)
  else if oldKey = PowerTabDocument.ChordName.BFlat then (ChordName.B, ChordName.Flat)
  else if oldKey = PowerTabDocument.ChordName.B then (ChordName.B, ChordName.NoVariation)
  else (key, variation)

/-- The function `convertKey(oldKey, oldVariation, key, variation)`.  The last two
arguments are the values the reference parameters hold on entry; the result is
the pair they hold on return.  `(key ± 1) % NumKeys` is C++ `int` arithmetic,
whose remainder truncates towards zero (`Int.tmod`). -/
def convertKey (oldKey oldVariation : Nat) (key variation : Int) : Int × Int :=
  let base := convertKeyBase oldKey key variation
  let key := base.1
  let variation := base.2
  if oldVariation = PowerTabDocument.ChordName.variationUp then
    let key := Int.tmod (key + 1) ChordName.NumKeys
    if variation = ChordName.NoVariation then
      (key, if key = ChordName.F ∨ key = ChordName.C then ChordName.Flat
            else ChordName.DoubleFlat)
    else if variation = ChordName.Flat then (key, ChordName.DoubleFlat)
    else (key, ChordName.Flat)
  else if oldVariation = PowerTabDocument.ChordName.variationDown then
    let key := Int.tmod (key - 1) ChordName.NumKeys
    if variation = ChordName.NoVariation then
      (key, if key = ChordName.B ∨ key = ChordName.E then ChordName.Sharp
            else ChordName.DoubleSharp)
    else if variation = ChordName.Flat then (key, ChordName.Sharp)
    else (key, ChordName.DoubleSharp)
  else (key, variation)

/-! ## Barlines, signatures and system-level symbols -/

/-- The overload `convert(const PowerTabDocument::RehearsalSign &, RehearsalSign &)`. -/
def convertRehearsalSign (oldSign : PowerTabDocument.RehearsalSign) : RehearsalSign :=
  { letters := String.singleton oldSign.letter, description := oldSign.description }

/-- The overload `convert(const PowerTabDocument::KeySignature &, KeySignature &)`. -/
def convertKeySignature (oldKey : PowerTabDocument.KeySignature) : KeySignature :=
  { keyType := oldKey.keyType
    numAccidentals := oldKey.keyAccidentalsIncludingCancel
    sharps := oldKey.usesSharps
    visible := oldKey.isShown
    cancellation := oldKey.isCancellation }

/-- The overload `convert(const PowerTabDocument::TimeSignature &, TimeSignature &)`. -/
def convertTimeSignature (oldTime : PowerTabDocument.TimeSignature) : TimeSignature :=
  { meterType :=
      if oldTime.isCutTime then TimeSignature.MeterType.CutTime
      else if oldTime.isCommonTime then TimeSignature.MeterType.CommonTime
      else TimeSignature.MeterType.Normal
    beatsPerMeasure := oldTime.beatsPerMeasure
    beatValue := oldTime.beatAmount
    beamingPattern := oldTime.beamingPattern
    numPulses := oldTime.pulses
    visible := oldTime.isShown }

/-- The overload `convert(const PowerTabDocument::Barline &, Barline &)`: every
field of `bar` is assigned, the rehearsal sign only when the legacy one is set. -/
def convertBarline (oldBar : PowerTabDocument.Barline) (bar : Barline) : Barline :=
  { position := oldBar.position
    barType := oldBar.type
    repeatCount := oldBar.repeatCount
    rehearsalSign :=
      if oldBar.rehearsalSign.isSet then some (convertRehearsalSign oldBar.rehearsalSign)
      else bar.rehearsalSign
    keySignature := convertKeySignature oldBar.keySignature
    timeSignature := convertTimeSignature oldBar.timeSignature }

/-- The overload `convert(const PowerTabDocument::TempoMarker &, TempoMarker &)`. -/
def convertTempoMarker (oldTempo : PowerTabDocument.TempoMarker) (tempo : TempoMarker) :
    TempoMarker :=
  let alteration :=
    if oldTempo.isRitardando then TempoMarker.AlterationOfPaceType.Ritardando
    else if oldTempo.isAccelerando then TempoMarker.AlterationOfPaceType.Accelerando
    else TempoMarker.AlterationOfPaceType.NoAlterationOfPace
  { position := oldTempo.position
    markerType := oldTempo.type
    beatType := oldTempo.beatType
    listessoBeatType := oldTempo.listessoBeatType
    tripletFeel := oldTempo.tripletFeelType
    alterationOfPace := alteration
    beatsPerMinute :=
      if alteration = TempoMarker.AlterationOfPaceType.NoAlterationOfPace then
        oldTempo.beatsPerMinute
      else tempo.beatsPerMinute
    description := oldTempo.description }

/-- Modelled from the spec: `AlternateEnding::addNumber`, which adds one number
to the "ordered list of ending numbers". -/
def AlternateEnding.addNumber (e : AlternateEnding) (n : Nat) : AlternateEnding :=
  { e with numbers := e.numbers ++ [n] }

/-- The overload `convert(const PowerTabDocument::AlternateEnding &, AlternateEnding &)`. -/
def convertAlternateEnding (oldEnding : PowerTabDocument.AlternateEnding)
    (ending : AlternateEnding) : AlternateEnding :=
  let ending := { ending with position := oldEnding.position }
  let ending := oldEnding.listOfNumbers.foldl AlternateEnding.addNumber ending
  { ending with daCapo := oldEnding.isDaCapoSet
                dalSegno := oldEnding.isDalSegnoSet
                dalSegnoSegno := oldEnding.isDalSegnoSegnoSet }

/-- Modelled from the spec: `Direction::insertSymbol` ("ordered symbols"). -/
def Direction.insertSymbol (d : Direction) (sym : DirectionSymbol) : Direction :=
  { d with symbols := d.symbols ++ [sym] }

/-- The overload `convert(const PowerTabDocument::Direction &, Direction &)`. -/
def convertDirection (oldDirection : PowerTabDocument.Direction) (direction : Direction) :
    Direction :=
  let direction := { direction with position := oldDirection.position }
  oldDirection.symbols.foldl
    (fun d sym => d.insertSymbol
      { symbolType := sym.type, activeSymbolType := sym.active,
        repeatCount := sym.repeatNumber })
    direction

/-! ## Chord text -/

/-- Modelled from the spec: the first formula-modification flag of the legacy
flag word ("a bitmask starting at bit value `extended9th`"). -/
def PowerTabDocument.ChordName.extended9th : Nat := 0x0001

/-- Modelled from the spec: the last formula-modification flag of the legacy
16-bit flag word ("doubling up to `suspended4th`"). -/
def PowerTabDocument.ChordName.suspended4th : Nat := 0x8000

/-- Modelled from the spec: `ChordName::IsFormulaModificationFlagSet(flag)` of the
legacy reader: the bits of `flag` are set in the flag word. -/
def PowerTabDocument.ChordName.isFormulaModificationFlagSet
    (n : PowerTabDocument.ChordName) (flag : Nat) : Bool :=
  n.formulaModifications &&& flag == flag

/-- The value an uninitialised `ChordName::Key` / `ChordName::Variation` local
holds when it is passed to `convertKey`.  `convertKey` overwrites it for each of
the twelve legacy keys; for any other key byte C++ leaves the result
indeterminate, and the embedding then shows this placeholder. -/
def indeterminate : Int := 0

/-- The loop `for (unsigned int i = extended9th; i <= suspended4th; i *= 2)` of
`convert(ChordText)`, entered with the loop variable at `i`.  `i *= 2` is 32-bit
unsigned arithmetic.  The result is `none` when the loop has not ended after
`fuel` iterations. -/
def formulaModificationLoop (ext : Externals) (oldName : PowerTabDocument.ChordName) :
    Nat → Nat → ChordName → Option ChordName
  | 0, _, _ => none
  | fuel + 1, i, name =>
    if i ≤ PowerTabDocument.ChordName.suspended4th then
      formulaModificationLoop ext oldName fuel (i * 2 % 2 ^ 32)
        (if oldName.isFormulaModificationFlagSet i then name.setModification (ext.log2 i)
         else name)
    else some name

/-- The whole formula-modification loop, from `i = extended9th`.  Thirty-three
iterations are enough for any 32-bit loop variable that ever exceeds the
bound. -/
def convertFormulaModifications (ext : Externals) (oldName : PowerTabDocument.ChordName)
    (name : ChordName) : Option ChordName :=
  formulaModificationLoop ext oldName 33 PowerTabDocument.ChordName.extended9th name

/-- The overload `convert(const PowerTabDocument::ChordText &, ChordText &)`.  The
formula-modification loop always ends (`convertFormulaModifications_isSome`), so
the fallback of `getD` is never used. -/
def convertChordText (ext : Externals) (oldChord : PowerTabDocument.ChordText)
    (chord : ChordText) : ChordText :=
  let name : ChordName := default
  let oldName := oldChord.chordName
  let tonic := convertKey oldName.tonic oldName.tonicVariation indeterminate indeterminate
  let name := { name with tonicKey := tonic.1, tonicVariation := tonic.2 }
  let bass := convertKey oldName.bassNote oldName.bassNoteVariation indeterminate indeterminate
  let name := { name with bassKey := bass.1, bassVariation := bass.2 }
  let name := { name with formula := oldName.formula }
  let name := (convertFormulaModifications ext oldName name).getD name
  let name := { name with brackets := oldName.hasBrackets, noChord := oldName.isNoChord }
  { chord with position := oldChord.position, chordName := name }

/-! ## Notes, positions and staves -/

/-- The overload `convert(const PowerTabDocument::Dynamic &, Dynamic &)`. -/
def convertDynamic (oldDynamic : PowerTabDocument.Dynamic) : Dynamic :=
  { position := oldDynamic.position, volume := oldDynamic.staffVolume }

/-- The statement `if (flag) note.setProperty(p);`. -/
def Note.setPropertyIf (n : Note) (flag : Bool) (p : Note.SimpleProperty) : Note :=
  if flag then n.setProperty p else n

/-- The setters `Note::setFretNumber` and `Note::setString`. -/
def Note.setFretAndString (n : Note) (fret string : Nat) : Note :=
  { n with fretNumber := fret, string := string }

/-- The setter `Note::setTappedHarmonicFret`. -/
def Note.setTappedHarmonicFret (n : Note) (fret : Nat) : Note :=
  { n with tappedHarmonicFret := some fret }

/-- The setter `Note::setTrilledFret`. -/
def Note.setTrilledFret (n : Note) (fret : Nat) : Note :=
  { n with trilledFret := some fret }

/-- The setter `Note::setArtificialHarmonic`. -/
def Note.setArtificialHarmonic (n : Note) (h : ArtificialHarmonic) : Note :=
  { n with artificialHarmonic := some h }

/-- The setter `Note::setBend`. -/
def Note.setBend (n : Note) (b : Bend) : Note :=
  { n with bend := some b }

/-- The optional sub-records of `convert(Note)`: tapped harmonic, trill,
artificial harmonic and bend. -/
def convertNoteOptionals (oldNote : PowerTabDocument.Note) (note : Note) : Note :=
  let note :=
    if oldNote.hasTappedHarmonic then note.setTappedHarmonicFret oldNote.tappedHarmonic
    else note
  let note := if oldNote.hasTrill then note.setTrilledFret oldNote.trill else note
  let note :=
    if oldNote.hasArtificialHarmonic then
      let k := convertKey oldNote.artificialHarmonicKey oldNote.artificialHarmonicVariation
        indeterminate indeterminate
      note.setArtificialHarmonic ⟨k.1, k.2, oldNote.artificialHarmonicOctave⟩
    else note
  if oldNote.hasBend then
    note.setBend ⟨oldNote.bendType, oldNote.bentPitch, oldNote.releasePitch,
      oldNote.bendDuration, oldNote.drawStartPoint, oldNote.drawEndPoint⟩
  else note

/-- The overload `convert(const PowerTabDocument::Note &, Note &)`. -/
def convertNote (oldNote : PowerTabDocument.Note) (note : Note) : Note :=
  let note := note.setFretAndString oldNote.fretNumber oldNote.string
  let note := convertNoteOptionals oldNote note
  let note := note.setPropertyIf oldNote.isTied Note.SimpleProperty.Tied
  let note := note.setPropertyIf oldNote.isMuted Note.SimpleProperty.Muted
  let note := note.setPropertyIf oldNote.hasHammerOn Note.SimpleProperty.HammerOnOrPullOff
  let note := note.setPropertyIf oldNote.hasPullOff Note.SimpleProperty.HammerOnOrPullOff
  let note := note.setPropertyIf oldNote.hasHammerOnFromNowhere
    Note.SimpleProperty.HammerOnFromNowhere
  let note := note.setPropertyIf oldNote.hasPullOffToNowhere
    Note.SimpleProperty.PullOffToNowhere
  let note := note.setPropertyIf oldNote.isNaturalHarmonic Note.SimpleProperty.NaturalHarmonic
  let note := note.setPropertyIf oldNote.isGhostNote Note.SimpleProperty.GhostNote
  let note := note.setPropertyIf oldNote.isOctave8va Note.SimpleProperty.Octave8va
  let note := note.setPropertyIf oldNote.isOctave8vb Note.SimpleProperty.Octave8vb
  let note := note.setPropertyIf oldNote.isOctave15ma Note.SimpleProperty.Octave15ma
  let note := note.setPropertyIf oldNote.isOctave15mb Note.SimpleProperty.Octave15mb
  let note := note.setPropertyIf oldNote.hasSlideIntoFromBelow
    Note.SimpleProperty.SlideIntoFromBelow
  let note := note.setPropertyIf oldNote.hasSlideIntoFromAbove
    Note.SimpleProperty.SlideIntoFromAbove
  let note := note.setPropertyIf oldNote.hasShiftSlide Note.SimpleProperty.ShiftSlide
  let note := note.setPropertyIf oldNote.hasLegatoSlide Note.SimpleProperty.LegatoSlide
  let note := note.setPropertyIf oldNote.hasSlideOutOfDownwards
    Note.SimpleProperty.SlideOutOfDownwards
  note.setPropertyIf oldNote.hasSlideOutOfUpwards Note.SimpleProperty.SlideOutOfUpwards

/-- The statement `if (flag) position.setProperty(p);`. -/
def Position.setPropertyIf (p : Position) (flag : Bool) (x : Position.SimpleProperty) :
    Position :=
  if flag then p.setProperty x else p

/-- The setters `Position::setPosition` and `Position::setDurationType`. -/
def Position.setPositionAndDuration (p : Position) (position durationType : Nat) :
    Position :=
  { p with position := position, durationType := durationType }

/-- The setter `Position::setMultiBarRest`. -/
def Position.setMultiBarRest (p : Position) (count : Nat) : Position :=
  { p with multiBarRest := some count }

/-- The overload `convert(const PowerTabDocument::Position &, Position &)`. -/
def convertPosition (oldPosition : PowerTabDocument.Position) (position : Position) :
    Position :=
  let position := position.setPositionAndDuration oldPosition.position
    oldPosition.durationType
  let position := position.setPropertyIf oldPosition.isDotted Position.SimpleProperty.Dotted
  let position := position.setPropertyIf oldPosition.isDoubleDotted
    Position.SimpleProperty.DoubleDotted
  let position := if oldPosition.isRest then position.setRest else position
  let position := position.setPropertyIf oldPosition.hasVibrato Position.SimpleProperty.Vibrato
  let position := position.setPropertyIf oldPosition.hasWideVibrato
    Position.SimpleProperty.WideVibrato
  let position := position.setPropertyIf oldPosition.hasArpeggioUp
    Position.SimpleProperty.ArpeggioUp
  let position := position.setPropertyIf oldPosition.hasArpeggioDown
    Position.SimpleProperty.ArpeggioDown
  let position := position.setPropertyIf oldPosition.hasPickStrokeUp
    Position.SimpleProperty.PickStrokeUp
  let position := position.setPropertyIf oldPosition.hasPickStrokeDown
    Position.SimpleProperty.PickStrokeDown
  let position := position.setPropertyIf oldPosition.isStaccato Position.SimpleProperty.Staccato
  let position := position.setPropertyIf oldPosition.hasMarcato Position.SimpleProperty.Marcato
  let position := position.setPropertyIf oldPosition.hasSforzando
    Position.SimpleProperty.Sforzando
  let position := position.setPropertyIf oldPosition.hasTremoloPicking
    Position.SimpleProperty.TremoloPicking
  let position := position.setPropertyIf oldPosition.hasPalmMuting
    Position.SimpleProperty.PalmMuting
  let position := position.setPropertyIf oldPosition.hasTap Position.SimpleProperty.Tap
  let position := position.setPropertyIf oldPosition.isAcciaccatura
    Position.SimpleProperty.Acciaccatura
  let position := position.setPropertyIf oldPosition.isTripletFeel1st
    Position.SimpleProperty.TripletFeelFirst
  let position := position.setPropertyIf oldPosition.isTripletFeel2nd
    Position.SimpleProperty.TripletFeelSecond
  let position := position.setPropertyIf oldPosition.hasLetRing Position.SimpleProperty.LetRing
  let position := position.setPropertyIf oldPosition.hasFermata Position.SimpleProperty.Fermata
  let position :=
    if oldPosition.hasMultibarRest then position.setMultiBarRest oldPosition.multibarRest
    else position
  oldPosition.notes.foldl (fun p oldNote => p.insertNote (convertNote oldNote default)) position

/-- Assignment through the reference `staff.getVoices()[voice]`. -/
def Staff.modifyVoice (s : Staff) (voice : Nat) (f : Voice → Voice) : Staff :=
  { s with voices := s.voices.modify f voice }

/-- The local variables of the irregular-grouping loop, with the voice it
writes to. -/
structure GroupingState where
  v : Voice
  startPos : Nat
  positionCount : Nat
  notesPlayed : Nat
  notesPlayedOver : Nat
  deriving DecidableEq, Repr

/-- One iteration of the irregular-grouping loop of `convert(Staff)`. -/
def irregularGroupingStep (st : GroupingState) (position : PowerTabDocument.Position) :
    GroupingState :=
  if position.isIrregularGroupingStart then
    { st with startPos := position.position, positionCount := 1,
              notesPlayed := position.notesPlayed,
              notesPlayedOver := position.notesPlayedOver }
  else if position.isIrregularGroupingMiddle then
    { st with positionCount := st.positionCount + 1 }
  else if position.isIrregularGroupingEnd then
    { v := st.v.insertIrregularGrouping
        ⟨st.startPos, st.positionCount + 1, st.notesPlayed, st.notesPlayedOver⟩,
      startPos := 0, positionCount := 0, notesPlayed := 0, notesPlayedOver := 0 }
  else if position.isAcciaccatura then
    { st with positionCount := st.positionCount + 1 }
  else st

/-- The irregular-grouping loop over the legacy positions of one voice. -/
def convertIrregularGroupings (positions : List PowerTabDocument.Position) (v : Voice) :
    Voice :=
  (positions.foldl irregularGroupingStep
    { v := v, startPos := 0, positionCount := 0, notesPlayed := 0, notesPlayedOver := 0 }).v

/-- The dynamics loop of `convert(Staff)`; the state is the staff and
`lastPosition`. -/
def convertStaffDynamics (dynamics : List PowerTabDocument.Dynamic) (acc : Staff × Nat) :
    Staff × Nat :=
  dynamics.foldl
    (fun acc dynamic =>
      if dynamic.isStaffVolumeSet then
        let newDynamic := convertDynamic dynamic
        (acc.1.insertDynamic newDynamic, max acc.2 newDynamic.position)
      else acc)
    acc

/-- The inner positions loop of `convert(Staff)` for one voice. -/
def convertVoicePositions (positions : List PowerTabDocument.Position) (voice : Nat)
    (acc : Staff × Nat) : Staff × Nat :=
  positions.foldl
    (fun acc oldPosition =>
      let position := convertPosition oldPosition default
      (acc.1.modifyVoice voice (fun v => v.insertPosition position),
       max position.position acc.2))
    acc

/-- The overload `convert(const PowerTabDocument::Staff &, dynamics, Staff &)`:
returns `lastPosition` together with the staff. -/
def convertStaff (oldStaff : PowerTabDocument.Staff)
    (dynamics : List PowerTabDocument.Dynamic) (staff : Staff) : Nat × Staff :=
  let staff := { staff with clefType := oldStaff.clef
                            stringCount := oldStaff.tablatureStaffType
                            viewType := Staff.ViewType.GuitarView }
  let acc := convertStaffDynamics dynamics (staff, 0)
  let acc := (List.range PowerTabDocument.Staff.NUM_STAFF_VOICES).foldl
    (fun acc voice => convertVoicePositions (oldStaff.getPositions voice) voice acc) acc
  let staff := (List.range PowerTabDocument.Staff.NUM_STAFF_VOICES).foldl
    (fun staff voice =>
      staff.modifyVoice voice (convertIrregularGroupings (oldStaff.getPositions voice)))
    acc.1
  (acc.2, staff)

/-! ## Systems -/

/-- The setter `Barline::setKeySignature`. -/
def Barline.setKeySignature (b : Barline) (k : KeySignature) : Barline :=
  { b with keySignature := k }

/-- The setter `Barline::setTimeSignature`. -/
def Barline.setTimeSignature (b : Barline) (t : TimeSignature) : Barline :=
  { b with timeSignature := t }

/-- The setter `Barline::setPosition`. -/
def Barline.setPosition (b : Barline) (position : Nat) : Barline :=
  { b with position := position }

/-- The block that copies the key and time signature of `bar` into
`system.getBarlines().back()`, each with `setVisible(false)`. -/
def copySignaturesToEndBar (system : System) (bar : Barline) : System :=
  let key := bar.keySignature.setVisible false
  let system := system.modifyLastBarline (fun b => b.setKeySignature key)
  let time := bar.timeSignature.setVisible false
  system.modifyLastBarline (fun b => b.setTimeSignature time)

/-- The barline loop of `convert(Score, System, System)`, entered at index `i`
with the legacy barlines from `i` on still to do; `count` is
`GetBarlineCount()`.  The state is the system and `lastPosition`. -/
def convertBarlines (count : Nat) :
    Nat → List PowerTabDocument.Barline → System × Nat → System × Nat
  | _, [], acc => acc
  | i, oldBar :: rest, acc =>
    let bar := convertBarline oldBar default
    let system := acc.1.insertBarline bar
    let lastPosition := max acc.2 bar.position
    let system := if i = count - 1 then copySignaturesToEndBar system bar else system
    convertBarlines count (i + 1) rest (system, lastPosition)

/-- The staff loop of `convert(Score, System, System)`, entered at staff index
`i`; `dynamics` are the dynamics of the system. -/
def convertStaves (dynamics : List PowerTabDocument.Dynamic) :
    Nat → List PowerTabDocument.Staff → System × Nat → System × Nat
  | _, [], acc => acc
  | i, oldStaff :: rest, acc =>
    let dynamicsInStaff := dynamics.filter (fun dynamic => dynamic.staff = i)
    let r := convertStaff oldStaff dynamicsInStaff default
    convertStaves dynamics (i + 1) rest (acc.1.insertStaff r.2, max acc.2 r.1)

/-- The overload `convert(const PowerTabDocument::Score &, SystemConstPtr, System &)`.
`index` is the index of `oldSystem` in `oldScore`, by which the legacy score
finds the symbols of the system. -/
def convertSystem (ext : Externals) (oldScore : PowerTabDocument.Score) (index : Nat)
    (oldSystem : PowerTabDocument.System) (system : System) : System :=
  let system := system.modifyBarline 0 (convertBarline oldSystem.startBar)
  let system := system.modifyBarline 1 (convertBarline oldSystem.endBar)
  let acc := convertBarlines oldSystem.barlines.length 0 oldSystem.barlines (system, 30)
  let system := (oldScore.getTempoMarkersInSystem index).foldl
    (fun s tempo => s.insertTempoMarker (convertTempoMarker tempo default)) acc.1
  let system := (oldScore.getAlternateEndingsInSystem index).foldl
    (fun s ending => s.insertAlternateEnding (convertAlternateEnding ending default)) system
  let system := oldSystem.directions.foldl
    (fun s d => s.insertDirection (convertDirection d default)) system
  let system := oldSystem.chordTexts.foldl
    (fun s c => s.insertChord (convertChordText ext c default)) system
  let acc := convertStaves (oldScore.getDynamicsInSystem index) 0 oldSystem.staves
    (system, acc.2)
  acc.1.modifyLastBarline (fun b => b.setPosition (acc.2 + 1))

/-! ## Guitars -/

/-- How a call that works on a caller-owned object ends: normally, with a
`std::out_of_range` exception (the object is left in the state the exception
found it in), or by indexing a vector outside its bounds, after which C++
guarantees nothing. -/
inductive Outcome (α : Type) where
  | done (value : α)
  | outOfRange (state : α)
  | undefined
  deriving DecidableEq, Repr

/-- The overload `convert(const PowerTabDocument::Tuning &, Tuning &)`; the capo
is left alone. -/
def convertTuning (oldTuning : PowerTabDocument.Tuning) (tuning : Tuning) : Tuning :=
  { tuning with name := oldTuning.name
                notes := oldTuning.tuningNotes
                musicNotationOffset := oldTuning.musicNotationOffset
                sharps := oldTuning.usesSharps }

/-- The setter `Tuning::setCapo`. -/
def Tuning.setCapo (t : Tuning) (capo : Nat) : Tuning := { t with capo := capo }

/-- The overload `convert(const PowerTabDocument::Guitar &, Score &)`.
`presetNames.at(preset)` throws when `preset` is not an index of the table; the
player has been inserted by then. -/
def convertGuitar (ext : Externals) (guitar : PowerTabDocument.Guitar) (score : Score) :
    Outcome Score :=
  let tuning := (convertTuning guitar.tuning default).setCapo guitar.capo
  let player : Player :=
    { description := guitar.description, pan := guitar.pan, tuning := tuning }
  let score := score.insertPlayer player
  match ext.presetNames[guitar.preset]? with
  | none => Outcome.outOfRange score
  | some name =>
    Outcome.done (score.insertInstrument { midiPreset := guitar.preset, description := name })

/-- The guitar loop of `convert(Score, Score)`: an exception ends it. -/
def convertGuitars (ext : Externals) : List PowerTabDocument.Guitar → Score → Outcome Score
  | [], score => Outcome.done score
  | guitar :: rest, score =>
    match convertGuitar ext guitar score with
    | Outcome.done score => convertGuitars ext rest score
    | other => other

/-- The system loop of `convert(Score, Score)`, entered at system index `i`. -/
def convertSystems (ext : Externals) (oldScore : PowerTabDocument.Score) :
    Nat → List PowerTabDocument.System → Score → Score
  | _, [], score => score
  | i, oldSystem :: rest, score =>
    convertSystems ext oldScore (i + 1) rest
      (score.insertSystem (convertSystem ext oldScore i oldSystem default))

/-! ## Guitar-ins and initial volumes -/

/-- The loop of `getPlayerChange`, entered at player number `player` with the
rest of the `activePlayers` array still to visit. -/
def getPlayerChangeFrom : Nat → List Int → PlayerChange → PlayerChange
  | _, [], change => change
  | player, staff :: rest, change =>
    getPlayerChangeFrom (player + 1) rest
      (if staff ≥ 0 then change.insertActivePlayer staff ⟨player, player⟩ else change)

/-- The function `getPlayerChange(activePlayers, currentPosition)`. -/
def getPlayerChange (activePlayers : List Int) (currentPosition : Nat) : PlayerChange :=
  getPlayerChangeFrom 0 activePlayers { position := currentPosition, activePlayers := [] }

/-- Bit `k` of a `std::bitset<8>` built from a mask.  The bitset keeps the low
eight bits; it has no bit beyond the eighth, and the embedding reads such a
bit as unset. -/
def bitset8 (mask k : Nat) : Bool := (mask % 256).testBit k

/-- The loop "clear out any players that are currently active for this staff". -/
def clearStaff (activePlayers : List Int) (staff : Int) : List Int :=
  activePlayers.map (fun activePlayer => if activePlayer = staff then -1 else activePlayer)

/-- The loop "set the active players for this staff", entered at guitar `k`. -/
def setActiveGuitars (activeGuitars : Nat) (staff : Int) : Nat → List Int → List Int
  | _, [] => []
  | k, activePlayer :: rest =>
    (if bitset8 activeGuitars k then staff else activePlayer)
      :: setActiveGuitars activeGuitars staff (k + 1) rest

/-- What a guitar-in does to the `activePlayers` array. -/
def applyGuitarIn (activePlayers : List Int) (guitarIn : PowerTabDocument.GuitarIn) :
    List Int :=
  setActiveGuitars guitarIn.staffGuitars guitarIn.staff 0
    (clearStaff activePlayers guitarIn.staff)

/-- The state of the guitar-in loop of one system: the target system, the
`activePlayers` array and `currentPosition`. -/
structure GuitarInState where
  system : System
  activePlayers : List Int
  currentPosition : Nat
  deriving DecidableEq, Repr

/-- One iteration of the loop over the guitar-ins of a system. -/
def guitarInStep (st : GuitarInState) (guitarIn : PowerTabDocument.GuitarIn) :
    GuitarInState :=
  if !guitarIn.hasStaffGuitarsSet then st
  else
    { system :=
        if guitarIn.position ≠ st.currentPosition then
          st.system.insertPlayerChange (getPlayerChange st.activePlayers st.currentPosition)
        else st.system
      activePlayers := applyGuitarIn st.activePlayers guitarIn
      currentPosition := guitarIn.position }

/-- The body of the system loop of `convertGuitarIns` for a system that has
guitar-ins: the loop over them and the final player change. -/
def convertGuitarInsOfSystem (guitarIns : List PowerTabDocument.GuitarIn)
    (front : PowerTabDocument.GuitarIn) (activePlayers : List Int) (system : System) :
    System × List Int :=
  let st := guitarIns.foldl guitarInStep
    { system := system, activePlayers := activePlayers, currentPosition := front.position }
  (st.system.insertPlayerChange (getPlayerChange st.activePlayers st.currentPosition),
   st.activePlayers)

/-- One iteration of the system loop of `convertGuitarIns`, for system `i`.  The
result is `none` when `score.getSystems()[i]` does not exist. -/
def convertGuitarInsStep (oldScore : PowerTabDocument.Score) (i : Nat)
    (acc : List Int × Score) : Option (List Int × Score) :=
  match oldScore.getGuitarInsInSystem i with
  | [] => some acc
  | front :: rest =>
    match acc.2.systems[i]? with
    | none => none
    | some system =>
      let r := convertGuitarInsOfSystem (front :: rest) front acc.1 system
      some (r.2, { acc.2 with systems := acc.2.systems.set i r.1 })

/-- The state of `convertGuitarIns` after the first `n` iterations of its system
loop: the `activePlayers` array and the score. -/
def convertGuitarInsUpTo (ext : Externals) (oldScore : PowerTabDocument.Score)
    (score : Score) : Nat → Option (List Int × Score)
  | 0 => some (List.replicate ext.MAX_NUM_GUITARS (-1), score)
  | n + 1 =>
    match convertGuitarInsUpTo ext oldScore score n with
    | none => none
    | some acc => convertGuitarInsStep oldScore n acc

/-- The method `convertGuitarIns(oldScore, score)`. -/
def convertGuitarIns (ext : Externals) (oldScore : PowerTabDocument.Score) (score : Score) :
    Option Score :=
  (convertGuitarInsUpTo ext oldScore score oldScore.systems.length).map (fun acc => acc.2)

/-- Modelled from the spec: the order of `SystemLocation` (system first, then
position), used for "the earliest Dynamic ... is strictly after the first
Guitar In". -/
def locationLe (a b : Nat × Nat) : Bool :=
  a.1 < b.1 || (a.1 == b.1 && a.2 ≤ b.2)

/-- Assignment through the reference `system.getStaves()[staff]`; `none` when
the staff does not exist. -/
def System.modifyStaff? (s : System) (staff : Nat) (f : Staff → Staff) : Option System :=
  match s.staves[staff]? with
  | none => none
  | some st => some { s with staves := s.staves.set staff (f st) }

/-- One iteration of the guitar-in loop of `convertInitialVolumes`. -/
def initialVolumeStep (oldScore : PowerTabDocument.Score) (startPos : Nat × Nat)
    (system : System) (guitarIn : PowerTabDocument.GuitarIn) : Option System :=
  if (guitarIn.system, guitarIn.position) ≠ startPos then some system
  else if !guitarIn.hasStaffGuitarsSet then some system
  else
    match (List.range oldScore.guitars.length).find?
        (fun j => bitset8 guitarIn.staffGuitars j) with
    | none => some system
    | some j =>
      system.modifyStaff? guitarIn.staff
        (fun staff => staff.insertDynamic
          { position := guitarIn.position
            volume := (oldScore.guitars.getD j default).initialVolume })

/-- The guitar-in loop of `convertInitialVolumes`. -/
def initialVolumeLoop (oldScore : PowerTabDocument.Score) (startPos : Nat × Nat) :
    List PowerTabDocument.GuitarIn → System → Option System
  | [], system => some system
  | guitarIn :: rest, system =>
    match initialVolumeStep oldScore startPos system guitarIn with
    | none => none
    | some system => initialVolumeLoop oldScore startPos rest system

/-- The method `convertInitialVolumes(oldScore, score)`; `none` when it indexes
a system or a staff that does not exist. -/
def convertInitialVolumes (oldScore : PowerTabDocument.Score) (score : Score) :
    Option Score :=
  match oldScore.guitarIns with
  | [] => some score
  | firstIn :: _ =>
    let startPos := (firstIn.system, firstIn.position)
    match score.systems[firstIn.system]? with
    | none => none
    | some system =>
      match oldScore.dynamics with
      | firstDynamic :: _ =>
        if locationLe (firstDynamic.system, firstDynamic.position) startPos then some score
        else
          (initialVolumeLoop oldScore startPos oldScore.guitarIns system).map
            (fun system => { score with systems := score.systems.set firstIn.system system })
      | [] =>
        (initialVolumeLoop oldScore startPos oldScore.guitarIns system).map
          (fun system => { score with systems := score.systems.set firstIn.system system })

/-! ## Scores -/

/-- The overload `convert(const PowerTabDocument::Score &, Score &)`. -/
def convertScore (ext : Externals) (oldScore : PowerTabDocument.Score) (score : Score) :
    Outcome Score :=
  match convertGuitars ext oldScore.guitars score with
  | Outcome.done score =>
    let score := convertSystems ext oldScore 0 oldScore.systems score
    match convertGuitarIns ext oldScore score with
    | none => Outcome.undefined
    | some score =>
      match convertInitialVolumes oldScore score with
      | none => Outcome.undefined
      | some score => Outcome.done score
  | other => other

/-! ## The remap as the specification words it -/

namespace Spec

/-- The base mapping table of the specification (legacy key to letter and
variation), for the twelve legacy keys. -/
def baseTable (oldKey : Nat) : Int × Int :=
  match oldKey with
  | 0 => (ChordName.C, ChordName.NoVariation)
  | 1 => (ChordName.C, ChordName.Sharp)
  | 2 => (ChordName.D, ChordName.NoVariation)
  | 3 => (ChordName.E, ChordName.Flat)
  | 4 => (ChordName.E, ChordName.NoVariation)
  | 5 => (ChordName.F, ChordName.NoVariation)
  | 6 => (ChordName.F, ChordName.Sharp)
  | 7 => (ChordName.G, ChordName.NoVariation)
  | 8 => (ChordName.A, ChordName.Flat)
  | 9 => (ChordName.A, ChordName.NoVariation)
  | 10 => (ChordName.B, ChordName.Flat)
  | _ => (ChordName.B, ChordName.NoVariation)

/-- The letter that cyclically follows `k` (B wraps to C). -/
def nextLetter (k : Int) : Int :=
  if k = ChordName.B then ChordName.C else k + 1

/-- The letter that cyclically precedes `k` (C wraps to B). -/
def prevLetter (k : Int) : Int :=
  if k = ChordName.C then ChordName.B else k - 1

/-- Variation after an Up step, from the base variation and the new letter. -/
def upVariation (baseVariation newKey : Int) : Int :=
  if baseVariation = ChordName.NoVariation then
    (if newKey = ChordName.F ∨ newKey = ChordName.C then ChordName.Flat
     else ChordName.DoubleFlat)
  else if baseVariation = ChordName.Flat then ChordName.DoubleFlat
  else ChordName.Flat

/-- Variation after a Down step, from the base variation and the new letter. -/
def downVariation (baseVariation newKey : Int) : Int :=
  if baseVariation = ChordName.NoVariation then
    (if newKey = ChordName.B ∨ newKey = ChordName.E then ChordName.Sharp
     else ChordName.DoubleSharp)
  else if baseVariation = ChordName.Flat then ChordName.Sharp
  else ChordName.DoubleSharp

/-- The Down rule of the specification applied to a legacy key. -/
def convertDown (oldKey : Nat) : Int × Int :=
  let newKey := prevLetter (baseTable oldKey).1
  (newKey, downVariation (baseTable oldKey).2 newKey)

/-- The Up rule of the specification applied to a legacy key. -/
def convertUp (oldKey : Nat) : Int × Int :=
  let newKey := nextLetter (baseTable oldKey).1
  (newKey, upVariation (baseTable oldKey).2 newKey)

end Spec

/-- The largest element of a list of position indices (zero for the empty
list). -/
def maxOf (l : List Nat) : Nat := l.foldl max 0

/-- The position indices a target staff holds: those of its dynamics and those
of the positions of all its voices. -/
def Staff.contentPositions (st : Staff) : List Nat :=
  st.dynamics.map (fun d => d.position)
    ++ st.voices.flatMap (fun v => v.positions.map (fun p => p.position))

/-- The interior barlines of a target system: all but the first and the last. -/
def System.interiorBarlines (s : System) : List Barline := s.barlines.tail.dropLast

/-- The position indices a target system holds: those of its interior barlines
and those of the dynamics and positions of all its staves. -/
def System.contentPositions (s : System) : List Nat :=
  s.interiorBarlines.map (fun b => b.position)
    ++ s.staves.flatMap Staff.contentPositions

/-- The end sentinel `e` after the barline loop has run over the interior
barlines `l`: untouched when there is none, otherwise carrying the signatures
of the last one, made invisible. -/
def endBarAfter (l : List PowerTabDocument.Barline) (e : Barline) : Barline :=
  match l.getLast? with
  | none => e
  | some b =>
    (e.setKeySignature ((convertKeySignature b.keySignature).setVisible false)).setTimeSignature
      ((convertTimeSignature b.timeSignature).setVisible false)

/-- The results of `convert(Staff)` for the staves `l`, the first of which has
staff index `i`. -/
def convertedStaves (dynamics : List PowerTabDocument.Dynamic) :
    Nat → List PowerTabDocument.Staff → List (Nat × Staff)
  | _, [] => []
  | i, oldStaff :: rest =>
    convertStaff oldStaff (dynamics.filter (fun dynamic => dynamic.staff = i)) default
      :: convertedStaves dynamics (i + 1) rest

/-- The loop invariant of `convert(Staff)`: `lastPosition` is the largest
position index the staff holds so far, and the staff has its two voices. -/
def StaffInvariant (acc : Staff × Nat) : Prop :=
  acc.2 = maxOf acc.1.contentPositions ∧ acc.1.voices.length = 2

/-- The value `lastPosition` holds at the end of `convert(Score, System, System)`. -/
def lastPositionOf (oldScore : PowerTabDocument.Score) (index : Nat)
    (oldSystem : PowerTabDocument.System) : Nat :=
  max (max 30 (maxOf (oldSystem.barlines.map (fun b => b.position))))
    (maxOf ((convertedStaves (oldScore.getDynamicsInSystem index) 0 oldSystem.staves).map
      (fun r => r.1)))

/-- The guitar-ins of system `i` that have the staff-guitars flag set, in legacy
order. -/
def flaggedGuitarIns (oldScore : PowerTabDocument.Score) (i : Nat) :
    List PowerTabDocument.GuitarIn :=
  (oldScore.getGuitarInsInSystem i).filter (fun guitarIn => guitarIn.hasStaffGuitarsSet)

/-- The accumulated `activePlayers` state once the guitar-ins with the
staff-guitars flag of the first `n` systems have been applied in order, starting
from "every guitar inactive". -/
def activePlayersAfter (ext : Externals) (oldScore : PowerTabDocument.Score) :
    Nat → List Int
  | 0 => List.replicate ext.MAX_NUM_GUITARS (-1)
  | n + 1 => (flaggedGuitarIns oldScore n).foldl applyGuitarIn (activePlayersAfter ext oldScore n)

/-- The dynamics of legacy system `index` that the importer brings over: those
with the staff-volume flag set that are assigned to one of the staves of the
system. -/
def importedDynamics (oldScore : PowerTabDocument.Score) (index : Nat)
    (oldSystem : PowerTabDocument.System) : List PowerTabDocument.Dynamic :=
  (oldScore.getDynamicsInSystem index).filter
    (fun d => d.isStaffVolumeSet && decide (d.staff < oldSystem.staves.length))

/-- The position indices of a legacy system: those of its interior barlines,
those of the given dynamics, and those of the positions of both voices of every
staff. -/
def legacyPositions (dynamics : List PowerTabDocument.Dynamic)
    (oldSystem : PowerTabDocument.System) : List Nat :=
  oldSystem.barlines.map (fun b => b.position)
    ++ dynamics.map (fun d => d.position)
    ++ oldSystem.staves.flatMap
        (fun st => (st.getPositions 0 ++ st.getPositions 1).map (fun p => p.position))

/-- A stretch of the legacy positions of a voice, seen through the
irregular-grouping tags: either a position outside every group, or a complete
group (a start position, the positions inside, an end position). -/
inductive VoiceItem where
  | plain (p : PowerTabDocument.Position)
  | group (start : PowerTabDocument.Position) (inner : List PowerTabDocument.Position)
      (last : PowerTabDocument.Position)

/-- The legacy positions of an item, in order. -/
def VoiceItem.positions : VoiceItem → List PowerTabDocument.Position
  | VoiceItem.plain p => [p]
  | VoiceItem.group start inner last => start :: (inner ++ [last])

/-- Well-formed tagging.  A position outside a group carries none of the tags
start, middle, end.  A group has a position flagged start, then positions that
are each flagged middle or acciaccatura (and neither start nor end), then a
position flagged end (and neither start nor middle). -/
def VoiceItem.WellFormed : VoiceItem → Prop
  | VoiceItem.plain p =>
    p.isIrregularGroupingStart = false ∧ p.isIrregularGroupingMiddle = false
      ∧ p.isIrregularGroupingEnd = false
  | VoiceItem.group start inner last =>
    start.isIrregularGroupingStart = true
      ∧ (∀ p ∈ inner, p.isIrregularGroupingStart = false ∧ p.isIrregularGroupingEnd = false
          ∧ (p.isIrregularGroupingMiddle = true ∨ p.isAcciaccatura = true))
      ∧ last.isIrregularGroupingStart = false ∧ last.isIrregularGroupingMiddle = false
      ∧ last.isIrregularGroupingEnd = true

/-- The irregular grouping the specification expects for an item: none for a
position outside a group; for a group, the start position's index, the number
of positions of the group, and the timing of the start position. -/
def VoiceItem.grouping? : VoiceItem → Option IrregularGrouping
  | VoiceItem.plain _ => none
  | VoiceItem.group start inner _ =>
    some { position := start.position, length := inner.length + 2,
           notesPlayed := start.notesPlayed, notesPlayedOver := start.notesPlayedOver }

/-- What the system loop of `convertGuitarIns` does to the target system `i`,
entered with the given `activePlayers` array: nothing when the legacy system has
no guitar-in, otherwise the guitar-in loop and the final player change. -/
def systemAfterGuitarIns (oldScore : PowerTabDocument.Score) (i : Nat)
    (activePlayers : List Int) (system : System) : System :=
  match oldScore.getGuitarInsInSystem i with
  | [] => system
  | front :: rest => (convertGuitarInsOfSystem (front :: rest) front activePlayers system).1

/-- The player changes the specification expects for guitar-ins that are all
flagged and ordered by position: one per distinct position `p`, holding the
players that are active once every guitar-in at a position up to and including
`p` has been applied to the entry array. -/
def changesPerPosition (guitarIns : List PowerTabDocument.GuitarIn)
    (activePlayers : List Int) : List PlayerChange :=
  (guitarIns.map (fun g => g.position)).dedup.map
    (fun p => getPlayerChange
      ((guitarIns.filter (fun g => decide (g.position ≤ p))).foldl applyGuitarIn activePlayers) p)

/-- Every guitar an `activePlayers` array places on a staff is one of the first
`count` guitars. -/
def ActiveWithin (count : Nat) (activePlayers : List Int) : Prop :=
  ∀ (k : Nat) (staff : Int), activePlayers[k]? = some staff → 0 ≤ staff → k < count

/-- Every active player of a player change has a player number and an
instrument number below the given counts. -/
def PlayerChange.WithinCounts (change : PlayerChange) (players instruments : Nat) : Prop :=
  ∀ e ∈ change.activePlayers, e.2.playerNumber < players ∧ e.2.instrumentNumber < instruments

/-- The masks of the flagged guitar-ins of a legacy score name existing guitars
only: every set bit is the number of one of the guitars of the score. -/
def MasksNameGuitars (oldScore : PowerTabDocument.Score) : Prop :=
  ∀ g ∈ oldScore.guitarIns, g.hasStaffGuitarsSet = true →
    ∀ k : Nat, bitset8 g.staffGuitars k = true → k < oldScore.guitars.length

/-- The legacy score with the guitar-ins that only affect rhythm slashes (the
staff-guitars flag is not set) removed. -/
def withoutSlashGuitarIns (oldScore : PowerTabDocument.Score) : PowerTabDocument.Score :=
  { oldScore with guitarIns := oldScore.guitarIns.filter (fun g => g.hasStaffGuitarsSet) }

/-! ## The merger

`merge` walks the destination (guitar) score and the source (bass) score bar by
bar.  The cursor classes and the utilities it calls are not part of the sources;
the cursor is modelled from the specification, the utilities are parameters. -/

/-- Modelled from the spec: the cursor of the merger, "an iterator over
(systemIndex, barlineIndex) pairs in lexicographic order", together with the
position, staff and voice indices of a `ScoreLocation`. -/
structure ScoreLocation where
  systemIndex : Nat
  barlineIndex : Nat
  positionIndex : Nat
  staffIndex : Nat
  voiceIndex : Nat
  deriving DecidableEq, Repr, Inhabited

/-- Collaborators of the merger whose definitions are outside the sources. -/
structure MergeExternals where
  /-- The range test of `ScoreUtils::findInRange(range, left, right)`, as
  `inRange position left right`. -/
  inRange : Int → Int → Int → Bool
  /-- The function `VoiceUtils::getIrregularGroupsInRange(voice, left, right)`. -/
  getIrregularGroupsInRange : Voice → Nat → Nat → List IrregularGrouping
  /-- The function `ScoreUtils::getCurrentPlayers(score, systemIndex, positionIndex)`. -/
  getCurrentPlayers : Score → Nat → Nat → Option PlayerChange
  /-- The action `InsertNotes(location, positions, groups).redo()`, as the score
  it leaves behind. -/
  insertNotes : Score → ScoreLocation → List Position → List IrregularGrouping → Score

/-- The function `ScoreUtils::findInRange(range, left, right)`: the objects of
the range whose position passes the range test, in order. -/
def ScoreUtils.findInRange {α : Type} (ext : MergeExternals) (position : α → Nat)
    (range : List α) (left right : Int) : List α :=
  range.filter (fun x => ext.inRange (position x) left right)

/-- Modelled from the spec: `Position::hasMultiBarRest`. -/
def Position.hasMultiBarRest (p : Position) : Bool := p.multiBarRest.isSome

/-- Modelled from the spec: `Position::getMultiBarRestCount`. -/
def Position.getMultiBarRestCount (p : Position) : Nat := p.multiBarRest.getD 0

/-- Modelled from the spec: the duration type of a whole note
(`Position::WholeNote`), the first of the duration types 1, 2, 4, ..., 64. -/
def Position.WholeNote : Nat := 1

/-- The whole rest of `merge`: `Position wholeRest(position, Position::WholeNote)`
followed by `setRest()`. -/
def wholeRest (position : Nat) : Position :=
  Position.setRest
    { position := position, durationType := Position.WholeNote, properties := [],
      multiBarRest := none, notes := [] }

/-- The staff `merge` appends for a source staff: `Staff(stringCount)` with the
clef of the source staff and the view type `BassView`. -/
def bassStaff (srcStaff : Staff) : Staff :=
  { (default : Staff) with
    stringCount := srcStaff.stringCount, clefType := srcStaff.clefType,
    viewType := Staff.ViewType.BassView }

/-- Assignment through the reference `score.getSystems()[i]`. -/
def Score.setSystem (s : Score) (i : Nat) (system : System) : Score :=
  { s with systems := s.systems.set i system }

/-- Assignment through the reference `system.getStaves()[i]`. -/
def System.setStaff (s : System) (i : Nat) (staff : Staff) : System :=
  { s with staves := s.staves.set i staff }

/-- Assignment through a pointer to the player change at index `i`. -/
def System.setPlayerChange (s : System) (i : Nat) (change : PlayerChange) : System :=
  { s with playerChanges := s.playerChanges.set i change }

/-- Modelled from the spec: `ScoreLocation::getBarline`, the barline the cursor
is at; `none` when there is no such barline. -/
def ScoreLocation.getBarline (loc : ScoreLocation) (score : Score) : Option Barline :=
  match score.systems[loc.systemIndex]? with
  | none => none
  | some system => system.barlines[loc.barlineIndex]?

/-- Modelled from the spec: the "next-bar counterpart" of the barline the cursor
is at (`System::getNextBarline`); `none` when there is none. -/
def ScoreLocation.getNextBarline (loc : ScoreLocation) (score : Score) : Option Barline :=
  match score.systems[loc.systemIndex]? with
  | none => none
  | some system => system.barlines[loc.barlineIndex + 1]?

/-- Modelled from the spec: `Caret::moveToNextBar`, the step of the "iterator
over (systemIndex, barlineIndex) pairs in lexicographic order".  The bars of a
system start at every barline but its last; after the last bar of a system comes
the first bar of the next system.  The result is `none` when the call returns
`false`; the cursor then stays where it is. -/
def Caret.moveToNextBar (score : Score) (loc : ScoreLocation) : Option ScoreLocation :=
  match score.systems[loc.systemIndex]? with
  | none => none
  | some system =>
    if loc.barlineIndex + 2 < system.barlines.length then
      match system.barlines[loc.barlineIndex + 1]? with
      | none => none
      | some bar =>
        some { loc with barlineIndex := loc.barlineIndex + 1, positionIndex := bar.position }
    else if loc.systemIndex + 1 < score.systems.length then
      some { loc with systemIndex := loc.systemIndex + 1, barlineIndex := 0, positionIndex := 0 }
    else none

/-- Modelled from the spec: `Caret::moveHorizontal(1)`, by which the merger puts
the cursor at "the first position after the barline". -/
def Caret.moveHorizontal (loc : ScoreLocation) : ScoreLocation :=
  { loc with positionIndex := loc.positionIndex + 1 }

/-- The call `destLoc.getVoice().insertPosition(position)`; `none` when the
location names no voice. -/
def Score.insertPositionAt (score : Score) (loc : ScoreLocation) (position : Position) :
    Option Score :=
  match score.systems[loc.systemIndex]? with
  | none => none
  | some system =>
    match system.staves[loc.staffIndex]? with
    | none => none
    | some staff =>
      match staff.voices[loc.voiceIndex]? with
      | none => none
      | some _ =>
        some (score.setSystem loc.systemIndex
          (system.setStaff loc.staffIndex
            (staff.modifyVoice loc.voiceIndex (fun voice => voice.insertPosition position))))

/-- The two inner loops at the end of `mergePlayerChanges`: the active players
of the source change, staff by staff, go to the destination change. -/
def mergeActivePlayers (numDestPlayers numDestInstruments numDestStaves : Nat)
    (srcChange : PlayerChange) (srcStaffCount : Nat) (destChange : PlayerChange) :
    PlayerChange :=
  (List.range srcStaffCount).foldl
    (fun change i =>
      (srcChange.getActivePlayers (Int.ofNat i)).foldl
        (fun change player =>
          change.insertActivePlayer (Int.ofNat (numDestStaves + i))
            ⟨numDestPlayers + player.playerNumber,
             numDestInstruments + player.instrumentNumber⟩)
        change)
    destChange

/-- The setter `PlayerChange::setPosition`. -/
def PlayerChange.setPosition (c : PlayerChange) (position : Nat) : PlayerChange :=
  { c with position := position }

/-- The function `mergePlayerChanges`, as the destination system and
`prevPlayerChange` it leaves behind; `none` when it goes through a null pointer
or fails its assertion. -/
def mergePlayerChanges (ext : MergeExternals) (srcScore : Score) (srcLoc : ScoreLocation)
    (destScore : Score) (destLoc : ScoreLocation) (prevPlayerChange : Option PlayerChange)
    (numDestPlayers numDestInstruments numDestStaves : Nat) :
    Option (Score × Option PlayerChange) :=
  match srcScore.systems[srcLoc.systemIndex]?, destScore.systems[destLoc.systemIndex]?,
      srcLoc.getBarline srcScore, srcLoc.getNextBarline srcScore,
      destLoc.getBarline destScore, destLoc.getNextBarline destScore with
  | some srcSystem, some destSystem, some srcBar, some nextSrcBar, some destBar,
      some nextDestBar =>
    let srcChanges := ScoreUtils.findInRange ext (fun c : PlayerChange => c.position)
      srcSystem.playerChanges srcBar.position ((nextSrcBar.position : Int) - 1)
    let destChanges := ScoreUtils.findInRange ext (fun c : PlayerChange => c.position)
      destSystem.playerChanges destBar.position ((nextDestBar.position : Int) - 1)
    if srcChanges.isEmpty && destChanges.isEmpty then some (destScore, prevPlayerChange)
    else
      let destSystem :=
        if destChanges.isEmpty then
          destSystem.insertPlayerChange
            ((prevPlayerChange.getD default).setPosition destLoc.positionIndex)
        else destSystem
      let index :=
        if destChanges.isEmpty then
          destSystem.playerChanges.findIdx? (fun c => c.position = destLoc.positionIndex)
        else
          destSystem.playerChanges.findIdx?
            (fun c => ext.inRange c.position destBar.position ((nextDestBar.position : Int) - 1))
      match index with
      | none => none
      | some index =>
        match destSystem.playerChanges[index]? with
        | none => none
        | some destChange =>
          let merged :=
            match ext.getCurrentPlayers srcScore srcLoc.systemIndex srcLoc.positionIndex with
            | none => destChange
            | some srcChange =>
              mergeActivePlayers numDestPlayers numDestInstruments numDestStaves srcChange
                srcSystem.staves.length destChange
          some (destScore.setSystem destLoc.systemIndex
                  (destSystem.setPlayerChange index merged),
                some destChange)
  | _, _, _, _, _, _ => none

/-- The check for a multi-bar rest in the voice loop of `merge`: when no count is
running, the count of the first position of the range that has a multi-bar rest
becomes `multibarRestCount`. -/
def checkMultiBarRest (positions : List Position) (multibarRestCount : Nat) : Nat :=
  if multibarRestCount = 0 then
    match positions.find? (fun pos => pos.hasMultiBarRest) with
    | some pos => pos.getMultiBarRestCount
    | none => 0
  else multibarRestCount

/-- The body of the voice loop of `merge` for voice `v` of a source staff.  The
state is the destination score and `multibarRestCount`; `destLoc` has the staff
index of the destination staff. -/
def mergeVoice (ext : MergeExternals) (srcBar nextSrcBar : Barline) (destLoc : ScoreLocation)
    (srcVoice : Voice) (v : Nat) (acc : Score × Nat) : Option (Score × Nat) :=
  let positions := ScoreUtils.findInRange ext (fun p : Position => p.position)
    srcVoice.positions srcBar.position nextSrcBar.position
  let groups := ext.getIrregularGroupsInRange srcVoice srcBar.position nextSrcBar.position
  let multibarRestCount := checkMultiBarRest positions acc.2
  let loc := { destLoc with voiceIndex := v }
  if multibarRestCount ≠ 0 ∨ (positions = [] ∧ v = 0) then
    match loc.getBarline acc.1 with
    | none => none
    | some destBar =>
      match acc.1.insertPositionAt loc (wholeRest (destBar.position + 1)) with
      | none => none
      | some score => some (score, multibarRestCount)
  else if positions ≠ [] then some (ext.insertNotes acc.1 loc positions groups, multibarRestCount)
  else some (acc.1, multibarRestCount)

/-- The voice loop of `merge` over the voices `vs` of one source staff. -/
def mergeVoices (ext : MergeExternals) (srcBar nextSrcBar : Barline) (destLoc : ScoreLocation)
    (srcStaff : Staff) : List Nat → Score × Nat → Option (Score × Nat)
  | [], acc => some acc
  | v :: rest, acc =>
    match srcStaff.voices[v]? with
    | none => none
    | some srcVoice =>
      match mergeVoice ext srcBar nextSrcBar destLoc srcVoice v acc with
      | none => none
      | some acc => mergeVoices ext srcBar nextSrcBar destLoc srcStaff rest acc

/-- The body of the staff loop of `merge` for source staff `i`: the destination
system gets a staff at `numDestStaves + i` if it has none, then the voices are
merged. -/
def mergeStaff (ext : MergeExternals) (srcBar nextSrcBar : Barline) (destLoc : ScoreLocation)
    (numDestStaves i : Nat) (srcStaff : Staff) (acc : Score × Nat) : Option (Score × Nat) :=
  match acc.1.systems[destLoc.systemIndex]? with
  | none => none
  | some destSystem =>
    let score :=
      if destSystem.staves.length ≤ numDestStaves + i then
        acc.1.setSystem destLoc.systemIndex (destSystem.insertStaff (bassStaff srcStaff))
      else acc.1
    mergeVoices ext srcBar nextSrcBar { destLoc with staffIndex := numDestStaves + i } srcStaff
      (List.range Staff.NUM_VOICES) (score, acc.2)

/-- The staff loop of `merge`, entered at source staff `i` with the source
staves from `i` on still to do. -/
def mergeStaves (ext : MergeExternals) (srcBar nextSrcBar : Barline) (destLoc : ScoreLocation)
    (numDestStaves : Nat) : Nat → List Staff → Score × Nat → Option (Score × Nat)
  | _, [], acc => some acc
  | i, srcStaff :: rest, acc =>
    match mergeStaff ext srcBar nextSrcBar destLoc numDestStaves i srcStaff acc with
    | none => none
    | some acc => mergeStaves ext srcBar nextSrcBar destLoc numDestStaves (i + 1) rest acc

/-- The variables of the loop of `merge`. -/
structure MergeState where
  destScore : Score
  destLoc : ScoreLocation
  srcLoc : ScoreLocation
  currentSystemIndex : Int
  numDestStaves : Nat
  multibarRestCount : Nat
  prevPlayerChange : Option PlayerChange
  deriving DecidableEq, Repr

/-- How an iteration of the loop of `merge` ends: it goes on to the next
iteration, or leaves the loop through one of the two `break` statements. -/
inductive MergeStep where
  | next (st : MergeState)
  | destinationDone (st : MergeState)
  | sourceDone (st : MergeState)
  deriving DecidableEq, Repr

/-- The part of an iteration of the loop of `merge` up to the end of the staff
loop: the system snapshot, the player changes, the cursor step past the barline
and the notes.  The result is `none` when an assertion fails or the code goes
through a pointer or an index that names nothing. -/
def mergeBar (ext : MergeExternals) (srcScore : Score) (numDestPlayers numDestInstruments : Nat)
    (st : MergeState) : Option MergeState :=
  match srcScore.systems[st.srcLoc.systemIndex]?, st.destScore.systems[st.destLoc.systemIndex]?,
      st.destLoc.getBarline st.destScore, st.srcLoc.getBarline srcScore,
      st.srcLoc.getNextBarline srcScore with
  | some srcSystem, some destSystem, some _, some srcBar, some nextSrcBar =>
    let newSystem := decide ((st.destLoc.systemIndex : Int) ≠ st.currentSystemIndex)
    let currentSystemIndex :=
      if newSystem then st.currentSystemIndex + 1 else st.currentSystemIndex
    let numDestStaves := if newSystem then destSystem.staves.length else st.numDestStaves
    let changes :=
      if st.multibarRestCount = 0 then
        mergePlayerChanges ext srcScore st.srcLoc st.destScore st.destLoc st.prevPlayerChange
          numDestPlayers numDestInstruments numDestStaves
      else some (st.destScore, st.prevPlayerChange)
    match changes with
    | none => none
    | some (destScore, prevPlayerChange) =>
      let destLoc :=
        if st.destLoc.positionIndex ≠ 0 then Caret.moveHorizontal st.destLoc else st.destLoc
      match mergeStaves ext srcBar nextSrcBar destLoc numDestStaves 0 srcSystem.staves
          (destScore, st.multibarRestCount) with
      | none => none
      | some (destScore, multibarRestCount) =>
        some { destScore := destScore, destLoc := destLoc, srcLoc := st.srcLoc,
               currentSystemIndex := currentSystemIndex, numDestStaves := numDestStaves,
               multibarRestCount := multibarRestCount, prevPlayerChange := prevPlayerChange }
  | _, _, _, _, _ => none

/-- The end of an iteration of the loop of `merge`: the destination cursor moves
to the next bar, `multibarRestCount` is counted down, and the source cursor
moves unless a multi-bar rest is still running. -/
def mergeAdvance (srcScore : Score) (st : MergeState) : MergeStep :=
  match Caret.moveToNextBar st.destScore st.destLoc with
  | none => MergeStep.destinationDone st
  | some destLoc =>
    let multibarRestCount :=
      if st.multibarRestCount ≠ 0 then st.multibarRestCount - 1 else st.multibarRestCount
    let st := { st with destLoc := destLoc, multibarRestCount := multibarRestCount }
    if multibarRestCount = 0 then
      match Caret.moveToNextBar srcScore st.srcLoc with
      | some srcLoc => MergeStep.next { st with srcLoc := srcLoc }
      | none =>
        if (destLoc.systemIndex : Int) ≠ st.currentSystemIndex then MergeStep.sourceDone st
        else MergeStep.next st
    else MergeStep.next st

/-- One iteration of the loop of `merge`. -/
def mergeIteration (ext : MergeExternals) (srcScore : Score)
    (numDestPlayers numDestInstruments : Nat) (st : MergeState) : Option MergeStep :=
  (mergeBar ext srcScore numDestPlayers numDestInstruments st).map (mergeAdvance srcScore)

/-- How a call of `merge` ends: with the merged destination score, in undefined
behaviour, or, in the embedding, by running out of the iterations it was
allowed. -/
inductive MergeResult where
  | merged (score : Score)
  | undefined
  | outOfFuel
  deriving DecidableEq, Repr

/-- The loop `while (true)` of `merge`, allowed `fuel` iterations. -/
def mergeLoop (ext : MergeExternals) (srcScore : Score)
    (numDestPlayers numDestInstruments : Nat) : Nat → MergeState → MergeResult
  | 0, _ => MergeResult.outOfFuel
  | fuel + 1, st =>
    match mergeIteration ext srcScore numDestPlayers numDestInstruments st with
    | none => MergeResult.undefined
    | some (MergeStep.next st) =>
      mergeLoop ext srcScore numDestPlayers numDestInstruments fuel st
    | some (MergeStep.destinationDone st) => MergeResult.merged st.destScore
    | some (MergeStep.sourceDone st) => MergeResult.merged st.destScore

/-- The emptiness test at the head of `merge`: every voice of every staff of the
system has no position. -/
def System.hasNoPositions (system : System) : Bool :=
  system.staves.all (fun staff => staff.voices.all (fun voice => voice.positions.isEmpty))

/-- The state in which `merge` enters its loop. -/
def initialMergeState (destScore : Score) : MergeState :=
  { destScore := destScore, destLoc := default, srcLoc := default, currentSystemIndex := -1,
    numDestStaves := 0, multibarRestCount := 0, prevPlayerChange := none }

/-- The method `merge(destScore, srcScore)`, allowed `fuel` iterations of its
loop.  Both cursors start at the first bar of the first system. -/
def merge (ext : MergeExternals) (fuel : Nat) (destScore srcScore : Score) : MergeResult :=
  match srcScore.systems[0]? with
  | none => MergeResult.undefined
  | some system =>
    if system.hasNoPositions then MergeResult.merged destScore
    else
      let numDestPlayers := destScore.players.length
      let numDestInstruments := destScore.instruments.length
      let destScore := srcScore.players.foldl Score.insertPlayer destScore
      let destScore := srcScore.instruments.foldl Score.insertInstrument destScore
      mergeLoop ext srcScore numDestPlayers numDestInstruments fuel
        (initialMergeState destScore)

/-- The insertion of the whole rest of `merge` into the voice at a location:
the rest goes to `destBar.position + 1`, where `destBar` is the barline the
location is at. -/
def insertWholeRest (score : Score) (loc : ScoreLocation) : Option Score :=
  match loc.getBarline score with
  | none => none
  | some destBar => score.insertPositionAt loc (wholeRest (destBar.position + 1))

/-- What the layout of a score records of a staff: clef, string count, view type
and number of voices. -/
def Staff.shape (s : Staff) : Nat × Nat × Staff.ViewType × Nat :=
  (s.clefType, s.stringCount, s.viewType, s.voices.length)

/-- The layout of a system: the number of its barlines and the shapes of its
staves. -/
def System.layout (s : System) : Nat × List (Nat × Nat × Staff.ViewType × Nat) :=
  (s.barlines.length, s.staves.map Staff.shape)

/-- The layout of a score: the layouts of its systems. -/
def Score.layout (s : Score) : List (Nat × List (Nat × Nat × Staff.ViewType × Nat)) :=
  s.systems.map System.layout

/-- The shape of the staff `merge` appends for a source staff: the clef and
string count of the source staff, the view type `BassView`, and the voices of a
fresh staff. -/
def bassShape (srcStaff : Staff) : Nat × Nat × Staff.ViewType × Nat :=
  (srcStaff.clefType, srcStaff.stringCount, Staff.ViewType.BassView, Staff.NUM_VOICES)

/-- The shapes of the staves `merge` appends for the staves of a source
system. -/
def bassShapes (srcSystem : System) : List (Nat × Nat × Staff.ViewType × Nat) :=
  srcSystem.staves.map bassShape

/-- The layout of the destination once the bass staves of the first `n` source
systems have been appended to the destination systems of the same index. -/
def mergedLayout (layout : List (Nat × List (Nat × Nat × Staff.ViewType × Nat)))
    (srcSystems : List System) : Nat → List (Nat × List (Nat × Nat × Staff.ViewType × Nat))
  | 0 => layout
  | n + 1 =>
    match (mergedLayout layout srcSystems n)[n]?, srcSystems[n]? with
    | some entry, some srcSystem =>
      (mergedLayout layout srcSystems n).set n (entry.1, entry.2 ++ bassShapes srcSystem)
    | _, _ => mergedLayout layout srcSystems n

/-- The two scores have the same bars: the same number of systems, and in each
system the same number of barlines, at least two. -/
def SameBars (destScore srcScore : Score) : Prop :=
  srcScore.systems.map (fun system => system.barlines.length)
      = destScore.systems.map (fun system => system.barlines.length)
  ∧ ∀ system ∈ destScore.systems, 2 ≤ system.barlines.length

/-- The source score is well formed for the merger and has no multi-bar rest:
every staff has `NUM_VOICES` voices, and no position stands for several bars. -/
def PlainSource (srcScore : Score) : Prop :=
  ∀ system ∈ srcScore.systems, ∀ staff ∈ system.staves,
    staff.voices.length = Staff.NUM_VOICES
    ∧ ∀ voice ∈ staff.voices, ∀ p ∈ voice.positions, p.multiBarRest = none

/-- The action `InsertNotes` leaves the layout of the score alone: it adds no
system, barline, staff or voice, removes none, and changes no clef, string count
or view type. -/
def KeepsLayout (ext : MergeExternals) : Prop :=
  ∀ (score : Score) (loc : ScoreLocation) (positions : List Position)
    (groups : List IrregularGrouping),
    (ext.insertNotes score loc positions groups).layout = score.layout

/-- The loop invariant of `merge` on scores with the same bars and no multi-bar
rest, at the head of the iteration for bar `bar` of system `sys`: both cursors
are at that bar, no count is running, the systems before `sys` have their bass
staves, and system `sys` has them once its first bar has been merged. -/
def MergeInvariant (destScore srcScore : Score) (sys bar : Nat) (st : MergeState) : Prop :=
  st.destLoc.systemIndex = sys ∧ st.destLoc.barlineIndex = bar
  ∧ st.srcLoc.systemIndex = sys ∧ st.srcLoc.barlineIndex = bar
  ∧ st.multibarRestCount = 0
  ∧ (bar = 0 →
      st.currentSystemIndex = (sys : Int) - 1
      ∧ st.destScore.layout = mergedLayout destScore.layout srcScore.systems sys)
  ∧ (bar ≠ 0 →
      st.currentSystemIndex = (sys : Int)
      ∧ (∀ entry, destScore.layout[sys]? = some entry → st.numDestStaves = entry.2.length)
      ∧ st.destScore.layout = mergedLayout destScore.layout srcScore.systems (sys + 1))

/-- The dynamic `convertInitialVolumes` emits for a guitar-in, if any: the
guitar-in has to be at the first location and to have the staff-guitars flag
set, and its mask has to name one of the guitars of the score; the volume is the
initial volume of the first such guitar. -/
def seedDynamic (oldScore : PowerTabDocument.Score) (startPos : Nat × Nat)
    (guitarIn : PowerTabDocument.GuitarIn) : Option Dynamic :=
  if (guitarIn.system, guitarIn.position) = startPos ∧ guitarIn.hasStaffGuitarsSet = true then
    ((List.range oldScore.guitars.length).find? (fun j => bitset8 guitarIn.staffGuitars j)).map
      (fun j => { position := guitarIn.position,
                  volume := (oldScore.guitars.getD j default).initialVolume })
  else none

/-- The dynamics `convertInitialVolumes` emits into staff `staff` for the given
guitar-ins, in order. -/
def seededDynamics (oldScore : PowerTabDocument.Score) (startPos : Nat × Nat)
    (guitarIns : List PowerTabDocument.GuitarIn) (staff : Nat) : List Dynamic :=
  (guitarIns.filter (fun g => decide (g.staff = staff))).filterMap
    (seedDynamic oldScore startPos)

/-- A staff with further dynamics after those it has. -/
def Staff.addDynamics (s : Staff) (dynamics : List Dynamic) : Staff :=
  { s with dynamics := s.dynamics ++ dynamics }

/-- The condition under which `convertInitialVolumes` seeds: the legacy score has
no dynamic, or its first dynamic is strictly after the first guitar-in. -/
def SeedsInitialVolumes (oldScore : PowerTabDocument.Score)
    (firstIn : PowerTabDocument.GuitarIn) : Prop :=
  ∀ firstDynamic ∈ oldScore.dynamics.head?,
    locationLe (firstDynamic.system, firstDynamic.position)
      (firstIn.system, firstIn.position) = false

/-- A system without its staves: what is left to compare when only staves may
have changed. -/
def System.withoutStaves (s : System) : System := { s with staves := [] }

/-- The active players `mergePlayerChanges` adds to the destination change for a
source change: for every source staff `i` and every active player `p` of the
source change on it, the player `(numDestPlayers + p.playerNumber,
numDestInstruments + p.instrumentNumber)` on staff `numDestStaves + i`. -/
def bassActivePlayers (numDestPlayers numDestInstruments numDestStaves : Nat)
    (srcChange : PlayerChange) (srcStaffCount : Nat) : List (Int × ActivePlayer) :=
  (List.range srcStaffCount).flatMap (fun i =>
    (srcChange.getActivePlayers (Int.ofNat i)).map (fun p =>
      (Int.ofNat (numDestStaves + i),
       (⟨numDestPlayers + p.playerNumber, numDestInstruments + p.instrumentNumber⟩ :
          ActivePlayer))))

/-! ## The file header and `load` -/

namespace PowerTabDocument

/-- A calendar date, as `GetSongBootlegDate` returns it. -/
structure Date where
  year : Nat
  month : Nat
  day : Nat
  deriving DecidableEq, Repr, Inhabited

/-- The legacy file header, by the getters the importer calls on it. -/
structure PowerTabFileHeader where
  fileType : Nat
  songTitle : String
  songArtist : String
  songReleaseType : Nat
  songAudioReleaseType : Nat
  songAudioReleaseTitle : String
  songAudioReleaseYear : Nat
  songAudioReleaseLive : Bool
  songVideoReleaseTitle : String
  songVideoReleaseLive : Bool
  songBootlegTitle : String
  songBootlegDate : Date
  songAuthorType : Nat
  songComposer : String
  songLyricist : String
  songArranger : String
  songGuitarScoreTranscriber : String
  songCopyright : String
  songLyrics : String
  songGuitarScoreNotes : String
  lessonTitle : String
  lessonSubtitle : String
  lessonMusicStyle : Nat
  lessonLevel : Nat
  lessonAuthor : String
  lessonNotes : String
  lessonCopyright : String
  deriving DecidableEq, Repr, Inhabited

/-- The legacy document after `Load`: header, line spacing and scores. -/
structure Document where
  header : PowerTabFileHeader
  tablatureStaffLineSpacing : Nat
  scores : List Score
  deriving DecidableEq, Repr

end PowerTabDocument

/-- The enumerators of `PowerTabFileHeader`, whose values are declared outside
the sources.  The importer compares against all of them but `FILETYPE_LESSON`,
the second value of the file-type discriminator. -/
structure HeaderConstants where
  FILETYPE_SONG : Nat
  FILETYPE_LESSON : Nat
  RELEASETYPE_PUBLIC_AUDIO : Nat
  RELEASETYPE_PUBLIC_VIDEO : Nat
  RELEASETYPE_BOOTLEG : Nat
  AUTHORTYPE_TRADITIONAL : Nat
  deriving DecidableEq, Repr

/-- Modelled from the spec: the release variant of a song ("public-audio,
public-video, bootleg, unreleased" plus variant-specific fields). -/
inductive ReleaseInfo where
  | audio (releaseType : Nat) (title : String) (year : Nat) (live : Bool)
  | video (title : String) (live : Bool)
  | bootleg (title : String) (date : PowerTabDocument.Date)
  | unreleased
  deriving DecidableEq, Repr

/-- Modelled from the spec: the author variant of a song ("traditional |
{composer, lyricist}"). -/
inductive AuthorInfo where
  | traditional
  | authors (composer lyricist : String)
  deriving DecidableEq, Repr

/-- Modelled from the spec: the song metadata. -/
structure SongData where
  title : String
  artist : String
  releaseInfo : ReleaseInfo
  authorInfo : AuthorInfo
  arranger : String
  transcriber : String
  copyright : String
  lyrics : String
  performanceNotes : String
  deriving DecidableEq, Repr

/-- Modelled from the spec: the lesson metadata. -/
structure LessonData where
  title : String
  subtitle : String
  musicStyle : Nat
  difficultyLevel : Nat
  author : String
  notes : String
  copyright : String
  deriving DecidableEq, Repr

/-- Modelled from the spec: the score info is "either SongData or LessonData". -/
inductive ScoreInfo where
  | song (data : SongData)
  | lesson (data : LessonData)
  deriving DecidableEq, Repr

/-- A default-constructed score info; the header converter replaces it in
both of its branches. -/
instance : Inhabited ScoreInfo :=
  ⟨ScoreInfo.song
    { title := "", artist := "", releaseInfo := ReleaseInfo.unreleased,
      authorInfo := AuthorInfo.authors "" "", arranger := "", transcriber := "",
      copyright := "", lyrics := "", performanceNotes := "" }⟩

/-- Modelled from the spec: `ScoreInfo::setSongData`. -/
def ScoreInfo.setSongData (_info : ScoreInfo) (data : SongData) : ScoreInfo :=
  ScoreInfo.song data

/-- Modelled from the spec: `ScoreInfo::setLessonData`. -/
def ScoreInfo.setLessonData (_info : ScoreInfo) (data : LessonData) : ScoreInfo :=
  ScoreInfo.lesson data

/-- The release branches of the header converter. -/
def convertReleaseInfo (c : HeaderConstants) (header : PowerTabDocument.PowerTabFileHeader) :
    ReleaseInfo :=
  let releaseType := header.songReleaseType
  if releaseType = c.RELEASETYPE_PUBLIC_AUDIO then
    ReleaseInfo.audio header.songAudioReleaseType header.songAudioReleaseTitle
      header.songAudioReleaseYear header.songAudioReleaseLive
  else if releaseType = c.RELEASETYPE_PUBLIC_VIDEO then
    ReleaseInfo.video header.songVideoReleaseTitle header.songVideoReleaseLive
  else if releaseType = c.RELEASETYPE_BOOTLEG then
    ReleaseInfo.bootleg header.songBootlegTitle header.songBootlegDate
  else ReleaseInfo.unreleased

/-- The author branches of the header converter. -/
def convertAuthorInfo (c : HeaderConstants) (header : PowerTabDocument.PowerTabFileHeader) :
    AuthorInfo :=
  if header.songAuthorType = c.AUTHORTYPE_TRADITIONAL then AuthorInfo.traditional
  else AuthorInfo.authors header.songComposer header.songLyricist

/-- The overload `convert(const PowerTabFileHeader &, ScoreInfo &)`: one `if`
on the file type with an `else` and no third branch. -/
def convertHeader (c : HeaderConstants) (header : PowerTabDocument.PowerTabFileHeader)
    (info : ScoreInfo) : ScoreInfo :=
  if header.fileType = c.FILETYPE_SONG then
    info.setSongData
      { title := header.songTitle
        artist := header.songArtist
        releaseInfo := convertReleaseInfo c header
        authorInfo := convertAuthorInfo c header
        arranger := header.songArranger
        transcriber := header.songGuitarScoreTranscriber
        copyright := header.songCopyright
        lyrics := header.songLyrics
        performanceNotes := header.songGuitarScoreNotes }
  else
    info.setLessonData
      { title := header.lessonTitle
        subtitle := header.lessonSubtitle
        musicStyle := header.lessonMusicStyle
        difficultyLevel := header.lessonLevel
        author := header.lessonAuthor
        notes := header.lessonNotes
        copyright := header.lessonCopyright }

/-- The caller's score as `load` works on it: the score info and the line
spacing, which only `load` writes, next to the players, instruments and systems
that `convert` and `merge` work on. -/
structure LoadedScore where
  scoreInfo : ScoreInfo
  lineSpacing : Nat
  score : Score
  deriving DecidableEq, Repr

/-- The call `score.setScoreInfo(info)`. -/
def LoadedScore.setScoreInfo (s : LoadedScore) (info : ScoreInfo) : LoadedScore :=
  { s with scoreInfo := info }

/-- The call `score.setLineSpacing(spacing)`. -/
def LoadedScore.setLineSpacing (s : LoadedScore) (spacing : Nat) : LoadedScore :=
  { s with lineSpacing := spacing }

/-- How a call of `load` ends.  The three results that carry a score give the
caller's score as the call leaves it: after a complete import, at the failed
assertion on the number of scores, or at a `std::out_of_range` exception. -/
inductive LoadResult where
  | loaded (score : LoadedScore)
  | assertionFailed (score : LoadedScore)
  | outOfRange (score : LoadedScore)
  | undefined
  | outOfFuel
  deriving DecidableEq, Repr

/-- The conversion of the bass score into a fresh score and its merge into the
caller's score, the last three statements of `load`. -/
def loadBass (ext : Externals) (mext : MergeExternals) (fuel : Nat)
    (bass : PowerTabDocument.Score) (score : LoadedScore) : LoadResult :=
  match convertScore ext bass default with
  | Outcome.done bassScore =>
    match merge mext fuel score.score bassScore with
    | MergeResult.merged merged => LoadResult.loaded { score with score := merged }
    | MergeResult.undefined => LoadResult.undefined
    | MergeResult.outOfFuel => LoadResult.outOfFuel
  | Outcome.outOfRange _ => LoadResult.outOfRange score
  | Outcome.undefined => LoadResult.undefined

/-- The method `load`, from the point where the legacy document has been read:
the header and the line spacing are written to the caller's score first, then
comes the assertion on the number of scores, then the two conversions and the
merge. -/
def load (c : HeaderConstants) (ext : Externals) (mext : MergeExternals) (fuel : Nat)
    (document : PowerTabDocument.Document) (score : LoadedScore) : LoadResult :=
  let info := convertHeader c document.header default
  let score := score.setScoreInfo info
  let score := score.setLineSpacing document.tablatureStaffLineSpacing
  if document.scores.length ≠ 2 then LoadResult.assertionFailed score
  else
    match document.scores[0]?, document.scores[1]? with
    | some guitar, some bass =>
      match convertScore ext guitar score.score with
      | Outcome.done converted => loadBass ext mext fuel bass { score with score := converted }
      | Outcome.outOfRange state => LoadResult.outOfRange { score with score := state }
      | Outcome.undefined => LoadResult.undefined
    | _, _ => LoadResult.undefined

/-! ## The GPX reader

`documentreader.cpp` reads its lists with the list parser of Boost.Spirit Qi,
a library outside the sources.  `convertStringToList` is a template over the
element type and takes the call of the library parser as an argument.
`Qi.parse` below follows the documented behaviour of the library for the list
parser `auto_ % ' '`; the parser that `auto_` stands for at the element type is
its argument, and `Qi.intParser` is that parser at `int`. -/

namespace Qi

/-- The number a run of decimal digits stands for. -/
def digitsValue (digits : List Char) : Nat :=
  digits.foldl (fun acc c => 10 * acc + (c.toNat - 48)) 0

/-- The digits of an integer: the longest run of decimal digits at the head of
the input, which must not be empty.  Returns the number and the rest of the
input. -/
def uintParser (s : List Char) : Option (Nat × List Char) :=
  match s.takeWhile Char.isDigit with
  | [] => none
  | c :: cs => some (digitsValue (c :: cs), s.dropWhile Char.isDigit)

/-- The parser `int_`, which `auto_` stands for when the element type is `int`:
an optional sign and at least one digit, nothing skipped; a number outside the
range of a 32-bit `int` does not match. -/
def intParser (s : List Char) : Option (Int × List Char) :=
  match s with
  | [] => none
  | c :: rest =>
    if c = '-' then
      match uintParser rest with
      | some (n, r) => if n ≤ 2147483648 then some (-(n : Int), r) else none
      | none => none
    else if c = '+' then
      match uintParser rest with
      | some (n, r) => if n ≤ 2147483647 then some ((n : Int), r) else none
      | none => none
    else
      match uintParser s with
      | some (n, r) => if n ≤ 2147483647 then some ((n : Int), r) else none
      | none => none

/-- The repetition behind the first element of the list parser `auto_ % ' '`:
as long as a space and an element follow, the element is appended to `dest`;
at the first place where they do not, the repetition ends and has matched.
Every round consumes input, so `fuel` rounds with `fuel` the length of the
input are never used up. -/
def listTail {T : Type} (element : List Char → Option (T × List Char)) :
    Nat → List Char → List T → List T
  | 0, _, dest => dest
  | fuel + 1, s, dest =>
    match s with
    | [] => dest
    | c :: rest =>
      if c = ' ' then
        match element rest with
        | some (v, r) => listTail element fuel r (dest ++ [v])
        | none => dest
      else dest

/-- The call `parse(first, last, auto_ % ' ', dest)`, with the parser that
`auto_` stands for at the element type as `element`: it fails when the input
does not begin with an element, and otherwise matches the longest list at the
head of the input, whatever follows it.  The elements are appended to `dest`. -/
def parse {T : Type} (element : List Char → Option (T × List Char)) (source : List Char)
    (dest : List T) : Bool × List T :=
  match element source with
  | none => (false, dest)
  | some (v, r) => (true, listTail element source.length r (dest ++ [v]))

end Qi

namespace Gpx

/-- The function template `convertStringToList<T>`, with the call of the
library parser at element type `T` as the argument `parse` and the stream
`std::cerr` as a list of lines.  Returns `dest` and the stream. -/
def convertStringToList {T : Type} (parse : List Char → List T → Bool × List T)
    (source : String) (dest : List T) (cerr : List String) : List T × List String :=
  let result := parse source.toList dest
  let parsed := result.1
  let dest := result.2
  if !parsed then (dest, cerr ++ ["Parsing of list failed!!"])
  else (dest, cerr)

/-- The record `Gpx::Rhythm`, by the two members `readRhythms` assigns. -/
structure Rhythm where
  id : Int
  noteValue : Int
  deriving DecidableEq, Repr, Inhabited

/-- A child of the node `GPIF.Rhythms`, by what `readRhythms` reads from it:
the attribute `id` and the text of the child `NoteValue`. -/
structure RhythmNode where
  id : Int
  noteValue : String
  deriving DecidableEq, Repr, Inhabited

/-- The table `noteValuesToInt` of `readRhythms`. -/
def noteValuesToInt : List (String × Int) :=
  [("Whole", 1), ("Half", 2), ("Quarter", 4), ("Eighth", 8),
   ("16th", 16), ("32nd", 32), ("64th", 64)]

/-- Modelled from the spec: the member `rhythms`, which holds the rhythms by
id; the assignment `rhythms[id] = rhythm` replaces the entry of the id or adds
one. -/
def assign (rhythms : List (Int × Rhythm)) (id : Int) (rhythm : Rhythm) :
    List (Int × Rhythm) :=
  match rhythms with
  | [] => [(id, rhythm)]
  | entry :: rest =>
    if entry.1 = id then (id, rhythm) :: rest else entry :: assign rest id rhythm

/-- The body of the loop of `readRhythms` for one node; `none` is the failed
assertion that the note value is in the table. -/
def readRhythm (rhythms : List (Int × Rhythm)) (node : RhythmNode) :
    Option (List (Int × Rhythm)) :=
  let rhythm : Rhythm := { id := node.id, noteValue := default }
  let noteValueStr := node.noteValue
  match noteValuesToInt.lookup noteValueStr with
  | none => none
  | some noteValue =>
    let rhythm := { rhythm with noteValue := noteValue }
    some (assign rhythms rhythm.id rhythm)

/-- The method `readRhythms` over the children of `GPIF.Rhythms` in document
order; it stops at the first failed assertion. -/
def readRhythms (nodes : List RhythmNode) (rhythms : List (Int × Rhythm)) :
    Option (List (Int × Rhythm)) :=
  match nodes with
  | [] => some rhythms
  | node :: rest =>
    match readRhythm rhythms node with
    | none => none
    | some rhythms => readRhythms rest rhythms

end Gpx

/-- An integer as a well-formed list spells it: an optional minus sign and a
run of digits. -/
structure IntLiteral where
  negative : Bool
  digits : List Char
  deriving DecidableEq, Repr

/-- The characters of the literal. -/
def IntLiteral.chars (t : IntLiteral) : List Char :=
  if t.negative then '-' :: t.digits else t.digits

/-- The integer the literal stands for. -/
def IntLiteral.value (t : IntLiteral) : Int :=
  if t.negative then -(Qi.digitsValue t.digits : Int) else (Qi.digitsValue t.digits : Int)

/-- The literal has at least one digit, nothing but digits, and its value is
in the range of a 32-bit `int`. -/
def IntLiteral.WellFormed (t : IntLiteral) : Prop :=
  t.digits ≠ [] ∧ (∀ c ∈ t.digits, c.isDigit = true)
    ∧ Qi.digitsValue t.digits ≤ (if t.negative then 2147483648 else 2147483647)

/-- A well-formed list as text: the literals with one space between each two. -/
def renderList (first : IntLiteral) (rest : List IntLiteral) : List Char :=
  first.chars ++ rest.flatMap (fun t => ' ' :: t.chars)

/-- Text that does not continue a list: nothing, or text that begins neither
with a digit nor with a space and an integer. -/
def EndsList (trailing : List Char) : Prop :=
  ∀ c ∈ trailing.head?, c.isDigit = false ∧ (c = ' ' → Qi.intParser trailing.tail = none)

/-- A list as text, for any element type: the texts of the elements with one
space between each two. -/
def joinWithSpaces (first : List Char) (rest : List (List Char)) : List Char :=
  first ++ rest.flatMap (fun text => ' ' :: text)

/-- Text that does not continue a list of elements read by `element`: nothing,
or text that does not begin with a space and an element. -/
def EndsListOf {T : Type} (element : List Char → Option (T × List Char))
    (trailing : List Char) : Prop :=
  ∀ c ∈ trailing.head?, c = ' ' → element trailing.tail = none

/-- The element parser reads the text as the value wherever the text stands in
a list: before a space, or before the text `trailing` that follows the list. -/
def ReadsAs {T : Type} (element : List Char → Option (T × List Char))
    (trailing : List Char) (item : List Char × T) : Prop :=
  ∀ tail : List Char, (tail = trailing ∨ ∃ more, tail = ' ' :: more) →
    element (item.1 ++ tail) = some (item.2, tail)

/-- The seven note-value names of the table. -/
def noteValueNames : List String :=
  ["Whole", "Half", "Quarter", "Eighth", "16th", "32nd", "64th"]

/-- The rhythm that is to be found under `id` after the nodes have been read
into `rhythms`: that of the last node with this id, or the one that was there. -/
def expectedRhythm (nodes : List Gpx.RhythmNode) (rhythms : List (Int × Gpx.Rhythm))
    (id : Int) : Option Gpx.Rhythm :=
  match nodes.reverse.find? (fun node => node.id = id) with
  | some node => (Gpx.noteValuesToInt.lookup node.noteValue).map (Gpx.Rhythm.mk id)
  | none => rhythms.lookup id

/-- The semitone of a key letter above C (C 0, D 2, E 4, F 5, G 7, A 9, B 11);
a value that names no letter has none. -/
def ChordName.letterSemitone (key : Int) : Option Int :=
  if key = ChordName.C then some 0
  else if key = ChordName.D then some 2
  else if key = ChordName.E then some 4
  else if key = ChordName.F then some 5
  else if key = ChordName.G then some 7
  else if key = ChordName.A then some 9
  else if key = ChordName.B then some 11
  else none

/-- The offset of a variation in semitones (None 0, Sharp 1, Flat -1,
DoubleSharp 2, DoubleFlat -2). -/
def ChordName.variationOffset (variation : Int) : Option Int :=
  if variation = ChordName.NoVariation then some 0
  else if variation = ChordName.Sharp then some 1
  else if variation = ChordName.Flat then some (-1)
  else if variation = ChordName.DoubleSharp then some 2
  else if variation = ChordName.DoubleFlat then some (-2)
  else none

/-- The pitch class a (Key, Variation) pair names: the semitone of the letter
plus the offset of the variation, taken mod 12. -/
def ChordName.pitchClass (pair : Int × Int) : Option Int :=
  match ChordName.letterSemitone pair.1, ChordName.variationOffset pair.2 with
  | some semitone, some offset => some ((semitone + offset) % 12)
  | _, _ => none

/-- The grouping goes back to a start position of the voice: it has the
position and the timing of a position flagged as irregular-grouping start, and
a position count of at least 2. -/
def StartsAtStart (positions : List PowerTabDocument.Position) (g : IrregularGrouping) : Prop :=
  ∃ p ∈ positions, p.isIrregularGroupingStart = true ∧ g.position = p.position
    ∧ g.notesPlayed = p.notesPlayed ∧ g.notesPlayedOver = p.notesPlayedOver ∧ 2 ≤ g.length

/-- The grouping of an end position that no start position went before: it has
the values the loop variables are reset to, and a position count of at least 1. -/
def WithoutStart (g : IrregularGrouping) : Prop :=
  g.position = 0 ∧ g.notesPlayed = 0 ∧ g.notesPlayedOver = 0 ∧ 1 ≤ g.length

/-- The invariant of the irregular-grouping loop over the positions of a voice:
every grouping emitted so far goes back to a start position or is one without
start, and the loop variables either are as the last start position set them,
with a count of at least 1, or hold no start. -/
def GroupingInvariant (positions : List PowerTabDocument.Position) (st : GroupingState) :
    Prop :=
  (∀ g ∈ st.v.irregularGroupings, StartsAtStart positions g ∨ WithoutStart g)
  ∧ ((st.startPos = 0 ∧ st.notesPlayed = 0 ∧ st.notesPlayedOver = 0)
      ∨ (∃ p ∈ positions, p.isIrregularGroupingStart = true ∧ st.startPos = p.position
          ∧ st.notesPlayed = p.notesPlayed ∧ st.notesPlayedOver = p.notesPlayedOver
          ∧ 1 ≤ st.positionCount))

/-- The guitar-ins with the staff-guitars flag of the systems before system `i`,
in the order in which `convertGuitarIns` goes through them. -/
def flaggedGuitarInsBefore (oldScore : PowerTabDocument.Score) (i : Nat) :
    List PowerTabDocument.GuitarIn :=
  (List.range i).flatMap (flaggedGuitarIns oldScore)

/-- The number of barlines of every system of a score. -/
def Score.bars (score : Score) : List Nat :=
  score.systems.map (fun system => system.barlines.length)

/-- The number of bars of a system with the given number of barlines: a bar
starts at every barline but the last.  The cursor also stops once in a system
that has fewer than two barlines. -/
def barStops (barlines : Nat) : Nat := max 1 (barlines - 1)

/-- The total number of bars of a score. -/
def Score.numBars (score : Score) : Nat := (score.bars.map barStops).sum

/-- The number of bars after the bar at barline `barlineIndex` of system
`systemIndex`, in a score with the given numbers of barlines. -/
def barsAfter (bars : List Nat) (systemIndex barlineIndex : Nat) : Nat :=
  ((bars.drop (systemIndex + 1)).map barStops).sum
    + (bars.getD systemIndex 0 - 2 - barlineIndex)

/-- The action `InsertNotes` adds no system and no barline and removes none. -/
def KeepsBars (ext : MergeExternals) : Prop :=
  ∀ (score : Score) (loc : ScoreLocation) (positions : List Position)
    (groups : List IrregularGrouping),
    (ext.insertNotes score loc positions groups).bars = score.bars

/-- The (system, barline) pair of the first cursor comes before that of the
second in lexicographic order. -/
def ScoreLocation.before (a b : ScoreLocation) : Prop :=
  a.systemIndex < b.systemIndex
    ∨ (a.systemIndex = b.systemIndex ∧ a.barlineIndex < b.barlineIndex)

/-! ## Positions of the merged score

What `merge` leaves in a voice is described by the positions the voice holds,
by position index; a voice that does not exist holds none. -/

/-- The positions of voice `voice` of a staff; none when there is no such
voice. -/
def Staff.positionsOf (staff : Staff) (voice : Nat) : List Position :=
  match staff.voices[voice]? with
  | none => []
  | some v => v.positions

/-- The positions of voice `voice` of staff `staff` of a system. -/
def System.positionsAt (system : System) (staff voice : Nat) : List Position :=
  match system.staves[staff]? with
  | none => []
  | some s => s.positionsOf voice

/-- The positions of voice `voice` of staff `staff` of system `sys` of a
score. -/
def Score.positionsAt (score : Score) (sys staff voice : Nat) : List Position :=
  match score.systems[sys]? with
  | none => []
  | some system => system.positionsAt staff voice

/-- The positions of a voice whose position index is in the range from `lo`
up to, not including, `hi`. -/
def Score.positionsIn (score : Score) (sys staff voice lo hi : Nat) : List Position :=
  (score.positionsAt sys staff voice).filter
    (fun p => decide (lo ≤ p.position) && decide (p.position < hi))

/-- The barlines of every system of a score. -/
def Score.barlinesOf (score : Score) : List (List Barline) :=
  score.systems.map (fun system => system.barlines)

/-- The action `InsertNotes` works on the voice it is called at: it leaves the
barlines of the score and the positions of every other voice alone. -/
def InsertsLocally (ext : MergeExternals) : Prop :=
  ∀ (score : Score) (loc : ScoreLocation) (positions : List Position)
    (groups : List IrregularGrouping),
    (ext.insertNotes score loc positions groups).barlinesOf = score.barlinesOf
    ∧ ∀ sys staff voice,
        ¬ (sys = loc.systemIndex ∧ staff = loc.staffIndex ∧ voice = loc.voiceIndex) →
        (ext.insertNotes score loc positions groups).positionsAt sys staff voice
          = score.positionsAt sys staff voice

/-- The action `InsertNotes` works on the bar it is called at: in the voice it
is called at, the positions outside the bar of the cursor are as before. -/
def InsertsInBar (ext : MergeExternals) : Prop :=
  InsertsLocally ext
  ∧ ∀ (score : Score) (loc : ScoreLocation) (positions : List Position)
      (groups : List IrregularGrouping) (bar nextBar : Barline) (lo hi : Nat),
      loc.getBarline score = some bar → loc.getNextBarline score = some nextBar →
      (hi ≤ bar.position ∨ nextBar.position ≤ lo) →
      (ext.insertNotes score loc positions groups).positionsIn loc.systemIndex loc.staffIndex
          loc.voiceIndex lo hi
        = score.positionsIn loc.systemIndex loc.staffIndex loc.voiceIndex lo hi

/-- What a part of an iteration of the loop of `merge` leaves alone, when the
iteration is at the bar from `lo` to `hi` of system `sys` and the part works on
the voices `touched`: the barlines and the positions of every other voice, and,
when `InsertNotes` works on its bar (`inBar`), in every voice the positions
outside the bar. -/
def StepFrame (inBar : Prop) (sys lo hi : Nat) (touched : Nat → Nat → Prop)
    (before after : Score) : Prop :=
  after.barlinesOf = before.barlinesOf
  ∧ (∀ s t v, ¬ (s = sys ∧ touched t v) → after.positionsAt s t v = before.positionsAt s t v)
  ∧ (inBar → ∀ s t v l h, (h ≤ lo ∨ hi ≤ l) →
      after.positionsIn s t v l h = before.positionsIn s t v l h)

/-- The bar of the cursor `loc`, whose barline is `bar`, ends at position `hi`:
the next barline of the system is there, and the bar has room for a position. -/
def NextBarAt (score : Score) (loc : ScoreLocation) (bar : Barline) (hi : Nat) : Prop :=
  ∃ nextBar, loc.getNextBarline score = some nextBar ∧ nextBar.position = hi
    ∧ bar.position + 1 < hi

/-- The positions of a source voice that `merge` finds in the source bar:
`ScoreUtils::findInRange(src_voice.getPositions(), src_bar->getPosition(),
next_src_bar->getPosition())`. -/
def positionsInBar (ext : MergeExternals) (srcBar nextSrcBar : Barline) (srcVoice : Voice) :
    List Position :=
  ScoreUtils.findInRange ext (fun p : Position => p.position) srcVoice.positions
    srcBar.position nextSrcBar.position

/-- The count that the check for a multi-bar rest gives for voice `w` of source
staff `j` when no count is running; 0 when there is no such voice. -/
def latchOf (ext : MergeExternals) (srcBar nextSrcBar : Barline) (staves : List Staff)
    (j w : Nat) : Nat :=
  match staves[j]? with
  | none => 0
  | some srcStaff =>
    match srcStaff.voices[w]? with
    | none => 0
    | some srcVoice => checkMultiBarRest (positionsInBar ext srcBar nextSrcBar srcVoice) 0

/-- The source bar holds no position of voice 0 of source staff `k`. -/
def EmptyInBar (ext : MergeExternals) (srcBar nextSrcBar : Barline) (staves : List Staff)
    (k : Nat) : Prop :=
  ∃ srcStaff srcVoice, staves[k]? = some srcStaff ∧ srcStaff.voices[0]? = some srcVoice
    ∧ positionsInBar ext srcBar nextSrcBar srcVoice = []

/-- The state at the head of iteration `k` of the loop of `merge`, counted from
the iteration that starts in state `st`: each of the `k` iterations before it
goes on to the next one.  The result is `none` when one of them leaves the loop
or ends in undefined behaviour. -/
def mergeIterations (ext : MergeExternals) (srcScore : Score)
    (numDestPlayers numDestInstruments : Nat) : Nat → MergeState → Option MergeState
  | 0, st => some st
  | k + 1, st =>
    match mergeIteration ext srcScore numDestPlayers numDestInstruments st with
    | some (MergeStep.next st) =>
      mergeIterations ext srcScore numDestPlayers numDestInstruments k st
    | _ => none

/-- The exact base-2 logarithm, rounded down, of a number below `2 ^ fuel`. -/
def log2Floor : Nat → Nat → Nat
  | 0, _ => 0
  | fuel + 1, i => if i < 2 then 0 else 1 + log2Floor fuel (i / 2)

/-- Sample collaborators: 128 preset names, seven guitars, and the exact base-2
logarithm for `log2`. -/
def sampleExternals : Externals :=
  { presetNames := List.replicate 128 "Preset"
    MAX_NUM_GUITARS := 7
    log2 := fun i => (log2Floor 32 i : Nat) }

/-- A legacy chord text whose formula-modification word has exactly the bits
`extended9th | suspended4th`. -/
def sampleChordText : PowerTabDocument.ChordText :=
  { position := 4
    chordName := { (default : PowerTabDocument.ChordName) with
                   formulaModifications := 0x8001 } }

/-- A legacy barline at `position` whose key and time signature are shown. -/
def sampleBarline (position : Nat) : PowerTabDocument.Barline :=
  { (default : PowerTabDocument.Barline) with
    position := position
    keySignature := { (default : PowerTabDocument.KeySignature) with
                      keyAccidentalsIncludingCancel := 2, isShown := true }
    timeSignature := { (default : PowerTabDocument.TimeSignature) with
                       beatsPerMeasure := 3, beatAmount := 4, isShown := true } }

/-- A legacy system with one interior barline at position 10; the key signature
of its end bar is shown and has no accidentals. -/
def sampleSystem : PowerTabDocument.System :=
  { (default : PowerTabDocument.System) with
    endBar := { (default : PowerTabDocument.Barline) with
                keySignature := { (default : PowerTabDocument.KeySignature) with
                                  isShown := true } }
    barlines := [sampleBarline 10] }

/-- A legacy score holding `sampleSystem` and nothing else. -/
def sampleScore : PowerTabDocument.Score :=
  { (default : PowerTabDocument.Score) with systems := [sampleSystem] }

/-- A legacy position at `position` (an eighth note without notes). -/
def samplePosition (position : Nat) : PowerTabDocument.Position :=
  { (default : PowerTabDocument.Position) with position := position, durationType := 8 }

/-- A legacy system with two six-string staves, positions up to 12 and no
interior barline. -/
def sampleStaffSystem : PowerTabDocument.System :=
  { (default : PowerTabDocument.System) with
    staves :=
      [{ clef := 0, tablatureStaffType := 6,
         positions := [[samplePosition 0, samplePosition 12], []] },
       { clef := 1, tablatureStaffType := 6, positions := [[samplePosition 8], []] }] }

/-- A legacy score with two guitars (presets 24 and 30), the system
`sampleStaffSystem`, and two guitar-ins in it: guitar 0 enters on staff 0 at
position 0, guitar 1 on staff 1 at position 8. -/
def sampleGuitarScore : PowerTabDocument.Score :=
  { (default : PowerTabDocument.Score) with
    guitars :=
      [{ (default : PowerTabDocument.Guitar) with
         description := "Lead", preset := 24, initialVolume := 96 },
       { (default : PowerTabDocument.Guitar) with
         description := "Rhythm", preset := 30, initialVolume := 80 }]
    systems := [sampleStaffSystem]
    guitarIns :=
      [{ system := 0, staff := 0, position := 0, hasStaffGuitarsSet := true,
         staffGuitars := 1 },
       { system := 0, staff := 1, position := 8, hasStaffGuitarsSet := true,
         staffGuitars := 2 }] }

/-- The score `convert` leaves behind for `sampleGuitarScore` (the empty score if
the conversion did not finish). -/
def sampleConvertedScore : Score :=
  match convertScore sampleExternals sampleGuitarScore default with
  | Outcome.done score => score
  | _ => default

/-- A target score with one freshly constructed system. -/
def sampleTargetScore : Score :=
  { players := [], instruments := [], systems := [default] }

/-- A legacy system with one staff (positions 0 and 12) and no interior
barline. -/
def sampleDynamicSystem : PowerTabDocument.System :=
  { (default : PowerTabDocument.System) with
    staves := [{ clef := 0, tablatureStaffType := 6,
                 positions := [[samplePosition 0, samplePosition 12], []] }] }

/-- A legacy score holding `sampleDynamicSystem` and one dynamic in it, at
position 40 of staff 0, that only sets the rhythm-slash volume. -/
def sampleDynamicScore : PowerTabDocument.Score :=
  { (default : PowerTabDocument.Score) with
    systems := [sampleDynamicSystem]
    dynamics := [{ system := 0, staff := 0, position := 40, isStaffVolumeSet := false,
                   staffVolume := 255 }] }

/-- A legacy score holding `sampleStaffSystem` (two staves) with three dynamics
in it: a staff dynamic on staff 0 at position 0, a staff dynamic on staff 1 at
position 4, and a rhythm-slash-only dynamic on staff 0 at position 8. -/
def sampleStaffDynamicsScore : PowerTabDocument.Score :=
  { (default : PowerTabDocument.Score) with
    systems := [sampleStaffSystem]
    dynamics :=
      [{ system := 0, staff := 0, position := 0, isStaffVolumeSet := true, staffVolume := 96 },
       { system := 0, staff := 1, position := 4, isStaffVolumeSet := true, staffVolume := 80 },
       { system := 0, staff := 0, position := 8, isStaffVolumeSet := false,
         staffVolume := 255 }] }

/-- A legacy position with the given irregular-grouping tags (start, middle,
end) and the timing 3 over 2. -/
def sampleTaggedPosition (position : Nat) (start middle last : Bool) :
    PowerTabDocument.Position :=
  { (default : PowerTabDocument.Position) with
    position := position, durationType := 8,
    isIrregularGroupingStart := start, isIrregularGroupingMiddle := middle,
    isIrregularGroupingEnd := last, notesPlayed := 3, notesPlayedOver := 2 }

/-- A voice read as items: a plain position at 0, a triplet at 2, 4, 6, and a
plain position at 8. -/
def sampleGroupedItems : List VoiceItem :=
  [VoiceItem.plain (samplePosition 0),
   VoiceItem.group (sampleTaggedPosition 2 true false false)
     [sampleTaggedPosition 4 false true false] (sampleTaggedPosition 6 false false true),
   VoiceItem.plain (samplePosition 8)]

/-- A legacy staff whose first voice holds the positions of `sampleGroupedItems`. -/
def sampleGroupedStaff : PowerTabDocument.Staff :=
  { clef := 0, tablatureStaffType := 6,
    positions := [sampleGroupedItems.flatMap VoiceItem.positions, []] }

/-- A legacy staff whose first voice holds the positions of `sampleGroupedItems`
followed by a group that is started at 10 and never ended. -/
def sampleOpenGroupStaff : PowerTabDocument.Staff :=
  { clef := 0, tablatureStaffType := 6,
    positions :=
      [sampleGroupedItems.flatMap VoiceItem.positions
         ++ [sampleTaggedPosition 10 true false false, sampleTaggedPosition 12 false true false],
       []] }

/-- A legacy score with one guitar and one system whose only guitar-in, on staff
0 at position 0, has the mask 0b10: it names guitar 1, which the score does not
have. -/
def sampleStrayMaskScore : PowerTabDocument.Score :=
  { (default : PowerTabDocument.Score) with
    guitars :=
      [{ (default : PowerTabDocument.Guitar) with
         description := "Lead", preset := 24, initialVolume := 96 }]
    systems := [sampleStaffSystem]
    guitarIns :=
      [{ system := 0, staff := 0, position := 0, hasStaffGuitarsSet := true,
         staffGuitars := 2 }] }

/-- The score `convert` leaves behind for `sampleStrayMaskScore` (the empty score
if the conversion did not finish). -/
def sampleStrayMaskConverted : Score :=
  match convertScore sampleExternals sampleStrayMaskScore default with
  | Outcome.done score => score
  | _ => default

/-- The score `sampleGuitarScore` with one guitar-in only, at position 5 of system
0, that affects rhythm slashes only. -/
def sampleSlashOnlyScore : PowerTabDocument.Score :=
  { sampleGuitarScore with
    guitarIns :=
      [{ system := 0, staff := 0, position := 5, hasStaffGuitarsSet := false,
         staffGuitars := 0 }] }

/-- The score `sampleGuitarScore` with a guitar-in at position 2 that affects
rhythm slashes only, followed by one at position 8 that puts guitar 0 on staff
0. -/
def sampleSlashFirstScore : PowerTabDocument.Score :=
  { sampleGuitarScore with
    guitarIns :=
      [{ system := 0, staff := 0, position := 2, hasStaffGuitarsSet := false,
         staffGuitars := 0 },
       { system := 0, staff := 0, position := 8, hasStaffGuitarsSet := true,
         staffGuitars := 1 }] }

/-- The score with `f` applied to the voice a location names; the score itself
when the location names no staff. -/
def Score.modifyVoiceAt (score : Score) (loc : ScoreLocation) (f : Voice → Voice) : Score :=
  match score.systems[loc.systemIndex]? with
  | none => score
  | some system =>
    match system.staves[loc.staffIndex]? with
    | none => score
    | some staff =>
      score.setSystem loc.systemIndex
        (system.setStaff loc.staffIndex (staff.modifyVoice loc.voiceIndex f))

/-- A sample of the collaborators of the merger.  A range holds both its bounds;
the current players are those of the last change of the system at or before the
position; `InsertNotes` appends the positions and groups to the voice at the
location. -/
def sampleMergeExternals : MergeExternals :=
  { inRange := fun position left right => decide (left ≤ position) && decide (position ≤ right)
    getIrregularGroupsInRange := fun voice left right =>
      voice.irregularGroupings.filter
        (fun g => decide (left ≤ g.position) && decide (g.position ≤ right))
    getCurrentPlayers := fun score systemIndex positionIndex =>
      match score.systems[systemIndex]? with
      | none => none
      | some system =>
        (system.playerChanges.filter (fun c => decide (c.position ≤ positionIndex))).getLast?
    insertNotes := fun score loc positions groups =>
      score.modifyVoiceAt loc
        (fun voice => ⟨voice.positions ++ positions, voice.irregularGroupings ++ groups⟩) }

/-- A quarter note position without notes at the given position index. -/
def sampleNotePosition (position : Nat) : Position :=
  { position := position, durationType := 4, properties := [], multiBarRest := none,
    notes := [] }

/-- A rest at the given position index that stands for `count` bars. -/
def sampleMultiBarRest (position count : Nat) : Position :=
  { position := position, durationType := 1,
    properties := [Position.SimpleProperty.Rest], multiBarRest := some count, notes := [] }

/-- A staff with the given string count and clef and the given positions in its
two voices. -/
def sampleMergeStaff (stringCount clefType : Nat) (first second : List Position) : Staff :=
  { (default : Staff) with
    stringCount := stringCount, clefType := clefType,
    voices := [⟨first, []⟩, ⟨second, []⟩] }

/-- A system with barlines at the given positions and the given staves. -/
def sampleMergeSystem (barlines : List Nat) (staves : List Staff) : System :=
  { (default : System) with
    barlines := barlines.map (fun p => { (default : Barline) with position := p }),
    staves := staves }

/-- A guitar score: one player, one instrument, one system with two bars (barlines
at 0, 10 and 20) and one six-string staff with a note in each bar. -/
def sampleMergeGuitar : Score :=
  { players := [default], instruments := [default],
    systems :=
      [sampleMergeSystem [0, 10, 20]
        [sampleMergeStaff 6 0 [sampleNotePosition 1, sampleNotePosition 11] []]] }

/-- A bass score that matches `sampleMergeGuitar` bar by bar: one four-string
staff with a note in the first bar and nothing in the second. -/
def sampleMergeBass : Score :=
  { players := [default], instruments := [default],
    systems := [sampleMergeSystem [0, 10, 20] [sampleMergeStaff 4 1 [sampleNotePosition 1] []]] }

/-- A bass score whose first system holds no position at all. -/
def sampleUnusedBass : Score :=
  { players := [default], instruments := [default],
    systems := [sampleMergeSystem [0, 10, 20] [sampleMergeStaff 4 1 [] []]] }

/-- The destination score after the first bar of `sampleMergeBass` has been
merged into `sampleMergeGuitar`: the bass player and instrument are there, and
the system has the bass staff with the note of the first bar. -/
def sampleMergeAfterFirstBar : Score :=
  { players := [default, default], instruments := [default, default],
    systems :=
      [sampleMergeSystem [0, 10, 20]
        [sampleMergeStaff 6 0 [sampleNotePosition 1, sampleNotePosition 11] [],
         { sampleMergeStaff 4 1 [sampleNotePosition 1] [] with
           viewType := Staff.ViewType.BassView }]] }

/-- The destination score after `sampleMergeBass` has been merged into
`sampleMergeGuitar`: the second bar of the bass staff holds the whole rest at
position 11. -/
def sampleMergeResult : Score :=
  { players := [default, default], instruments := [default, default],
    systems :=
      [sampleMergeSystem [0, 10, 20]
        [sampleMergeStaff 6 0 [sampleNotePosition 1, sampleNotePosition 11] [],
         { sampleMergeStaff 4 1 [sampleNotePosition 1, wholeRest 11] [] with
           viewType := Staff.ViewType.BassView }]] }

/-- A guitar score with one system of three bars (barlines at 0, 10, 20 and 30)
and one six-string staff with a note in each bar. -/
def sampleLongGuitar : Score :=
  { players := [default], instruments := [default],
    systems :=
      [sampleMergeSystem [0, 10, 20, 30]
        [sampleMergeStaff 6 0
          [sampleNotePosition 1, sampleNotePosition 11, sampleNotePosition 21] []]] }

/-- A bass score of two bars (barlines at 0, 10 and 20): the first bar holds a
rest that stands for two bars, the second a note. -/
def sampleRestBass : Score :=
  { players := [default], instruments := [default],
    systems :=
      [sampleMergeSystem [0, 10, 20]
        [sampleMergeStaff 4 1 [sampleMultiBarRest 1 2, sampleNotePosition 11] []]] }

/-- A bass score of two bars whose first bar holds a note in voice 0 and, in
voice 1, a rest that stands for two bars. -/
def sampleSecondVoiceRestBass : Score :=
  { players := [default], instruments := [default],
    systems :=
      [sampleMergeSystem [0, 10, 20]
        [sampleMergeStaff 4 1 [sampleNotePosition 1] [sampleMultiBarRest 2 2]]] }

/-- The state of the loop of `merge` after the first bar of `sampleRestBass` has
been merged into `sampleLongGuitar` (the entry state if the iteration does not
go on). -/
def sampleRestState : MergeState :=
  match mergeIteration sampleMergeExternals sampleRestBass 1 1
      (initialMergeState
        { sampleLongGuitar with players := [default, default],
                                instruments := [default, default] }) with
  | some (MergeStep.next st) => st
  | _ => initialMergeState default

/-- The positions of the voices of every staff of every system of a merged
score, as (position index, duration type, multi-bar rest) triples; nothing when
the merge did not finish. -/
def MergeResult.voicePositions (r : MergeResult) :
    List (List (List (List (Nat × Nat × Option Nat)))) :=
  match r with
  | MergeResult.merged score =>
    score.systems.map (fun system => system.staves.map (fun staff => staff.voices.map
      (fun voice => voice.positions.map (fun p => (p.position, p.durationType, p.multiBarRest)))))
  | _ => []

/-- A bass score of two systems of one bar each (barlines at 0 and 10): the first
system has one four-string staff, the second a four-string and a five-string
staff. -/
def sampleTwoSystemBass : Score :=
  { players := [default], instruments := [default],
    systems :=
      [sampleMergeSystem [0, 10] [sampleMergeStaff 4 1 [sampleNotePosition 1] []],
       sampleMergeSystem [0, 10]
        [sampleMergeStaff 4 1 [sampleNotePosition 1] [],
         sampleMergeStaff 5 1 [sampleNotePosition 2] []]] }

/-- The shapes of the staves of every system of a merged score; nothing when the
merge did not finish. -/
def MergeResult.staffShapes (r : MergeResult) :
    List (List (Nat × Nat × Staff.ViewType × Nat)) :=
  match r with
  | MergeResult.merged score => score.systems.map (fun system => system.staves.map Staff.shape)
  | _ => []

/-- The score `sampleGuitarScore` (two guitars) with one guitar-in only, at the
start of system 0 on staff 0: its flag is set and its mask 0b100 names guitar
2, which the score does not have. -/
def sampleBeyondMaskScore : PowerTabDocument.Score :=
  { sampleGuitarScore with
    guitarIns :=
      [{ system := 0, staff := 0, position := 0, hasStaffGuitarsSet := true,
         staffGuitars := 4 }] }

/-- A target score with one system of two fresh staves. -/
def sampleSeedTarget : Score :=
  { players := [], instruments := [],
    systems := [{ (default : System) with staves := [default, default] }] }

/-- The score `sampleGuitarScore` with a dynamic at the very start of system 0,
where its first guitar-in is. -/
def sampleEarlyDynamicScore : PowerTabDocument.Score :=
  { sampleGuitarScore with
    dynamics := [{ (default : PowerTabDocument.Dynamic) with system := 0, position := 0 }] }

/-- The system of `sampleMergeGuitar` with a player change at its start: player 0
with instrument 0 on staff 0. -/
def sampleChangeGuitarSystem : System :=
  { sampleMergeSystem [0, 10, 20]
      [sampleMergeStaff 6 0 [sampleNotePosition 1, sampleNotePosition 11] []] with
    playerChanges := [{ position := 0, activePlayers := [(0, ⟨0, 0⟩)] }] }

/-- The system of `sampleMergeBass` with a player change at its start: player 0
with instrument 0 on staff 0. -/
def sampleChangeBassSystem : System :=
  { sampleMergeSystem [0, 10, 20] [sampleMergeStaff 4 1 [sampleNotePosition 1] []] with
    playerChanges := [{ position := 0, activePlayers := [(0, ⟨0, 0⟩)] }] }

/-- A guitar score of the one system `sampleChangeGuitarSystem`. -/
def sampleChangeGuitar : Score :=
  { players := [default], instruments := [default], systems := [sampleChangeGuitarSystem] }

/-- A bass score of the one system `sampleChangeBassSystem`. -/
def sampleChangeBass : Score :=
  { players := [default], instruments := [default], systems := [sampleChangeBassSystem] }

/-- A bass score of one bar (barlines at 0 and 10) with a note in it. -/
def sampleOneBarBass : Score :=
  { players := [default], instruments := [default],
    systems := [sampleMergeSystem [0, 10] [sampleMergeStaff 4 1 [sampleNotePosition 1] []]] }

/-- The cursors an iteration of the loop of `merge` goes on with, source first;
nothing when the loop is left or the iteration fails. -/
def MergeStep.cursors? : Option MergeStep → Option (ScoreLocation × ScoreLocation)
  | some (MergeStep.next st) => some (st.srcLoc, st.destLoc)
  | _ => none

/-- Enumerator values in the order the specification lists them. -/
def sampleHeaderConstants : HeaderConstants :=
  { FILETYPE_SONG := 0, FILETYPE_LESSON := 1, RELEASETYPE_PUBLIC_AUDIO := 0,
    RELEASETYPE_PUBLIC_VIDEO := 1, RELEASETYPE_BOOTLEG := 2, AUTHORTYPE_TRADITIONAL := 1 }

/-- A header with the given file type: a song by a known composer released as a
bootleg, and the lesson fields filled in as well. -/
def sampleHeader (fileType : Nat) : PowerTabDocument.PowerTabFileHeader :=
  { (default : PowerTabDocument.PowerTabFileHeader) with
    fileType := fileType, songTitle := "Song", songArtist := "Artist", songReleaseType := 2,
    songBootlegTitle := "Tape", songBootlegDate := ⟨1999, 12, 31⟩, songComposer := "Composer",
    songLyricist := "Lyricist", lessonTitle := "Lesson", lessonSubtitle := "Scales",
    lessonMusicStyle := 3, lessonLevel := 2, lessonAuthor := "Teacher" }

/-- A legacy document with a single score. -/
def sampleOneScoreDocument : PowerTabDocument.Document :=
  { header := sampleHeader 0, tablatureStaffLineSpacing := 9, scores := [sampleGuitarScore] }

/-- The caller's score before `load`: a lesson info, line spacing 6, no content. -/
def sampleCallerScore : LoadedScore :=
  { scoreInfo := ScoreInfo.lesson
      { title := "Old", subtitle := "", musicStyle := 0, difficultyLevel := 0, author := "",
        notes := "", copyright := "" },
    lineSpacing := 6, score := default }

/-- Three rhythm nodes, the first and the last with the same id. -/
def sampleRhythmNodes : List Gpx.RhythmNode :=
  [⟨0, "Quarter"⟩, ⟨1, "16th"⟩, ⟨0, "Half"⟩]

/-- A legacy staff whose first voice is a single position at 4 that is flagged
as the end of an irregular grouping. -/
def sampleStrayEndStaff : PowerTabDocument.Staff :=
  { clef := 0, tablatureStaffType := 6,
    positions := [[sampleTaggedPosition 4 false false true], []] }

/-- A legacy score of three systems with two guitars: guitar 0 comes in on staff
0 in the first system, the second system has no guitar-in, and guitar 1 comes in
on staff 1 in the third system. -/
def sampleCarryScore : PowerTabDocument.Score :=
  { sampleGuitarScore with
    systems := [sampleStaffSystem, sampleStaffSystem, sampleStaffSystem]
    guitarIns :=
      [{ system := 0, staff := 0, position := 0, hasStaffGuitarsSet := true,
         staffGuitars := 1 },
       { system := 2, staff := 1, position := 4, hasStaffGuitarsSet := true,
         staffGuitars := 2 }] }

/-- A target score with three freshly constructed systems. -/
def sampleCarryTarget : Score :=
  { players := [], instruments := [], systems := [default, default, default] }

/-- A legacy score with one guitar and the one system `sampleDynamicSystem`
(positions 0 and 12, no interior barline), no dynamic, and a guitar-in for
guitar 0 on staff 0 at position 40. -/
def sampleLateGuitarInScore : PowerTabDocument.Score :=
  { (default : PowerTabDocument.Score) with
    guitars :=
      [{ (default : PowerTabDocument.Guitar) with
         description := "Lead", preset := 24, initialVolume := 96 }]
    systems := [sampleDynamicSystem]
    guitarIns :=
      [{ system := 0, staff := 0, position := 40, hasStaffGuitarsSet := true,
         staffGuitars := 1 }] }

/-- The score `convert` leaves behind for `sampleLateGuitarInScore` (the empty
score if the conversion did not finish). -/
def sampleLateGuitarInConverted : Score :=
  match convertScore sampleExternals sampleLateGuitarInScore default with
  | Outcome.done score => score
  | _ => default

/-- A legacy guitar whose preset 200 is beyond the 128 General MIDI presets. -/
def sampleBadPresetGuitar : PowerTabDocument.Guitar :=
  { (default : PowerTabDocument.Guitar) with description := "Lead", preset := 200 }

/-- A barline at the given position, as `sampleMergeSystem` makes them. -/
def sampleMergeBarline (position : Nat) : Barline :=
  { (default : Barline) with position := position }

/-- The state in which the loop of `merge` is entered when `sampleRestBass` is
merged into `sampleLongGuitar`. -/
def sampleRestEntry : MergeState :=
  initialMergeState
    { sampleLongGuitar with players := [default, default], instruments := [default, default] }

/-- The state at the end of the staff loop of the first iteration for
`sampleRestBass` and `sampleLongGuitar` (the entry state if the staff loop does
not finish). -/
def sampleRestLatched : MergeState :=
  (mergeBar sampleMergeExternals sampleRestBass 1 1 sampleRestEntry).getD sampleRestEntry

/-- The state at the end of the staff loop of the second iteration for
`sampleRestBass` and `sampleLongGuitar`. -/
def sampleRestRunning : MergeState :=
  (mergeBar sampleMergeExternals sampleRestBass 1 1 sampleRestState).getD sampleRestEntry

/-- The state at the head of the third iteration for `sampleRestBass` and
`sampleLongGuitar`. -/
def sampleRestEnd : MergeState :=
  (mergeIterations sampleMergeExternals sampleRestBass 1 1 2 sampleRestEntry).getD
    sampleRestEntry

/-- For the twelve legacy keys the result of `convertKey` does not depend on the
values the output arguments held on entry. -/
theorem convertKey_entry_irrelevant (oldKey oldVariation : Nat) (h : oldKey < 12)
    (key variation : Int) :
    convertKey oldKey oldVariation key variation = convertKey oldKey oldVariation 0 0 := by
  interval_cases oldKey <;> rfl

/-- C7: with legacy variation Normal, `convertKey` returns exactly the entry of
the base mapping table, for each of the twelve legacy keys. -/
theorem convertKey_normal_is_base_table (key variation : Int) :
    convertKey PowerTabDocument.ChordName.C PowerTabDocument.ChordName.variationDefault
        key variation = (ChordName.C, ChordName.NoVariation)
    ∧ convertKey PowerTabDocument.ChordName.CSharp PowerTabDocument.ChordName.variationDefault
        key variation = (ChordName.C, ChordName.Sharp)
    ∧ convertKey PowerTabDocument.ChordName.D PowerTabDocument.ChordName.variationDefault
        key variation = (ChordName.D, ChordName.NoVariation)
    ∧ convertKey PowerTabDocument.ChordName.EFlat PowerTabDocument.ChordName.variationDefault
        key variation = (ChordName.E, ChordName.Flat)
    ∧ convertKey PowerTabDocument.ChordName.E PowerTabDocument.ChordName.variationDefault
        key variation = (ChordName.E, ChordName.NoVariation)
    ∧ convertKey PowerTabDocument.ChordName.F PowerTabDocument.ChordName.variationDefault
        key variation = (ChordName.F, ChordName.NoVariation)
    ∧ convertKey PowerTabDocument.ChordName.FSharp PowerTabDocument.ChordName.variationDefault
        key variation = (ChordName.F, ChordName.Sharp)
    ∧ convertKey PowerTabDocument.ChordName.G PowerTabDocument.ChordName.variationDefault
        key variation = (ChordName.G, ChordName.NoVariation)
    ∧ convertKey PowerTabDocument.ChordName.AFlat PowerTabDocument.ChordName.variationDefault
        key variation = (ChordName.A, ChordName.Flat)
    ∧ convertKey PowerTabDocument.ChordName.A PowerTabDocument.ChordName.variationDefault
        key variation = (ChordName.A, ChordName.NoVariation)
    ∧ convertKey PowerTabDocument.ChordName.BFlat PowerTabDocument.ChordName.variationDefault
        key variation = (ChordName.B, ChordName.Flat)
    ∧ convertKey PowerTabDocument.ChordName.B PowerTabDocument.ChordName.variationDefault
        key variation = (ChordName.B, ChordName.NoVariation) := by
  refine ⟨?_, ?_, ?_, ?_, ?_, ?_, ?_, ?_, ?_, ?_, ?_, ?_⟩ <;> rfl

/-- C6: with legacy variation Up, `convertKey` returns, for each of the twelve
legacy keys, the letter that cyclically follows the base-table letter (B wraps
to C) with the variation the specification gives (`Spec.convertUp`); in
particular (D, Up) gives (E, DoubleFlat), (C, Up) gives (D, DoubleFlat) and
(B, Up) gives (C, Flat). -/
theorem convertKey_up_follows_spec (oldKey : Fin 12) (key variation : Int) :
    convertKey oldKey.val PowerTabDocument.ChordName.variationUp key variation
        = Spec.convertUp oldKey.val
    ∧ convertKey PowerTabDocument.ChordName.D PowerTabDocument.ChordName.variationUp
        key variation = (ChordName.E, ChordName.DoubleFlat)
    ∧ convertKey PowerTabDocument.ChordName.C PowerTabDocument.ChordName.variationUp
        key variation = (ChordName.D, ChordName.DoubleFlat)
    ∧ convertKey PowerTabDocument.ChordName.B PowerTabDocument.ChordName.variationUp
        key variation = (ChordName.C, ChordName.Flat) := by
  refine ⟨?_, rfl, rfl, rfl⟩
  rw [convertKey_entry_irrelevant _ _ oldKey.isLt]
  revert oldKey
  decide

/-- C5 (evaluation at the failing inputs): with legacy variation Down the
specification asks for the letter that cyclically precedes the base-table
letter, C wrapping to B.  For the ten legacy keys whose base letter is not C the
code returns exactly that (`Spec.convertDown`).  For legacy C and C sharp,
`(key - 1) % NumKeys` is `-1 % 7 = -1` in C++: the code returns the key value
`-1` with DoubleSharp, where the specification gives (B, Sharp) and
(B, DoubleSharp). -/
theorem convertKey_down_wraps_to_minus_one (key variation : Int) :
    convertKey PowerTabDocument.ChordName.C PowerTabDocument.ChordName.variationDown
        key variation = (-1, ChordName.DoubleSharp)
    ∧ Spec.convertDown PowerTabDocument.ChordName.C = (ChordName.B, ChordName.Sharp)
    ∧ convertKey PowerTabDocument.ChordName.CSharp PowerTabDocument.ChordName.variationDown
        key variation = (-1, ChordName.DoubleSharp)
    ∧ Spec.convertDown PowerTabDocument.ChordName.CSharp
        = (ChordName.B, ChordName.DoubleSharp)
    ∧ (∀ oldKey : Fin 12, 2 ≤ oldKey.val →
        convertKey oldKey.val PowerTabDocument.ChordName.variationDown key variation
          = Spec.convertDown oldKey.val)
    ∧ convertKey PowerTabDocument.ChordName.D PowerTabDocument.ChordName.variationDown
        key variation = (ChordName.C, ChordName.DoubleSharp)
    ∧ convertKey PowerTabDocument.ChordName.F PowerTabDocument.ChordName.variationDown
        key variation = (ChordName.E, ChordName.Sharp) := by
  refine ⟨rfl, rfl, rfl, rfl, ?_, rfl, rfl⟩
  intro oldKey
  rw [convertKey_entry_irrelevant _ _ oldKey.isLt]
  revert oldKey
  decide

/-- C4 (evaluation at the failing inputs): for the twelve legacy keys and the
three legacy variations (Down, Normal, Up) the returned variation is always one
of the five variations, and the returned key is one of the seven letters exactly
when the input is not (C, Down) or (C sharp, Down); at (C sharp, Down) the key
value is `-1`, which names no letter. -/
theorem convertKey_valid_pair_iff (oldKey : Fin 12) (oldVariation : Fin 3)
    (key variation : Int) :
    ChordName.isVariation (convertKey oldKey.val oldVariation.val key variation).2
    ∧ (ChordName.isKey (convertKey oldKey.val oldVariation.val key variation).1 ↔
        ¬ (oldVariation.val = PowerTabDocument.ChordName.variationDown
            ∧ (oldKey.val = PowerTabDocument.ChordName.C
                ∨ oldKey.val = PowerTabDocument.ChordName.CSharp)))
    ∧ (convertKey PowerTabDocument.ChordName.CSharp
          PowerTabDocument.ChordName.variationDown key variation).1 = -1
    ∧ ¬ ChordName.isKey (convertKey PowerTabDocument.ChordName.CSharp
          PowerTabDocument.ChordName.variationDown key variation).1 := by
  rw [convertKey_entry_irrelevant _ _ oldKey.isLt,
    convertKey_entry_irrelevant PowerTabDocument.ChordName.CSharp _ (by decide)]
  revert oldKey oldVariation
  decide

/-! ### Formula modifications -/

/-- Testing a single-bit flag is testing that bit of the flag word. -/
theorem isFormulaModificationFlagSet_two_pow (n : PowerTabDocument.ChordName) (k : Nat) :
    n.isFormulaModificationFlagSet (2 ^ k) = n.formulaModifications.testBit k := by
  unfold PowerTabDocument.ChordName.isFormulaModificationFlagSet
  rw [Nat.and_two_pow]
  cases h : n.formulaModifications.testBit k <;> simp
  exact (Nat.two_pow_pos k).ne

/-- Membership in the modification set after `setModification`. -/
theorem mem_setModification (n : ChordName) (x m : Int) :
    m ∈ (n.setModification x).modifications ↔ m ∈ n.modifications ∨ m = x := by
  unfold ChordName.setModification
  by_cases hx : x ∈ n.modifications
  · simp only [hx, if_true]
    constructor
    · exact Or.inl
    · rintro (h | h)
      · exact h
      · exact h ▸ hx
  · simp [hx]

/-- The formula-modification loop entered at `i = 2 ^ j` ends within its fuel and
adds exactly the values `log2 (2 ^ k)` of the set bits `k` with `j ≤ k ≤ 15`,
touching no other field of the chord name. -/
theorem formulaModificationLoop_spec (ext : Externals)
    (oldName : PowerTabDocument.ChordName) :
    ∀ (d j fuel : Nat) (name : ChordName), j + d = 16 → d < fuel →
      ∃ result, formulaModificationLoop ext oldName fuel (2 ^ j) name = some result
        ∧ (∀ m : Int, m ∈ result.modifications ↔
            m ∈ name.modifications
              ∨ ∃ k, j ≤ k ∧ k ≤ 15 ∧ oldName.formulaModifications.testBit k = true
                  ∧ m = ext.log2 (2 ^ k))
        ∧ result.tonicKey = name.tonicKey ∧ result.tonicVariation = name.tonicVariation
        ∧ result.bassKey = name.bassKey ∧ result.bassVariation = name.bassVariation
        ∧ result.formula = name.formula ∧ result.brackets = name.brackets
        ∧ result.noChord = name.noChord := by
  intro d
  induction d with
  | zero =>
    intro j fuel name hj hf
    obtain ⟨fuel, rfl⟩ : ∃ f, fuel = f + 1 := ⟨fuel - 1, by omega⟩
    have hj16 : j = 16 := by omega
    subst hj16
    refine ⟨name, ?_, ?_, rfl, rfl, rfl, rfl, rfl, rfl, rfl⟩
    · simp [formulaModificationLoop, PowerTabDocument.ChordName.suspended4th]
    · intro m
      constructor
      · exact Or.inl
      · rintro (h | ⟨k, hk1, hk2, _⟩)
        · exact h
        · omega
  | succ d ih =>
    intro j fuel name hj hf
    obtain ⟨fuel, rfl⟩ : ∃ f, fuel = f + 1 := ⟨fuel - 1, by omega⟩
    have hj15 : j ≤ 15 := by omega
    have hle : 2 ^ j ≤ PowerTabDocument.ChordName.suspended4th := by
      have : (2 : Nat) ^ j ≤ 2 ^ 15 := Nat.pow_le_pow_right (by norm_num) hj15
      simpa [PowerTabDocument.ChordName.suspended4th] using this
    have hnext : 2 ^ j * 2 % 2 ^ 32 = 2 ^ (j + 1) := by
      rw [← pow_succ]
      exact Nat.mod_eq_of_lt (Nat.pow_lt_pow_right (by norm_num) (by omega))
    obtain ⟨result, hres, hmem, h1, h2, h3, h4, h5, h6, h7⟩ :=
      ih (j + 1) fuel
        (if oldName.isFormulaModificationFlagSet (2 ^ j) then
          name.setModification (ext.log2 (2 ^ j)) else name)
        (by omega) (by omega)
    refine ⟨result, ?_, ?_, ?_⟩
    · rw [formulaModificationLoop, if_pos hle, hnext]
      exact hres
    · intro m
      rw [hmem, isFormulaModificationFlagSet_two_pow]
      constructor
      · rintro (h | ⟨k, hk1, hk2, hk3, hk4⟩)
        · by_cases hbit : oldName.formulaModifications.testBit j = true
          · rw [if_pos hbit, mem_setModification] at h
            rcases h with h | h
            · exact Or.inl h
            · exact Or.inr ⟨j, le_refl j, hj15, hbit, h⟩
          · rw [if_neg hbit] at h
            exact Or.inl h
        · exact Or.inr ⟨k, by omega, hk2, hk3, hk4⟩
      · rintro (h | ⟨k, hk1, hk2, hk3, hk4⟩)
        · left
          by_cases hbit : oldName.formulaModifications.testBit j = true
          · rw [if_pos hbit, mem_setModification]
            exact Or.inl h
          · rw [if_neg hbit]
            exact h
        · by_cases hkj : k = j
          · subst hkj
            left
            rw [if_pos hk3, mem_setModification]
            exact Or.inr hk4
          · exact Or.inr ⟨k, by omega, hk2, hk3, hk4⟩
    · by_cases hbit : oldName.isFormulaModificationFlagSet (2 ^ j) = true
      · simp only [hbit, if_true, ChordName.setModification] at h1 h2 h3 h4 h5 h6 h7
        exact ⟨h1, h2, h3, h4, h5, h6, h7⟩
      · simp only [hbit] at h1 h2 h3 h4 h5 h6 h7
        exact ⟨h1, h2, h3, h4, h5, h6, h7⟩

/-- The formula-modification loop of `convert(ChordText)` always ends. -/
theorem convertFormulaModifications_isSome (ext : Externals)
    (oldName : PowerTabDocument.ChordName) (name : ChordName) :
    (convertFormulaModifications ext oldName name).isSome = true := by
  obtain ⟨result, hres, _⟩ :=
    formulaModificationLoop_spec ext oldName 16 0 33 name (by norm_num) (by norm_num)
  simp only [convertFormulaModifications, PowerTabDocument.ChordName.extended9th]
  rw [show (1 : Nat) = 2 ^ 0 from rfl, hres]
  rfl

/-- The modification set of a converted chord text, for any `log2`. -/
theorem convertChordText_modifications (ext : Externals)
    (oldChord : PowerTabDocument.ChordText) (chord : ChordText) (m : Int) :
    m ∈ (convertChordText ext oldChord chord).chordName.modifications ↔
      ∃ k, k ≤ 15 ∧ oldChord.chordName.formulaModifications.testBit k = true
        ∧ m = ext.log2 (2 ^ k) := by
  obtain ⟨result, hres, hmem, _⟩ :=
    formulaModificationLoop_spec ext oldChord.chordName 16 0 33
      { (default : ChordName) with
        tonicKey := (convertKey oldChord.chordName.tonic oldChord.chordName.tonicVariation
          indeterminate indeterminate).1
        tonicVariation := (convertKey oldChord.chordName.tonic
          oldChord.chordName.tonicVariation indeterminate indeterminate).2
        bassKey := (convertKey oldChord.chordName.bassNote
          oldChord.chordName.bassNoteVariation indeterminate indeterminate).1
        bassVariation := (convertKey oldChord.chordName.bassNote
          oldChord.chordName.bassNoteVariation indeterminate indeterminate).2
        formula := oldChord.chordName.formula }
      (by norm_num) (by norm_num)
  have hconv : (convertChordText ext oldChord chord).chordName.modifications
      = result.modifications := by
    simp only [convertChordText, convertFormulaModifications,
      PowerTabDocument.ChordName.extended9th]
    rw [show (1 : Nat) = 2 ^ 0 from rfl, hres]
    rfl
  rw [hconv, hmem]
  constructor
  · rintro (h | ⟨k, _, hk2, hk3, hk4⟩)
    · exact absurd h (List.not_mem_nil m)
    · exact ⟨k, hk2, hk3, hk4⟩
  · rintro ⟨k, hk2, hk3, hk4⟩
    exact Or.inr ⟨k, Nat.zero_le k, hk2, hk3, hk4⟩

/-! ### Lists and maxima -/

/-- Modifying the last element of a list that ends in `e`. -/
theorem modify_last_concat {α : Type} (f : α → α) (pre : List α) (e : α) :
    List.modify f ((pre ++ [e]).length - 1) (pre ++ [e]) = pre ++ [f e] := by
  induction pre with
  | nil => rfl
  | cons a pre ih =>
    have h : ((a :: pre) ++ [e]).length - 1 = ((pre ++ [e]).length - 1) + 1 := by simp
    rw [h, List.cons_append, List.modify_succ_cons, ih]
    rfl

/-- Folding `max` from `a` is `max a` of the fold from zero. -/
theorem foldl_max_eq (l : List Nat) (a : Nat) : l.foldl max a = max a (maxOf l) := by
  induction l generalizing a with
  | nil => simp [maxOf]
  | cons x l ih =>
    simp only [maxOf, List.foldl_cons]
    rw [ih, ih (max 0 x)]
    simp [max_assoc]

theorem maxOf_nil : maxOf [] = 0 := rfl

theorem maxOf_cons (x : Nat) (l : List Nat) : maxOf (x :: l) = max x (maxOf l) := by
  simp only [maxOf, List.foldl_cons]
  rw [foldl_max_eq]
  simp [maxOf]

theorem maxOf_append (l₁ l₂ : List Nat) :
    maxOf (l₁ ++ l₂) = max (maxOf l₁) (maxOf l₂) := by
  induction l₁ with
  | nil => simp [maxOf_nil]
  | cons x l ih => rw [List.cons_append, maxOf_cons, maxOf_cons, ih, max_assoc]

theorem maxOf_singleton (x : Nat) : maxOf [x] = x := by
  simp [maxOf_cons, maxOf_nil]

/-- Every element of a list is at most its maximum. -/
theorem le_maxOf_of_mem {l : List Nat} {x : Nat} (h : x ∈ l) : x ≤ maxOf l := by
  induction l with
  | nil => cases h
  | cons y l ih =>
    rw [maxOf_cons]
    rcases List.mem_cons.mp h with h | h
    · subst h
      exact le_max_left _ _
    · exact le_trans (ih h) (le_max_right _ _)

/-! ### Barlines of a converted system -/

/-- Inserting a barline into a system whose barlines end in the sentinel `e`. -/
theorem insertBarline_concat (sys : System) (pre : List Barline) (e b : Barline)
    (h : sys.barlines = pre ++ [e]) :
    sys.insertBarline b = { sys with barlines := pre ++ [b] ++ [e] } := by
  unfold System.insertBarline
  rw [h, List.dropLast_concat, List.getLast?_concat]
  rfl

/-- Modifying `getBarlines().back()` of a system whose barlines end in `e`. -/
theorem modifyLastBarline_concat (sys : System) (pre : List Barline) (e : Barline)
    (f : Barline → Barline) (h : sys.barlines = pre ++ [e]) :
    sys.modifyLastBarline f = { sys with barlines := pre ++ [f e] } := by
  unfold System.modifyLastBarline
  rw [h, modify_last_concat]

/-- Copying the signatures of `bar` into the end sentinel `e`. -/
theorem copySignaturesToEndBar_concat (sys : System) (pre : List Barline) (e bar : Barline)
    (h : sys.barlines = pre ++ [e]) :
    copySignaturesToEndBar sys bar
      = { sys with barlines :=
            pre ++ [(e.setKeySignature (bar.keySignature.setVisible false)).setTimeSignature
                      (bar.timeSignature.setVisible false)] } := by
  unfold copySignaturesToEndBar
  simp only []
  rw [modifyLastBarline_concat sys pre e _ h]
  rw [modifyLastBarline_concat _ pre _ _ rfl]

/-- The barline loop: the interior barlines are converted in order in front of
the end sentinel, which receives the signatures of the last of them; the second
component is the running maximum of their positions. -/
theorem convertBarlines_spec (count : Nat) :
    ∀ (l : List PowerTabDocument.Barline) (i : Nat) (sys : System) (lp : Nat)
      (pre : List Barline) (e : Barline),
      sys.barlines = pre ++ [e] → i + l.length = count →
      convertBarlines count i l (sys, lp)
        = ({ sys with barlines :=
              pre ++ l.map (fun b => convertBarline b default) ++ [endBarAfter l e] },
           max lp (maxOf (l.map (fun b => b.position)))) := by
  intro l
  induction l with
  | nil =>
    intro i sys lp pre e h _
    simp only [convertBarlines, List.map_nil, List.append_nil, maxOf_nil, endBarAfter,
      List.getLast?_nil]
    rw [← h]
    simp
  | cons oldBar rest ih =>
    intro i sys lp pre e h hlen
    rw [convertBarlines]
    simp only []
    rw [insertBarline_concat sys pre e _ h]
    by_cases hrest : rest = []
    · subst hrest
      have hi : i = count - 1 := by simp at hlen; omega
      rw [if_pos hi]
      rw [copySignaturesToEndBar_concat _ (pre ++ [convertBarline oldBar default]) e _ rfl]
      simp [convertBarlines, endBarAfter, maxOf_cons, maxOf_nil, convertBarline]
    · have hi : ¬ i = count - 1 := by
        have : 0 < rest.length := List.length_pos.mpr hrest
        simp at hlen; omega
      rw [if_neg hi]
      rw [ih (i + 1) _ _ (pre ++ [convertBarline oldBar default]) e rfl
        (by simp at hlen ⊢; omega)]
      have hend : endBarAfter (oldBar :: rest) e = endBarAfter rest e := by
        unfold endBarAfter
        cases rest with
        | nil => exact absurd rfl hrest
        | cons b rest => rw [List.getLast?_cons_cons]
      simp [hend, maxOf_cons, convertBarline, max_assoc]

/-! ### The last position of a converted staff -/

/-- A property kept by every step of a loop holds after the loop. -/
theorem foldl_invariant {α β : Type} (P : β → Prop) (f : β → α → β)
    (h : ∀ b a, P b → P (f b a)) : ∀ (l : List α) (b : β), P b → P (l.foldl f b) := by
  intro l
  induction l with
  | nil => intro b hb; exact hb
  | cons a l ih => intro b hb; exact ih (f b a) (h b a hb)

/-- The positions of the notes-and-rests of a list of voices, after one more
position has been inserted into voice `i`. -/
theorem maxOf_flatMap_modify_insertPosition (p : Position) :
    ∀ (voices : List Voice) (i : Nat), i < voices.length →
      maxOf ((voices.modify (fun v => v.insertPosition p) i).flatMap
          (fun v => v.positions.map (fun q => q.position)))
        = max (maxOf (voices.flatMap (fun v => v.positions.map (fun q => q.position))))
            p.position := by
  intro voices
  induction voices with
  | nil => intro i hi; simp at hi
  | cons v voices ih =>
    intro i hi
    cases i with
    | zero =>
      simp only [List.modify_zero_cons, List.flatMap_cons, maxOf_append, Voice.insertPosition,
        List.map_append, List.map_cons, List.map_nil, maxOf_singleton]
      simp only [max_assoc, max_comm p.position]
    | succ i =>
      simp only [List.modify_succ_cons, List.flatMap_cons, maxOf_append]
      rw [ih i (by simpa using hi), max_assoc]

/-- Rewriting a voice without touching its positions leaves the positions of
the list of voices as they were. -/
theorem flatMap_modify_positions (f : Voice → Voice)
    (hf : ∀ v, (f v).positions = v.positions) :
    ∀ (voices : List Voice) (i : Nat),
      (voices.modify f i).flatMap (fun v => v.positions.map (fun q => q.position))
        = voices.flatMap (fun v => v.positions.map (fun q => q.position)) := by
  intro voices
  induction voices with
  | nil => intro i; cases i <;> rfl
  | cons v voices ih =>
    intro i
    cases i with
    | zero => simp [List.modify_zero_cons, List.flatMap_cons, hf]
    | succ i => simp only [List.modify_succ_cons, List.flatMap_cons, ih]

/-- The irregular-grouping loop never touches the positions of the voice. -/
theorem convertIrregularGroupings_positions (positions : List PowerTabDocument.Position)
    (v : Voice) : (convertIrregularGroupings positions v).positions = v.positions := by
  unfold convertIrregularGroupings
  refine foldl_invariant (fun st : GroupingState => st.v.positions = v.positions)
    irregularGroupingStep ?_ positions _ rfl
  intro st position hst
  unfold irregularGroupingStep
  split_ifs <;> simp [Voice.insertIrregularGrouping, hst]

theorem convertStaffDynamics_invariant (dynamics : List PowerTabDocument.Dynamic)
    (acc : Staff × Nat) (h : StaffInvariant acc) :
    StaffInvariant (convertStaffDynamics dynamics acc) := by
  unfold convertStaffDynamics
  refine foldl_invariant StaffInvariant _ ?_ dynamics acc h
  intro acc dynamic hacc
  obtain ⟨h1, h2⟩ := hacc
  by_cases hset : dynamic.isStaffVolumeSet = true
  · simp only [hset, if_true]
    refine ⟨?_, h2⟩
    simp only [Staff.insertDynamic, Staff.contentPositions, List.map_append, List.map_cons,
      List.map_nil, maxOf_append, maxOf_singleton] at h1 ⊢
    rw [h1]
    simp only [max_assoc, max_comm (convertDynamic dynamic).position]
  · simp only [hset]
    exact ⟨h1, h2⟩

theorem convertVoicePositions_invariant (positions : List PowerTabDocument.Position)
    (voice : Nat) (hvoice : voice < 2) (acc : Staff × Nat) (h : StaffInvariant acc) :
    StaffInvariant (convertVoicePositions positions voice acc) := by
  unfold convertVoicePositions
  refine foldl_invariant StaffInvariant _ ?_ positions acc h
  intro acc oldPosition hacc
  obtain ⟨h1, h2⟩ := hacc
  refine ⟨?_, ?_⟩
  · simp only [Staff.modifyVoice, Staff.contentPositions, maxOf_append] at h1 ⊢
    rw [maxOf_flatMap_modify_insertPosition _ _ _ (by omega), h1]
    simp only [max_assoc, max_comm (convertPosition oldPosition default).position]
  · simpa [Staff.modifyVoice] using h2

/-- The value `convert(Staff)` returns is the largest position index of the
dynamics and positions that the converted staff holds. -/
theorem convertStaff_lastPosition (oldStaff : PowerTabDocument.Staff)
    (dynamics : List PowerTabDocument.Dynamic) :
    (convertStaff oldStaff dynamics default).1
      = maxOf (convertStaff oldStaff dynamics default).2.contentPositions := by
  have hrange : List.range PowerTabDocument.Staff.NUM_STAFF_VOICES = [0, 1] := by decide
  have h0 : StaffInvariant
      ({ (default : Staff) with clefType := oldStaff.clef
                                stringCount := oldStaff.tablatureStaffType
                                viewType := Staff.ViewType.GuitarView }, 0) :=
    ⟨rfl, rfl⟩
  have h1 := convertStaffDynamics_invariant dynamics _ h0
  have h2 := convertVoicePositions_invariant (oldStaff.getPositions 0) 0 (by norm_num) _ h1
  have h3 := convertVoicePositions_invariant (oldStaff.getPositions 1) 1 (by norm_num) _ h2
  obtain ⟨h4, _⟩ := h3
  simp only [convertStaff, hrange, List.foldl_cons, List.foldl_nil]
  rw [h4]
  simp only [Staff.contentPositions, Staff.modifyVoice]
  rw [flatMap_modify_positions _ (convertIrregularGroupings_positions _),
    flatMap_modify_positions _ (convertIrregularGroupings_positions _)]

/-! ### The content of a converted staff -/

theorem setPropertyIf_position (p : Position) (flag : Bool) (x : Position.SimpleProperty) :
    (p.setPropertyIf flag x).position = p.position := by
  cases flag <;> rfl

/-- A converted position keeps the legacy position index. -/
theorem convertPosition_position (oldPosition : PowerTabDocument.Position)
    (position : Position) :
    (convertPosition oldPosition position).position = oldPosition.position := by
  unfold convertPosition
  simp only []
  refine (foldl_invariant (fun r : Position => r.position = oldPosition.position) _ ?_
    oldPosition.notes _ ?_)
  · intro r note hr
    exact hr
  · have hrest : ∀ q : Position, (if oldPosition.isRest then q.setRest else q).position
        = q.position := by
      intro q
      split_ifs <;> rfl
    have hmulti : ∀ q : Position,
        (if oldPosition.hasMultibarRest then q.setMultiBarRest oldPosition.multibarRest
          else q).position = q.position := by
      intro q
      split_ifs <;> rfl
    simp only [hmulti, hrest, setPropertyIf_position]
    rfl

/-- The dynamics loop appends the conversions of the dynamics that have the
staff-volume flag set, in order. -/
theorem convertStaffDynamics_staff :
    ∀ (dynamics : List PowerTabDocument.Dynamic) (acc : Staff × Nat),
      (convertStaffDynamics dynamics acc).1
        = { acc.1 with dynamics :=
              acc.1.dynamics
                ++ (dynamics.filter (fun d => d.isStaffVolumeSet)).map convertDynamic } := by
  intro dynamics
  induction dynamics with
  | nil => intro acc; simp [convertStaffDynamics]
  | cons d rest ih =>
    intro acc
    unfold convertStaffDynamics at ih ⊢
    rw [List.foldl_cons, ih]
    by_cases hd : d.isStaffVolumeSet = true
    · simp [hd, Staff.insertDynamic]
    · simp [hd]

/-- Modifying the same list element twice is modifying it once. -/
theorem modify_modify_same {α : Type} (f g : α → α) :
    ∀ (l : List α) (i : Nat), (l.modify f i).modify g i = l.modify (fun a => g (f a)) i := by
  intro l
  induction l with
  | nil => intro i; cases i <;> rfl
  | cons a l ih =>
    intro i
    cases i with
    | zero => rfl
    | succ i => simp only [List.modify_succ_cons, ih]

/-- Modifying a list element by a function that changes nothing. -/
theorem modify_of_id {α : Type} (f : α → α) (hf : ∀ a, f a = a) :
    ∀ (l : List α) (i : Nat), l.modify f i = l := by
  intro l
  induction l with
  | nil => intro i; cases i <;> rfl
  | cons a l ih =>
    intro i
    cases i with
    | zero => simp [List.modify_zero_cons, hf]
    | succ i => simp only [List.modify_succ_cons, ih]

/-- The positions loop of one voice appends the converted positions to that
voice, in order, and touches nothing else of the staff. -/
theorem convertVoicePositions_staff (voice : Nat) :
    ∀ (positions : List PowerTabDocument.Position) (acc : Staff × Nat),
      (convertVoicePositions positions voice acc).1
        = acc.1.modifyVoice voice (fun v =>
            { v with positions :=
                v.positions ++ positions.map (fun p => convertPosition p default) }) := by
  intro positions
  induction positions with
  | nil =>
    intro acc
    simp only [convertVoicePositions, List.foldl_nil, List.map_nil, List.append_nil,
      Staff.modifyVoice]
    rw [modify_of_id _ (fun _ => rfl)]
  | cons p rest ih =>
    intro acc
    unfold convertVoicePositions at ih ⊢
    rw [List.foldl_cons, ih]
    simp only [Staff.modifyVoice, Voice.insertPosition]
    rw [modify_modify_same]
    simp

/-- The dynamics of a converted staff are the conversions of the given dynamics
that have the staff-volume flag set; its position indices are those of these
dynamics followed by those of the legacy positions of voice 0 and voice 1. -/
theorem convertStaff_content (oldStaff : PowerTabDocument.Staff)
    (dynamics : List PowerTabDocument.Dynamic) :
    (convertStaff oldStaff dynamics default).2.dynamics
        = (dynamics.filter (fun d => d.isStaffVolumeSet)).map convertDynamic
    ∧ (convertStaff oldStaff dynamics default).2.contentPositions
        = (dynamics.filter (fun d => d.isStaffVolumeSet)).map (fun d => d.position)
          ++ ((oldStaff.getPositions 0).map (fun p => p.position)
              ++ (oldStaff.getPositions 1).map (fun p => p.position)) := by
  have hrange : List.range PowerTabDocument.Staff.NUM_STAFF_VOICES = [0, 1] := by decide
  have hvoices : (default : Staff).voices = [default, default] := rfl
  simp only [convertStaff, hrange, List.foldl_cons, List.foldl_nil, Staff.contentPositions]
  rw [convertVoicePositions_staff, convertVoicePositions_staff, convertStaffDynamics_staff]
  simp only [Staff.modifyVoice]
  rw [flatMap_modify_positions _ (convertIrregularGroupings_positions _),
    flatMap_modify_positions _ (convertIrregularGroupings_positions _)]
  have hdynamics : (default : Staff).dynamics = [] := rfl
  have hempty : (default : Voice).positions = [] := rfl
  have hpos : ∀ l : List PowerTabDocument.Position,
      (l.map (fun p => convertPosition p default)).map (fun q => q.position)
        = l.map (fun p => p.position) := by
    intro l
    rw [List.map_map]
    exact List.map_congr_left (fun p _ => convertPosition_position p default)
  simp only [hvoices, hdynamics, hempty, List.modify_succ_cons, List.modify_zero_cons,
    List.flatMap_cons, List.flatMap_nil, List.append_nil, List.nil_append, hpos]
  refine ⟨trivial, ?_⟩
  rw [List.map_map]
  rfl

/-! ### The shape of a converted system -/

/-- A loop of insertions that leave barlines and staves alone leaves them
alone. -/
theorem foldl_keeps_barlines_staves {α : Type} (f : System → α → System)
    (hb : ∀ s a, (f s a).barlines = s.barlines) (hs : ∀ s a, (f s a).staves = s.staves)
    (l : List α) (sys : System) :
    (l.foldl f sys).barlines = sys.barlines ∧ (l.foldl f sys).staves = sys.staves := by
  refine foldl_invariant
    (fun t : System => t.barlines = sys.barlines ∧ t.staves = sys.staves) f ?_ l sys ⟨rfl, rfl⟩
  intro t a ht
  exact ⟨(hb t a).trans ht.1, (hs t a).trans ht.2⟩

/-- The staff loop appends the converted staves in order and folds the values
they return into `lastPosition`. -/
theorem convertStaves_spec (dynamics : List PowerTabDocument.Dynamic) :
    ∀ (l : List PowerTabDocument.Staff) (i : Nat) (sys : System) (lp : Nat),
      convertStaves dynamics i l (sys, lp)
        = ({ sys with staves := sys.staves ++ (convertedStaves dynamics i l).map (fun r => r.2) },
           max lp (maxOf ((convertedStaves dynamics i l).map (fun r => r.1)))) := by
  intro l
  induction l with
  | nil => intro i sys lp; simp [convertStaves, convertedStaves, maxOf_nil]
  | cons oldStaff rest ih =>
    intro i sys lp
    rw [convertStaves]
    simp only []
    rw [ih]
    simp [convertedStaves, System.insertStaff, maxOf_cons, max_assoc]

/-- The barlines and staves of a converted system. -/
theorem convertSystem_shape (ext : Externals) (oldScore : PowerTabDocument.Score)
    (index : Nat) (oldSystem : PowerTabDocument.System) :
    (convertSystem ext oldScore index oldSystem default).barlines
        = [convertBarline oldSystem.startBar default]
          ++ oldSystem.barlines.map (fun b => convertBarline b default)
          ++ [(endBarAfter oldSystem.barlines (convertBarline oldSystem.endBar default)).setPosition
                (lastPositionOf oldScore index oldSystem + 1)]
    ∧ (convertSystem ext oldScore index oldSystem default).staves
        = (convertedStaves (oldScore.getDynamicsInSystem index) 0 oldSystem.staves).map
            (fun r => r.2) := by
  have hstart : ((((default : System).modifyBarline 0 (convertBarline oldSystem.startBar)).modifyBarline
      1 (convertBarline oldSystem.endBar))).barlines
      = [convertBarline oldSystem.startBar default] ++ [convertBarline oldSystem.endBar default] :=
    rfl
  have hbars := convertBarlines_spec oldSystem.barlines.length oldSystem.barlines 0
    (((default : System).modifyBarline 0 (convertBarline oldSystem.startBar)).modifyBarline
      1 (convertBarline oldSystem.endBar)) 30 _ _ hstart (by simp)
  have h1 := foldl_keeps_barlines_staves
    (fun s tempo => s.insertTempoMarker (convertTempoMarker tempo default))
    (fun _ _ => rfl) (fun _ _ => rfl) (oldScore.getTempoMarkersInSystem index)
  have h2 := foldl_keeps_barlines_staves
    (fun s ending => s.insertAlternateEnding (convertAlternateEnding ending default))
    (fun _ _ => rfl) (fun _ _ => rfl) (oldScore.getAlternateEndingsInSystem index)
  have h3 := foldl_keeps_barlines_staves
    (fun s d => s.insertDirection (convertDirection d default))
    (fun _ _ => rfl) (fun _ _ => rfl) oldSystem.directions
  have h4 := foldl_keeps_barlines_staves
    (fun s c => s.insertChord (convertChordText ext c default))
    (fun _ _ => rfl) (fun _ _ => rfl) oldSystem.chordTexts
  simp only [convertSystem]
  rw [hbars, convertStaves_spec]
  simp only []
  constructor
  · rw [modifyLastBarline_concat _
      ([convertBarline oldSystem.startBar default]
        ++ oldSystem.barlines.map (fun b => convertBarline b default))
      (endBarAfter oldSystem.barlines (convertBarline oldSystem.endBar default)) _
      (by simp only [(h4 _).1, (h3 _).1, (h2 _).1, (h1 _).1])]
    rfl
  · simp only [System.modifyLastBarline, (h4 _).2, (h3 _).2, (h2 _).2, (h1 _).2]
    rfl

/-- Each converted staff returns the largest position index it holds. -/
theorem convertedStaves_lastPosition (dynamics : List PowerTabDocument.Dynamic) :
    ∀ (l : List PowerTabDocument.Staff) (i : Nat),
      (convertedStaves dynamics i l).map (fun r => r.1)
        = (convertedStaves dynamics i l).map (fun r => maxOf r.2.contentPositions) := by
  intro l
  induction l with
  | nil => intro i; rfl
  | cons oldStaff rest ih =>
    intro i
    simp only [convertedStaves, List.map_cons, ih, convertStaff_lastPosition]

/-- The maximum over concatenated groups is the maximum of the group maxima. -/
theorem maxOf_flatMap {α : Type} (f : α → List Nat) (l : List α) :
    maxOf (l.flatMap f) = maxOf (l.map (fun x => maxOf (f x))) := by
  induction l with
  | nil => rfl
  | cons x l ih => rw [List.flatMap_cons, maxOf_append, List.map_cons, maxOf_cons, ih]

/-- The largest position index a converted system holds, from the legacy side. -/
theorem convertSystem_maxOf_contentPositions (ext : Externals)
    (oldScore : PowerTabDocument.Score) (index : Nat) (oldSystem : PowerTabDocument.System) :
    maxOf (convertSystem ext oldScore index oldSystem default).contentPositions
      = max (maxOf (oldSystem.barlines.map (fun b => b.position)))
          (maxOf ((convertedStaves (oldScore.getDynamicsInSystem index) 0
            oldSystem.staves).map (fun r => r.1))) := by
  obtain ⟨hb, hs⟩ := convertSystem_shape ext oldScore index oldSystem
  unfold System.contentPositions System.interiorBarlines
  rw [hb, hs, maxOf_append, maxOf_flatMap, convertedStaves_lastPosition]
  have hint : ([convertBarline oldSystem.startBar default]
        ++ oldSystem.barlines.map (fun b => convertBarline b default)
        ++ [(endBarAfter oldSystem.barlines (convertBarline oldSystem.endBar default)).setPosition
              (lastPositionOf oldScore index oldSystem + 1)]).tail.dropLast
      = oldSystem.barlines.map (fun b => convertBarline b default) := by
    rw [List.append_assoc, List.singleton_append, List.tail_cons, List.dropLast_concat]
  rw [hint, List.map_map, List.map_map]
  rfl

/-! ### The sentinel barlines (claims C1, C2, C3) -/

/-- The end-sentinel invariant on the target side: the last barline of a
converted system has position `max(31, 1 + m)`, where `m` is the largest
position index among the interior barlines of the converted system and the
dynamics and positions (all voices) of all its staves (`m = 0` when there are
none). -/
theorem endBar_position_of_converted_content (ext : Externals) (oldScore : PowerTabDocument.Score)
    (index : Nat) (oldSystem : PowerTabDocument.System) :
    (convertSystem ext oldScore index oldSystem default).barlines.getLast?.map
        (fun b => b.position)
      = some (max 31
          (1 + maxOf (convertSystem ext oldScore index oldSystem default).contentPositions)) := by
  rw [convertSystem_maxOf_contentPositions]
  rw [(convertSystem_shape ext oldScore index oldSystem).1, List.getLast?_concat]
  simp only [Option.map_some', Barline.setPosition, lastPositionOf, Option.some.injEq]
  omega

/-- A list all of whose elements occur in another has the smaller maximum. -/
theorem maxOf_le_of_subset {l₁ l₂ : List Nat} (h : ∀ x, x ∈ l₁ → x ∈ l₂) :
    maxOf l₁ ≤ maxOf l₂ := by
  induction l₁ with
  | nil => simp [maxOf_nil]
  | cons x l ih =>
    rw [maxOf_cons]
    exact max_le (le_maxOf_of_mem (h x (List.mem_cons_self x l)))
      (ih (fun y hy => h y (List.mem_cons_of_mem x hy)))

/-- The position indices held by the converted staves `i, i + 1, ...`, from
the legacy side. -/
theorem mem_convertedStaves_content (dynamics : List PowerTabDocument.Dynamic) (x : Nat) :
    ∀ (l : List PowerTabDocument.Staff) (i : Nat),
      x ∈ ((convertedStaves dynamics i l).map (fun r => r.2)).flatMap Staff.contentPositions ↔
        (∃ d ∈ dynamics, d.isStaffVolumeSet = true ∧ i ≤ d.staff ∧ d.staff < i + l.length
            ∧ d.position = x)
          ∨ ∃ st ∈ l, ∃ p ∈ st.getPositions 0 ++ st.getPositions 1, p.position = x := by
  intro l
  induction l with
  | nil =>
    intro i
    simp only [convertedStaves, List.map_nil, List.flatMap_nil, List.not_mem_nil,
      List.length_nil, false_iff, not_or, not_exists, not_and, false_and, exists_false,
      not_false_eq_true, implies_true, and_true]
    intro d _ _ h1 h2
    omega
  | cons oldStaff rest ih =>
    intro i
    simp only [convertedStaves, List.map_cons, List.flatMap_cons, List.mem_append,
      (convertStaff_content _ _).2, ih (i + 1), List.mem_map, List.mem_filter,
      decide_eq_true_eq, List.length_cons, List.mem_cons]
    constructor
    · rintro ((⟨d, ⟨⟨hd, hs⟩, hf⟩, rfl⟩ | ⟨p, hp, rfl⟩ | ⟨p, hp, rfl⟩)
        | ⟨d, hd, hf, h1, h2, rfl⟩ | ⟨st, hst, p, hp, rfl⟩)
      · exact Or.inl ⟨d, hd, hf, by omega, by omega, rfl⟩
      · exact Or.inr ⟨oldStaff, Or.inl rfl, p, Or.inl hp, rfl⟩
      · exact Or.inr ⟨oldStaff, Or.inl rfl, p, Or.inr hp, rfl⟩
      · exact Or.inl ⟨d, hd, hf, by omega, by omega, rfl⟩
      · exact Or.inr ⟨st, Or.inr hst, p, hp, rfl⟩
    · rintro (⟨d, hd, hf, h1, h2, rfl⟩ | ⟨st, hst | hst, p, hp, rfl⟩)
      · by_cases hi : d.staff = i
        · exact Or.inl (Or.inl ⟨d, ⟨⟨hd, hi⟩, hf⟩, rfl⟩)
        · exact Or.inr (Or.inl ⟨d, hd, hf, by omega, by omega, rfl⟩)
      · subst hst
        rcases hp with hp | hp
        · exact Or.inl (Or.inr (Or.inl ⟨p, hp, rfl⟩))
        · exact Or.inl (Or.inr (Or.inr ⟨p, hp, rfl⟩))
      · exact Or.inr (Or.inr ⟨st, hst, p, hp, rfl⟩)

/-- The position indices a converted system holds are those of the legacy
system, counting of its dynamics the imported ones. -/
theorem mem_convertSystem_contentPositions (ext : Externals)
    (oldScore : PowerTabDocument.Score) (index : Nat) (oldSystem : PowerTabDocument.System)
    (x : Nat) :
    x ∈ (convertSystem ext oldScore index oldSystem default).contentPositions ↔
      x ∈ legacyPositions (importedDynamics oldScore index oldSystem) oldSystem := by
  obtain ⟨hb, hs⟩ := convertSystem_shape ext oldScore index oldSystem
  have hint : ([convertBarline oldSystem.startBar default]
        ++ oldSystem.barlines.map (fun b => convertBarline b default)
        ++ [(endBarAfter oldSystem.barlines (convertBarline oldSystem.endBar default)).setPosition
              (lastPositionOf oldScore index oldSystem + 1)]).tail.dropLast
      = oldSystem.barlines.map (fun b => convertBarline b default) := by
    rw [List.append_assoc, List.singleton_append, List.tail_cons, List.dropLast_concat]
  unfold System.contentPositions System.interiorBarlines legacyPositions importedDynamics
  rw [hb, hs, hint, List.map_map, List.mem_append, mem_convertedStaves_content]
  simp only [List.mem_append, List.mem_map, List.mem_filter,
    List.mem_flatMap, Bool.and_eq_true, decide_eq_true_eq, Function.comp_apply,
    Nat.zero_add]
  constructor
  · rintro (⟨b, hb, rfl⟩ | ⟨d, hd, hf, _, h2, rfl⟩ | ⟨st, hst, p, hp, rfl⟩)
    · exact Or.inl (Or.inl ⟨b, hb, rfl⟩)
    · exact Or.inl (Or.inr ⟨d, ⟨hd, hf, h2⟩, rfl⟩)
    · exact Or.inr ⟨st, hst, p, hp, rfl⟩
  · rintro ((⟨b, hb, rfl⟩ | ⟨d, ⟨hd, hf, h2⟩, rfl⟩) | ⟨st, hst, p, hp, rfl⟩)
    · exact Or.inl ⟨b, hb, rfl⟩
    · exact Or.inr (Or.inl ⟨d, hd, hf, Nat.zero_le _, h2, rfl⟩)
    · exact Or.inr (Or.inr ⟨st, hst, p, hp, rfl⟩)

/-- C1 (as amended): the end sentinel of a converted system has position
`max(31, 1 + m)`, where `m` is the largest position index over the interior
barlines of the legacy system, those of its dynamics that have the staff-volume
flag set and are assigned to one of its staves, and the positions of both
voices of every staff. -/
theorem convertSystem_endBar_position_legacy (ext : Externals)
    (oldScore : PowerTabDocument.Score) (index : Nat) (oldSystem : PowerTabDocument.System) :
    (convertSystem ext oldScore index oldSystem default).barlines.getLast?.map
        (fun b => b.position)
      = some (max 31
          (1 + maxOf (legacyPositions (importedDynamics oldScore index oldSystem)
            oldSystem))) := by
  rw [endBar_position_of_converted_content]
  have heq : maxOf (convertSystem ext oldScore index oldSystem default).contentPositions
      = maxOf (legacyPositions (importedDynamics oldScore index oldSystem) oldSystem) :=
    le_antisymm
      (maxOf_le_of_subset
        (fun x => (mem_convertSystem_contentPositions ext oldScore index oldSystem x).mp))
      (maxOf_le_of_subset
        (fun x => (mem_convertSystem_contentPositions ext oldScore index oldSystem x).mpr))
  rw [heq]

/-- C1 (counterexample to the claim as stated): `sampleDynamicScore` has in its
only system a dynamic at position 40 that sets only the rhythm-slash volume;
the positions of the staff end at 12.  The end sentinel is put at 31, while the
maximum over all dynamics of the system would put it at 41. -/
theorem convertSystem_endBar_position_ignores_rhythm_slash_dynamic :
    (convertSystem sampleExternals sampleDynamicScore 0 sampleDynamicSystem default).barlines.getLast?.map
        (fun b => b.position) = some 31
    ∧ max 31 (1 + maxOf (legacyPositions (sampleDynamicScore.getDynamicsInSystem 0)
        sampleDynamicSystem)) = 41
    ∧ (convertSystem sampleExternals sampleDynamicScore 0 sampleDynamicSystem default).barlines.getLast?.map
        (fun b => b.position)
      ≠ some (max 31 (1 + maxOf (legacyPositions (sampleDynamicScore.getDynamicsInSystem 0)
          sampleDynamicSystem))) := by
  decide

/-- C2: when the legacy system has at least one interior barline, the end
sentinel of the converted system carries the converted key signature of the
last interior barline with `visible` set to false, and its converted time
signature with `visible` set to false. -/
theorem convertSystem_endBar_signatures (ext : Externals) (oldScore : PowerTabDocument.Score)
    (index : Nat) (oldSystem : PowerTabDocument.System) (h : oldSystem.barlines ≠ []) :
    (convertSystem ext oldScore index oldSystem default).barlines.getLast?.map
        (fun b => b.keySignature)
      = some { convertKeySignature (oldSystem.barlines.getLast h).keySignature with
               visible := false }
    ∧ (convertSystem ext oldScore index oldSystem default).barlines.getLast?.map
        (fun b => b.timeSignature)
      = some { convertTimeSignature (oldSystem.barlines.getLast h).timeSignature with
               visible := false } := by
  rw [(convertSystem_shape ext oldScore index oldSystem).1, List.getLast?_concat]
  simp only [endBarAfter, List.getLast?_eq_getLast _ h]
  exact ⟨rfl, rfl⟩

/-- Witness of C2 on `sampleSystem`, whose only interior barline shows a key
signature with two accidentals and a 3/4 time signature. -/
theorem convertSystem_endBar_signatures_witness :
    sampleSystem.barlines ≠ []
    ∧ (convertSystem sampleExternals sampleScore 0 sampleSystem default).barlines.getLast?.map
        (fun b => b.keySignature)
      = some { keyType := 0, numAccidentals := 2, sharps := false, visible := false,
               cancellation := false }
    ∧ (convertSystem sampleExternals sampleScore 0 sampleSystem default).barlines.getLast?.map
        (fun b => b.timeSignature)
      = some { meterType := TimeSignature.MeterType.Normal, beatsPerMeasure := 3,
               beatValue := 4, beamingPattern := [], numPulses := 0, visible := false } :=
  ⟨by decide,
   convertSystem_endBar_signatures sampleExternals sampleScore 0 sampleSystem (by decide)⟩

/-- C3 (as amended): the barlines of a converted system are the conversion of
the legacy start bar, then the converted interior barlines in order, then the
end sentinel, so there are at least two and the interior ones lie strictly
between the sentinels.  The end sentinel is the conversion of the legacy end bar
with its position overwritten and, when there is an interior barline, its key
and time signature overwritten by those of the last interior barline made
invisible; every interior barline has a smaller position than the end
sentinel. -/
theorem convertSystem_sentinels (ext : Externals) (oldScore : PowerTabDocument.Score)
    (index : Nat) (oldSystem : PowerTabDocument.System) :
    ∃ endSentinel : Barline,
      (convertSystem ext oldScore index oldSystem default).barlines
          = [convertBarline oldSystem.startBar default]
            ++ oldSystem.barlines.map (fun b => convertBarline b default)
            ++ [endSentinel]
      ∧ 2 ≤ (convertSystem ext oldScore index oldSystem default).barlines.length
      ∧ (oldSystem.barlines = [] →
          endSentinel
            = (convertBarline oldSystem.endBar default).setPosition endSentinel.position)
      ∧ (∀ b, oldSystem.barlines.getLast? = some b →
          endSentinel
            = (((convertBarline oldSystem.endBar default).setKeySignature
                  { convertKeySignature b.keySignature with visible := false }).setTimeSignature
                  { convertTimeSignature b.timeSignature with visible := false }).setPosition
                endSentinel.position)
      ∧ (∀ b ∈ oldSystem.barlines.map (fun b => convertBarline b default),
          b.position < endSentinel.position) := by
  obtain ⟨hb, _⟩ := convertSystem_shape ext oldScore index oldSystem
  refine ⟨_, hb, ?_, ?_, ?_, ?_⟩
  · rw [hb]
    simp only [List.length_append, List.length_singleton, List.length_map]
    omega
  · intro hnil
    simp [endBarAfter, hnil, Barline.setPosition]
  · intro b hlast
    simp [endBarAfter, hlast, Barline.setPosition, KeySignature.setVisible,
      TimeSignature.setVisible]
  · intro b hmem
    obtain ⟨old, hold, rfl⟩ := List.mem_map.mp hmem
    have hle : old.position ≤ maxOf (oldSystem.barlines.map (fun b => b.position)) :=
      le_maxOf_of_mem (List.mem_map.mpr ⟨old, hold, rfl⟩)
    simp only [Barline.setPosition, lastPositionOf, convertBarline]
    omega

/-- C3 (counterexample to the claim as stated): in the conversion of
`sampleSystem`, which has an interior barline, the end sentinel is not the
conversion of the legacy end bar with only its position overwritten: the
converted end bar has a visible key signature, the end sentinel an invisible one
with two accidentals. -/
theorem convertSystem_endBar_not_only_position :
    ¬ ∃ position : Nat,
        (convertSystem sampleExternals sampleScore 0 sampleSystem default).barlines.getLast?
          = some ((convertBarline sampleSystem.endBar default).setPosition position) := by
  rintro ⟨position, h⟩
  have hvis :
      (convertSystem sampleExternals sampleScore 0 sampleSystem default).barlines.getLast?.map
        (fun b => b.keySignature.visible) = some false := by decide
  rw [h] at hvis
  have htrue : (convertBarline sampleSystem.endBar default).keySignature.visible = true := by
    decide
  have hfalse : (convertBarline sampleSystem.endBar default).keySignature.visible = false :=
    Option.some.inj hvis
  rw [htrue] at hfalse
  exact Bool.noConfusion hfalse

/-! ### Formula-modification decode (claim C8) -/

/-- C8: provided the truncated quotient of logarithms `log2` is exact on the
sixteen flag values, the modifications set on a converted chord name are exactly
the numbers `log2(b)` for the powers of two `b` with
`extended9th ≤ b ≤ suspended4th` whose flag is set in the legacy word; a word
with exactly `extended9th | suspended4th` yields exactly
`log2(extended9th)` and `log2(suspended4th)`. -/
theorem convertChordText_formula_modifications (ext : Externals)
    (hlog : ∀ k : Nat, k ≤ 15 → ext.log2 (2 ^ k) = (k : Int))
    (oldChord : PowerTabDocument.ChordText) (chord : ChordText) :
    (∀ m : Int, m ∈ (convertChordText ext oldChord chord).chordName.modifications ↔
      ∃ b : Nat, (∃ k : Nat, b = 2 ^ k)
        ∧ PowerTabDocument.ChordName.extended9th ≤ b
        ∧ b ≤ PowerTabDocument.ChordName.suspended4th
        ∧ oldChord.chordName.isFormulaModificationFlagSet b = true
        ∧ m = (Nat.log 2 b : Nat))
    ∧ (oldChord.chordName.formulaModifications
          = PowerTabDocument.ChordName.extended9th ||| PowerTabDocument.ChordName.suspended4th →
        ∀ m : Int, m ∈ (convertChordText ext oldChord chord).chordName.modifications ↔
          m = (Nat.log 2 PowerTabDocument.ChordName.extended9th : Nat)
            ∨ m = (Nat.log 2 PowerTabDocument.ChordName.suspended4th : Nat)) := by
  have hbound : ∀ k : Nat, 2 ^ k ≤ PowerTabDocument.ChordName.suspended4th ↔ k ≤ 15 := by
    intro k
    rw [show PowerTabDocument.ChordName.suspended4th = 2 ^ 15 from rfl]
    exact Nat.pow_le_pow_iff_right (by norm_num)
  constructor
  · intro m
    rw [convertChordText_modifications]
    constructor
    · rintro ⟨k, hk, hbit, hm⟩
      refine ⟨2 ^ k, ⟨k, rfl⟩, Nat.one_le_two_pow, (hbound k).mpr hk, ?_, ?_⟩
      · rw [isFormulaModificationFlagSet_two_pow]
        exact hbit
      · rw [hm, hlog k hk, Nat.log_pow (by norm_num)]
    · rintro ⟨b, ⟨k, rfl⟩, _, hle, hset, hm⟩
      have hk : k ≤ 15 := (hbound k).mp hle
      refine ⟨k, hk, ?_, ?_⟩
      · rw [← isFormulaModificationFlagSet_two_pow]
        exact hset
      · rw [hm, hlog k hk, Nat.log_pow (by norm_num)]
  · intro hmask m
    rw [convertChordText_modifications, hmask]
    have h0 : Nat.log 2 PowerTabDocument.ChordName.extended9th = 0 := by
      rw [show PowerTabDocument.ChordName.extended9th = 2 ^ 0 from rfl,
        Nat.log_pow (by norm_num)]
    have h15 : Nat.log 2 PowerTabDocument.ChordName.suspended4th = 15 := by
      rw [show PowerTabDocument.ChordName.suspended4th = 2 ^ 15 from rfl,
        Nat.log_pow (by norm_num)]
    rw [h0, h15]
    constructor
    · rintro ⟨k, hk, hbit, hm⟩
      rw [hlog k hk] at hm
      have hcases : k = 0 ∨ k = 15 := by
        revert hbit
        interval_cases k <;> decide
      rcases hcases with rfl | rfl
      · exact Or.inl hm
      · exact Or.inr hm
    · rintro (hm | hm)
      · exact ⟨0, by norm_num, by decide, by rw [hlog 0 (by norm_num)]; exact hm⟩
      · exact ⟨15, by norm_num, by decide, by rw [hlog 15 (by norm_num)]; exact hm⟩

/-- Witness of C8: with the exact logarithm, `sampleChordText` (flag word
`0x8001`) is converted to a chord name whose modifications are 0 and 15. -/
theorem convertChordText_formula_modifications_witness :
    (∀ k : Nat, k ≤ 15 → sampleExternals.log2 (2 ^ k) = (k : Int))
    ∧ (convertChordText sampleExternals sampleChordText default).chordName.modifications
        = [0, 15]
    ∧ (∀ m : Int,
        m ∈ (convertChordText sampleExternals sampleChordText default).chordName.modifications ↔
          m = (Nat.log 2 PowerTabDocument.ChordName.extended9th : Nat)
            ∨ m = (Nat.log 2 PowerTabDocument.ChordName.suspended4th : Nat)) :=
  ⟨by intro k hk; interval_cases k <;> rfl,
   by decide,
   (convertChordText_formula_modifications sampleExternals
      (by intro k hk; interval_cases k <;> rfl) sampleChordText default).2 rfl⟩

/-! ### Players and instruments (claim C9) -/

/-- The player `convert(Guitar)` inserts. -/
theorem convertGuitar_done (ext : Externals) (guitar : PowerTabDocument.Guitar)
    (score result : Score) (h : convertGuitar ext guitar score = Outcome.done result) :
    ∃ player instrument,
      player.description = guitar.description ∧ instrument.midiPreset = guitar.preset
      ∧ result.players = score.players ++ [player]
      ∧ result.instruments = score.instruments ++ [instrument]
      ∧ result.systems = score.systems := by
  unfold convertGuitar at h
  simp only [] at h
  split at h
  · cases h
  · cases h
    exact ⟨_, _, rfl, rfl, rfl, rfl, rfl⟩

/-- The guitar loop, when it finishes, has appended one player and one
instrument per guitar, in order. -/
theorem convertGuitars_done (ext : Externals) :
    ∀ (guitars : List PowerTabDocument.Guitar) (score result : Score),
      convertGuitars ext guitars score = Outcome.done result →
      ∃ players instruments,
        result.players = score.players ++ players
        ∧ result.instruments = score.instruments ++ instruments
        ∧ players.map (fun p => p.description) = guitars.map (fun g => g.description)
        ∧ instruments.map (fun i => i.midiPreset) = guitars.map (fun g => g.preset)
        ∧ result.systems = score.systems := by
  intro guitars
  induction guitars with
  | nil =>
    intro score result h
    cases h
    exact ⟨[], [], by simp, by simp, rfl, rfl, rfl⟩
  | cons guitar rest ih =>
    intro score result h
    rw [convertGuitars] at h
    cases hg : convertGuitar ext guitar score with
    | done mid =>
      rw [hg] at h
      obtain ⟨player, instrument, hp, hi, hps, his, hsys⟩ := convertGuitar_done ext _ _ _ hg
      obtain ⟨players, instruments, h1, h2, h3, h4, h5⟩ := ih mid result h
      refine ⟨player :: players, instrument :: instruments, ?_, ?_, ?_, ?_, ?_⟩
      · rw [h1, hps]; simp
      · rw [h2, his]; simp
      · simp [hp, h3]
      · simp [hi, h4]
      · rw [h5, hsys]
    | outOfRange state => rw [hg] at h; cases h
    | undefined => rw [hg] at h; cases h

/-- The system loop leaves players and instruments alone. -/
theorem convertSystems_players (ext : Externals) (oldScore : PowerTabDocument.Score) :
    ∀ (l : List PowerTabDocument.System) (i : Nat) (score : Score),
      (convertSystems ext oldScore i l score).players = score.players
      ∧ (convertSystems ext oldScore i l score).instruments = score.instruments
      ∧ (convertSystems ext oldScore i l score).systems.length
          = score.systems.length + l.length := by
  intro l
  induction l with
  | nil => intro i score; exact ⟨rfl, rfl, rfl⟩
  | cons oldSystem rest ih =>
    intro i score
    rw [convertSystems]
    obtain ⟨h1, h2, h3⟩ := ih (i + 1)
      (score.insertSystem (convertSystem ext oldScore i oldSystem default))
    refine ⟨h1, h2, ?_⟩
    rw [h3]
    simp [Score.insertSystem]
    omega

/-- One iteration of the system loop of `convertGuitarIns` leaves players,
instruments and the number of systems alone. -/
theorem convertGuitarInsStep_players (oldScore : PowerTabDocument.Score) (i : Nat)
    (acc result : List Int × Score) (h : convertGuitarInsStep oldScore i acc = some result) :
    result.2.players = acc.2.players ∧ result.2.instruments = acc.2.instruments
    ∧ result.2.systems.length = acc.2.systems.length := by
  unfold convertGuitarInsStep at h
  split at h
  · cases h
    exact ⟨rfl, rfl, rfl⟩
  · split at h
    · cases h
    · cases h
      exact ⟨rfl, rfl, by simp⟩

/-- `convertGuitarIns` leaves players and instruments alone. -/
theorem convertGuitarInsUpTo_players (ext : Externals) (oldScore : PowerTabDocument.Score)
    (score : Score) :
    ∀ (n : Nat) (result : List Int × Score),
      convertGuitarInsUpTo ext oldScore score n = some result →
      result.2.players = score.players ∧ result.2.instruments = score.instruments
      ∧ result.2.systems.length = score.systems.length := by
  intro n
  induction n with
  | zero =>
    intro result h
    cases h
    exact ⟨rfl, rfl, rfl⟩
  | succ n ih =>
    intro result h
    rw [convertGuitarInsUpTo] at h
    cases hprev : convertGuitarInsUpTo ext oldScore score n with
    | none => rw [hprev] at h; cases h
    | some acc =>
      rw [hprev] at h
      obtain ⟨h1, h2, h3⟩ := ih acc hprev
      obtain ⟨g1, g2, g3⟩ := convertGuitarInsStep_players oldScore n acc result h
      exact ⟨g1.trans h1, g2.trans h2, g3.trans h3⟩

/-- `convertInitialVolumes` leaves players and instruments alone. -/
theorem convertInitialVolumes_players (oldScore : PowerTabDocument.Score)
    (score result : Score) (h : convertInitialVolumes oldScore score = some result) :
    result.players = score.players ∧ result.instruments = score.instruments := by
  unfold convertInitialVolumes at h
  split at h
  · cases h
    exact ⟨rfl, rfl⟩
  · simp only [] at h
    split at h
    · cases h
    · split at h
      · split at h
        · cases h
          exact ⟨rfl, rfl⟩
        · obtain ⟨system, _, rfl⟩ := Option.map_eq_some'.mp h
          exact ⟨rfl, rfl⟩
      · obtain ⟨system, _, rfl⟩ := Option.map_eq_some'.mp h
        exact ⟨rfl, rfl⟩

/-- C9: after `convert` has turned a legacy score into an initially empty
score, players and instruments both have the length of the legacy guitar list,
the g-th player has the description of legacy guitar g and the g-th instrument
has its preset as MIDI preset. -/
theorem convertScore_players_instruments (ext : Externals)
    (oldScore : PowerTabDocument.Score) (score : Score)
    (h : convertScore ext oldScore default = Outcome.done score) :
    score.players.length = oldScore.guitars.length
    ∧ score.instruments.length = oldScore.guitars.length
    ∧ ∀ g : Nat, g < oldScore.guitars.length →
        score.players[g]?.map (fun p => p.description)
          = oldScore.guitars[g]?.map (fun guitar => guitar.description)
        ∧ score.instruments[g]?.map (fun i => i.midiPreset)
          = oldScore.guitars[g]?.map (fun guitar => guitar.preset) := by
  unfold convertScore at h
  cases hg : convertGuitars ext oldScore.guitars default with
  | outOfRange state => rw [hg] at h; cases h
  | undefined => rw [hg] at h; cases h
  | done afterGuitars =>
    rw [hg] at h
    simp only [] at h
    obtain ⟨players, instruments, h1, h2, h3, h4, _⟩ :=
      convertGuitars_done ext _ _ _ hg
    obtain ⟨s1, s2, _⟩ :=
      convertSystems_players ext oldScore oldScore.systems 0 afterGuitars
    cases hi : convertGuitarIns ext oldScore
        (convertSystems ext oldScore 0 oldScore.systems afterGuitars) with
    | none => rw [hi] at h; cases h
    | some afterIns =>
      rw [hi] at h
      simp only [] at h
      obtain ⟨acc, hacc, rfl⟩ := Option.map_eq_some'.mp hi
      obtain ⟨i1, i2, _⟩ := convertGuitarInsUpTo_players ext oldScore _ _ acc hacc
      cases hv : convertInitialVolumes oldScore acc.2 with
      | none => rw [hv] at h; cases h
      | some final =>
        rw [hv] at h
        cases h
        obtain ⟨v1, v2⟩ := convertInitialVolumes_players oldScore _ _ hv
        have hp : score.players = players := by
          rw [v1, i1, s1, h1]; rfl
        have hin : score.instruments = instruments := by
          rw [v2, i2, s2, h2]; rfl
        have hpl : players.length = oldScore.guitars.length := by
          simpa using congrArg List.length h3
        have hil : instruments.length = oldScore.guitars.length := by
          simpa using congrArg List.length h4
        refine ⟨by rw [hp, hpl], by rw [hin, hil], ?_⟩
        intro g _
        rw [hp, hin]
        constructor
        · simpa using congrArg (fun l => l[g]?) h3
        · simpa using congrArg (fun l => l[g]?) h4

set_option maxRecDepth 100000 in
/-- Witness of C9: the conversion of `sampleGuitarScore` finishes; it has two
players and two instruments, the players are "Lead" and "Rhythm", the
instruments have presets 24 and 30. -/
theorem convertScore_players_instruments_witness :
    convertScore sampleExternals sampleGuitarScore default = Outcome.done sampleConvertedScore
    ∧ sampleConvertedScore.players.map (fun p => p.description) = ["Lead", "Rhythm"]
    ∧ sampleConvertedScore.instruments.map (fun i => i.midiPreset) = [24, 30]
    ∧ sampleConvertedScore.players.length = sampleGuitarScore.guitars.length
    ∧ sampleConvertedScore.instruments.length = sampleGuitarScore.guitars.length :=
  ⟨by decide, by decide, by decide,
   (convertScore_players_instruments sampleExternals sampleGuitarScore sampleConvertedScore
      (by decide)).1,
   (convertScore_players_instruments sampleExternals sampleGuitarScore sampleConvertedScore
      (by decide)).2.1⟩

/-! ### Player changes from guitar-ins (claim C10) -/

/-- The entries of the player change built by the loop of `getPlayerChange`. -/
theorem getPlayerChangeFrom_spec :
    ∀ (l : List Int) (n : Nat) (c : PlayerChange),
      (getPlayerChangeFrom n l c).position = c.position
      ∧ ∀ (staff : Int) (p : ActivePlayer),
          (staff, p) ∈ (getPlayerChangeFrom n l c).activePlayers ↔
            (staff, p) ∈ c.activePlayers
              ∨ ∃ j : Nat, l[j]? = some staff ∧ 0 ≤ staff ∧ p = ⟨n + j, n + j⟩ := by
  intro l
  induction l with
  | nil =>
    intro n c
    refine ⟨rfl, ?_⟩
    intro staff p
    simp [getPlayerChangeFrom]
  | cons staff0 rest ih =>
    intro n c
    rw [getPlayerChangeFrom]
    obtain ⟨hpos, hmem⟩ := ih (n + 1)
      (if staff0 ≥ 0 then c.insertActivePlayer staff0 ⟨n, n⟩ else c)
    constructor
    · rw [hpos]
      split_ifs <;> rfl
    · intro staff p
      rw [hmem]
      constructor
      · rintro (h | ⟨j, hj, hs, hp⟩)
        · by_cases h0 : staff0 ≥ 0
          · rw [if_pos h0] at h
            simp only [PlayerChange.insertActivePlayer, List.mem_append, List.mem_singleton,
              Prod.mk.injEq] at h
            rcases h with h | ⟨rfl, rfl⟩
            · exact Or.inl h
            · exact Or.inr ⟨0, by simp, h0, rfl⟩
          · rw [if_neg h0] at h
            exact Or.inl h
        · refine Or.inr ⟨j + 1, by simpa using hj, hs, ?_⟩
          rw [hp]
          simp only [ActivePlayer.mk.injEq]
          omega
      · rintro (h | ⟨j, hj, hs, hp⟩)
        · left
          by_cases h0 : staff0 ≥ 0
          · rw [if_pos h0]
            simp only [PlayerChange.insertActivePlayer, List.mem_append]
            exact Or.inl h
          · rw [if_neg h0]
            exact h
        · cases j with
          | zero =>
            left
            simp only [List.getElem?_cons_zero, Option.some.injEq] at hj
            subst hj
            rw [if_pos hs]
            simp only [PlayerChange.insertActivePlayer, List.mem_append, List.mem_singleton]
            right
            rw [hp]
            rfl
          | succ j =>
            refine Or.inr ⟨j, by simpa using hj, hs, ?_⟩
            rw [hp]
            simp only [ActivePlayer.mk.injEq]
            omega

/-- Membership in the active players of a staff. -/
theorem mem_getActivePlayers (c : PlayerChange) (staff : Int) (p : ActivePlayer) :
    p ∈ c.getActivePlayers staff ↔ (staff, p) ∈ c.activePlayers := by
  unfold PlayerChange.getActivePlayers
  simp only [List.mem_map, List.mem_filter, decide_eq_true_eq]
  constructor
  · rintro ⟨e, ⟨he, rfl⟩, rfl⟩
    exact he
  · intro h
    exact ⟨(staff, p), ⟨h, rfl⟩, rfl⟩

/-- The player change of `getPlayerChange`: guitar `k` is listed on staff
`activePlayers[k]` as `ActivePlayer(k, k)` when that entry is not negative, and
nothing else is listed. -/
theorem getPlayerChange_spec (activePlayers : List Int) (currentPosition : Nat) :
    (getPlayerChange activePlayers currentPosition).position = currentPosition
    ∧ ∀ (staff : Int) (p : ActivePlayer),
        p ∈ (getPlayerChange activePlayers currentPosition).getActivePlayers staff ↔
          ∃ k : Nat, activePlayers[k]? = some staff ∧ 0 ≤ staff ∧ p = ⟨k, k⟩ := by
  obtain ⟨hpos, hmem⟩ := getPlayerChangeFrom_spec activePlayers 0
    { position := currentPosition, activePlayers := [] }
  refine ⟨hpos, ?_⟩
  intro staff p
  rw [mem_getActivePlayers]
  unfold getPlayerChange
  rw [hmem]
  simp

/-- The guitar-in loop of one system: the final `activePlayers` array is the
entry array with the flagged guitar-ins applied in order, and `currentPosition`
ends at the position of the last flagged guitar-in. -/
theorem foldl_guitarInStep_spec :
    ∀ (l : List PowerTabDocument.GuitarIn) (st : GuitarInState),
      (l.foldl guitarInStep st).activePlayers
          = (l.filter (fun g => g.hasStaffGuitarsSet)).foldl applyGuitarIn st.activePlayers
      ∧ (l.foldl guitarInStep st).currentPosition
          = match (l.filter (fun g => g.hasStaffGuitarsSet)).getLast? with
            | none => st.currentPosition
            | some g => g.position := by
  intro l
  induction l with
  | nil => intro st; exact ⟨rfl, rfl⟩
  | cons g rest ih =>
    intro st
    rw [List.foldl_cons]
    obtain ⟨h1, h2⟩ := ih (guitarInStep st g)
    by_cases hflag : g.hasStaffGuitarsSet = true
    · have hstep1 : (guitarInStep st g).activePlayers = applyGuitarIn st.activePlayers g := by
        simp [guitarInStep, hflag]
      have hstep2 : (guitarInStep st g).currentPosition = g.position := by
        simp [guitarInStep, hflag]
      rw [h1, h2, hstep1, hstep2, List.filter_cons_of_pos hflag]
      refine ⟨rfl, ?_⟩
      cases hrest : rest.filter (fun g => g.hasStaffGuitarsSet) with
      | nil => rfl
      | cons g2 rest2 =>
        rw [List.getLast?_cons_cons,
          List.getLast?_eq_getLast (g2 :: rest2) (List.cons_ne_nil g2 rest2)]
    · have hstep : guitarInStep st g = st := by
        simp [guitarInStep, hflag]
      rw [h1, h2, hstep, List.filter_cons_of_neg hflag]
      exact ⟨rfl, rfl⟩

/-- The body of the system loop for a system with guitar-ins: the new
`activePlayers` array, and the final player change it inserts. -/
theorem convertGuitarInsOfSystem_spec (guitarIns : List PowerTabDocument.GuitarIn)
    (front : PowerTabDocument.GuitarIn) (activePlayers : List Int) (system : System) :
    (convertGuitarInsOfSystem guitarIns front activePlayers system).2
        = (guitarIns.filter (fun g => g.hasStaffGuitarsSet)).foldl applyGuitarIn activePlayers
    ∧ ∀ g, (guitarIns.filter (fun g => g.hasStaffGuitarsSet)).getLast? = some g →
        getPlayerChange
            ((guitarIns.filter (fun g => g.hasStaffGuitarsSet)).foldl applyGuitarIn activePlayers)
            g.position
          ∈ (convertGuitarInsOfSystem guitarIns front activePlayers system).1.playerChanges := by
  obtain ⟨h1, h2⟩ := foldl_guitarInStep_spec guitarIns
    { system := system, activePlayers := activePlayers, currentPosition := front.position }
  refine ⟨h1, ?_⟩
  intro g hlast
  rw [hlast] at h2
  simp only [convertGuitarInsOfSystem, System.insertPlayerChange, List.mem_append,
    List.mem_singleton]
  right
  rw [h1, h2]

/-- One iteration of the system loop of `convertGuitarIns` on an existing
system. -/
theorem convertGuitarInsStep_spec (oldScore : PowerTabDocument.Score) (n : Nat)
    (acc : List Int × Score) (hn : n < acc.2.systems.length) :
    ∃ result : Score,
      convertGuitarInsStep oldScore n acc
          = some ((flaggedGuitarIns oldScore n).foldl applyGuitarIn acc.1, result)
      ∧ result.systems.length = acc.2.systems.length
      ∧ (∀ i : Nat, i ≠ n → result.systems[i]? = acc.2.systems[i]?)
      ∧ ∀ g, (flaggedGuitarIns oldScore n).getLast? = some g →
          ∃ system, result.systems[n]? = some system
            ∧ getPlayerChange ((flaggedGuitarIns oldScore n).foldl applyGuitarIn acc.1)
                g.position ∈ system.playerChanges := by
  unfold convertGuitarInsStep flaggedGuitarIns
  cases hgis : oldScore.getGuitarInsInSystem n with
  | nil =>
    refine ⟨acc.2, rfl, rfl, fun _ _ => rfl, ?_⟩
    intro g hg
    simp at hg
  | cons front rest =>
    simp only []
    rw [List.getElem?_eq_getElem hn]
    simp only []
    obtain ⟨h1, h2⟩ := convertGuitarInsOfSystem_spec (front :: rest) front acc.1
      acc.2.systems[n]
    refine ⟨_, by rw [h1], by simp, ?_, ?_⟩
    · intro i hi
      simp only [List.getElem?_set]
      rw [if_neg (Ne.symm hi)]
    · intro g hg
      refine ⟨_, ?_, h2 g hg⟩
      simp only [List.getElem?_set]
      rw [if_pos trivial, if_pos hn]

/-- The state of `convertGuitarIns` after `n` systems: it has not failed, the
`activePlayers` array is the accumulated state, and every system among the first
`n` that has a flagged guitar-in holds the player change built from the state
accumulated up to its last flagged guitar-in, at that guitar-in's position. -/
theorem convertGuitarInsUpTo_spec (ext : Externals) (oldScore : PowerTabDocument.Score)
    (score : Score) (hlen : oldScore.systems.length ≤ score.systems.length) :
    ∀ n : Nat, n ≤ oldScore.systems.length →
      ∃ result : Score,
        convertGuitarInsUpTo ext oldScore score n
            = some (activePlayersAfter ext oldScore n, result)
        ∧ result.systems.length = score.systems.length
        ∧ ∀ i : Nat, i < n → ∀ g, (flaggedGuitarIns oldScore i).getLast? = some g →
            ∃ system, result.systems[i]? = some system
              ∧ getPlayerChange (activePlayersAfter ext oldScore (i + 1)) g.position
                  ∈ system.playerChanges := by
  intro n
  induction n with
  | zero =>
    intro _
    exact ⟨score, rfl, rfl, fun i hi => absurd hi (Nat.not_lt_zero i)⟩
  | succ n ih =>
    intro hn
    obtain ⟨prev, hprev, hprevlen, hprevchanges⟩ := ih (by omega)
    obtain ⟨result, hstep, hreslen, hother, hthis⟩ :=
      convertGuitarInsStep_spec oldScore n (activePlayersAfter ext oldScore n, prev)
        (by simp only []; omega)
    refine ⟨result, ?_, hreslen.trans hprevlen, ?_⟩
    · rw [convertGuitarInsUpTo, hprev]
      exact hstep
    · intro i hi g hg
      by_cases hin : i = n
      · subst hin
        exact hthis g hg
      · obtain ⟨system, hsys, hmem⟩ := hprevchanges i (by omega) g hg
        exact ⟨system, by rw [hother i hin]; exact hsys, hmem⟩

/-- C10: after `convertGuitarIns` (run on a score that has a system for every
legacy system), every system that has at least one guitar-in with the
staff-guitars flag set contains a player change located at the position of the
last such guitar-in of the system whose active players are exactly those of the
accumulated `activePlayers` state after that guitar-in: guitar `k` is listed on
staff `activePlayers[k]` as `ActivePlayer(k, k)`, and nothing else is listed. -/
theorem convertGuitarIns_player_change (ext : Externals)
    (oldScore : PowerTabDocument.Score) (score : Score) (i : Nat)
    (hlen : oldScore.systems.length ≤ score.systems.length)
    (hi : i < oldScore.systems.length)
    (hflag : flaggedGuitarIns oldScore i ≠ []) :
    ∃ (result : Score) (system : System) (change : PlayerChange),
      convertGuitarIns ext oldScore score = some result
      ∧ result.systems[i]? = some system
      ∧ change ∈ system.playerChanges
      ∧ change.position = ((flaggedGuitarIns oldScore i).getLast hflag).position
      ∧ ∀ (staff : Int) (p : ActivePlayer),
          p ∈ change.getActivePlayers staff ↔
            ∃ k : Nat, (activePlayersAfter ext oldScore (i + 1))[k]? = some staff
              ∧ 0 ≤ staff ∧ p = ⟨k, k⟩ := by
  obtain ⟨result, hres, _, hchanges⟩ :=
    convertGuitarInsUpTo_spec ext oldScore score hlen oldScore.systems.length (le_refl _)
  obtain ⟨system, hsys, hmem⟩ :=
    hchanges i hi ((flaggedGuitarIns oldScore i).getLast hflag)
      (List.getLast?_eq_getLast _ hflag)
  obtain ⟨hpos, hplayers⟩ :=
    getPlayerChange_spec (activePlayersAfter ext oldScore (i + 1))
      ((flaggedGuitarIns oldScore i).getLast hflag).position
  refine ⟨result, system, _, ?_, hsys, hmem, hpos, hplayers⟩
  unfold convertGuitarIns
  rw [hres]
  rfl

set_option maxRecDepth 100000 in
/-- Witness of C10 on `sampleGuitarScore`: its system 0 has two flagged
guitar-ins (guitar 0 on staff 0 at position 0, guitar 1 on staff 1 at position
8); the accumulated state is guitar 0 on staff 0 and guitar 1 on staff 1, and
the player changes written are the one at 0 and the final one at 8. -/
theorem convertGuitarIns_player_change_witness :
    sampleGuitarScore.systems.length ≤ sampleTargetScore.systems.length
    ∧ 0 < sampleGuitarScore.systems.length
    ∧ flaggedGuitarIns sampleGuitarScore 0 ≠ []
    ∧ activePlayersAfter sampleExternals sampleGuitarScore 1 = [0, 1, -1, -1, -1, -1, -1]
    ∧ (convertGuitarIns sampleExternals sampleGuitarScore sampleTargetScore).map
          (fun result => result.systems.map (fun system => system.playerChanges))
        = some [[{ position := 0, activePlayers := [(0, ⟨0, 0⟩)] },
                 { position := 8, activePlayers := [(0, ⟨0, 0⟩), (1, ⟨1, 1⟩)] }]]
    ∧ ∃ (result : Score) (system : System) (change : PlayerChange),
        convertGuitarIns sampleExternals sampleGuitarScore sampleTargetScore = some result
        ∧ result.systems[0]? = some system
        ∧ change ∈ system.playerChanges
        ∧ change.position
            = ((flaggedGuitarIns sampleGuitarScore 0).getLast (by decide)).position
        ∧ ∀ (staff : Int) (p : ActivePlayer),
            p ∈ change.getActivePlayers staff ↔
              ∃ k : Nat, (activePlayersAfter sampleExternals sampleGuitarScore (0 + 1))[k]?
                  = some staff
                ∧ 0 ≤ staff ∧ p = ⟨k, k⟩ :=
  ⟨by decide, by decide, by decide, by decide, by decide,
   convertGuitarIns_player_change sampleExternals sampleGuitarScore sampleTargetScore 0
     (by decide) (by decide) (by decide)⟩

/-! ### Dynamics per staff (claim C14) -/

/-- The `j`-th of the converted staves `i, i + 1, ...` is the conversion of the
`j`-th legacy staff with the dynamics that name staff `i + j`. -/
theorem convertedStaves_getElem? (dynamics : List PowerTabDocument.Dynamic) :
    ∀ (l : List PowerTabDocument.Staff) (i j : Nat),
      (convertedStaves dynamics i l)[j]?
        = l[j]?.map (fun oldStaff =>
            convertStaff oldStaff (dynamics.filter (fun d => d.staff = i + j)) default) := by
  intro l
  induction l with
  | nil => intro i j; simp [convertedStaves]
  | cons oldStaff rest ih =>
    intro i j
    cases j with
    | zero => simp [convertedStaves]
    | succ j =>
      simp only [convertedStaves, List.getElem?_cons_succ, ih]
      have hij : i + 1 + j = i + (j + 1) := by omega
      rw [hij]

/-- C14: for every legacy system and every staff index `i` of it, the dynamics
of converted staff `i` are exactly the conversions (same position, volume =
legacy staff volume), in legacy order, of those dynamics of the system whose
legacy staff index is `i` and whose staff-volume flag is set; every dynamic of
every converted staff comes from a legacy dynamic with the staff-volume flag
set, so rhythm-slash-only dynamics appear in no staff. -/
theorem convertSystem_staff_dynamics (ext : Externals) (oldScore : PowerTabDocument.Score)
    (index : Nat) (oldSystem : PowerTabDocument.System) (i : Nat)
    (hi : i < oldSystem.staves.length) :
    (convertSystem ext oldScore index oldSystem default).staves[i]?.map
        (fun staff => staff.dynamics)
      = some (((oldScore.getDynamicsInSystem index).filter
          (fun d => decide (d.staff = i) && d.isStaffVolumeSet)).map
          (fun d => ({ position := d.position, volume := d.staffVolume } : Dynamic)))
    ∧ ∀ staff ∈ (convertSystem ext oldScore index oldSystem default).staves,
        ∀ dynamic ∈ staff.dynamics,
          ∃ d ∈ oldScore.getDynamicsInSystem index,
            d.isStaffVolumeSet = true ∧ dynamic.position = d.position
              ∧ dynamic.volume = d.staffVolume := by
  obtain ⟨_, hs⟩ := convertSystem_shape ext oldScore index oldSystem
  rw [hs]
  constructor
  · rw [List.getElem?_map, convertedStaves_getElem?, List.getElem?_eq_getElem hi]
    simp only [Option.map_some', (convertStaff_content _ _).1, List.filter_filter,
      Nat.zero_add]
    have hfilter : (fun a : PowerTabDocument.Dynamic => a.isStaffVolumeSet && decide (a.staff = i))
        = (fun d => decide (d.staff = i) && d.isStaffVolumeSet) := by
      funext d
      exact Bool.and_comm _ _
    rw [hfilter]
    rfl
  · intro staff hstaff dynamic hdynamic
    obtain ⟨r, hr, rfl⟩ := List.mem_map.mp hstaff
    obtain ⟨j, hj⟩ := List.getElem?_of_mem hr
    rw [convertedStaves_getElem?] at hj
    obtain ⟨oldStaff, _, rfl⟩ := Option.map_eq_some'.mp hj
    rw [(convertStaff_content _ _).1] at hdynamic
    obtain ⟨d, hd, rfl⟩ := List.mem_map.mp hdynamic
    rw [List.mem_filter, List.mem_filter] at hd
    exact ⟨d, hd.1.1, hd.2, rfl, rfl⟩

/-- Witness of C14 on `sampleStaffDynamicsScore`: staff 0 receives the staff
dynamic at position 0 with volume 96 and not the rhythm-slash-only dynamic at
position 8. -/
theorem convertSystem_staff_dynamics_witness :
    0 < sampleStaffSystem.staves.length
    ∧ (convertSystem sampleExternals sampleStaffDynamicsScore 0 sampleStaffSystem
          default).staves[0]?.map (fun staff => staff.dynamics)
        = some [{ position := 0, volume := 96 }]
    ∧ (convertSystem sampleExternals sampleStaffDynamicsScore 0 sampleStaffSystem
          default).staves[0]?.map (fun staff => staff.dynamics)
        = some (((sampleStaffDynamicsScore.getDynamicsInSystem 0).filter
            (fun d => decide (d.staff = 0) && d.isStaffVolumeSet)).map
            (fun d => ({ position := d.position, volume := d.staffVolume } : Dynamic))) :=
  ⟨by decide, by decide,
   (convertSystem_staff_dynamics sampleExternals sampleStaffDynamicsScore 0 sampleStaffSystem 0
      (by decide)).1⟩

/-! ### Irregular groupings (claims C15, C16) -/

/-- The positions inside a group only raise the position count. -/
theorem foldl_irregularGroupingStep_inner :
    ∀ (inner : List PowerTabDocument.Position) (st : GroupingState),
      (∀ p ∈ inner, p.isIrregularGroupingStart = false ∧ p.isIrregularGroupingEnd = false
          ∧ (p.isIrregularGroupingMiddle = true ∨ p.isAcciaccatura = true)) →
      inner.foldl irregularGroupingStep st
        = { st with positionCount := st.positionCount + inner.length } := by
  intro inner
  induction inner with
  | nil => intro st _; rfl
  | cons p rest ih =>
    intro st h
    obtain ⟨hs, he, hm⟩ := h p (List.mem_cons_self p rest)
    rw [List.foldl_cons, ih _ (fun q hq => h q (List.mem_cons_of_mem p hq))]
    have hstep : irregularGroupingStep st p
        = { st with positionCount := st.positionCount + 1 } := by
      unfold irregularGroupingStep
      rw [hs, he]
      rcases hm with hm | hm
      · simp [hm]
      · by_cases hmid : p.isIrregularGroupingMiddle = true
        · simp [hmid]
        · simp [hmid, hm]
    rw [hstep]
    simp only [List.length_cons, GroupingState.mk.injEq, true_and, and_true]
    omega

/-- One well-formed item: whatever the loop variables hold on entry, the voice
gains the grouping of the item, if it has one, and nothing else. -/
theorem foldl_irregularGroupingStep_item (item : VoiceItem) (h : item.WellFormed)
    (st : GroupingState) :
    (item.positions.foldl irregularGroupingStep st).v
      = { st.v with irregularGroupings := st.v.irregularGroupings ++ item.grouping?.toList } := by
  cases item with
  | plain p =>
    obtain ⟨hs, hm, he⟩ := h
    simp only [VoiceItem.positions, List.foldl_cons, List.foldl_nil, VoiceItem.grouping?,
      Option.toList, List.append_nil]
    unfold irregularGroupingStep
    rw [hs, hm, he]
    by_cases ha : p.isAcciaccatura = true <;> simp [ha]
  | group start inner last =>
    obtain ⟨hs, hinner, hls, hlm, hle⟩ := h
    simp only [VoiceItem.positions, List.foldl_cons, List.foldl_append, List.foldl_nil]
    rw [foldl_irregularGroupingStep_inner inner _ hinner]
    have hstart : irregularGroupingStep st start
        = { st with startPos := start.position, positionCount := 1,
                    notesPlayed := start.notesPlayed,
                    notesPlayedOver := start.notesPlayedOver } := by
      unfold irregularGroupingStep
      simp [hs]
    rw [hstart]
    unfold irregularGroupingStep
    simp only [hls, hlm, hle, VoiceItem.grouping?, Option.toList,
      Voice.insertIrregularGrouping]
    simp only [Bool.false_eq_true, if_false, if_true]
    have hlen : 1 + inner.length + 1 = inner.length + 2 := by omega
    rw [hlen]

/-- A sequence of well-formed items: the voice gains one grouping per group, in
order. -/
theorem foldl_irregularGroupingStep_items :
    ∀ (items : List VoiceItem) (st : GroupingState), (∀ item ∈ items, item.WellFormed) →
      ((items.flatMap VoiceItem.positions).foldl irregularGroupingStep st).v
        = { st.v with irregularGroupings :=
              st.v.irregularGroupings ++ items.filterMap VoiceItem.grouping? } := by
  intro items
  induction items with
  | nil => intro st _; simp
  | cons item rest ih =>
    intro st h
    rw [List.flatMap_cons, List.foldl_append,
      ih _ (fun it hit => h it (List.mem_cons_of_mem item hit)),
      foldl_irregularGroupingStep_item item (h item (List.mem_cons_self item rest))]
    cases hg : item.grouping? with
    | none => simp [List.filterMap_cons, hg]
    | some g => simp [List.filterMap_cons, hg]

/-- Positions without an end flag add no grouping to the voice. -/
theorem foldl_irregularGroupingStep_no_end :
    ∀ (l : List PowerTabDocument.Position) (st : GroupingState),
      (∀ p ∈ l, p.isIrregularGroupingEnd = false) →
      (l.foldl irregularGroupingStep st).v = st.v := by
  intro l
  induction l with
  | nil => intro st _; rfl
  | cons p rest ih =>
    intro st h
    rw [List.foldl_cons, ih _ (fun q hq => h q (List.mem_cons_of_mem p hq))]
    unfold irregularGroupingStep
    simp only [h p (List.mem_cons_self p rest), Bool.false_eq_true, if_false]
    split_ifs <;> rfl

/-- The voices of a converted staff: each holds the converted positions of the
legacy voice and the groupings the irregular-grouping loop adds to it. -/
theorem convertStaff_voices (oldStaff : PowerTabDocument.Staff)
    (dynamics : List PowerTabDocument.Dynamic) :
    (convertStaff oldStaff dynamics default).2.voices
      = [convertIrregularGroupings (oldStaff.getPositions 0)
           { positions := (oldStaff.getPositions 0).map (fun p => convertPosition p default),
             irregularGroupings := [] },
         convertIrregularGroupings (oldStaff.getPositions 1)
           { positions := (oldStaff.getPositions 1).map (fun p => convertPosition p default),
             irregularGroupings := [] }] := by
  have hrange : List.range PowerTabDocument.Staff.NUM_STAFF_VOICES = [0, 1] := by decide
  have hvoices : (default : Staff).voices = [default, default] := rfl
  have hempty : (default : Voice) = { positions := [], irregularGroupings := [] } := rfl
  simp only [convertStaff, hrange, List.foldl_cons, List.foldl_nil]
  rw [convertVoicePositions_staff, convertVoicePositions_staff, convertStaffDynamics_staff]
  simp only [Staff.modifyVoice, hvoices, List.modify_succ_cons, List.modify_zero_cons, hempty,
    List.nil_append]


/-- C15: in a voice whose positions are tagged well (every group is a start
position, then positions flagged middle or acciaccatura, then an end position;
every other position carries none of the three tags), the converted voice holds
exactly one irregular grouping per group, in order, with the position index of
the start position, the number of positions from start to end inclusive, and the
notes-played and notes-played-over values of the start position. -/
theorem convertStaff_irregular_groupings (oldStaff : PowerTabDocument.Staff)
    (dynamics : List PowerTabDocument.Dynamic) (voice : Nat) (items : List VoiceItem)
    (hvoice : voice < PowerTabDocument.Staff.NUM_STAFF_VOICES)
    (hitems : ∀ item ∈ items, item.WellFormed)
    (hpositions : oldStaff.getPositions voice = items.flatMap VoiceItem.positions) :
    ((convertStaff oldStaff dynamics default).2.voices[voice]?).map
        (fun v => v.irregularGroupings)
      = some (items.filterMap VoiceItem.grouping?) := by
  rw [convertStaff_voices]
  have hcases : voice = 0 ∨ voice = 1 := by
    have : voice < 2 := hvoice
    omega
  rcases hcases with h0 | h1
  · subst h0
    simp only [List.getElem?_cons_zero, Option.map_some', convertIrregularGroupings, hpositions]
    rw [foldl_irregularGroupingStep_items items _ hitems]
    simp
  · subst h1
    simp only [List.getElem?_cons_succ, List.getElem?_cons_zero, Option.map_some',
      convertIrregularGroupings, hpositions]
    rw [foldl_irregularGroupingStep_items items _ hitems]
    simp

/-- C16: when the well-tagged part of a voice is followed by a start position
that no end position follows, the unterminated group adds no irregular grouping:
the converted voice holds the groupings of the complete groups only. -/
theorem convertStaff_unterminated_grouping (oldStaff : PowerTabDocument.Staff)
    (dynamics : List PowerTabDocument.Dynamic) (voice : Nat) (items : List VoiceItem)
    (openStart : PowerTabDocument.Position) (tail : List PowerTabDocument.Position)
    (hvoice : voice < PowerTabDocument.Staff.NUM_STAFF_VOICES)
    (hitems : ∀ item ∈ items, item.WellFormed)
    (hstart : openStart.isIrregularGroupingStart = true)
    (htail : ∀ p ∈ tail, p.isIrregularGroupingEnd = false)
    (hpositions : oldStaff.getPositions voice
      = items.flatMap VoiceItem.positions ++ openStart :: tail) :
    ((convertStaff oldStaff dynamics default).2.voices[voice]?).map
        (fun v => v.irregularGroupings)
      = some (items.filterMap VoiceItem.grouping?) := by
  have hstep : ∀ st : GroupingState, (irregularGroupingStep st openStart).v = st.v := by
    intro st
    unfold irregularGroupingStep
    simp [hstart]
  rw [convertStaff_voices]
  have hcases : voice = 0 ∨ voice = 1 := by
    have : voice < 2 := hvoice
    omega
  rcases hcases with h0 | h1
  · subst h0
    simp only [List.getElem?_cons_zero, Option.map_some', convertIrregularGroupings, hpositions,
      List.foldl_append, List.foldl_cons]
    rw [foldl_irregularGroupingStep_no_end tail _ htail, hstep,
      foldl_irregularGroupingStep_items items _ hitems]
    simp
  · subst h1
    simp only [List.getElem?_cons_succ, List.getElem?_cons_zero, Option.map_some',
      convertIrregularGroupings, hpositions, List.foldl_append, List.foldl_cons]
    rw [foldl_irregularGroupingStep_no_end tail _ htail, hstep,
      foldl_irregularGroupingStep_items items _ hitems]
    simp
/-- The items of `sampleGroupedItems` are tagged well. -/
theorem sampleGroupedItems_wellFormed : ∀ item ∈ sampleGroupedItems, item.WellFormed := by
  intro item h
  simp only [sampleGroupedItems, List.mem_cons, List.mem_singleton, List.not_mem_nil,
    or_false] at h
  rcases h with rfl | rfl | rfl
  · exact ⟨rfl, rfl, rfl⟩
  · refine ⟨rfl, ?_, rfl, rfl, rfl⟩
    intro p hp
    rw [List.mem_singleton] at hp
    subst hp
    exact ⟨rfl, rfl, Or.inl rfl⟩
  · exact ⟨rfl, rfl, rfl⟩

/-- Witness of C15 on `sampleGroupedStaff`: the group start (3 over 2) at 2, middle
at 4, end at 6 gives the one grouping at position 2 of length 3, 3 over 2. -/
theorem convertStaff_irregular_groupings_witness :
    ((convertStaff sampleGroupedStaff [] default).2.voices[0]?).map
        (fun v => v.irregularGroupings)
      = some [{ position := 2, length := 3, notesPlayed := 3, notesPlayedOver := 2 }] :=
  convertStaff_irregular_groupings sampleGroupedStaff [] 0 sampleGroupedItems (by decide)
    sampleGroupedItems_wellFormed rfl

/-- Witness of C16 on `sampleOpenGroupStaff`: the group started at 10 is never
ended and adds nothing to the grouping of the complete group. -/
theorem convertStaff_unterminated_grouping_witness :
    ((convertStaff sampleOpenGroupStaff [] default).2.voices[0]?).map
        (fun v => v.irregularGroupings)
      = some [{ position := 2, length := 3, notesPlayed := 3, notesPlayedOver := 2 }] :=
  convertStaff_unterminated_grouping sampleOpenGroupStaff [] 0 sampleGroupedItems
    (sampleTaggedPosition 10 true false false) [sampleTaggedPosition 12 false true false]
    (by decide) sampleGroupedItems_wellFormed rfl
    (by intro p hp; rw [List.mem_singleton] at hp; subst hp; rfl) rfl

/-! ### One player change per guitar-in position (claim C11) -/

/-- The system loop of `convertGuitarIns`, system by system: after `n`
iterations the first `n` systems have been through `systemAfterGuitarIns`, each
entered with the array accumulated over the systems before it, and the others
are as they were. -/
theorem convertGuitarInsUpTo_systems (ext : Externals) (oldScore : PowerTabDocument.Score)
    (score : Score) (hlen : oldScore.systems.length ≤ score.systems.length) :
    ∀ n : Nat, n ≤ oldScore.systems.length →
      ∃ result : Score,
        convertGuitarInsUpTo ext oldScore score n
            = some (activePlayersAfter ext oldScore n, result)
        ∧ result.players = score.players ∧ result.instruments = score.instruments
        ∧ result.systems.length = score.systems.length
        ∧ ∀ i : Nat, result.systems[i]?
            = score.systems[i]?.map (fun system =>
                if i < n then
                  systemAfterGuitarIns oldScore i (activePlayersAfter ext oldScore i) system
                else system) := by
  intro n
  induction n with
  | zero =>
    intro _
    refine ⟨score, rfl, rfl, rfl, rfl, ?_⟩
    intro i
    simp
  | succ n ih =>
    intro hn
    obtain ⟨prev, hprev, hplayers, hinstruments, hprevlen, hprevsys⟩ := ih (by omega)
    have hn1 : n < prev.systems.length := by omega
    have hn2 : n < score.systems.length := by omega
    rw [convertGuitarInsUpTo, hprev]
    simp only []
    unfold convertGuitarInsStep
    cases hgis : oldScore.getGuitarInsInSystem n with
    | nil =>
      refine ⟨prev, ?_, hplayers, hinstruments, hprevlen, ?_⟩
      · simp [activePlayersAfter, flaggedGuitarIns, hgis]
      · intro i
        rw [hprevsys i]
        by_cases hin : i = n
        · subst hin
          simp [systemAfterGuitarIns, hgis]
        · have hiff : i < n + 1 ↔ i < n := by omega
          simp only [hiff]
    | cons front rest =>
      simp only []
      rw [List.getElem?_eq_getElem hn1]
      simp only []
      obtain ⟨h1, _⟩ := convertGuitarInsOfSystem_spec (front :: rest) front
        (activePlayersAfter ext oldScore n) prev.systems[n]
      refine ⟨Score.mk prev.players prev.instruments (prev.systems.set n
          (convertGuitarInsOfSystem (front :: rest) front
            (activePlayersAfter ext oldScore n) prev.systems[n]).1), ?_,
        hplayers, hinstruments, ?_, ?_⟩
      · rw [h1]
        simp [activePlayersAfter, flaggedGuitarIns, hgis]
      · simp only [List.length_set]
        exact hprevlen
      · intro i
        simp only []
        by_cases hin : i = n
        · subst hin
          have hprevi := hprevsys i
          rw [List.getElem?_eq_getElem hn1, List.getElem?_eq_getElem hn2] at hprevi
          simp only [Option.map_some', lt_irrefl, if_false, Option.some.injEq] at hprevi
          rw [List.getElem?_set_self hn1, List.getElem?_eq_getElem hn2]
          simp [systemAfterGuitarIns, hgis, hprevi]
        · rw [List.getElem?_set_ne (Ne.symm hin), hprevsys i]
          have hiff : i < n + 1 ↔ i < n := by omega
          simp only [hiff]

/-- The whole of `convertGuitarIns` on a score that has a system for every
legacy system. -/
theorem convertGuitarIns_systems (ext : Externals) (oldScore : PowerTabDocument.Score)
    (score : Score) (hlen : oldScore.systems.length ≤ score.systems.length) :
    ∃ result : Score,
      convertGuitarIns ext oldScore score = some result
      ∧ result.players = score.players ∧ result.instruments = score.instruments
      ∧ result.systems.length = score.systems.length
      ∧ ∀ i : Nat, result.systems[i]?
          = score.systems[i]?.map (fun system =>
              if i < oldScore.systems.length then
                systemAfterGuitarIns oldScore i (activePlayersAfter ext oldScore i) system
              else system) := by
  obtain ⟨result, hres, h1, h2, h3, h4⟩ :=
    convertGuitarInsUpTo_systems ext oldScore score hlen oldScore.systems.length (le_refl _)
  refine ⟨result, ?_, h1, h2, h3, h4⟩
  unfold convertGuitarIns
  rw [hres]
  rfl

/-- The guitar-in loop on flagged guitar-ins ordered by position, entered with
`currentPosition` not beyond the first of them: together with the final player
change it writes one change per distinct position of `currentPosition` and the
guitar-ins. -/
theorem foldl_guitarInStep_changes :
    ∀ (l : List PowerTabDocument.GuitarIn) (st : GuitarInState),
      (∀ g ∈ l, g.hasStaffGuitarsSet = true) →
      l.Pairwise (fun a b => a.position ≤ b.position) →
      (∀ g ∈ l, st.currentPosition ≤ g.position) →
      ((l.foldl guitarInStep st).system.insertPlayerChange
          (getPlayerChange (l.foldl guitarInStep st).activePlayers
            (l.foldl guitarInStep st).currentPosition)).playerChanges
        = st.system.playerChanges
          ++ (st.currentPosition :: l.map (fun g => g.position)).dedup.map
              (fun p => getPlayerChange
                ((l.filter (fun g => decide (g.position ≤ p))).foldl applyGuitarIn
                  st.activePlayers) p) := by
  intro l
  induction l with
  | nil =>
    intro st _ _ _
    simp [System.insertPlayerChange]
  | cons g rest ih =>
    intro st hflag hsorted hle
    have hg : g.hasStaffGuitarsSet = true := hflag g (List.mem_cons_self g rest)
    have hrestflag : ∀ x ∈ rest, x.hasStaffGuitarsSet = true :=
      fun x hx => hflag x (List.mem_cons_of_mem g hx)
    obtain ⟨hgle, hrestsorted⟩ := List.pairwise_cons.mp hsorted
    have hcg : st.currentPosition ≤ g.position := hle g (List.mem_cons_self g rest)
    rw [List.foldl_cons]
    by_cases hpos : g.position = st.currentPosition
    · have hstep : guitarInStep st g
          = { system := st.system, activePlayers := applyGuitarIn st.activePlayers g,
              currentPosition := st.currentPosition } := by
        simp [guitarInStep, hg, hpos]
      rw [hstep, ih _ hrestflag hrestsorted
        (fun x hx => by simp only []; exact hle x (List.mem_cons_of_mem g hx))]
      simp only [List.map_cons, hpos]
      rw [List.dedup_cons_of_mem (List.mem_cons_self _ _)]
      congr 1
      apply List.map_congr_left
      intro p hp
      have hp2 : st.currentPosition ≤ p := by
        rcases List.mem_cons.mp (List.mem_dedup.mp hp) with h | h
        · rw [h]
        · obtain ⟨x, hx, rfl⟩ := List.mem_map.mp h
          exact hle x (List.mem_cons_of_mem g hx)
      have hkeep : g.position ≤ p := by
        rw [hpos]; exact hp2
      simp only [List.filter_cons, hkeep, decide_True, if_true, List.foldl_cons]
    · have hlt : st.currentPosition < g.position := by omega
      have hstep : guitarInStep st g
          = { system := st.system.insertPlayerChange
                (getPlayerChange st.activePlayers st.currentPosition),
              activePlayers := applyGuitarIn st.activePlayers g,
              currentPosition := g.position } := by
        simp [guitarInStep, hg, hpos]
      rw [hstep, ih _ hrestflag hrestsorted (fun x hx => by simp only []; exact hgle x hx)]
      simp only [List.map_cons, System.insertPlayerChange, List.append_assoc]
      have hnotmem : st.currentPosition ∉ g.position :: rest.map (fun g => g.position) := by
        intro h
        rcases List.mem_cons.mp h with h | h
        · omega
        · obtain ⟨x, hx, hxe⟩ := List.mem_map.mp h
          have := hgle x hx
          omega
      rw [List.dedup_cons_of_not_mem hnotmem, List.map_cons]
      have hnone : (g :: rest).filter (fun x => decide (x.position ≤ st.currentPosition)) = [] := by
        rw [List.filter_eq_nil_iff]
        intro x hx
        have : st.currentPosition < x.position := by
          rcases List.mem_cons.mp hx with h | h
          · rw [h]; exact hlt
          · have := hgle x h
            omega
        simp only [decide_eq_true_eq]
        omega
      rw [hnone]
      simp only [List.foldl_nil, List.singleton_append]
      congr 1
      rw [List.cons.injEq]
      refine ⟨rfl, ?_⟩
      apply List.map_congr_left
      intro p hp
      have hp2 : g.position ≤ p := by
        rcases List.mem_cons.mp (List.mem_dedup.mp hp) with h | h
        · rw [h]
        · obtain ⟨x, hx, rfl⟩ := List.mem_map.mp h
          exact hgle x hx
      simp only [List.filter_cons, hp2, decide_True, if_true, List.foldl_cons]

/-- The system loop body on a system whose guitar-ins are all flagged and ordered
by position: it appends `changesPerPosition`. -/
theorem systemAfterGuitarIns_changes (oldScore : PowerTabDocument.Score) (i : Nat)
    (activePlayers : List Int) (system : System)
    (hflag : ∀ g ∈ oldScore.getGuitarInsInSystem i, g.hasStaffGuitarsSet = true)
    (hsorted : (oldScore.getGuitarInsInSystem i).Pairwise
      (fun a b => a.position ≤ b.position)) :
    (systemAfterGuitarIns oldScore i activePlayers system).playerChanges
      = system.playerChanges
        ++ changesPerPosition (oldScore.getGuitarInsInSystem i) activePlayers := by
  unfold systemAfterGuitarIns changesPerPosition
  cases hgis : oldScore.getGuitarInsInSystem i with
  | nil => simp
  | cons front rest =>
    rw [hgis] at hflag hsorted
    simp only [convertGuitarInsOfSystem]
    rw [foldl_guitarInStep_changes (front :: rest) _ hflag hsorted]
    · simp only [List.map_cons]
      rw [List.dedup_cons_of_mem (List.mem_cons_self _ _)]
    · intro g hgmem
      simp only []
      rcases List.mem_cons.mp hgmem with h | h
      · rw [h]
      · exact (List.pairwise_cons.mp hsorted).1 g h

/-- What a guitar-in does to entry `k` of the array: the guitars of the mask go
to the staff of the guitar-in, the other players of that staff are cleared, and
everything else is kept. -/
theorem applyGuitarIn_getElem? (activePlayers : List Int)
    (guitarIn : PowerTabDocument.GuitarIn) (k : Nat) :
    (applyGuitarIn activePlayers guitarIn)[k]?
      = activePlayers[k]?.map (fun activePlayer =>
          if bitset8 guitarIn.staffGuitars k then (guitarIn.staff : Int)
          else if activePlayer = (guitarIn.staff : Int) then -1 else activePlayer) := by
  have hset : ∀ (l : List Int) (start k : Nat),
      (setActiveGuitars guitarIn.staffGuitars guitarIn.staff start l)[k]?
        = l[k]?.map (fun activePlayer =>
            if bitset8 guitarIn.staffGuitars (start + k) then (guitarIn.staff : Int)
            else activePlayer) := by
    intro l
    induction l with
    | nil => intro start k; simp [setActiveGuitars]
    | cons a rest ih =>
      intro start k
      cases k with
      | zero => simp [setActiveGuitars]
      | succ k =>
        simp only [setActiveGuitars, List.getElem?_cons_succ]
        rw [ih (start + 1) k]
        have : start + 1 + k = start + (k + 1) := by omega
        rw [this]
  unfold applyGuitarIn clearStaff
  rw [hset, List.getElem?_map, Option.map_map]
  simp only [Nat.zero_add]
  rfl

/-- C11: for a system whose guitar-ins all have the staff-guitars flag set and
are ordered by position, `convertGuitarIns` appends to the player changes of the
system exactly one change per distinct guitar-in position, in order and located
at that position, built from the array that results from applying every guitar-in
at a position up to and including it to the array accumulated over the earlier
systems.  Applying a guitar-in sends the guitars of its mask to its staff, clears
the other players of that staff and keeps the rest; the change built from an array
lists guitar `k` on staff `activePlayers[k]` as `ActivePlayer(k, k)`. -/
theorem convertGuitarIns_change_per_position (ext : Externals)
    (oldScore : PowerTabDocument.Score) (score : Score) (i : Nat)
    (hlen : oldScore.systems.length ≤ score.systems.length)
    (hi : i < oldScore.systems.length)
    (hflag : ∀ g ∈ oldScore.getGuitarInsInSystem i, g.hasStaffGuitarsSet = true)
    (hsorted : (oldScore.getGuitarInsInSystem i).Pairwise
      (fun a b => a.position ≤ b.position)) :
    (∃ (result : Score) (before after : System),
        convertGuitarIns ext oldScore score = some result
        ∧ score.systems[i]? = some before ∧ result.systems[i]? = some after
        ∧ after.playerChanges
            = before.playerChanges
              ++ changesPerPosition (oldScore.getGuitarInsInSystem i)
                  (activePlayersAfter ext oldScore i))
    ∧ (changesPerPosition (oldScore.getGuitarInsInSystem i)
          (activePlayersAfter ext oldScore i)).map (fun change => change.position)
        = ((oldScore.getGuitarInsInSystem i).map (fun g => g.position)).dedup
    ∧ (∀ (activePlayers : List Int) (guitarIn : PowerTabDocument.GuitarIn) (k : Nat),
        (applyGuitarIn activePlayers guitarIn)[k]?
          = activePlayers[k]?.map (fun activePlayer =>
              if bitset8 guitarIn.staffGuitars k then (guitarIn.staff : Int)
              else if activePlayer = (guitarIn.staff : Int) then -1 else activePlayer))
    ∧ ∀ (activePlayers : List Int) (position : Nat) (staff : Int) (p : ActivePlayer),
        p ∈ (getPlayerChange activePlayers position).getActivePlayers staff ↔
          ∃ k : Nat, activePlayers[k]? = some staff ∧ 0 ≤ staff ∧ p = ⟨k, k⟩ := by
  refine ⟨?_, ?_, applyGuitarIn_getElem?, fun activePlayers position =>
    (getPlayerChange_spec activePlayers position).2⟩
  · obtain ⟨result, hres, _, _, _, hsys⟩ := convertGuitarIns_systems ext oldScore score hlen
    have hi2 : i < score.systems.length := by omega
    refine ⟨result, score.systems[i],
      systemAfterGuitarIns oldScore i (activePlayersAfter ext oldScore i) score.systems[i],
      hres, List.getElem?_eq_getElem hi2, ?_, ?_⟩
    · rw [hsys i, List.getElem?_eq_getElem hi2]
      simp [hi]
    · exact systemAfterGuitarIns_changes oldScore i _ _ hflag hsorted
  · unfold changesPerPosition
    rw [List.map_map]
    have hfun : ((fun change : PlayerChange => change.position) ∘ fun p =>
        getPlayerChange
          ((List.filter (fun g => decide (g.position ≤ p))
            (oldScore.getGuitarInsInSystem i)).foldl applyGuitarIn
            (activePlayersAfter ext oldScore i)) p) = id := by
      funext p
      exact (getPlayerChange_spec _ p).1
    rw [hfun, List.map_id]

set_option maxRecDepth 100000 in
/-- Witness of C11 on `sampleGuitarScore`: guitar-ins (position 0, staff 0, mask
0b01) and (position 8, staff 1, mask 0b10) give the changes at 0 with guitar 0 on
staff 0 and at 8 with guitar 0 on staff 0 and guitar 1 on staff 1. -/
theorem convertGuitarIns_change_per_position_witness :
    sampleGuitarScore.systems.length ≤ sampleTargetScore.systems.length
    ∧ 0 < sampleGuitarScore.systems.length
    ∧ (∀ g ∈ sampleGuitarScore.getGuitarInsInSystem 0, g.hasStaffGuitarsSet = true)
    ∧ (sampleGuitarScore.getGuitarInsInSystem 0).Pairwise (fun a b => a.position ≤ b.position)
    ∧ changesPerPosition (sampleGuitarScore.getGuitarInsInSystem 0)
        (activePlayersAfter sampleExternals sampleGuitarScore 0)
      = [{ position := 0, activePlayers := [(0, ⟨0, 0⟩)] },
         { position := 8, activePlayers := [(0, ⟨0, 0⟩), (1, ⟨1, 1⟩)] }]
    ∧ ∃ (result : Score) (before after : System),
        convertGuitarIns sampleExternals sampleGuitarScore sampleTargetScore = some result
        ∧ sampleTargetScore.systems[0]? = some before ∧ result.systems[0]? = some after
        ∧ after.playerChanges
            = before.playerChanges
              ++ changesPerPosition (sampleGuitarScore.getGuitarInsInSystem 0)
                  (activePlayersAfter sampleExternals sampleGuitarScore 0) :=
  ⟨by decide, by decide, by decide, by decide, by decide,
   (convertGuitarIns_change_per_position sampleExternals sampleGuitarScore sampleTargetScore 0
     (by decide) (by decide) (by decide) (by decide)).1⟩

/-! ### Active players and the player list (claim C12) -/

/-- The barline loop leaves the player changes alone. -/
theorem convertBarlines_playerChanges (count : Nat) :
    ∀ (l : List PowerTabDocument.Barline) (i : Nat) (acc : System × Nat),
      (convertBarlines count i l acc).1.playerChanges = acc.1.playerChanges := by
  intro l
  induction l with
  | nil => intro i acc; rfl
  | cons oldBar rest ih =>
    intro i acc
    rw [convertBarlines, ih]
    split_ifs <;> rfl

/-- A loop of insertions that leave the player changes alone leaves them alone. -/
theorem foldl_keeps_playerChanges {α : Type} (f : System → α → System)
    (h : ∀ s a, (f s a).playerChanges = s.playerChanges) (l : List α) (sys : System) :
    (l.foldl f sys).playerChanges = sys.playerChanges :=
  foldl_invariant (fun t : System => t.playerChanges = sys.playerChanges) f
    (fun t a ht => (h t a).trans ht) l sys rfl

/-- A freshly converted system has no player change. -/
theorem convertSystem_playerChanges (ext : Externals) (oldScore : PowerTabDocument.Score)
    (index : Nat) (oldSystem : PowerTabDocument.System) :
    (convertSystem ext oldScore index oldSystem default).playerChanges = [] := by
  unfold convertSystem
  simp only [System.modifyLastBarline]
  rw [convertStaves_spec]
  simp only []
  have h1 := foldl_keeps_playerChanges
    (fun s tempo => s.insertTempoMarker (convertTempoMarker tempo default))
    (fun _ _ => rfl) (oldScore.getTempoMarkersInSystem index)
  have h2 := foldl_keeps_playerChanges
    (fun s ending => s.insertAlternateEnding (convertAlternateEnding ending default))
    (fun _ _ => rfl) (oldScore.getAlternateEndingsInSystem index)
  have h3 := foldl_keeps_playerChanges
    (fun s d => s.insertDirection (convertDirection d default))
    (fun _ _ => rfl) oldSystem.directions
  have h4 := foldl_keeps_playerChanges
    (fun s c => s.insertChord (convertChordText ext c default))
    (fun _ _ => rfl) oldSystem.chordTexts
  rw [h4, h3, h2, h1, convertBarlines_playerChanges]
  rfl

/-- The systems the system loop adds have no player change. -/
theorem convertSystems_playerChanges (ext : Externals) (oldScore : PowerTabDocument.Score) :
    ∀ (l : List PowerTabDocument.System) (i : Nat) (score : Score),
      ∀ system ∈ (convertSystems ext oldScore i l score).systems,
        system ∈ score.systems ∨ system.playerChanges = [] := by
  intro l
  induction l with
  | nil => intro i score system h; exact Or.inl h
  | cons oldSystem rest ih =>
    intro i score system h
    rw [convertSystems] at h
    rcases ih (i + 1) _ system h with h1 | h1
    · simp only [Score.insertSystem, List.mem_append, List.mem_singleton] at h1
      rcases h1 with h1 | h1
      · exact Or.inl h1
      · right
        rw [h1]
        exact convertSystem_playerChanges ext oldScore i oldSystem
    · exact Or.inr h1

/-- An array without active guitar places no guitar. -/
theorem activeWithin_replicate (count n : Nat) : ActiveWithin count (List.replicate n (-1)) := by
  intro k staff h hs
  rw [List.getElem?_replicate] at h
  split at h
  · cases h
    omega
  · cases h

/-- A guitar-in whose mask names existing guitars keeps the array within the
guitar count. -/
theorem activeWithin_applyGuitarIn (count : Nat) (activePlayers : List Int)
    (guitarIn : PowerTabDocument.GuitarIn) (h : ActiveWithin count activePlayers)
    (hmask : ∀ k : Nat, bitset8 guitarIn.staffGuitars k = true → k < count) :
    ActiveWithin count (applyGuitarIn activePlayers guitarIn) := by
  intro k staff hk hs
  rw [applyGuitarIn_getElem?] at hk
  obtain ⟨a, ha, hk⟩ := Option.map_eq_some'.mp hk
  by_cases hbit : bitset8 guitarIn.staffGuitars k = true
  · exact hmask k hbit
  · simp only [hbit, Bool.false_eq_true, if_false] at hk
    by_cases heq : a = (guitarIn.staff : Int)
    · simp only [heq, if_true] at hk
      omega
    · simp only [heq, if_false] at hk
      subst hk
      exact h k a ha hs

/-- The change built from an array within the guitar count is within it. -/
theorem getPlayerChange_withinCounts (count : Nat) (activePlayers : List Int)
    (position : Nat) (h : ActiveWithin count activePlayers) :
    (getPlayerChange activePlayers position).WithinCounts count count := by
  intro e he
  have hmem : e.2 ∈ (getPlayerChange activePlayers position).getActivePlayers e.1 :=
    (mem_getActivePlayers _ _ _).mpr he
  obtain ⟨k, hk, hs, hp⟩ := ((getPlayerChange_spec activePlayers position).2 e.1 e.2).mp hmem
  rw [hp]
  exact ⟨h k e.1 hk hs, h k e.1 hk hs⟩

/-- The guitar-in loop keeps the array within the guitar count, and the changes
it writes are within it. -/
theorem foldl_guitarInStep_withinCounts (count : Nat) :
    ∀ (l : List PowerTabDocument.GuitarIn) (st : GuitarInState),
      (∀ g ∈ l, g.hasStaffGuitarsSet = true →
        ∀ k : Nat, bitset8 g.staffGuitars k = true → k < count) →
      ActiveWithin count st.activePlayers →
      (∀ change ∈ st.system.playerChanges, change.WithinCounts count count) →
      ActiveWithin count (l.foldl guitarInStep st).activePlayers
      ∧ ∀ change ∈ (l.foldl guitarInStep st).system.playerChanges,
          change.WithinCounts count count := by
  intro l
  induction l with
  | nil => intro st _ h1 h2; exact ⟨h1, h2⟩
  | cons g rest ih =>
    intro st hmask h1 h2
    rw [List.foldl_cons]
    apply ih _ (fun x hx => hmask x (List.mem_cons_of_mem g hx))
    · unfold guitarInStep
      by_cases hflag : g.hasStaffGuitarsSet = true
      · simp only [hflag, Bool.not_true, Bool.false_eq_true, if_false]
        exact activeWithin_applyGuitarIn count _ g h1 (hmask g (List.mem_cons_self g rest) hflag)
      · simp only [hflag, Bool.not_false, if_true]
        exact h1
    · unfold guitarInStep
      by_cases hflag : g.hasStaffGuitarsSet = true
      · simp only [hflag, Bool.not_true, Bool.false_eq_true, if_false]
        split_ifs
        · intro change hchange
          simp only [System.insertPlayerChange, List.mem_append, List.mem_singleton] at hchange
          rcases hchange with hc | hc
          · exact h2 change hc
          · rw [hc]
            exact getPlayerChange_withinCounts count _ _ h1
        · exact h2
      · simp only [hflag, Bool.not_false, if_true]
        exact h2

/-- Applying guitar-ins whose masks name existing guitars keeps the array within
the guitar count. -/
theorem activeWithin_foldl_applyGuitarIn (count : Nat) :
    ∀ (l : List PowerTabDocument.GuitarIn) (activePlayers : List Int),
      (∀ g ∈ l, ∀ k : Nat, bitset8 g.staffGuitars k = true → k < count) →
      ActiveWithin count activePlayers →
      ActiveWithin count (l.foldl applyGuitarIn activePlayers) := by
  intro l
  induction l with
  | nil => intro activePlayers _ h; exact h
  | cons g rest ih =>
    intro activePlayers hmask h
    rw [List.foldl_cons]
    exact ih _ (fun x hx => hmask x (List.mem_cons_of_mem g hx))
      (activeWithin_applyGuitarIn count _ g h (hmask g (List.mem_cons_self g rest)))

/-- The guitar-ins of a system are guitar-ins of the score. -/
theorem mem_guitarIns_of_mem_system (oldScore : PowerTabDocument.Score) (i : Nat)
    (g : PowerTabDocument.GuitarIn) (h : g ∈ oldScore.getGuitarInsInSystem i) :
    g ∈ oldScore.guitarIns := by
  unfold PowerTabDocument.Score.getGuitarInsInSystem at h
  exact (List.mem_filter.mp h).1

/-- The array accumulated over the first `n` systems stays within the guitar
count. -/
theorem activePlayersAfter_within (ext : Externals) (oldScore : PowerTabDocument.Score)
    (hmask : MasksNameGuitars oldScore) :
    ∀ n : Nat, ActiveWithin oldScore.guitars.length (activePlayersAfter ext oldScore n) := by
  intro n
  induction n with
  | zero => exact activeWithin_replicate _ _
  | succ n ih =>
    rw [activePlayersAfter]
    apply activeWithin_foldl_applyGuitarIn _ _ _ _ ih
    intro g hg
    unfold flaggedGuitarIns at hg
    obtain ⟨hg1, hg2⟩ := List.mem_filter.mp hg
    exact hmask g (mem_guitarIns_of_mem_system oldScore n g hg1) hg2

/-- The system loop body of `convertGuitarIns` writes changes within the guitar
count. -/
theorem systemAfterGuitarIns_withinCounts (oldScore : PowerTabDocument.Score) (i : Nat)
    (activePlayers : List Int) (system : System) (hmask : MasksNameGuitars oldScore)
    (h1 : ActiveWithin oldScore.guitars.length activePlayers)
    (h2 : ∀ change ∈ system.playerChanges,
      change.WithinCounts oldScore.guitars.length oldScore.guitars.length) :
    ∀ change ∈ (systemAfterGuitarIns oldScore i activePlayers system).playerChanges,
      change.WithinCounts oldScore.guitars.length oldScore.guitars.length := by
  unfold systemAfterGuitarIns
  cases hgis : oldScore.getGuitarInsInSystem i with
  | nil => exact h2
  | cons front rest =>
    simp only [convertGuitarInsOfSystem]
    obtain ⟨h3, h4⟩ := foldl_guitarInStep_withinCounts oldScore.guitars.length (front :: rest)
      { system := system, activePlayers := activePlayers, currentPosition := front.position }
      (fun g hg => hmask g (mem_guitarIns_of_mem_system oldScore i g (by rw [hgis]; exact hg)))
      h1 h2
    intro change hchange
    simp only [System.insertPlayerChange, List.mem_append, List.mem_singleton] at hchange
    rcases hchange with hc | hc
    · exact h4 change hc
    · rw [hc]
      exact getPlayerChange_withinCounts _ _ _ h3

/-- The guitar-in loop of `convertInitialVolumes` leaves the player changes of
the system alone. -/
theorem initialVolumeLoop_playerChanges (oldScore : PowerTabDocument.Score)
    (startPos : Nat × Nat) :
    ∀ (l : List PowerTabDocument.GuitarIn) (system result : System),
      initialVolumeLoop oldScore startPos l system = some result →
      result.playerChanges = system.playerChanges := by
  intro l
  induction l with
  | nil => intro system result h; cases h; rfl
  | cons g rest ih =>
    intro system result h
    rw [initialVolumeLoop] at h
    cases hstep : initialVolumeStep oldScore startPos system g with
    | none => rw [hstep] at h; cases h
    | some next =>
      rw [hstep] at h
      rw [ih next result h]
      unfold initialVolumeStep at hstep
      split_ifs at hstep
      · cases hstep; rfl
      · cases hstep; rfl
      · split at hstep
        · cases hstep; rfl
        · unfold System.modifyStaff? at hstep
          split at hstep
          · cases hstep
          · cases hstep; rfl

/-- Every system `convertInitialVolumes` leaves behind has the player changes of
a system it was given. -/
theorem convertInitialVolumes_playerChanges (oldScore : PowerTabDocument.Score)
    (score result : Score) (h : convertInitialVolumes oldScore score = some result) :
    ∀ system ∈ result.systems,
      ∃ before ∈ score.systems, system.playerChanges = before.playerChanges := by
  have hset : ∀ (n : Nat) (before after : System), score.systems[n]? = some before →
      after.playerChanges = before.playerChanges →
      ∀ system ∈ score.systems.set n after,
        ∃ b ∈ score.systems, system.playerChanges = b.playerChanges := by
    intro n before after hbefore hafter system hsystem
    rcases List.mem_or_eq_of_mem_set hsystem with hs | hs
    · exact ⟨system, hs, rfl⟩
    · exact ⟨before, List.getElem?_mem hbefore, by rw [hs, hafter]⟩
  unfold convertInitialVolumes at h
  split at h
  · cases h
    exact fun system hs => ⟨system, hs, rfl⟩
  · simp only [] at h
    split at h
    · cases h
    · rename_i before hbefore
      split at h
      · split at h
        · cases h
          exact fun system hs => ⟨system, hs, rfl⟩
        · obtain ⟨after, hafter, rfl⟩ := Option.map_eq_some'.mp h
          exact hset _ before after hbefore
            (initialVolumeLoop_playerChanges oldScore _ _ _ _ hafter)
      · obtain ⟨after, hafter, rfl⟩ := Option.map_eq_some'.mp h
        exact hset _ before after hbefore
          (initialVolumeLoop_playerChanges oldScore _ _ _ _ hafter)

/-- C12 as the code has it: in the score `convert` makes of a legacy score whose
flagged guitar-ins name existing guitars only (every set bit of a mask is the
number of a guitar of the score), every active player of every player change has
a player number below the number of players and an instrument number below the
number of instruments. -/
theorem convertScore_active_players_within (ext : Externals)
    (oldScore : PowerTabDocument.Score) (score : Score)
    (hmask : MasksNameGuitars oldScore)
    (h : convertScore ext oldScore default = Outcome.done score) :
    ∀ system ∈ score.systems, ∀ change ∈ system.playerChanges,
      ∀ e ∈ change.activePlayers,
        e.2.playerNumber < score.players.length
        ∧ e.2.instrumentNumber < score.instruments.length := by
  unfold convertScore at h
  cases hg : convertGuitars ext oldScore.guitars default with
  | outOfRange state => rw [hg] at h; cases h
  | undefined => rw [hg] at h; cases h
  | done afterGuitars =>
    rw [hg] at h
    simp only [] at h
    obtain ⟨players, instruments, hp1, hi1, hp2, hi2, hsystems⟩ :=
      convertGuitars_done ext _ _ _ hg
    obtain ⟨hp3, hi3, hlen⟩ :=
      convertSystems_players ext oldScore oldScore.systems 0 afterGuitars
    have hempty := convertSystems_playerChanges ext oldScore oldScore.systems 0 afterGuitars
    rw [hsystems] at hempty hlen
    obtain ⟨afterIns, hins, hp4, hi4, _, hinsys⟩ := convertGuitarIns_systems ext oldScore
      (convertSystems ext oldScore 0 oldScore.systems afterGuitars)
      (by rw [hlen]; simp [default])
    rw [hins] at h
    simp only [] at h
    cases hv : convertInitialVolumes oldScore afterIns with
    | none => rw [hv] at h; cases h
    | some final =>
      rw [hv] at h
      cases h
      obtain ⟨hp5, hi5⟩ := convertInitialVolumes_players oldScore _ _ hv
      have hplayers : score.players.length = oldScore.guitars.length := by
        rw [hp5, hp4, hp3, hp1]
        simpa [default] using congrArg List.length hp2
      have hinstruments : score.instruments.length = oldScore.guitars.length := by
        rw [hi5, hi4, hi3, hi1]
        simpa [default] using congrArg List.length hi2
      rw [hplayers, hinstruments]
      intro system hsystem change hchange
      obtain ⟨before, hbefore, hsame⟩ :=
        convertInitialVolumes_playerChanges oldScore _ _ hv system hsystem
      rw [hsame] at hchange
      obtain ⟨i, hi⟩ := List.getElem?_of_mem hbefore
      rw [hinsys i] at hi
      obtain ⟨converted, hconverted, hi⟩ := Option.map_eq_some'.mp hi
      have hnone : converted.playerChanges = [] := by
        rcases hempty converted (List.getElem?_mem hconverted) with hc | hc
        · exact absurd hc (List.not_mem_nil _)
        · exact hc
      split_ifs at hi
      · rw [← hi] at hchange
        exact systemAfterGuitarIns_withinCounts oldScore i _ converted hmask
          (activePlayersAfter_within ext oldScore hmask i)
          (by rw [hnone]; exact fun c hc => absurd hc (List.not_mem_nil _)) change hchange
      · rw [← hi, hnone] at hchange
        exact absurd hchange (List.not_mem_nil _)

/-- A `std::bitset<8>` has no bit from the eighth on. -/
theorem bitset8_lt (mask k : Nat) (h : bitset8 mask k = true) : k < 8 := by
  by_contra hk
  have hlt : mask % 256 < 2 ^ k :=
    lt_of_lt_of_le (Nat.mod_lt mask (by decide))
      (le_trans (by decide : 256 ≤ 2 ^ 8) (Nat.pow_le_pow_right (by decide) (by omega)))
  unfold bitset8 at h
  rw [Nat.testBit_lt_two_pow hlt] at h
  cases h

/-- The masks of `sampleGuitarScore` (0b01 and 0b10) name its two guitars. -/
theorem sampleGuitarScore_masks : MasksNameGuitars sampleGuitarScore := by
  intro g hg _ k hk
  have hk8 := bitset8_lt _ _ hk
  simp only [sampleGuitarScore, List.mem_cons, List.mem_singleton, List.not_mem_nil,
    or_false] at hg
  rcases hg with rfl | rfl
  · interval_cases k <;> first | decide | exact absurd hk (by decide)
  · interval_cases k <;> first | decide | exact absurd hk (by decide)

set_option maxRecDepth 100000 in
/-- Witness of C12 as amended, on `sampleGuitarScore`. -/
theorem convertScore_active_players_within_witness :
    MasksNameGuitars sampleGuitarScore
    ∧ convertScore sampleExternals sampleGuitarScore default = Outcome.done sampleConvertedScore
    ∧ ∀ system ∈ sampleConvertedScore.systems, ∀ change ∈ system.playerChanges,
        ∀ e ∈ change.activePlayers,
          e.2.playerNumber < sampleConvertedScore.players.length
          ∧ e.2.instrumentNumber < sampleConvertedScore.instruments.length :=
  ⟨sampleGuitarScore_masks, by decide,
   convertScore_active_players_within sampleExternals sampleGuitarScore sampleConvertedScore
     sampleGuitarScore_masks (by decide)⟩

set_option maxRecDepth 100000 in
/-- Counterexample to C12 as stated: `sampleStrayMaskScore` has one guitar and a
guitar-in whose mask 0b10 names guitar 1.  The conversion finishes with one
player and one instrument, and the player change of the system lists
`ActivePlayer(1, 1)` on staff 0. -/
theorem convertScore_active_player_beyond_players :
    convertScore sampleExternals sampleStrayMaskScore default
        = Outcome.done sampleStrayMaskConverted
    ∧ sampleStrayMaskConverted.players.length = 1
    ∧ sampleStrayMaskConverted.instruments.length = 1
    ∧ sampleStrayMaskConverted.systems.map (fun system => system.playerChanges)
        = [[{ position := 0, activePlayers := [(0, ⟨1, 1⟩)] }]]
    ∧ ∃ system ∈ sampleStrayMaskConverted.systems, ∃ change ∈ system.playerChanges,
        ∃ e ∈ change.activePlayers,
          ¬ e.2.playerNumber < sampleStrayMaskConverted.players.length
          ∧ ¬ e.2.instrumentNumber < sampleStrayMaskConverted.instruments.length :=
  ⟨by decide, by decide, by decide, by decide, by decide⟩

/-! ### Guitar-ins for rhythm slashes (claim C13) -/

set_option maxRecDepth 100000 in
/-- C13 fails: a guitar-in that only affects rhythm slashes still makes the
system loop run and still sets the first `currentPosition`.  With such a
guitar-in alone in a system, `convertGuitarIns` writes an empty player change at
its position, and none once it is removed; with such a guitar-in ahead of a
flagged one at another position, it writes an extra change at the position of
the former. -/
theorem convertGuitarIns_slash_guitar_in_not_ignored :
    (convertGuitarIns sampleExternals sampleSlashOnlyScore sampleTargetScore).map
        (fun result => result.systems.map (fun system => system.playerChanges))
      = some [[{ position := 5, activePlayers := [] }]]
    ∧ (convertGuitarIns sampleExternals (withoutSlashGuitarIns sampleSlashOnlyScore)
          sampleTargetScore).map
        (fun result => result.systems.map (fun system => system.playerChanges))
      = some [[]]
    ∧ (convertGuitarIns sampleExternals sampleSlashFirstScore sampleTargetScore).map
        (fun result => result.systems.map (fun system => system.playerChanges))
      = some [[{ position := 2, activePlayers := [] },
               { position := 8, activePlayers := [(0, ⟨0, 0⟩)] }]]
    ∧ (convertGuitarIns sampleExternals (withoutSlashGuitarIns sampleSlashFirstScore)
          sampleTargetScore).map
        (fun result => result.systems.map (fun system => system.playerChanges))
      = some [[{ position := 8, activePlayers := [(0, ⟨0, 0⟩)] }]] :=
  ⟨by decide, by decide, by decide, by decide⟩

/-! ### The merger: an unused bass score (claim C20) -/

/-- C20: if every voice of every staff of the first system of the bass score has
no position, `merge` returns at once, whatever number of loop iterations it is
allowed, and the destination score is the one it was given: players,
instruments and systems (with their staves, positions and player changes) are
unchanged. -/
theorem merge_unused_bass_score (ext : MergeExternals) (fuel : Nat) (destScore srcScore : Score)
    (system : System) (hsystem : srcScore.systems[0]? = some system)
    (hempty : ∀ staff ∈ system.staves, ∀ voice ∈ staff.voices, voice.positions = []) :
    merge ext fuel destScore srcScore = MergeResult.merged destScore := by
  have hno : system.hasNoPositions = true := by
    unfold System.hasNoPositions
    rw [List.all_eq_true]
    intro staff hstaff
    rw [List.all_eq_true]
    intro voice hvoice
    rw [hempty staff hstaff voice hvoice]
    rfl
  unfold merge
  rw [hsystem]
  simp only [hno, if_true]

set_option maxRecDepth 100000 in
/-- Witness of C20: `sampleUnusedBass` has a system whose voices are all empty;
merging it into `sampleMergeGuitar` changes nothing. -/
theorem merge_unused_bass_score_witness :
    sampleUnusedBass.systems[0]?
        = some (sampleMergeSystem [0, 10, 20] [sampleMergeStaff 4 1 [] []])
    ∧ merge sampleMergeExternals 0 sampleMergeGuitar sampleUnusedBass
        = MergeResult.merged sampleMergeGuitar :=
  ⟨rfl,
   merge_unused_bass_score sampleMergeExternals 0 sampleMergeGuitar sampleUnusedBass
     (sampleMergeSystem [0, 10, 20] [sampleMergeStaff 4 1 [] []]) rfl (by decide)⟩

/-! ### The merger: multi-bar rests (claim C19) -/

/-- Replacing an element of a list by one with the same image leaves the images
alone. -/
theorem map_set_of_eq {α β : Type} (f : α → β) (l : List α) (i : Nat) (a b : α)
    (h : l[i]? = some a) (hf : f b = f a) : (l.set i b).map f = l.map f := by
  apply List.ext_getElem?
  intro j
  rw [List.getElem?_map, List.getElem?_map]
  by_cases hij : i = j
  · subst hij
    have hlt : i < l.length := by
      by_contra hcon
      rw [List.getElem?_eq_none (by omega)] at h
      cases h
    rw [List.getElem?_set_self hlt, h]
    simp [hf]
  · rw [List.getElem?_set_ne hij]

/-- The voice step while a multi-bar rest is latched: a whole rest goes into the
destination voice, whatever the source voice holds. -/
theorem mergeVoice_latched (ext : MergeExternals) (srcBar nextSrcBar : Barline)
    (destLoc : ScoreLocation) (srcVoice : Voice) (v : Nat) (acc : Score × Nat)
    (h : checkMultiBarRest (ScoreUtils.findInRange ext (fun p : Position => p.position)
      srcVoice.positions srcBar.position nextSrcBar.position) acc.2 ≠ 0) :
    mergeVoice ext srcBar nextSrcBar destLoc srcVoice v acc
      = (insertWholeRest acc.1 { destLoc with voiceIndex := v }).map
          (fun score => (score, checkMultiBarRest
            (ScoreUtils.findInRange ext (fun p : Position => p.position)
              srcVoice.positions srcBar.position nextSrcBar.position) acc.2)) := by
  unfold mergeVoice insertWholeRest
  simp only []
  rw [if_pos (Or.inl h)]
  cases ({ destLoc with voiceIndex := v } : ScoreLocation).getBarline acc.1 with
  | none => rfl
  | some destBar =>
    simp only []
    cases acc.1.insertPositionAt { destLoc with voiceIndex := v }
        (wholeRest (destBar.position + 1)) with
    | none => rfl
    | some score => rfl

/-- A count that is running is what the check for a multi-bar rest leaves
behind. -/
theorem checkMultiBarRest_running (positions : List Position) (count : Nat) (h : count ≠ 0) :
    checkMultiBarRest positions count = count := by
  unfold checkMultiBarRest
  simp [h]

/-- Inserting a position leaves the player changes of every system alone. -/
theorem insertPositionAt_playerChanges (score result : Score) (loc : ScoreLocation)
    (position : Position) (h : score.insertPositionAt loc position = some result) :
    result.systems.map (fun system => system.playerChanges)
      = score.systems.map (fun system => system.playerChanges) := by
  unfold Score.insertPositionAt at h
  cases hsystem : score.systems[loc.systemIndex]? with
  | none => rw [hsystem] at h; cases h
  | some system =>
    rw [hsystem] at h
    simp only [] at h
    cases hstaff : system.staves[loc.staffIndex]? with
    | none => rw [hstaff] at h; cases h
    | some staff =>
      rw [hstaff] at h
      simp only [] at h
      cases hvoice : staff.voices[loc.voiceIndex]? with
      | none => rw [hvoice] at h; cases h
      | some voice =>
        rw [hvoice] at h
        cases h
        exact map_set_of_eq _ _ _ system _ hsystem rfl

/-- The whole rest leaves the player changes of every system alone. -/
theorem insertWholeRest_playerChanges (score result : Score) (loc : ScoreLocation)
    (h : insertWholeRest score loc = some result) :
    result.systems.map (fun system => system.playerChanges)
      = score.systems.map (fun system => system.playerChanges) := by
  unfold insertWholeRest at h
  cases hbar : loc.getBarline score with
  | none => rw [hbar] at h; cases h
  | some destBar =>
    rw [hbar] at h
    exact insertPositionAt_playerChanges score result loc _ h

/-- The voice step while a count is running, for any collaborators. -/
theorem mergeVoice_running (ext : MergeExternals) (srcBar nextSrcBar : Barline)
    (destLoc : ScoreLocation) (srcVoice : Voice) (v : Nat) (acc : Score × Nat)
    (h : acc.2 ≠ 0) :
    mergeVoice ext srcBar nextSrcBar destLoc srcVoice v acc
      = (insertWholeRest acc.1 { destLoc with voiceIndex := v }).map
          (fun score => (score, acc.2)) := by
  have hcount := checkMultiBarRest_running
    (ScoreUtils.findInRange ext (fun p : Position => p.position) srcVoice.positions
      srcBar.position nextSrcBar.position) acc.2 h
  rw [mergeVoice_latched ext srcBar nextSrcBar destLoc srcVoice v acc (by rw [hcount]; exact h),
    hcount]

/-- The voice loop while a count is running: the collaborators have no part in
it, the count stays, and the player changes stay. -/
theorem mergeVoices_running (ext : MergeExternals) (srcBar nextSrcBar : Barline)
    (destLoc : ScoreLocation) (srcStaff : Staff) :
    ∀ (vs : List Nat) (acc : Score × Nat), acc.2 ≠ 0 →
      (∀ other : MergeExternals,
        mergeVoices other srcBar nextSrcBar destLoc srcStaff vs acc
          = mergeVoices ext srcBar nextSrcBar destLoc srcStaff vs acc)
      ∧ ∀ result, mergeVoices ext srcBar nextSrcBar destLoc srcStaff vs acc = some result →
          result.2 = acc.2
          ∧ result.1.systems.map (fun system => system.playerChanges)
              = acc.1.systems.map (fun system => system.playerChanges) := by
  intro vs
  induction vs with
  | nil =>
    intro acc _
    refine ⟨fun _ => rfl, ?_⟩
    intro result h
    cases h
    exact ⟨rfl, rfl⟩
  | cons v rest ih =>
    intro acc hacc
    have hstep : ∀ e : MergeExternals,
        mergeVoices e srcBar nextSrcBar destLoc srcStaff (v :: rest) acc
          = match srcStaff.voices[v]? with
            | none => none
            | some _ =>
              match insertWholeRest acc.1 { destLoc with voiceIndex := v } with
              | none => none
              | some score => mergeVoices e srcBar nextSrcBar destLoc srcStaff rest (score, acc.2) := by
      intro e
      rw [mergeVoices]
      cases srcStaff.voices[v]? with
      | none => rfl
      | some srcVoice =>
        simp only []
        rw [mergeVoice_running e srcBar nextSrcBar destLoc srcVoice v acc hacc]
        cases insertWholeRest acc.1 { destLoc with voiceIndex := v } with
        | none => rfl
        | some score => rfl
    constructor
    · intro other
      rw [hstep other, hstep ext]
      cases srcStaff.voices[v]? with
      | none => rfl
      | some srcVoice =>
        simp only []
        cases insertWholeRest acc.1 { destLoc with voiceIndex := v } with
        | none => rfl
        | some score => exact (ih (score, acc.2) hacc).1 other
    · intro result h
      rw [hstep ext] at h
      cases hvoice : srcStaff.voices[v]? with
      | none => rw [hvoice] at h; cases h
      | some srcVoice =>
        rw [hvoice] at h
        simp only [] at h
        cases hrest : insertWholeRest acc.1 { destLoc with voiceIndex := v } with
        | none => rw [hrest] at h; cases h
        | some score =>
          rw [hrest] at h
          obtain ⟨h1, h2⟩ := (ih (score, acc.2) hacc).2 result h
          exact ⟨h1, h2.trans (insertWholeRest_playerChanges _ _ _ hrest)⟩

/-- The staff step while a count is running. -/
theorem mergeStaff_running (ext : MergeExternals) (srcBar nextSrcBar : Barline)
    (destLoc : ScoreLocation) (numDestStaves i : Nat) (srcStaff : Staff) (acc : Score × Nat)
    (hacc : acc.2 ≠ 0) :
    (∀ other : MergeExternals,
      mergeStaff other srcBar nextSrcBar destLoc numDestStaves i srcStaff acc
        = mergeStaff ext srcBar nextSrcBar destLoc numDestStaves i srcStaff acc)
    ∧ ∀ result, mergeStaff ext srcBar nextSrcBar destLoc numDestStaves i srcStaff acc
          = some result →
        result.2 = acc.2
        ∧ result.1.systems.map (fun system => system.playerChanges)
            = acc.1.systems.map (fun system => system.playerChanges) := by
  unfold mergeStaff
  cases hsystem : acc.1.systems[destLoc.systemIndex]? with
  | none =>
    refine ⟨fun _ => rfl, ?_⟩
    intro result h
    cases h
  | some destSystem =>
    simp only []
    obtain ⟨h1, h2⟩ := mergeVoices_running ext srcBar nextSrcBar
      { destLoc with staffIndex := numDestStaves + i } srcStaff (List.range Staff.NUM_VOICES)
      (if destSystem.staves.length ≤ numDestStaves + i then
          acc.1.setSystem destLoc.systemIndex (destSystem.insertStaff (bassStaff srcStaff))
        else acc.1, acc.2) hacc
    refine ⟨h1, ?_⟩
    intro result h
    obtain ⟨h3, h4⟩ := h2 result h
    refine ⟨h3, h4.trans ?_⟩
    simp only []
    split_ifs
    · exact map_set_of_eq _ _ _ destSystem _ hsystem rfl
    · rfl

/-- The staff loop while a count is running. -/
theorem mergeStaves_running (ext : MergeExternals) (srcBar nextSrcBar : Barline)
    (destLoc : ScoreLocation) (numDestStaves : Nat) :
    ∀ (staves : List Staff) (i : Nat) (acc : Score × Nat), acc.2 ≠ 0 →
      (∀ other : MergeExternals,
        mergeStaves other srcBar nextSrcBar destLoc numDestStaves i staves acc
          = mergeStaves ext srcBar nextSrcBar destLoc numDestStaves i staves acc)
      ∧ ∀ result, mergeStaves ext srcBar nextSrcBar destLoc numDestStaves i staves acc
            = some result →
          result.2 = acc.2
          ∧ result.1.systems.map (fun system => system.playerChanges)
              = acc.1.systems.map (fun system => system.playerChanges) := by
  intro staves
  induction staves with
  | nil =>
    intro i acc _
    refine ⟨fun _ => rfl, ?_⟩
    intro result h
    cases h
    exact ⟨rfl, rfl⟩
  | cons srcStaff rest ih =>
    intro i acc hacc
    obtain ⟨h1, h2⟩ := mergeStaff_running ext srcBar nextSrcBar destLoc numDestStaves i
      srcStaff acc hacc
    constructor
    · intro other
      rw [mergeStaves, mergeStaves, h1 other]
      cases hstep : mergeStaff ext srcBar nextSrcBar destLoc numDestStaves i srcStaff acc with
      | none => rfl
      | some next =>
        simp only []
        exact (ih (i + 1) next (by rw [(h2 next hstep).1]; exact hacc)).1 other
    · intro result h
      rw [mergeStaves] at h
      cases hstep : mergeStaff ext srcBar nextSrcBar destLoc numDestStaves i srcStaff acc with
      | none => rw [hstep] at h; cases h
      | some next =>
        rw [hstep] at h
        simp only [] at h
        obtain ⟨h3, h4⟩ := h2 next hstep
        obtain ⟨h5, h6⟩ := (ih (i + 1) next (by rw [h3]; exact hacc)).2 result h
        exact ⟨h5.trans h3, h6.trans h4⟩

/-- A bar while a count is running: player changes are not merged, the
collaborators have no part in the result, the count and the source cursor
stay. -/
theorem mergeBar_running (ext : MergeExternals) (srcScore : Score)
    (numDestPlayers numDestInstruments : Nat) (st : MergeState)
    (hcount : st.multibarRestCount ≠ 0) :
    (∀ other : MergeExternals,
      mergeBar other srcScore numDestPlayers numDestInstruments st
        = mergeBar ext srcScore numDestPlayers numDestInstruments st)
    ∧ ∀ result, mergeBar ext srcScore numDestPlayers numDestInstruments st = some result →
        result.multibarRestCount = st.multibarRestCount
        ∧ result.srcLoc = st.srcLoc
        ∧ result.prevPlayerChange = st.prevPlayerChange
        ∧ result.destScore.systems.map (fun system => system.playerChanges)
            = st.destScore.systems.map (fun system => system.playerChanges) := by
  unfold mergeBar
  cases srcScore.systems[st.srcLoc.systemIndex]? with
  | none => exact ⟨fun _ => rfl, fun _ h => by cases h⟩
  | some srcSystem =>
    cases st.destScore.systems[st.destLoc.systemIndex]? with
    | none => exact ⟨fun _ => rfl, fun _ h => by cases h⟩
    | some destSystem =>
      cases st.destLoc.getBarline st.destScore with
      | none => exact ⟨fun _ => rfl, fun _ h => by cases h⟩
      | some destBar =>
        cases st.srcLoc.getBarline srcScore with
        | none => exact ⟨fun _ => rfl, fun _ h => by cases h⟩
        | some srcBar =>
          cases st.srcLoc.getNextBarline srcScore with
          | none => exact ⟨fun _ => rfl, fun _ h => by cases h⟩
          | some nextSrcBar =>
            simp only [hcount, if_false]
            obtain ⟨h1, h2⟩ := mergeStaves_running ext srcBar nextSrcBar
              (if st.destLoc.positionIndex ≠ 0 then Caret.moveHorizontal st.destLoc
                else st.destLoc)
              (if decide ((st.destLoc.systemIndex : Int) ≠ st.currentSystemIndex) = true then
                destSystem.staves.length else st.numDestStaves)
              srcSystem.staves 0 (st.destScore, st.multibarRestCount) hcount
            constructor
            · intro other
              rw [h1 other]
            · intro result h
              cases hstaves : mergeStaves ext srcBar nextSrcBar
                  (if st.destLoc.positionIndex ≠ 0 then Caret.moveHorizontal st.destLoc
                    else st.destLoc)
                  (if decide ((st.destLoc.systemIndex : Int) ≠ st.currentSystemIndex) = true then
                    destSystem.staves.length else st.numDestStaves)
                  0 srcSystem.staves (st.destScore, st.multibarRestCount) with
              | none => rw [hstaves] at h; cases h
              | some r =>
                rw [hstaves] at h
                cases h
                obtain ⟨h3, h4⟩ := h2 r hstaves
                exact ⟨h3, rfl, rfl, h4⟩

/-- The end of an iteration while a count is running: the count goes down by
one, and the source cursor stays unless the count has reached zero. -/
theorem mergeAdvance_running (srcScore : Score) (st : MergeState) (destLoc : ScoreLocation)
    (hcount : st.multibarRestCount ≠ 0)
    (hmove : Caret.moveToNextBar st.destScore st.destLoc = some destLoc) :
    (2 ≤ st.multibarRestCount →
      mergeAdvance srcScore st
        = MergeStep.next
            { st with destLoc := destLoc, multibarRestCount := st.multibarRestCount - 1 })
    ∧ (st.multibarRestCount = 1 →
      mergeAdvance srcScore st
        = match Caret.moveToNextBar srcScore st.srcLoc with
          | some srcLoc =>
            MergeStep.next
              { st with destLoc := destLoc, multibarRestCount := 0, srcLoc := srcLoc }
          | none =>
            if (destLoc.systemIndex : Int) ≠ st.currentSystemIndex then
              MergeStep.sourceDone { st with destLoc := destLoc, multibarRestCount := 0 }
            else MergeStep.next { st with destLoc := destLoc, multibarRestCount := 0 }) := by
  constructor
  · intro h2
    unfold mergeAdvance
    rw [hmove]
    have hne : st.multibarRestCount - 1 ≠ 0 := by omega
    simp only [hcount, ne_eq, not_false_eq_true, if_true, hne, if_false]
  · intro h1
    unfold mergeAdvance
    rw [hmove]
    simp only [h1, ne_eq, one_ne_zero, not_false_eq_true, if_true, Nat.sub_self]

set_option maxRecDepth 100000 in
/-- Counterexample to C19 as stated.  In `sampleRestBass` the first bar holds a
rest for 2 bars: the destination gets whole rests (at 1 and at 11, in both
voices) in the bar of the rest and in one bar after it, and in the second bar
after it the next source bar is merged (the note at 11 is copied).  In
`sampleSecondVoiceRestBass` the rest is in voice 1: voice 0 of the same bar is
merged before the count is latched, so its note is copied. -/
theorem multibar_rest_covers_bar_of_latch :
    (merge sampleMergeExternals 3 sampleLongGuitar sampleRestBass).voicePositions
      = [[[[(1, 4, none), (11, 4, none), (21, 4, none)], []],
          [[(1, 1, none), (11, 1, none), (11, 4, none)], [(1, 1, none), (11, 1, none)]]]]
    ∧ (merge sampleMergeExternals 2 sampleMergeGuitar sampleSecondVoiceRestBass).voicePositions
      = [[[[(1, 4, none), (11, 4, none)], []],
          [[(1, 4, none), (11, 1, none)], [(1, 1, none), (11, 1, none)]]]] :=
  ⟨by decide, by decide⟩

/-! ### The merger: staves of the merged systems (claim C17) -/

/-- Writing back the element a list holds at an index changes nothing. -/
theorem set_eq_self_of_getElem? {α : Type} (l : List α) (i : Nat) (a : α)
    (h : l[i]? = some a) : l.set i a = l := by
  apply List.ext_getElem?
  intro j
  by_cases hij : i = j
  · subst hij
    have hlt : i < l.length := by
      by_contra hcon
      rw [List.getElem?_eq_none (by omega)] at h
      cases h
    rw [List.getElem?_set_self hlt, h]
  · rw [List.getElem?_set_ne hij]

/-- The layout after a system has been replaced. -/
theorem layout_setSystem (score : Score) (i : Nat) (system : System) :
    (score.setSystem i system).layout = score.layout.set i system.layout := by
  unfold Score.layout Score.setSystem
  simp only [List.map_set]

/-- A system of the score whose layout is known. -/
theorem system_of_layout (score : Score) (i : Nat)
    (entry : Nat × List (Nat × Nat × Staff.ViewType × Nat))
    (h : score.layout[i]? = some entry) :
    ∃ system, score.systems[i]? = some system ∧ system.barlines.length = entry.1
      ∧ system.staves.map Staff.shape = entry.2 := by
  unfold Score.layout at h
  rw [List.getElem?_map] at h
  obtain ⟨system, hsystem, hlayout⟩ := Option.map_eq_some'.mp h
  refine ⟨system, hsystem, ?_, ?_⟩
  · rw [← hlayout]; rfl
  · rw [← hlayout]; rfl

/-- A staff of a system whose shape is known. -/
theorem staff_of_shapes (system : System) (i : Nat) (shape : Nat × Nat × Staff.ViewType × Nat)
    (h : (system.staves.map Staff.shape)[i]? = some shape) :
    ∃ staff, system.staves[i]? = some staff ∧ staff.shape = shape := by
  rw [List.getElem?_map] at h
  exact Option.map_eq_some'.mp h

/-- Inserting a position into a voice the layout knows of succeeds and keeps the
layout. -/
theorem insertPositionAt_layout (score : Score) (loc : ScoreLocation) (position : Position)
    (entry : Nat × List (Nat × Nat × Staff.ViewType × Nat))
    (shape : Nat × Nat × Staff.ViewType × Nat)
    (hentry : score.layout[loc.systemIndex]? = some entry)
    (hshape : entry.2[loc.staffIndex]? = some shape)
    (hvoice : loc.voiceIndex < shape.2.2.2) :
    ∃ result, score.insertPositionAt loc position = some result
      ∧ result.layout = score.layout := by
  obtain ⟨system, hsystem, _, hstaves⟩ := system_of_layout score _ entry hentry
  rw [← hstaves] at hshape
  obtain ⟨staff, hstaff, hstaffshape⟩ := staff_of_shapes system _ shape hshape
  have hlen : loc.voiceIndex < staff.voices.length := by
    rw [← hstaffshape] at hvoice
    exact hvoice
  unfold Score.insertPositionAt
  rw [hsystem]
  simp only []
  rw [hstaff]
  simp only []
  rw [List.getElem?_eq_getElem hlen]
  simp only []
  refine ⟨_, rfl, ?_⟩
  rw [layout_setSystem]
  apply set_eq_self_of_getElem?
  unfold Score.layout
  rw [List.getElem?_map, hsystem]
  simp only [Option.map_some', Option.some.injEq]
  unfold System.layout System.setStaff
  simp only [List.map_set]
  rw [set_eq_self_of_getElem?]
  rw [List.getElem?_map, hstaff]
  simp only [Option.map_some', Option.some.injEq]
  unfold Staff.shape Staff.modifyVoice
  simp only [List.length_modify]

/-- The check for a multi-bar rest finds none among positions without one. -/
theorem checkMultiBarRest_plain (positions : List Position)
    (h : ∀ p ∈ positions, p.multiBarRest = none) : checkMultiBarRest positions 0 = 0 := by
  unfold checkMultiBarRest
  have hnone : positions.find? (fun pos => pos.hasMultiBarRest) = none := by
    rw [List.find?_eq_none]
    intro p hp
    unfold Position.hasMultiBarRest
    rw [h p hp]
    simp
  simp only [if_true, hnone]

/-- The voice step on a source voice without multi-bar rest, with no count
running: it succeeds, the count stays zero and the layout stays. -/
theorem mergeVoice_layout (ext : MergeExternals) (hkeeps : KeepsLayout ext)
    (srcBar nextSrcBar : Barline) (destLoc : ScoreLocation) (srcVoice : Voice) (v : Nat)
    (score : Score) (entry : Nat × List (Nat × Nat × Staff.ViewType × Nat))
    (shape : Nat × Nat × Staff.ViewType × Nat)
    (hplain : ∀ p ∈ srcVoice.positions, p.multiBarRest = none)
    (hentry : score.layout[destLoc.systemIndex]? = some entry)
    (hbar : destLoc.barlineIndex < entry.1)
    (hshape : entry.2[destLoc.staffIndex]? = some shape)
    (hvoice : v < shape.2.2.2) :
    ∃ result, mergeVoice ext srcBar nextSrcBar destLoc srcVoice v (score, 0) = some (result, 0)
      ∧ result.layout = score.layout := by
  have hcount : checkMultiBarRest (ScoreUtils.findInRange ext (fun p : Position => p.position)
      srcVoice.positions srcBar.position nextSrcBar.position) 0 = 0 := by
    apply checkMultiBarRest_plain
    intro p hp
    unfold ScoreUtils.findInRange at hp
    exact hplain p (List.mem_filter.mp hp).1
  unfold mergeVoice
  simp only [hcount, ne_eq, not_true_eq_false, false_or]
  split_ifs with h1 h2
  · obtain ⟨system, hsystem, hbars, _⟩ := system_of_layout score _ entry hentry
    have hbarlt : destLoc.barlineIndex < system.barlines.length := by rw [hbars]; exact hbar
    obtain ⟨result, hresult, hlayout⟩ := insertPositionAt_layout score
      { destLoc with voiceIndex := v }
      (wholeRest (system.barlines[destLoc.barlineIndex].position + 1)) entry shape hentry
      hshape hvoice
    refine ⟨result, ?_, hlayout⟩
    unfold ScoreLocation.getBarline
    simp only [hsystem, List.getElem?_eq_getElem hbarlt, hresult]
  · exact ⟨_, rfl, rfl⟩
  · exact ⟨_, rfl, hkeeps _ _ _ _⟩

/-- The voice loop on a source staff without multi-bar rest, with no count
running: it succeeds, the count stays zero and the layout stays. -/
theorem mergeVoices_layout (ext : MergeExternals) (hkeeps : KeepsLayout ext)
    (srcBar nextSrcBar : Barline) (destLoc : ScoreLocation) (srcStaff : Staff)
    (entry : Nat × List (Nat × Nat × Staff.ViewType × Nat))
    (shape : Nat × Nat × Staff.ViewType × Nat)
    (hplain : ∀ voice ∈ srcStaff.voices, ∀ p ∈ voice.positions, p.multiBarRest = none)
    (hbar : destLoc.barlineIndex < entry.1)
    (hshape : entry.2[destLoc.staffIndex]? = some shape) :
    ∀ (vs : List Nat) (score : Score),
      (∀ v ∈ vs, v < srcStaff.voices.length ∧ v < shape.2.2.2) →
      score.layout[destLoc.systemIndex]? = some entry →
      ∃ result, mergeVoices ext srcBar nextSrcBar destLoc srcStaff vs (score, 0)
          = some (result, 0)
        ∧ result.layout = score.layout := by
  intro vs
  induction vs with
  | nil => intro score _ _; exact ⟨score, rfl, rfl⟩
  | cons v rest ih =>
    intro score hvs hentry
    obtain ⟨hv1, hv2⟩ := hvs v (List.mem_cons_self v rest)
    rw [mergeVoices, List.getElem?_eq_getElem hv1]
    simp only []
    obtain ⟨next, hnext, hlayout⟩ := mergeVoice_layout ext hkeeps srcBar nextSrcBar destLoc
      srcStaff.voices[v] v score entry shape
      (hplain _ (List.getElem_mem hv1)) hentry hbar hshape hv2
    rw [hnext]
    simp only []
    obtain ⟨result, hresult, hlayout2⟩ := ih next
      (fun w hw => hvs w (List.mem_cons_of_mem v hw)) (by rw [hlayout]; exact hentry)
    exact ⟨result, hresult, hlayout2.trans hlayout⟩

/-- The shape of the staff `merge` appends. -/
theorem bassStaff_shape (srcStaff : Staff) : (bassStaff srcStaff).shape = bassShape srcStaff :=
  rfl

/-- The staff step for source staff `i`, when the destination system holds its
original staves and the bass staves of the first `k` source staves, `i ≤ k`: it
succeeds, and the system then holds the bass staves of the first `max k (i + 1)`
source staves. -/
theorem mergeStaff_layout (ext : MergeExternals) (hkeeps : KeepsLayout ext)
    (srcBar nextSrcBar : Barline) (destLoc : ScoreLocation) (all : List Staff)
    (orig : List (Nat × Nat × Staff.ViewType × Nat)) (bars i k : Nat) (srcStaff : Staff)
    (score : Score)
    (hstaff : all[i]? = some srcStaff)
    (hvoices : srcStaff.voices.length = Staff.NUM_VOICES)
    (hplain : ∀ voice ∈ srcStaff.voices, ∀ p ∈ voice.positions, p.multiBarRest = none)
    (hik : i ≤ k) (hk : k ≤ all.length)
    (hbar : destLoc.barlineIndex < bars)
    (hentry : score.layout[destLoc.systemIndex]?
      = some (bars, orig ++ (all.take k).map bassShape)) :
    ∃ result, mergeStaff ext srcBar nextSrcBar destLoc orig.length i srcStaff (score, 0)
        = some (result, 0)
      ∧ result.layout
          = score.layout.set destLoc.systemIndex
              (bars, orig ++ (all.take (max k (i + 1))).map bassShape) := by
  obtain ⟨system, hsystem, hbars, hstaves⟩ := system_of_layout score _ _ hentry
  have hi : i < all.length := by
    by_contra hcon
    rw [List.getElem?_eq_none (by omega)] at hstaff
    cases hstaff
  have hlen : system.staves.length = orig.length + k := by
    have := congrArg List.length hstaves
    simpa [List.length_take, Nat.min_eq_left hk] using this
  have hsys : destLoc.systemIndex < score.layout.length := by
    by_contra hcon
    rw [List.getElem?_eq_none (by omega)] at hentry
    cases hentry
  -- the score after the staff has been ensured
  have hensure : ∃ ensured : Score,
      (if system.staves.length ≤ orig.length + i then
          score.setSystem destLoc.systemIndex (system.insertStaff (bassStaff srcStaff))
        else score) = ensured
      ∧ ensured.layout = score.layout.set destLoc.systemIndex
          (bars, orig ++ (all.take (max k (i + 1))).map bassShape) := by
    refine ⟨_, rfl, ?_⟩
    split_ifs with hcond
    · have hki : k = i := by omega
      subst hki
      rw [layout_setSystem]
      congr 1
      unfold System.layout System.insertStaff
      simp only [List.map_append, List.map_cons, List.map_nil, hbars, hstaves, bassStaff_shape]
      rw [Nat.max_eq_right (Nat.le_succ k), List.take_succ, hstaff]
      simp
    · have hki : i + 1 ≤ k := by omega
      rw [Nat.max_eq_left hki]
      exact (set_eq_self_of_getElem? _ _ _ hentry).symm
  obtain ⟨ensured, hensured, hlayout⟩ := hensure
  unfold mergeStaff
  simp only [hsystem, hensured]
  have hentry2 : ensured.layout[destLoc.systemIndex]?
      = some (bars, orig ++ (all.take (max k (i + 1))).map bassShape) := by
    rw [hlayout, List.getElem?_set_self hsys]
  have hshape : (orig ++ (all.take (max k (i + 1))).map bassShape)[orig.length + i]?
      = some (bassShape srcStaff) := by
    rw [List.getElem?_append_right (Nat.le_add_right _ _), Nat.add_sub_cancel_left,
      List.getElem?_map, List.getElem?_take_of_lt (by omega), hstaff]
    rfl
  obtain ⟨result, hresult, hlayout2⟩ := mergeVoices_layout ext hkeeps srcBar nextSrcBar
    { destLoc with staffIndex := orig.length + i } srcStaff
    (bars, orig ++ (all.take (max k (i + 1))).map bassShape) (bassShape srcStaff)
    hplain hbar hshape (List.range Staff.NUM_VOICES) ensured
    (by
      intro v hv
      rw [List.mem_range] at hv
      exact ⟨by rw [hvoices]; exact hv, hv⟩)
    hentry2
  exact ⟨result, hresult, hlayout2.trans hlayout⟩

/-- The staff loop from source staff `i` on, when the destination system holds
its original staves and the bass staves of the first `k` source staves, `i ≤ k`:
it succeeds, and the system then holds the bass staves of all source staves. -/
theorem mergeStaves_layout (ext : MergeExternals) (hkeeps : KeepsLayout ext)
    (srcBar nextSrcBar : Barline) (destLoc : ScoreLocation) (all : List Staff)
    (orig : List (Nat × Nat × Staff.ViewType × Nat)) (bars : Nat)
    (hall : ∀ staff ∈ all, staff.voices.length = Staff.NUM_VOICES
      ∧ ∀ voice ∈ staff.voices, ∀ p ∈ voice.positions, p.multiBarRest = none)
    (hbar : destLoc.barlineIndex < bars) :
    ∀ (rest : List Staff) (i k : Nat) (score : Score),
      all.drop i = rest → i ≤ k → k ≤ all.length →
      score.layout[destLoc.systemIndex]? = some (bars, orig ++ (all.take k).map bassShape) →
      ∃ result, mergeStaves ext srcBar nextSrcBar destLoc orig.length i rest (score, 0)
          = some (result, 0)
        ∧ result.layout
            = score.layout.set destLoc.systemIndex (bars, orig ++ all.map bassShape) := by
  intro rest
  induction rest with
  | nil =>
    intro i k score hdrop hik hk hentry
    have hlen : all.length ≤ i := List.drop_eq_nil_iff.mp hdrop
    have htake : all.take k = all := List.take_of_length_le (by omega)
    rw [htake] at hentry
    exact ⟨score, rfl, (set_eq_self_of_getElem? _ _ _ hentry).symm⟩
  | cons srcStaff rest ih =>
    intro i k score hdrop hik hk hentry
    have hstaff : all[i]? = some srcStaff := by
      have h0 : (all.drop i)[0]? = some srcStaff := by rw [hdrop]; simp
      rw [List.getElem?_drop] at h0
      exact h0
    have hmem : srcStaff ∈ all := List.getElem?_mem hstaff
    have hi : i < all.length := by
      by_contra hcon
      rw [List.getElem?_eq_none (by omega)] at hstaff
      cases hstaff
    have hsys : destLoc.systemIndex < score.layout.length := by
      by_contra hcon
      rw [List.getElem?_eq_none (by omega)] at hentry
      cases hentry
    obtain ⟨next, hnext, hlayout⟩ := mergeStaff_layout ext hkeeps srcBar nextSrcBar destLoc all
      orig bars i k srcStaff score hstaff (hall _ hmem).1 (hall _ hmem).2 hik hk hbar hentry
    rw [mergeStaves, hnext]
    simp only []
    have hdrop2 : all.drop (i + 1) = rest := by
      have : (all.drop i).drop 1 = rest := by rw [hdrop]; rfl
      rw [List.drop_drop] at this
      exact this
    obtain ⟨result, hresult, hlayout2⟩ := ih (i + 1) (max k (i + 1)) next hdrop2
      (Nat.le_max_right _ _) (Nat.max_le.mpr ⟨hk, hi⟩)
      (by rw [hlayout, List.getElem?_set_self hsys])
    refine ⟨result, hresult, ?_⟩
    rw [hlayout2, hlayout, List.set_set]

/-- The index of the first element that passes a test some element passes. -/
theorem findIdx?_of_exists {α : Type} (l : List α) (p : α → Bool) (h : ∃ x, x ∈ l ∧ p x = true) :
    ∃ (i : Nat) (a : α), l.findIdx? p = some i ∧ l[i]? = some a := by
  have hlt := List.findIdx_lt_length_of_exists h
  exact ⟨l.findIdx p, l[l.findIdx p], List.findIdx?_eq_some_of_exists h,
    List.getElem?_eq_getElem hlt⟩

/-- The layout after the player changes of a system have been replaced. -/
theorem layout_setSystem_playerChanges (score : Score) (i : Nat) (system : System)
    (changes : List PlayerChange) (h : score.systems[i]? = some system) :
    (score.setSystem i { system with playerChanges := changes }).layout = score.layout := by
  rw [layout_setSystem]
  apply set_eq_self_of_getElem?
  unfold Score.layout
  rw [List.getElem?_map, h]
  rfl

/-- The function `mergePlayerChanges` at a bar both scores have: it finds the
change it looks for, and the layout stays. -/
theorem mergePlayerChanges_layout (ext : MergeExternals) (srcScore destScore : Score)
    (srcLoc destLoc : ScoreLocation) (prev : Option PlayerChange)
    (numDestPlayers numDestInstruments numDestStaves : Nat)
    (srcSystem destSystem : System) (srcBar nextSrcBar destBar nextDestBar : Barline)
    (h1 : srcScore.systems[srcLoc.systemIndex]? = some srcSystem)
    (h2 : destScore.systems[destLoc.systemIndex]? = some destSystem)
    (h3 : srcSystem.barlines[srcLoc.barlineIndex]? = some srcBar)
    (h4 : srcSystem.barlines[srcLoc.barlineIndex + 1]? = some nextSrcBar)
    (h5 : destSystem.barlines[destLoc.barlineIndex]? = some destBar)
    (h6 : destSystem.barlines[destLoc.barlineIndex + 1]? = some nextDestBar) :
    ∃ (result : Score) (after : Option PlayerChange),
      mergePlayerChanges ext srcScore srcLoc destScore destLoc prev numDestPlayers
          numDestInstruments numDestStaves = some (result, after)
      ∧ result.layout = destScore.layout := by
  unfold mergePlayerChanges ScoreLocation.getBarline ScoreLocation.getNextBarline
  simp only [h1, h2, h3, h4, h5, h6]
  split_ifs with hnone hdest
  · exact ⟨_, _, rfl, rfl⟩
  · -- no destination change in the bar: one is inserted and found by its position
    obtain ⟨i, c, hi, hc⟩ := findIdx?_of_exists
      (destSystem.insertPlayerChange
        ((prev.getD default).setPosition destLoc.positionIndex)).playerChanges
      (fun c => decide (c.position = destLoc.positionIndex))
      ⟨(prev.getD default).setPosition destLoc.positionIndex,
        by simp [System.insertPlayerChange], by simp [PlayerChange.setPosition]⟩
    simp only [hi, hc]
    refine ⟨_, _, rfl, ?_⟩
    exact layout_setSystem_playerChanges destScore _ destSystem _ h2
  · -- a destination change in the bar: the first one is taken
    have hex : ∃ x, x ∈ destSystem.playerChanges
        ∧ ext.inRange x.position destBar.position ((nextDestBar.position : Int) - 1) = true := by
      have hne : ScoreUtils.findInRange ext (fun c : PlayerChange => c.position)
          destSystem.playerChanges destBar.position ((nextDestBar.position : Int) - 1) ≠ [] := by
        intro hnil
        rw [hnil] at hdest
        exact hdest rfl
      obtain ⟨x, hx⟩ := List.exists_mem_of_ne_nil _ hne
      unfold ScoreUtils.findInRange at hx
      obtain ⟨hx1, hx2⟩ := List.mem_filter.mp hx
      exact ⟨x, hx1, hx2⟩
    obtain ⟨i, c, hi, hc⟩ := findIdx?_of_exists destSystem.playerChanges
      (fun c => ext.inRange c.position destBar.position ((nextDestBar.position : Int) - 1)) hex
    simp only [hi, hc]
    refine ⟨_, _, rfl, ?_⟩
    exact layout_setSystem_playerChanges destScore _ destSystem _ h2

/-- Merging the bass staves of the first `n` systems keeps the number of
systems. -/
theorem mergedLayout_length (layout : List (Nat × List (Nat × Nat × Staff.ViewType × Nat)))
    (srcSystems : List System) :
    ∀ n : Nat, (mergedLayout layout srcSystems n).length = layout.length := by
  intro n
  induction n with
  | zero => rfl
  | succ n ih =>
    rw [mergedLayout]
    split
    · rw [List.length_set, ih]
    · exact ih

/-- Merging the bass staves of the first `n` systems leaves the systems from `n`
on alone. -/
theorem mergedLayout_of_le (layout : List (Nat × List (Nat × Nat × Staff.ViewType × Nat)))
    (srcSystems : List System) :
    ∀ (n j : Nat), n ≤ j → (mergedLayout layout srcSystems n)[j]? = layout[j]? := by
  intro n
  induction n with
  | zero => intro j _; rfl
  | succ n ih =>
    intro j hj
    rw [mergedLayout]
    split
    · rw [List.getElem?_set_ne (by omega), ih j (by omega)]
    · exact ih j (by omega)

/-- One more system with its bass staves. -/
theorem mergedLayout_succ (layout : List (Nat × List (Nat × Nat × Staff.ViewType × Nat)))
    (srcSystems : List System) (n : Nat) (entry : Nat × List (Nat × Nat × Staff.ViewType × Nat))
    (srcSystem : System) (h1 : layout[n]? = some entry) (h2 : srcSystems[n]? = some srcSystem) :
    mergedLayout layout srcSystems (n + 1)
      = (mergedLayout layout srcSystems n).set n (entry.1, entry.2 ++ bassShapes srcSystem) := by
  rw [mergedLayout, mergedLayout_of_le layout srcSystems n n (le_refl n), h1, h2]

/-- The systems below `n` have their bass staves. -/
theorem mergedLayout_of_lt (layout : List (Nat × List (Nat × Nat × Staff.ViewType × Nat)))
    (srcSystems : List System) :
    ∀ (n j : Nat) (entry : Nat × List (Nat × Nat × Staff.ViewType × Nat)) (srcSystem : System),
      j < n → layout[j]? = some entry → srcSystems[j]? = some srcSystem →
      (mergedLayout layout srcSystems n)[j]?
        = some (entry.1, entry.2 ++ bassShapes srcSystem) := by
  intro n
  induction n with
  | zero => intro j _ _ hj; omega
  | succ n ih =>
    intro j entry srcSystem hj h1 h2
    have hlen : j < layout.length := by
      by_contra hcon
      rw [List.getElem?_eq_none (by omega)] at h1
      cases h1
    by_cases hjn : j = n
    · subst hjn
      rw [mergedLayout_succ layout srcSystems j entry srcSystem h1 h2,
        List.getElem?_set_self (by rw [mergedLayout_length]; exact hlen)]
    · have hrest := ih j entry srcSystem (by omega) h1 h2
      rw [mergedLayout]
      split
      · rw [List.getElem?_set_ne (Ne.symm hjn), hrest]
      · exact hrest

/-- The source system that goes with a destination system, in scores with the
same bars. -/
theorem sameBars_system (destScore srcScore : Score) (h : SameBars destScore srcScore)
    (sys : Nat) (entry : Nat × List (Nat × Nat × Staff.ViewType × Nat))
    (hentry : destScore.layout[sys]? = some entry) :
    2 ≤ entry.1
    ∧ ∃ srcSystem, srcScore.systems[sys]? = some srcSystem
        ∧ srcSystem.barlines.length = entry.1 := by
  obtain ⟨system, hsystem, hbars, _⟩ := system_of_layout destScore sys entry hentry
  constructor
  · rw [← hbars]
    exact h.2 system (List.getElem?_mem hsystem)
  · have hmap := congrArg (fun l => l[sys]?) h.1
    simp only [List.getElem?_map, hsystem, Option.map_some'] at hmap
    obtain ⟨srcSystem, hsrc, hlen⟩ := Option.map_eq_some'.mp hmap
    exact ⟨srcSystem, hsrc, hlen.trans hbars⟩


/-- The bar part of an iteration under the loop invariant: it succeeds, the
cursors stay on the bar, no count starts, and system `sys` has its bass
staves. -/
theorem mergeBar_invariant (ext : MergeExternals) (hkeeps : KeepsLayout ext)
    (destScore srcScore : Score) (numDestPlayers numDestInstruments : Nat)
    (hbars : SameBars destScore srcScore) (hplain : PlainSource srcScore)
    (sys bar : Nat) (st : MergeState) (entry : Nat × List (Nat × Nat × Staff.ViewType × Nat))
    (hinv : MergeInvariant destScore srcScore sys bar st)
    (hentry : destScore.layout[sys]? = some entry) (hbar : bar + 1 < entry.1) :
    ∃ result, mergeBar ext srcScore numDestPlayers numDestInstruments st = some result
      ∧ result.destLoc.systemIndex = sys ∧ result.destLoc.barlineIndex = bar
      ∧ result.srcLoc = st.srcLoc
      ∧ result.multibarRestCount = 0
      ∧ result.currentSystemIndex = (sys : Int)
      ∧ result.numDestStaves = entry.2.length
      ∧ result.destScore.layout
          = mergedLayout destScore.layout srcScore.systems (sys + 1) := by
  obtain ⟨hd1, hd2, hs1, hs2, hcount, hzero, hnonzero⟩ := hinv
  obtain ⟨_, srcSystem, hsrc, hsrclen⟩ := sameBars_system destScore srcScore hbars sys entry hentry
  have hsrcmem : srcSystem ∈ srcScore.systems := List.getElem?_mem hsrc
  -- what the destination system holds on entry
  have hstate : ∃ k, k ≤ srcSystem.staves.length
      ∧ st.destScore.layout[sys]?
          = some (entry.1, entry.2 ++ (srcSystem.staves.take k).map bassShape)
      ∧ (bar = 0 → k = 0) ∧ (bar ≠ 0 → k = srcSystem.staves.length) := by
    by_cases hb : bar = 0
    · refine ⟨0, Nat.zero_le _, ?_, fun _ => rfl, fun h => absurd hb h⟩
      rw [(hzero hb).2, mergedLayout_of_le _ _ sys sys (le_refl sys), hentry]
      simp
    · refine ⟨srcSystem.staves.length, le_refl _, ?_, fun h => absurd h hb, fun _ => rfl⟩
      rw [(hnonzero hb).2.2,
        mergedLayout_of_lt _ _ (sys + 1) sys entry srcSystem (Nat.lt_succ_self sys) hentry hsrc,
        List.take_length]
      rfl
  obtain ⟨k, hk, hlayout, hk0, hk1⟩ := hstate
  obtain ⟨destSystem, hdest, hdestbars, hdeststaves⟩ := system_of_layout st.destScore sys _ hlayout
  simp only [] at hdestbars hdeststaves
  have hb0 : bar < destSystem.barlines.length := by omega
  have hb1 : bar + 1 < destSystem.barlines.length := by omega
  have hc0 : bar < srcSystem.barlines.length := by omega
  have hc1 : bar + 1 < srcSystem.barlines.length := by omega
  have hS : srcScore.systems[st.srcLoc.systemIndex]? = some srcSystem := by rw [hs1]; exact hsrc
  have hD : st.destScore.systems[st.destLoc.systemIndex]? = some destSystem := by
    rw [hd1]; exact hdest
  have hDB : st.destLoc.getBarline st.destScore = some destSystem.barlines[bar] := by
    unfold ScoreLocation.getBarline
    rw [hD, hd2]
    exact List.getElem?_eq_getElem hb0
  have hSB : st.srcLoc.getBarline srcScore = some srcSystem.barlines[bar] := by
    unfold ScoreLocation.getBarline
    rw [hS, hs2]
    exact List.getElem?_eq_getElem hc0
  have hSN : st.srcLoc.getNextBarline srcScore = some srcSystem.barlines[bar + 1] := by
    unfold ScoreLocation.getNextBarline
    rw [hS, hs2]
    exact List.getElem?_eq_getElem hc1
  -- the snapshot of the system
  have hnew : decide ((st.destLoc.systemIndex : Int) ≠ st.currentSystemIndex) = decide (bar = 0) := by
    by_cases hb : bar = 0
    · rw [(hzero hb).1, hd1]
      have hne : ((sys : Int) ≠ (sys : Int) - 1) := by omega
      simp [hb, hne]
    · rw [(hnonzero hb).1, hd1]
      simp [hb]
  have hcurrent : (if decide (bar = 0) = true then st.currentSystemIndex + 1
      else st.currentSystemIndex) = (sys : Int) := by
    by_cases hb : bar = 0
    · simp only [hb, decide_True, if_true, (hzero hb).1]
      omega
    · simp only [hb, decide_False, Bool.false_eq_true, if_false, (hnonzero hb).1]
  have hnum : (if decide (bar = 0) = true then destSystem.staves.length
      else st.numDestStaves) = entry.2.length := by
    by_cases hb : bar = 0
    · have hlen := congrArg List.length hdeststaves
      simp only [hk0 hb, List.take_zero, List.map_nil, List.append_nil, List.length_map] at hlen
      simp only [hb, decide_True, if_true, hlen]
    · simp only [hb, decide_False, Bool.false_eq_true, if_false]
      exact (hnonzero hb).2.1 entry hentry
  -- the player changes
  obtain ⟨score1, prev1, hchanges, hlayout1⟩ := mergePlayerChanges_layout ext srcScore
    st.destScore st.srcLoc st.destLoc st.prevPlayerChange numDestPlayers numDestInstruments
    entry.2.length srcSystem destSystem srcSystem.barlines[bar] srcSystem.barlines[bar + 1]
    destSystem.barlines[bar] destSystem.barlines[bar + 1] hS hD
    (by rw [hs2]; exact List.getElem?_eq_getElem hc0)
    (by rw [hs2]; exact List.getElem?_eq_getElem hc1)
    (by rw [hd2]; exact List.getElem?_eq_getElem hb0)
    (by rw [hd2]; exact List.getElem?_eq_getElem hb1)
  -- the notes
  have hloc : (if st.destLoc.positionIndex ≠ 0 then Caret.moveHorizontal st.destLoc
      else st.destLoc).systemIndex = sys
      ∧ (if st.destLoc.positionIndex ≠ 0 then Caret.moveHorizontal st.destLoc
      else st.destLoc).barlineIndex = bar := by
    split_ifs
    · exact ⟨hd1, hd2⟩
    · exact ⟨hd1, hd2⟩
  obtain ⟨score2, hstaves, hlayout2⟩ := mergeStaves_layout ext hkeeps srcSystem.barlines[bar]
    srcSystem.barlines[bar + 1]
    (if st.destLoc.positionIndex ≠ 0 then Caret.moveHorizontal st.destLoc else st.destLoc)
    srcSystem.staves entry.2 entry.1 (hplain srcSystem hsrcmem)
    (by rw [hloc.2]; omega) srcSystem.staves 0 k score1 rfl (Nat.zero_le k) hk
    (by rw [hloc.1, hlayout1]; exact hlayout)
  unfold mergeBar
  simp only [hS, hD, hDB, hSB, hSN, hcount, if_true, hnew, hcurrent, hnum, hchanges, hstaves]
  refine ⟨_, rfl, hloc.1, hloc.2, rfl, rfl, rfl, rfl, ?_⟩
  simp only []
  rw [hlayout2, hloc.1, hlayout1]
  by_cases hb : bar = 0
  · rw [(hzero hb).2, mergedLayout_succ _ _ sys entry srcSystem hentry hsrc]
    rfl
  · rw [(hnonzero hb).2.2]
    apply set_eq_self_of_getElem?
    rw [mergedLayout_of_lt _ _ (sys + 1) sys entry srcSystem (Nat.lt_succ_self sys) hentry hsrc]
    rfl

/-- The step of the cursor, by the number of barlines of its system and the
number of systems of the score. -/
theorem moveToNextBar_of_bars (score : Score) (loc : ScoreLocation) (system : System)
    (h : score.systems[loc.systemIndex]? = some system) :
    (loc.barlineIndex + 2 < system.barlines.length →
      ∃ next, Caret.moveToNextBar score loc = some next
        ∧ next.systemIndex = loc.systemIndex ∧ next.barlineIndex = loc.barlineIndex + 1)
    ∧ (¬ loc.barlineIndex + 2 < system.barlines.length →
        loc.systemIndex + 1 < score.systems.length →
      ∃ next, Caret.moveToNextBar score loc = some next
        ∧ next.systemIndex = loc.systemIndex + 1 ∧ next.barlineIndex = 0)
    ∧ (¬ loc.barlineIndex + 2 < system.barlines.length →
        ¬ loc.systemIndex + 1 < score.systems.length →
      Caret.moveToNextBar score loc = none) := by
  refine ⟨?_, ?_, ?_⟩
  · intro hlt
    have hnext : loc.barlineIndex + 1 < system.barlines.length := by omega
    unfold Caret.moveToNextBar
    simp only [h, hlt, if_true, List.getElem?_eq_getElem hnext]
    exact ⟨_, rfl, rfl, rfl⟩
  · intro hlt hsys
    unfold Caret.moveToNextBar
    simp only [h, hlt, if_false, hsys, if_true]
    exact ⟨_, rfl, rfl, rfl⟩
  · intro hlt hsys
    unfold Caret.moveToNextBar
    simp only [h, hlt, if_false, hsys]

/-- One iteration of the loop under the loop invariant: it succeeds, and either
goes on with the invariant at the next bar, or ends at the last bar of the
destination with every system holding its bass staves. -/
theorem mergeIteration_invariant (ext : MergeExternals) (hkeeps : KeepsLayout ext)
    (destScore srcScore : Score) (numDestPlayers numDestInstruments : Nat)
    (hbars : SameBars destScore srcScore) (hplain : PlainSource srcScore)
    (sys bar : Nat) (st : MergeState) (entry : Nat × List (Nat × Nat × Staff.ViewType × Nat))
    (hinv : MergeInvariant destScore srcScore sys bar st)
    (hentry : destScore.layout[sys]? = some entry) (hbar : bar + 1 < entry.1) :
    ∃ step, mergeIteration ext srcScore numDestPlayers numDestInstruments st = some step
      ∧ (bar + 2 < entry.1 →
          ∃ next, step = MergeStep.next next
            ∧ MergeInvariant destScore srcScore sys (bar + 1) next)
      ∧ (¬ bar + 2 < entry.1 → sys + 1 < destScore.systems.length →
          ∃ next, step = MergeStep.next next
            ∧ MergeInvariant destScore srcScore (sys + 1) 0 next)
      ∧ (¬ bar + 2 < entry.1 → ¬ sys + 1 < destScore.systems.length →
          ∃ last, step = MergeStep.destinationDone last
            ∧ last.destScore.layout
                = mergedLayout destScore.layout srcScore.systems (sys + 1)) := by
  obtain ⟨r, hr, hrd1, hrd2, hrs, hrcount, hrcurrent, hrnum, hrlayout⟩ :=
    mergeBar_invariant ext hkeeps destScore srcScore numDestPlayers numDestInstruments hbars
      hplain sys bar st entry hinv hentry hbar
  obtain ⟨hd1, hd2, hs1, hs2, hcount, _, _⟩ := hinv
  obtain ⟨_, srcSystem, hsrc, hsrclen⟩ := sameBars_system destScore srcScore hbars sys entry hentry
  -- the destination system and the number of systems after the bar
  have hrentry : r.destScore.layout[sys]? = some (entry.1, entry.2 ++ bassShapes srcSystem) := by
    rw [hrlayout]
    exact mergedLayout_of_lt _ _ (sys + 1) sys entry srcSystem (Nat.lt_succ_self sys) hentry hsrc
  obtain ⟨destSystem, hdest, hdestbars, _⟩ := system_of_layout r.destScore sys _ hrentry
  simp only [] at hdestbars
  have hlen : r.destScore.systems.length = destScore.systems.length := by
    have h1 : r.destScore.layout.length = destScore.layout.length := by
      rw [hrlayout, mergedLayout_length]
    unfold Score.layout at h1
    simpa using h1
  have hsrclenall : srcScore.systems.length = destScore.systems.length := by
    simpa using congrArg List.length hbars.1
  obtain ⟨hdmove1, hdmove2, hdmove3⟩ := moveToNextBar_of_bars r.destScore r.destLoc destSystem
    (by rw [hrd1]; exact hdest)
  obtain ⟨hsmove1, hsmove2, _⟩ := moveToNextBar_of_bars srcScore r.srcLoc srcSystem
    (by rw [hrs, hs1]; exact hsrc)
  rw [hrd1, hrd2, hdestbars] at hdmove1 hdmove2 hdmove3
  rw [hrs, hs1, hs2, hsrclen] at hsmove1 hsmove2
  rw [hlen] at hdmove2 hdmove3
  rw [hsrclenall] at hsmove2
  refine ⟨mergeAdvance srcScore r, ?_, ?_, ?_, ?_⟩
  · unfold mergeIteration
    rw [hr]
    rfl
  · intro hlt
    obtain ⟨dnext, hdnext, hdn1, hdn2⟩ := hdmove1 hlt
    obtain ⟨snext, hsnext, hsn1, hsn2⟩ := hsmove1 hlt
    refine ⟨{ r with destLoc := dnext, multibarRestCount := 0, srcLoc := snext }, ?_, ?_⟩
    · unfold mergeAdvance
      simp only [hdnext, hrcount, ne_eq, not_true_eq_false, if_false, if_true, hrs, hsnext]
    · refine ⟨hdn1, hdn2, hsn1, hsn2, rfl, fun h => absurd h (Nat.succ_ne_zero bar), fun _ => ?_⟩
      refine ⟨hrcurrent, ?_, hrlayout⟩
      intro entry2 hentry2
      rw [hentry] at hentry2
      cases hentry2
      exact hrnum
  · intro hlt hsys
    obtain ⟨dnext, hdnext, hdn1, hdn2⟩ := hdmove2 hlt hsys
    obtain ⟨snext, hsnext, hsn1, hsn2⟩ := hsmove2 hlt hsys
    refine ⟨{ r with destLoc := dnext, multibarRestCount := 0, srcLoc := snext }, ?_, ?_⟩
    · unfold mergeAdvance
      simp only [hdnext, hrcount, ne_eq, not_true_eq_false, if_false, if_true, hrs, hsnext]
    · refine ⟨hdn1, hdn2, hsn1, hsn2, rfl, fun _ => ?_, fun h => absurd rfl h⟩
      refine ⟨?_, hrlayout⟩
      show r.currentSystemIndex = ((sys + 1 : Nat) : Int) - 1
      rw [hrcurrent]
      omega
  · intro hlt hsys
    refine ⟨r, ?_, hrlayout⟩
    unfold mergeAdvance
    simp only [hdmove3 hlt hsys]

/-- The barlines from system `sys` on: those of system `sys` and those of the
systems after it. -/
theorem sum_drop_of_getElem? (l : List Nat) (i a : Nat) (h : l[i]? = some a) :
    (l.drop i).sum = a + (l.drop (i + 1)).sum := by
  have hlt : i < l.length := by
    by_contra hcon
    rw [List.getElem?_eq_none (by omega)] at h
    cases h
  have ha : l[i] = a := by
    rw [List.getElem?_eq_getElem hlt] at h
    exact Option.some.inj h
  rw [List.drop_eq_getElem_cons hlt, List.sum_cons, ha]

/-- The loop of `merge` under the loop invariant: given as many iterations as
the scores have bars left, it ends with every destination system holding its
bass staves. -/
theorem mergeLoop_invariant (ext : MergeExternals) (hkeeps : KeepsLayout ext)
    (destScore srcScore : Score) (numDestPlayers numDestInstruments : Nat)
    (hbars : SameBars destScore srcScore) (hplain : PlainSource srcScore) :
    ∀ (m sys bar : Nat) (st : MergeState)
      (entry : Nat × List (Nat × Nat × Staff.ViewType × Nat)),
      MergeInvariant destScore srcScore sys bar st →
      destScore.layout[sys]? = some entry → bar + 1 < entry.1 →
      (((destScore.layout.map (fun e => e.1)).drop sys).sum - bar ≤ m) →
      ∃ bound, ∀ fuel, bound ≤ fuel →
        ∃ result,
          mergeLoop ext srcScore numDestPlayers numDestInstruments fuel st
            = MergeResult.merged result
          ∧ result.layout
              = mergedLayout destScore.layout srcScore.systems destScore.systems.length := by
  intro m
  induction m with
  | zero =>
    intro sys bar st entry _ hentry hbar hm
    have hsum := sum_drop_of_getElem? (destScore.layout.map (fun e => e.1)) sys entry.1
      (by rw [List.getElem?_map, hentry]; rfl)
    omega
  | succ m ih =>
    intro sys bar st entry hinv hentry hbar hm
    have hsum := sum_drop_of_getElem? (destScore.layout.map (fun e => e.1)) sys entry.1
      (by rw [List.getElem?_map, hentry]; rfl)
    have hsys : sys < destScore.systems.length := by
      by_contra hcon
      have hlen : destScore.layout.length = destScore.systems.length := by
        unfold Score.layout
        simp
      rw [List.getElem?_eq_none (by omega)] at hentry
      cases hentry
    obtain ⟨step, hstep, hnext, hsystem, hlast⟩ :=
      mergeIteration_invariant ext hkeeps destScore srcScore numDestPlayers numDestInstruments
        hbars hplain sys bar st entry hinv hentry hbar
    by_cases hlt : bar + 2 < entry.1
    · obtain ⟨next, hnexteq, hnextinv⟩ := hnext hlt
      obtain ⟨bound, hbound⟩ := ih sys (bar + 1) next entry hnextinv hentry (by omega) (by omega)
      refine ⟨bound + 1, ?_⟩
      intro fuel hfuel
      obtain ⟨f, rfl⟩ : ∃ f, fuel = f + 1 := ⟨fuel - 1, by omega⟩
      rw [mergeLoop, hstep, hnexteq]
      exact hbound f (by omega)
    · by_cases hmore : sys + 1 < destScore.systems.length
      · obtain ⟨next, hnexteq, hnextinv⟩ := hsystem hlt hmore
        have hentry2 : destScore.layout[sys + 1]?
            = some (destScore.systems[sys + 1]).layout := by
          unfold Score.layout
          rw [List.getElem?_map, List.getElem?_eq_getElem hmore]
          rfl
        have htwo := (sameBars_system destScore srcScore hbars (sys + 1) _ hentry2).1
        obtain ⟨bound, hbound⟩ := ih (sys + 1) 0 next _ hnextinv hentry2 (by omega) (by omega)
        refine ⟨bound + 1, ?_⟩
        intro fuel hfuel
        obtain ⟨f, rfl⟩ : ∃ f, fuel = f + 1 := ⟨fuel - 1, by omega⟩
        rw [mergeLoop, hstep, hnexteq]
        exact hbound f (by omega)
      · obtain ⟨last, hlasteq, hlastlayout⟩ := hlast hlt hmore
        refine ⟨1, ?_⟩
        intro fuel hfuel
        obtain ⟨f, rfl⟩ : ∃ f, fuel = f + 1 := ⟨fuel - 1, by omega⟩
        rw [mergeLoop, hstep, hlasteq]
        refine ⟨last.destScore, rfl, ?_⟩
        have hend : sys + 1 = destScore.systems.length := by omega
        rw [hlastlayout, hend]

/-- Appending players and instruments leaves the systems alone. -/
theorem foldl_insert_players_systems (players : List Player) (instruments : List Instrument)
    (score : Score) :
    (instruments.foldl Score.insertInstrument
      (players.foldl Score.insertPlayer score)).systems = score.systems := by
  have h1 : ∀ (l : List Player) (s : Score), (l.foldl Score.insertPlayer s).systems = s.systems := by
    intro l
    induction l with
    | nil => intro s; rfl
    | cons p rest ih => intro s; rw [List.foldl_cons, ih]; rfl
  have h2 : ∀ (l : List Instrument) (s : Score),
      (l.foldl Score.insertInstrument s).systems = s.systems := by
    intro l
    induction l with
    | nil => intro s; rfl
    | cons p rest ih => intro s; rw [List.foldl_cons, ih]; rfl
  rw [h2, h1]

/-- C17 as the code has it: when the bass score has the same bars as the
destination (the same number of systems and, system by system, the same number
of barlines, at least two), holds no multi-bar rest, and its first system is not
empty, `merge` ends once it is allowed enough iterations, and every destination
system then has its original staves, unchanged in clef, string count and view
type, followed by one staff per staff of the source system of the same index,
with the clef and string count of that source staff and the view type
`BassView`.  Its staff count is the original count plus that of the source
system.  `InsertNotes` is taken to leave the layout of the score alone. -/
theorem merge_bass_staves (ext : MergeExternals) (destScore srcScore : Score) (first : System)
    (hkeeps : KeepsLayout ext) (hbars : SameBars destScore srcScore)
    (hplain : PlainSource srcScore)
    (hfirst : srcScore.systems[0]? = some first) (hused : first.hasNoPositions = false) :
    ∃ bound, ∀ fuel, bound ≤ fuel →
      ∃ result, merge ext fuel destScore srcScore = MergeResult.merged result
        ∧ result.systems.length = destScore.systems.length
        ∧ ∀ (i : Nat) (destSystem srcSystem : System),
            destScore.systems[i]? = some destSystem → srcScore.systems[i]? = some srcSystem →
            ∃ merged, result.systems[i]? = some merged
              ∧ merged.staves.map Staff.shape
                  = destSystem.staves.map Staff.shape
                    ++ srcSystem.staves.map (fun staff =>
                        (staff.clefType, staff.stringCount, Staff.ViewType.BassView,
                          Staff.NUM_VOICES))
              ∧ merged.staves.length = destSystem.staves.length + srcSystem.staves.length := by
  -- the destination score as the loop is entered
  have hsystems := foldl_insert_players_systems srcScore.players srcScore.instruments destScore
  have hlayout : (srcScore.instruments.foldl Score.insertInstrument
      (srcScore.players.foldl Score.insertPlayer destScore)).layout = destScore.layout := by
    unfold Score.layout
    rw [hsystems]
  have hbars2 : SameBars (srcScore.instruments.foldl Score.insertInstrument
      (srcScore.players.foldl Score.insertPlayer destScore)) srcScore := by
    unfold SameBars
    rw [hsystems]
    exact hbars
  have hlen : srcScore.systems.length = destScore.systems.length := by
    simpa using congrArg List.length hbars.1
  have hpos : 0 < destScore.systems.length := by
    rw [← hlen]
    by_contra hcon
    rw [List.getElem?_eq_none (by omega)] at hfirst
    cases hfirst
  have hentry : destScore.layout[0]? = some (destScore.systems[0]).layout := by
    unfold Score.layout
    rw [List.getElem?_map, List.getElem?_eq_getElem hpos]
    rfl
  have htwo := (sameBars_system destScore srcScore hbars 0 _ hentry).1
  obtain ⟨bound, hbound⟩ := mergeLoop_invariant ext hkeeps _ srcScore destScore.players.length
    destScore.instruments.length hbars2 hplain _ 0 0
    (initialMergeState (srcScore.instruments.foldl Score.insertInstrument
      (srcScore.players.foldl Score.insertPlayer destScore)))
    (destScore.systems[0]).layout
    ⟨rfl, rfl, rfl, rfl, rfl, fun _ => ⟨rfl, rfl⟩, fun h => absurd rfl h⟩
    (by rw [hlayout]; exact hentry) (by omega) (le_refl _)
  refine ⟨bound, ?_⟩
  intro fuel hfuel
  obtain ⟨result, hresult, hresultlayout⟩ := hbound fuel hfuel
  rw [hlayout, hsystems] at hresultlayout
  refine ⟨result, ?_, ?_, ?_⟩
  · unfold merge
    simp only [hfirst, hused, Bool.false_eq_true, if_false]
    exact hresult
  · have h1 : result.layout.length = destScore.layout.length := by
      rw [hresultlayout, mergedLayout_length]
    unfold Score.layout at h1
    simpa using h1
  · intro i destSystem srcSystem hdest hsrc
    have hi : i < destScore.systems.length := by
      by_contra hcon
      rw [List.getElem?_eq_none (by omega)] at hdest
      cases hdest
    have hentryi : destScore.layout[i]? = some destSystem.layout := by
      unfold Score.layout
      rw [List.getElem?_map, hdest]
      rfl
    have hmerged := mergedLayout_of_lt destScore.layout srcScore.systems
      destScore.systems.length i destSystem.layout srcSystem hi hentryi hsrc
    rw [← hresultlayout] at hmerged
    obtain ⟨merged, hmergedsys, _, hstaves⟩ := system_of_layout result i _ hmerged
    refine ⟨merged, hmergedsys, hstaves, ?_⟩
    have hcount := congrArg List.length hstaves
    simpa [System.layout, bassShapes] using hcount

/-- Changing a voice leaves the layout alone. -/
theorem modifyVoiceAt_layout (score : Score) (loc : ScoreLocation) (f : Voice → Voice) :
    (score.modifyVoiceAt loc f).layout = score.layout := by
  unfold Score.modifyVoiceAt
  cases hsystem : score.systems[loc.systemIndex]? with
  | none => rfl
  | some system =>
    simp only []
    cases hstaff : system.staves[loc.staffIndex]? with
    | none => rfl
    | some staff =>
      simp only []
      rw [layout_setSystem]
      apply set_eq_self_of_getElem?
      unfold Score.layout
      rw [List.getElem?_map, hsystem]
      simp only [Option.map_some', Option.some.injEq]
      unfold System.layout System.setStaff
      simp only [List.map_set]
      rw [set_eq_self_of_getElem?]
      rw [List.getElem?_map, hstaff]
      simp only [Option.map_some', Option.some.injEq]
      unfold Staff.shape Staff.modifyVoice
      simp only [List.length_modify]

/-- The sample `InsertNotes` leaves the layout alone. -/
theorem sampleMergeExternals_keepsLayout : KeepsLayout sampleMergeExternals := by
  intro score loc positions groups
  exact modifyVoiceAt_layout score loc _

set_option maxRecDepth 100000 in
/-- Witness of C17 as amended: `sampleMergeBass` has the bars of
`sampleMergeGuitar`; after the merge the system holds the six-string guitar staff
and the four-string bass staff. -/
theorem merge_bass_staves_witness :
    SameBars sampleMergeGuitar sampleMergeBass
    ∧ PlainSource sampleMergeBass
    ∧ (merge sampleMergeExternals 2 sampleMergeGuitar sampleMergeBass).staffShapes
        = [[(0, 6, Staff.ViewType.GuitarView, 2), (1, 4, Staff.ViewType.BassView, 2)]]
    ∧ ∃ bound, ∀ fuel, bound ≤ fuel →
        ∃ result,
          merge sampleMergeExternals fuel sampleMergeGuitar sampleMergeBass
            = MergeResult.merged result
          ∧ result.systems.length = sampleMergeGuitar.systems.length
          ∧ ∀ (i : Nat) (destSystem srcSystem : System),
              sampleMergeGuitar.systems[i]? = some destSystem →
              sampleMergeBass.systems[i]? = some srcSystem →
              ∃ merged, result.systems[i]? = some merged
                ∧ merged.staves.map Staff.shape
                    = destSystem.staves.map Staff.shape
                      ++ srcSystem.staves.map (fun staff =>
                          (staff.clefType, staff.stringCount, Staff.ViewType.BassView,
                            Staff.NUM_VOICES))
                ∧ merged.staves.length
                    = destSystem.staves.length + srcSystem.staves.length :=
  ⟨⟨by decide, by decide⟩, by unfold PlainSource; decide, by decide,
   merge_bass_staves sampleMergeExternals sampleMergeGuitar sampleMergeBass
     (sampleMergeSystem [0, 10, 20] [sampleMergeStaff 4 1 [sampleNotePosition 1] []])
     sampleMergeExternals_keepsLayout ⟨by decide, by decide⟩
     (by unfold PlainSource; decide) rfl (by decide)⟩

set_option maxRecDepth 100000 in
/-- Counterexample to C17 as stated: `sampleMergeGuitar` has one system of two
bars and one staff; `sampleTwoSystemBass` has two systems of one bar, with one
and with two staves.  The second destination bar is merged with the second
source system, so the destination system ends with three staves: its own and
two bass staves, not its own and the one staff of the first source system. -/
theorem merge_staff_count_two_source_systems :
    sampleMergeGuitar.systems.map (fun system => system.staves.length) = [1]
    ∧ sampleTwoSystemBass.systems.map (fun system => system.staves.length) = [1, 2]
    ∧ (merge sampleMergeExternals 2 sampleMergeGuitar sampleTwoSystemBass).staffShapes
        = [[(0, 6, Staff.ViewType.GuitarView, 2), (1, 4, Staff.ViewType.BassView, 2),
            (1, 5, Staff.ViewType.BassView, 2)]] :=
  ⟨by decide, by decide, by decide⟩

/-! ### Guitar-ins for rhythm slashes: where they are ignored -/

/-- The guitar-in loop passes over guitar-ins without the staff-guitars flag. -/
theorem foldl_guitarInStep_filter :
    ∀ (l : List PowerTabDocument.GuitarIn) (st : GuitarInState),
      (l.filter (fun g => g.hasStaffGuitarsSet)).foldl guitarInStep st
        = l.foldl guitarInStep st := by
  intro l
  induction l with
  | nil => intro st; rfl
  | cons g rest ih =>
    intro st
    by_cases hflag : g.hasStaffGuitarsSet = true
    · rw [List.filter_cons_of_pos hflag, List.foldl_cons, List.foldl_cons, ih]
    · rw [List.filter_cons_of_neg hflag, List.foldl_cons, ih]
      have hstep : guitarInStep st g = st := by
        unfold guitarInStep
        simp [hflag]
      rw [hstep]

/-- The guitar-ins of a system once those for rhythm slashes are removed. -/
theorem withoutSlashGuitarIns_inSystem (oldScore : PowerTabDocument.Score) (i : Nat) :
    (withoutSlashGuitarIns oldScore).getGuitarInsInSystem i
      = (oldScore.getGuitarInsInSystem i).filter (fun g => g.hasStaffGuitarsSet) := by
  unfold withoutSlashGuitarIns PowerTabDocument.Score.getGuitarInsInSystem
  simp only [List.filter_filter]
  congr 1
  funext g
  exact Bool.and_comm _ _

/-- Where the first guitar-in of every system has the staff-guitars flag set, the
guitar-ins that only affect rhythm slashes are ignored: `convertGuitarIns` gives
the same score with and without them. -/
theorem convertGuitarIns_withoutSlashGuitarIns (ext : Externals)
    (oldScore : PowerTabDocument.Score) (score : Score)
    (hfront : ∀ (i : Nat) (front : PowerTabDocument.GuitarIn)
      (rest : List PowerTabDocument.GuitarIn),
      oldScore.getGuitarInsInSystem i = front :: rest → front.hasStaffGuitarsSet = true) :
    convertGuitarIns ext (withoutSlashGuitarIns oldScore) score
      = convertGuitarIns ext oldScore score := by
  have hstep : ∀ (n : Nat) (acc : List Int × Score),
      convertGuitarInsStep (withoutSlashGuitarIns oldScore) n acc
        = convertGuitarInsStep oldScore n acc := by
    intro n acc
    unfold convertGuitarInsStep
    rw [withoutSlashGuitarIns_inSystem]
    cases hgis : oldScore.getGuitarInsInSystem n with
    | nil => rfl
    | cons front rest =>
      have hflag := hfront n front rest hgis
      rw [List.filter_cons_of_pos hflag]
      simp only []
      cases acc.2.systems[n]? with
      | none => rfl
      | some system =>
        simp only []
        have hsame : convertGuitarInsOfSystem
              (front :: rest.filter (fun g => g.hasStaffGuitarsSet)) front acc.1 system
            = convertGuitarInsOfSystem (front :: rest) front acc.1 system := by
          unfold convertGuitarInsOfSystem
          have hfold := foldl_guitarInStep_filter (front :: rest)
            { system := system, activePlayers := acc.1, currentPosition := front.position }
          rw [List.filter_cons_of_pos hflag] at hfold
          rw [hfold]
        rw [hsame]
  have hupto : ∀ n : Nat,
      convertGuitarInsUpTo ext (withoutSlashGuitarIns oldScore) score n
        = convertGuitarInsUpTo ext oldScore score n := by
    intro n
    induction n with
    | zero => rfl
    | succ n ih =>
      rw [convertGuitarInsUpTo, convertGuitarInsUpTo, ih]
      cases convertGuitarInsUpTo ext oldScore score n with
      | none => rfl
      | some acc => exact hstep n acc
  unfold convertGuitarIns
  rw [hupto]
  rfl

/-! ### Time signatures (claim C26) -/

/-- C26: the converted meter type is `CutTime` when the legacy "is cut" flag is
set, whatever "is common" says, `CommonTime` when "is common" is set and "is cut"
is not, and `Normal` otherwise; beats per measure, beat value, pulses, visibility
and the beaming pattern are those of the legacy time signature. -/
theorem convertTimeSignature_meter_and_fields (oldTime : PowerTabDocument.TimeSignature) :
    (oldTime.isCutTime = true →
      (convertTimeSignature oldTime).meterType = TimeSignature.MeterType.CutTime)
    ∧ (oldTime.isCutTime = false → oldTime.isCommonTime = true →
      (convertTimeSignature oldTime).meterType = TimeSignature.MeterType.CommonTime)
    ∧ (oldTime.isCutTime = false → oldTime.isCommonTime = false →
      (convertTimeSignature oldTime).meterType = TimeSignature.MeterType.Normal)
    ∧ (convertTimeSignature oldTime).beatsPerMeasure = oldTime.beatsPerMeasure
    ∧ (convertTimeSignature oldTime).beatValue = oldTime.beatAmount
    ∧ (convertTimeSignature oldTime).numPulses = oldTime.pulses
    ∧ (convertTimeSignature oldTime).visible = oldTime.isShown
    ∧ (convertTimeSignature oldTime).beamingPattern = oldTime.beamingPattern := by
  refine ⟨?_, ?_, ?_, rfl, rfl, rfl, rfl, rfl⟩
  · intro h
    simp [convertTimeSignature, h]
  · intro h1 h2
    simp [convertTimeSignature, h1, h2]
  · intro h1 h2
    simp [convertTimeSignature, h1, h2]

/-- Witness of C26: a legacy 4/4 with "is cut" and "is common" both set gives
`CutTime`, 4, 4. -/
theorem convertTimeSignature_meter_and_fields_witness :
    (convertTimeSignature
        { isCutTime := true, isCommonTime := true, beatsPerMeasure := 4, beatAmount := 4,
          beamingPattern := [4, 0, 0, 0], pulses := 4, isShown := true }).meterType
      = TimeSignature.MeterType.CutTime
    ∧ convertTimeSignature
        { isCutTime := true, isCommonTime := false, beatsPerMeasure := 4, beatAmount := 4,
          beamingPattern := [4, 0, 0, 0], pulses := 4, isShown := true }
      = { meterType := TimeSignature.MeterType.CutTime, beatsPerMeasure := 4, beatValue := 4,
          beamingPattern := [4, 0, 0, 0], numPulses := 4, visible := true } :=
  ⟨(convertTimeSignature_meter_and_fields
      { isCutTime := true, isCommonTime := true, beatsPerMeasure := 4, beatAmount := 4,
        beamingPattern := [4, 0, 0, 0], pulses := 4, isShown := true }).1 rfl,
   by decide⟩

/-! ### Properties of a position (claim C27) -/

/-- One iteration of the guitar-in loop of `convertInitialVolumes`, by the
dynamic it emits. -/
theorem initialVolumeStep_eq (oldScore : PowerTabDocument.Score) (startPos : Nat × Nat)
    (system : System) (guitarIn : PowerTabDocument.GuitarIn) :
    initialVolumeStep oldScore startPos system guitarIn
      = match seedDynamic oldScore startPos guitarIn with
        | none => some system
        | some dynamic =>
          system.modifyStaff? guitarIn.staff (fun staff => staff.insertDynamic dynamic) := by
  unfold initialVolumeStep seedDynamic
  by_cases hpos : (guitarIn.system, guitarIn.position) = startPos
  · by_cases hflag : guitarIn.hasStaffGuitarsSet = true
    · simp only [hpos, hflag, ne_eq, not_true_eq_false, if_false, Bool.not_true,
        Bool.false_eq_true, and_self, if_true]
      cases (List.range oldScore.guitars.length).find?
          (fun j => bitset8 guitarIn.staffGuitars j) with
      | none => rfl
      | some j => rfl
    · simp [hpos, hflag]
  · simp [hpos]

/-- The guitar-in loop of `convertInitialVolumes` on a system that has the staves
the emitting guitar-ins name: it succeeds, every staff gains the dynamics seeded
for it, in order, and nothing else changes. -/
theorem initialVolumeLoop_spec (oldScore : PowerTabDocument.Score) (startPos : Nat × Nat) :
    ∀ (l : List PowerTabDocument.GuitarIn) (system : System),
      (∀ g ∈ l, (seedDynamic oldScore startPos g).isSome = true →
        g.staff < system.staves.length) →
      ∃ after, initialVolumeLoop oldScore startPos l system = some after
        ∧ after.staves.length = system.staves.length
        ∧ after.withoutStaves = system.withoutStaves
        ∧ ∀ s : Nat, after.staves[s]?
            = system.staves[s]?.map
                (fun staff => staff.addDynamics (seededDynamics oldScore startPos l s)) := by
  intro l
  induction l with
  | nil =>
    intro system _
    refine ⟨system, rfl, rfl, rfl, ?_⟩
    intro s
    cases system.staves[s]? with
    | none => rfl
    | some staff => simp [seededDynamics, Staff.addDynamics]
  | cons g rest ih =>
    intro system hstaves
    rw [initialVolumeLoop, initialVolumeStep_eq]
    cases hseed : seedDynamic oldScore startPos g with
    | none =>
      simp only []
      obtain ⟨after, hafter, hlen, hframe, hdyn⟩ := ih system
        (fun x hx => hstaves x (List.mem_cons_of_mem g hx))
      refine ⟨after, hafter, hlen, hframe, ?_⟩
      intro s
      rw [hdyn s]
      congr 1
      funext staff
      unfold seededDynamics
      by_cases hs : g.staff = s
      · rw [List.filter_cons_of_pos (by simpa using hs), List.filterMap_cons_none hseed]
      · rw [List.filter_cons_of_neg (by simpa using hs)]
    | some dynamic =>
      simp only []
      have hlt : g.staff < system.staves.length :=
        hstaves g (List.mem_cons_self g rest) (by rw [hseed]; rfl)
      unfold System.modifyStaff?
      rw [List.getElem?_eq_getElem hlt]
      simp only []
      obtain ⟨after, hafter, hlen, hframe, hdyn⟩ := ih
        (system.setStaff g.staff (system.staves[g.staff].insertDynamic dynamic))
        (fun x hx hsome => by
          simp only [System.setStaff, List.length_set]
          exact hstaves x (List.mem_cons_of_mem g hx) hsome)
      simp only [System.setStaff, List.length_set] at hlen hdyn
      refine ⟨after, hafter, hlen, hframe, ?_⟩
      · intro s
        rw [hdyn s]
        unfold seededDynamics
        by_cases hs : g.staff = s
        · subst hs
          rw [List.getElem?_set_self hlt, List.getElem?_eq_getElem hlt,
            List.filter_cons_of_pos (by simp), List.filterMap_cons_some hseed]
          simp [Staff.addDynamics, Staff.insertDynamic]
        · rw [List.getElem?_set_ne hs, List.filter_cons_of_neg (by simpa using hs)]

/-- The first number below `n` that passes a test. -/
theorem find?_range_eq_some (p : Nat → Bool) :
    ∀ (n j : Nat), (List.range n).find? p = some j ↔
      j < n ∧ p j = true ∧ ∀ k, k < j → p k = false := by
  intro n
  induction n with
  | zero => intro j; simp
  | succ n ih =>
    intro j
    rw [List.range_succ, List.find?_append]
    cases hfind : (List.range n).find? p with
    | some i =>
      have hi := (ih i).mp hfind
      simp only [Option.or, Option.some.injEq]
      constructor
      · intro h
        subst h
        exact ⟨by omega, hi.2.1, hi.2.2⟩
      · rintro ⟨hj, hpj, hmin⟩
        by_contra hne
        rcases Nat.lt_or_gt_of_ne hne with hlt | hgt
        · have := hmin i hlt
          rw [hi.2.1] at this
          cases this
        · have := hi.2.2 j hgt
          rw [hpj] at this
          cases this
    | none =>
      have hnone : ∀ k, k < n → p k = false := by
        intro k hk
        have := List.find?_eq_none.mp hfind k (List.mem_range.mpr hk)
        simpa using this
      simp only [Option.or, List.find?_cons, List.find?_nil]
      by_cases hpn : p n = true
      · simp only [hpn, Option.some.injEq]
        constructor
        · intro h
          subst h
          exact ⟨Nat.lt_succ_self _, hpn, hnone⟩
        · rintro ⟨hj, hpj, hmin⟩
          by_contra hne
          have hlt : j < n := by omega
          have := hnone j hlt
          rw [hpj] at this
          cases this
      · have hpn2 : p n = false := by simpa using hpn
        simp only [hpn2]
        constructor
        · intro h; cases h
        · rintro ⟨hj, hpj, _⟩
          by_cases hjn : j = n
          · subst hjn
            rw [hpn2] at hpj
            cases hpj
          · have := hnone j (by omega)
            rw [hpj] at this
            cases this

/-- The dynamic emitted for a guitar-in: it is emitted exactly when the guitar-in
is at the first location, has the staff-guitars flag set and names a guitar of
the score, and it carries the position of the guitar-in and the initial volume of
the lowest-numbered guitar its mask names. -/
theorem seedDynamic_eq_some (oldScore : PowerTabDocument.Score) (startPos : Nat × Nat)
    (guitarIn : PowerTabDocument.GuitarIn) (dynamic : Dynamic) :
    seedDynamic oldScore startPos guitarIn = some dynamic ↔
      (guitarIn.system, guitarIn.position) = startPos
      ∧ guitarIn.hasStaffGuitarsSet = true
      ∧ ∃ j, j < oldScore.guitars.length ∧ bitset8 guitarIn.staffGuitars j = true
          ∧ (∀ k, k < j → bitset8 guitarIn.staffGuitars k = false)
          ∧ dynamic = { position := guitarIn.position,
                        volume := (oldScore.guitars.getD j default).initialVolume } := by
  unfold seedDynamic
  by_cases hcond : (guitarIn.system, guitarIn.position) = startPos
      ∧ guitarIn.hasStaffGuitarsSet = true
  · rw [if_pos hcond]
    constructor
    · intro h
      obtain ⟨j, hj, hd⟩ := Option.map_eq_some'.mp h
      obtain ⟨h1, h2, h3⟩ := (find?_range_eq_some _ _ j).mp hj
      exact ⟨hcond.1, hcond.2, j, h1, h2, h3, hd.symm⟩
    · rintro ⟨_, _, j, h1, h2, h3, hd⟩
      rw [(find?_range_eq_some _ _ j).mpr ⟨h1, h2, h3⟩, hd]
      rfl
  · rw [if_neg hcond]
    constructor
    · intro h; cases h
    · rintro ⟨h1, h2, _⟩
      exact absurd ⟨h1, h2⟩ hcond

/-- C22 as the code has it: when initial volumes are seeded (the first dynamic,
if there is one, is strictly after the first guitar-in) and the staves named by
the emitting guitar-ins exist, `convertInitialVolumes` changes the staves of the
system of the first guitar-in only: every staff gains, after the dynamics it
has and in legacy order, one dynamic for every guitar-in on that staff that is at
the first guitar-in's (system, position), has the staff-guitars flag set and
names at least one guitar of the score in its mask.  The dynamic is at the
position of the guitar-in, and its volume is the initial volume of the
lowest-numbered guitar the mask names.  A guitar-in whose mask names no guitar of
the score gets no dynamic. -/
theorem convertInitialVolumes_seeds (oldScore : PowerTabDocument.Score) (score : Score)
    (firstIn : PowerTabDocument.GuitarIn) (rest : List PowerTabDocument.GuitarIn)
    (system : System)
    (hins : oldScore.guitarIns = firstIn :: rest)
    (hseeds : SeedsInitialVolumes oldScore firstIn)
    (hsystem : score.systems[firstIn.system]? = some system)
    (hstaves : ∀ g ∈ oldScore.guitarIns,
      (seedDynamic oldScore (firstIn.system, firstIn.position) g).isSome = true →
      g.staff < system.staves.length) :
    (∃ after,
      convertInitialVolumes oldScore score = some (score.setSystem firstIn.system after)
      ∧ after.withoutStaves = system.withoutStaves
      ∧ after.staves.length = system.staves.length
      ∧ ∀ s : Nat, after.staves[s]?
          = system.staves[s]?.map (fun staff => staff.addDynamics
              (seededDynamics oldScore (firstIn.system, firstIn.position)
                oldScore.guitarIns s)))
    ∧ ∀ (guitarIn : PowerTabDocument.GuitarIn) (dynamic : Dynamic),
        seedDynamic oldScore (firstIn.system, firstIn.position) guitarIn = some dynamic ↔
          (guitarIn.system, guitarIn.position) = (firstIn.system, firstIn.position)
          ∧ guitarIn.hasStaffGuitarsSet = true
          ∧ ∃ j, j < oldScore.guitars.length ∧ bitset8 guitarIn.staffGuitars j = true
              ∧ (∀ k, k < j → bitset8 guitarIn.staffGuitars k = false)
              ∧ dynamic = { position := guitarIn.position,
                            volume := (oldScore.guitars.getD j default).initialVolume } := by
  refine ⟨?_, seedDynamic_eq_some oldScore _⟩
  obtain ⟨after, hafter, hlen, hframe, hdyn⟩ := initialVolumeLoop_spec oldScore
    (firstIn.system, firstIn.position) oldScore.guitarIns system hstaves
  refine ⟨after, ?_, hframe, hlen, hdyn⟩
  unfold convertInitialVolumes
  rw [hins] at hafter ⊢
  simp only [hsystem]
  cases hdynamics : oldScore.dynamics with
  | nil =>
    simp only [hafter, Option.map_some']
    rfl
  | cons firstDynamic restDynamics =>
    have hlater := hseeds firstDynamic (by rw [hdynamics]; rfl)
    simp only [hlater, Bool.false_eq_true, if_false, hafter, Option.map_some']
    rfl

/-- C23: `convertInitialVolumes` leaves the score as it is when the legacy score
has no guitar-in, and when its first dynamic is at or before its first guitar-in
(the same system and a position not after it, or an earlier system): in the
second case every result it has is the score it was given, and it has one when
the system of the first guitar-in exists. -/
theorem convertInitialVolumes_unchanged (oldScore : PowerTabDocument.Score) (score : Score) :
    (oldScore.guitarIns = [] → convertInitialVolumes oldScore score = some score)
    ∧ (∀ (firstIn : PowerTabDocument.GuitarIn) (firstDynamic : PowerTabDocument.Dynamic),
        oldScore.guitarIns.head? = some firstIn →
        oldScore.dynamics.head? = some firstDynamic →
        (firstDynamic.system < firstIn.system
          ∨ (firstDynamic.system = firstIn.system
              ∧ firstDynamic.position ≤ firstIn.position)) →
        (∀ result, convertInitialVolumes oldScore score = some result → result = score)
        ∧ (firstIn.system < score.systems.length →
            convertInitialVolumes oldScore score = some score)) := by
  constructor
  · intro h
    unfold convertInitialVolumes
    rw [h]
  · intro firstIn firstDynamic hin hdyn hle
    have hloc : locationLe (firstDynamic.system, firstDynamic.position)
        (firstIn.system, firstIn.position) = true := by
      unfold locationLe
      rcases hle with h | ⟨h1, h2⟩
      · simp [h]
      · simp [h1, h2]
    cases hins : oldScore.guitarIns with
    | nil => rw [hins] at hin; cases hin
    | cons g rest =>
      rw [hins] at hin
      cases hin
      cases hdynamics : oldScore.dynamics with
      | nil => rw [hdynamics] at hdyn; cases hdyn
      | cons d restDynamics =>
        rw [hdynamics] at hdyn
        cases hdyn
        unfold convertInitialVolumes
        rw [hins, hdynamics]
        simp only [hloc, if_true]
        constructor
        · intro result h
          cases hsys : score.systems[firstIn.system]? with
          | none => rw [hsys] at h; cases h
          | some system =>
            rw [hsys] at h
            cases h
            rfl
        · intro hlt
          rw [List.getElem?_eq_getElem hlt]

set_option maxRecDepth 100000 in
/-- Witness of C22 as amended, on `sampleGuitarScore`: its first guitar-in (system
0, position 0, staff 0, mask 0b01) seeds the initial volume 96 of guitar 0 into
staff 0; the guitar-in at position 8 is not at the first location and seeds
nothing. -/
theorem convertInitialVolumes_seeds_witness :
    (convertInitialVolumes sampleGuitarScore sampleSeedTarget).map
        (fun result => result.systems.map
          (fun system => system.staves.map (fun staff => staff.dynamics)))
      = some [[[{ position := 0, volume := 96 }], []]]
    ∧ ∃ after,
        convertInitialVolumes sampleGuitarScore sampleSeedTarget
          = some (sampleSeedTarget.setSystem 0 after)
        ∧ after.withoutStaves
            = ({ (default : System) with staves := [default, default] }).withoutStaves
        ∧ after.staves.length
            = ({ (default : System) with staves := [default, default] }).staves.length
        ∧ ∀ s : Nat, after.staves[s]?
            = ({ (default : System) with staves := [default, default] }).staves[s]?.map
                (fun staff => staff.addDynamics
                  (seededDynamics sampleGuitarScore (0, 0) sampleGuitarScore.guitarIns s)) :=
  ⟨by decide,
   (convertInitialVolumes_seeds sampleGuitarScore sampleSeedTarget
     { system := 0, staff := 0, position := 0, hasStaffGuitarsSet := true, staffGuitars := 1 }
     [{ system := 0, staff := 1, position := 8, hasStaffGuitarsSet := true, staffGuitars := 2 }]
     { (default : System) with staves := [default, default] } rfl
     (by intro d hd; cases hd) rfl (by decide)).1⟩

set_option maxRecDepth 100000 in
/-- Counterexample to C22 as stated: in `sampleBeyondMaskScore` initial volumes
are seeded (there is no dynamic) and the only guitar-in is at the first location
with the staff-guitars flag set, but its mask 0b100 names no guitar of the score:
no dynamic is emitted and the score stays as it is. -/
theorem convertInitialVolumes_no_dynamic_for_stray_mask :
    sampleBeyondMaskScore.guitarIns
      = [{ system := 0, staff := 0, position := 0, hasStaffGuitarsSet := true,
           staffGuitars := 4 }]
    ∧ sampleBeyondMaskScore.guitars.length = 2
    ∧ sampleBeyondMaskScore.dynamics = []
    ∧ convertInitialVolumes sampleBeyondMaskScore sampleSeedTarget = some sampleSeedTarget
    ∧ sampleSeedTarget.systems.map
          (fun system => system.staves.map (fun staff => staff.dynamics))
        = [[[], []]] :=
  ⟨by decide, by decide, by decide, by decide, by decide⟩

set_option maxRecDepth 100000 in
/-- Witness of C23: `sampleEarlyDynamicScore` has a dynamic where its first
guitar-in is, and the default legacy score has no guitar-in; both leave the
score as it is. -/
theorem convertInitialVolumes_unchanged_witness :
    convertInitialVolumes sampleEarlyDynamicScore sampleSeedTarget = some sampleSeedTarget
    ∧ convertInitialVolumes default sampleSeedTarget = some sampleSeedTarget :=
  ⟨((convertInitialVolumes_unchanged sampleEarlyDynamicScore sampleSeedTarget).2
      { system := 0, staff := 0, position := 0, hasStaffGuitarsSet := true, staffGuitars := 1 }
      { (default : PowerTabDocument.Dynamic) with system := 0, position := 0 } rfl rfl
      (Or.inr ⟨rfl, le_refl _⟩)).2 (by decide),
   (convertInitialVolumes_unchanged default sampleSeedTarget).1 rfl⟩

/-! ### The merger: player changes (claim C21) -/

/-- The inner loop at the end of `mergePlayerChanges`: the players of one source
staff go to the end of the destination change. -/
theorem foldl_insertActivePlayer (staff : Int) (f : ActivePlayer → ActivePlayer) :
    ∀ (l : List ActivePlayer) (change : PlayerChange),
      (l.foldl (fun c p => c.insertActivePlayer staff (f p)) change).position = change.position
      ∧ (l.foldl (fun c p => c.insertActivePlayer staff (f p)) change).activePlayers
          = change.activePlayers ++ l.map (fun p => (staff, f p)) := by
  intro l
  induction l with
  | nil => intro change; simp
  | cons p rest ih =>
    intro change
    rw [List.foldl_cons]
    obtain ⟨h1, h2⟩ := ih (change.insertActivePlayer staff (f p))
    refine ⟨h1, ?_⟩
    rw [h2]
    simp [PlayerChange.insertActivePlayer]

/-- The two loops at the end of `mergePlayerChanges`: the position of the
destination change stays, its active players stay, and the bass players come
after them. -/
theorem mergeActivePlayers_spec (numDestPlayers numDestInstruments numDestStaves : Nat)
    (srcChange : PlayerChange) (srcStaffCount : Nat) (destChange : PlayerChange) :
    (mergeActivePlayers numDestPlayers numDestInstruments numDestStaves srcChange
        srcStaffCount destChange).position = destChange.position
    ∧ (mergeActivePlayers numDestPlayers numDestInstruments numDestStaves srcChange
        srcStaffCount destChange).activePlayers
      = destChange.activePlayers
        ++ bassActivePlayers numDestPlayers numDestInstruments numDestStaves srcChange
            srcStaffCount := by
  unfold mergeActivePlayers bassActivePlayers
  have hloop : ∀ (l : List Nat) (change : PlayerChange),
      (l.foldl (fun change i =>
          (srcChange.getActivePlayers (Int.ofNat i)).foldl
            (fun change player =>
              change.insertActivePlayer (Int.ofNat (numDestStaves + i))
                ⟨numDestPlayers + player.playerNumber,
                 numDestInstruments + player.instrumentNumber⟩)
            change) change).position = change.position
      ∧ (l.foldl (fun change i =>
          (srcChange.getActivePlayers (Int.ofNat i)).foldl
            (fun change player =>
              change.insertActivePlayer (Int.ofNat (numDestStaves + i))
                ⟨numDestPlayers + player.playerNumber,
                 numDestInstruments + player.instrumentNumber⟩)
            change) change).activePlayers
        = change.activePlayers ++ l.flatMap (fun i =>
            (srcChange.getActivePlayers (Int.ofNat i)).map (fun p =>
              (Int.ofNat (numDestStaves + i),
               (⟨numDestPlayers + p.playerNumber, numDestInstruments + p.instrumentNumber⟩ :
                  ActivePlayer)))) := by
    intro l
    induction l with
    | nil => intro change; simp
    | cons i rest ih =>
      intro change
      rw [List.foldl_cons]
      obtain ⟨h1, h2⟩ := foldl_insertActivePlayer (Int.ofNat (numDestStaves + i))
        (fun p => ⟨numDestPlayers + p.playerNumber, numDestInstruments + p.instrumentNumber⟩)
        (srcChange.getActivePlayers (Int.ofNat i)) change
      obtain ⟨h3, h4⟩ := ih ((srcChange.getActivePlayers (Int.ofNat i)).foldl
        (fun change player =>
          change.insertActivePlayer (Int.ofNat (numDestStaves + i))
            ⟨numDestPlayers + player.playerNumber,
             numDestInstruments + player.instrumentNumber⟩)
        change)
      refine ⟨h3.trans h1, ?_⟩
      rw [h4, h2, List.flatMap_cons, List.append_assoc]
  exact hloop _ destChange

/-- The element at the first index that passes a test is the first element of
the filtered list. -/
theorem head?_filter_of_findIdx? {α : Type} (p : α → Bool) :
    ∀ (l : List α) (i : Nat) (a : α), l.findIdx? p = some i → l[i]? = some a →
      (l.filter p).head? = some a := by
  intro l
  induction l with
  | nil => intro i a h; simp at h
  | cons x rest ih =>
    intro i a h hget
    rw [List.findIdx?_cons] at h
    by_cases hx : p x = true
    · simp only [hx, if_true, Option.some.injEq] at h
      subst h
      simp only [List.getElem?_cons_zero, Option.some.injEq] at hget
      subst hget
      rw [List.filter_cons_of_pos hx]
      rfl
    · simp only [hx, Bool.false_eq_true, if_false, List.findIdx?_succ] at h
      obtain ⟨j, hj, hij⟩ := Option.map_eq_some'.mp h
      have hi : i = j + 1 := by simpa using hij.symm
      subst hi
      rw [List.getElem?_cons_succ] at hget
      rw [List.filter_cons_of_neg hx]
      have := ih j a (by simpa using hj) hget
      exact this

/-- C21: when `mergePlayerChanges` acts on a bar span (the source or the
destination has a player change in it) and the source has a currently effective
player change, the destination change it works on (the first destination change
of the span, or else the change it inserts at the destination position from
`prevPlayerChange`) keeps its position and its active players and gains, after
them, for every source staff `i` and every active player `p` of the source
change on staff `i`, the player `(numDestPlayers + p.playerNumber,
numDestInstruments + p.instrumentNumber)` on staff `numDestStaves + i`.
`prevPlayerChange` becomes the destination change as it was before. -/
theorem mergePlayerChanges_adds_bass_players (ext : MergeExternals)
    (srcScore destScore : Score) (srcLoc destLoc : ScoreLocation) (prev : Option PlayerChange)
    (numDestPlayers numDestInstruments numDestStaves : Nat)
    (srcSystem destSystem : System) (srcBar nextSrcBar destBar nextDestBar : Barline)
    (srcChange : PlayerChange)
    (h1 : srcScore.systems[srcLoc.systemIndex]? = some srcSystem)
    (h2 : destScore.systems[destLoc.systemIndex]? = some destSystem)
    (h3 : srcSystem.barlines[srcLoc.barlineIndex]? = some srcBar)
    (h4 : srcSystem.barlines[srcLoc.barlineIndex + 1]? = some nextSrcBar)
    (h5 : destSystem.barlines[destLoc.barlineIndex]? = some destBar)
    (h6 : destSystem.barlines[destLoc.barlineIndex + 1]? = some nextDestBar)
    (hacts : ScoreUtils.findInRange ext (fun c : PlayerChange => c.position)
          srcSystem.playerChanges srcBar.position ((nextSrcBar.position : Int) - 1) ≠ []
      ∨ ScoreUtils.findInRange ext (fun c : PlayerChange => c.position)
          destSystem.playerChanges destBar.position ((nextDestBar.position : Int) - 1) ≠ [])
    (hcurrent : ext.getCurrentPlayers srcScore srcLoc.systemIndex srcLoc.positionIndex
      = some srcChange) :
    ∃ (index : Nat) (held : System) (destChange merged : PlayerChange),
      mergePlayerChanges ext srcScore srcLoc destScore destLoc prev numDestPlayers
          numDestInstruments numDestStaves
        = some (destScore.setSystem destLoc.systemIndex (held.setPlayerChange index merged),
                some destChange)
      ∧ held.playerChanges[index]? = some destChange
      ∧ (ScoreUtils.findInRange ext (fun c : PlayerChange => c.position)
            destSystem.playerChanges destBar.position ((nextDestBar.position : Int) - 1) ≠ [] →
          held = destSystem
          ∧ (ScoreUtils.findInRange ext (fun c : PlayerChange => c.position)
              destSystem.playerChanges destBar.position
              ((nextDestBar.position : Int) - 1)).head? = some destChange)
      ∧ (ScoreUtils.findInRange ext (fun c : PlayerChange => c.position)
            destSystem.playerChanges destBar.position ((nextDestBar.position : Int) - 1) = [] →
          held = destSystem.insertPlayerChange
              ((prev.getD default).setPosition destLoc.positionIndex)
          ∧ destChange.position = destLoc.positionIndex)
      ∧ merged.position = destChange.position
      ∧ merged.activePlayers
          = destChange.activePlayers
            ++ bassActivePlayers numDestPlayers numDestInstruments numDestStaves srcChange
                srcSystem.staves.length := by
  have hnot : ¬ ((ScoreUtils.findInRange ext (fun c : PlayerChange => c.position)
        srcSystem.playerChanges srcBar.position ((nextSrcBar.position : Int) - 1)).isEmpty
      && (ScoreUtils.findInRange ext (fun c : PlayerChange => c.position)
        destSystem.playerChanges destBar.position
        ((nextDestBar.position : Int) - 1)).isEmpty) = true := by
    intro hboth
    rw [Bool.and_eq_true, List.isEmpty_iff, List.isEmpty_iff] at hboth
    rcases hacts with h | h
    · exact h hboth.1
    · exact h hboth.2
  have hpos := fun destChange => (mergeActivePlayers_spec numDestPlayers
    numDestInstruments numDestStaves srcChange srcSystem.staves.length destChange).1
  have hplayers := fun destChange => (mergeActivePlayers_spec numDestPlayers
    numDestInstruments numDestStaves srcChange srcSystem.staves.length destChange).2
  unfold mergePlayerChanges ScoreLocation.getBarline ScoreLocation.getNextBarline
  simp only [h1, h2, h3, h4, h5, h6, hnot, if_false, hcurrent]
  by_cases hdest : ScoreUtils.findInRange ext (fun c : PlayerChange => c.position)
      destSystem.playerChanges destBar.position ((nextDestBar.position : Int) - 1) = []
  · -- no destination change in the span: one is inserted and found by its position
    obtain ⟨i, c, hi, hc⟩ := findIdx?_of_exists
      (destSystem.insertPlayerChange
        ((prev.getD default).setPosition destLoc.positionIndex)).playerChanges
      (fun c => decide (c.position = destLoc.positionIndex))
      ⟨(prev.getD default).setPosition destLoc.positionIndex,
        by simp [System.insertPlayerChange], by simp [PlayerChange.setPosition]⟩
    have hcpos : c.position = destLoc.positionIndex := by
      have := List.findIdx?_of_eq_some hi
      rw [hc] at this
      simpa using this
    simp only [hdest, List.isEmpty_nil, if_true, hi, hc]
    exact ⟨i, _, c, _, rfl, hc, fun h => absurd rfl h, fun _ => ⟨rfl, hcpos⟩,
      hpos c, hplayers c⟩
  · -- a destination change in the span: the first one is taken
    have hex : ∃ x, x ∈ destSystem.playerChanges
        ∧ ext.inRange x.position destBar.position ((nextDestBar.position : Int) - 1) = true := by
      obtain ⟨x, hx⟩ := List.exists_mem_of_ne_nil _ hdest
      unfold ScoreUtils.findInRange at hx
      obtain ⟨hx1, hx2⟩ := List.mem_filter.mp hx
      exact ⟨x, hx1, hx2⟩
    obtain ⟨i, c, hi, hc⟩ := findIdx?_of_exists destSystem.playerChanges
      (fun c => ext.inRange c.position destBar.position ((nextDestBar.position : Int) - 1)) hex
    have hhead := head?_filter_of_findIdx? _ _ i c hi hc
    have hempty : (ScoreUtils.findInRange ext (fun c : PlayerChange => c.position)
        destSystem.playerChanges destBar.position
        ((nextDestBar.position : Int) - 1)).isEmpty = false := by
      cases hl : ScoreUtils.findInRange ext (fun c : PlayerChange => c.position)
          destSystem.playerChanges destBar.position ((nextDestBar.position : Int) - 1) with
      | nil => exact absurd hl hdest
      | cons a rest => rfl
    simp only [hempty, Bool.false_eq_true, if_false, hi, hc]
    exact ⟨i, _, c, _, rfl, hc, fun _ => ⟨rfl, hhead⟩, fun h => absurd h hdest,
      hpos c, hplayers c⟩

set_option maxRecDepth 100000 in
/-- Witness of C21: guitar and bass both have a change at the start of the first
bar, each with player 0 on staff 0.  With one guitar player, instrument and
staff, the destination change keeps guitar player 0 on staff 0 and gains bass
player 1 with instrument 1 on staff 1. -/
theorem mergePlayerChanges_adds_bass_players_witness :
    (mergePlayerChanges sampleMergeExternals sampleChangeBass default sampleChangeGuitar
        default none 1 1 1).map
        (fun r => (r.1.systems.map (fun system => system.playerChanges), r.2))
      = some ([[{ position := 0, activePlayers := [(0, ⟨0, 0⟩), (1, ⟨1, 1⟩)] }]],
              some { position := 0, activePlayers := [(0, ⟨0, 0⟩)] })
    ∧ ∃ (index : Nat) (held : System) (destChange merged : PlayerChange),
        mergePlayerChanges sampleMergeExternals sampleChangeBass default sampleChangeGuitar
            default none 1 1 1
          = some (sampleChangeGuitar.setSystem 0 (held.setPlayerChange index merged),
                  some destChange)
        ∧ held.playerChanges[index]? = some destChange
        ∧ merged.position = destChange.position
        ∧ merged.activePlayers
            = destChange.activePlayers
              ++ bassActivePlayers 1 1 1 { position := 0, activePlayers := [(0, ⟨0, 0⟩)] }
                  sampleChangeBassSystem.staves.length := by
  refine ⟨by decide, ?_⟩
  obtain ⟨index, held, destChange, merged, h1, h2, _, _, h5, h6⟩ :=
    mergePlayerChanges_adds_bass_players sampleMergeExternals sampleChangeBass
      sampleChangeGuitar default default none 1 1 1 sampleChangeBassSystem
      sampleChangeGuitarSystem { (default : Barline) with position := 0 }
      { (default : Barline) with position := 10 } { (default : Barline) with position := 0 }
      { (default : Barline) with position := 10 }
      { position := 0, activePlayers := [(0, ⟨0, 0⟩)] } rfl rfl rfl rfl rfl rfl
      (Or.inl (by decide)) (by decide)
  exact ⟨index, held, destChange, merged, h1, h2, h5, h6⟩

/-! ### The merger: a source that ends before the destination system (claim C30) -/

/-- The end of an iteration when the source cursor cannot move and the
destination cursor moves within the current system: the loop goes on, and the
source cursor is where it was. -/
theorem mergeAdvance_source_at_end (srcScore : Score) (st : MergeState)
    (destLoc : ScoreLocation) (hcount : st.multibarRestCount = 0)
    (hdest : Caret.moveToNextBar st.destScore st.destLoc = some destLoc)
    (hsrc : Caret.moveToNextBar srcScore st.srcLoc = none)
    (hsystem : (destLoc.systemIndex : Int) = st.currentSystemIndex) :
    mergeAdvance srcScore st = MergeStep.next { st with destLoc := destLoc } := by
  unfold mergeAdvance
  simp only [hdest, hcount, ne_eq, not_true_eq_false, if_false, if_true, hsrc, hsystem]

set_option maxRecDepth 100000 in
/-- C30 fails: `sampleMergeGuitar` has two bars in its system, `sampleOneBarBass`
has one bar with a note at position 1.  After the first iteration the source
cursor cannot move and stays on its bar, while the destination cursor is on the
second bar of the same system, so the loop goes on; the second iteration finds
the positions of the same source bar again and copies them.  The second
destination bar of the bass staff gets the note again and no whole rest. -/
theorem merge_source_at_end_copies_last_bar_again :
    MergeStep.cursors? (mergeIteration sampleMergeExternals sampleOneBarBass 1 1
        (initialMergeState
          { sampleMergeGuitar with players := [default, default],
                                   instruments := [default, default] }))
      = some (⟨0, 0, 0, 0, 0⟩, ⟨0, 1, 10, 0, 0⟩)
    ∧ (merge sampleMergeExternals 2 sampleMergeGuitar sampleOneBarBass).voicePositions
      = [[[[(1, 4, none), (11, 4, none)], []],
          [[(1, 4, none), (1, 4, none)], []]]] :=
  ⟨by decide, by decide⟩

/-- Claim C24, counterexample: with file type 2, which is neither the song nor
the lesson value, the header converter does not fail; it fills in the lesson
data. -/
theorem convertHeader_unknown_file_type_gives_lesson :
    (sampleHeader 2).fileType ≠ sampleHeaderConstants.FILETYPE_SONG
    ∧ (sampleHeader 2).fileType ≠ sampleHeaderConstants.FILETYPE_LESSON
    ∧ convertHeader sampleHeaderConstants (sampleHeader 2) default
      = ScoreInfo.lesson
          { title := "Lesson", subtitle := "Scales", musicStyle := 3, difficultyLevel := 2,
            author := "Teacher", notes := "", copyright := "" } := by
  decide

/-- Claim C24, amended: the header converter populates the song data when the
file type is Song and the lesson data for every other file type, the lesson
value or not; it has no failing result.  The song data take the release variant
by the release type and the author variant by the author type. -/
theorem convertHeader_song_or_lesson (c : HeaderConstants)
    (header : PowerTabDocument.PowerTabFileHeader) (info : ScoreInfo) :
    (header.fileType = c.FILETYPE_SONG →
      ∃ data, convertHeader c header info = ScoreInfo.song data
        ∧ data.title = header.songTitle ∧ data.artist = header.songArtist
        ∧ data.arranger = header.songArranger
        ∧ data.transcriber = header.songGuitarScoreTranscriber
        ∧ data.copyright = header.songCopyright ∧ data.lyrics = header.songLyrics
        ∧ data.performanceNotes = header.songGuitarScoreNotes
        ∧ (header.songReleaseType = c.RELEASETYPE_PUBLIC_AUDIO →
            data.releaseInfo = ReleaseInfo.audio header.songAudioReleaseType
              header.songAudioReleaseTitle header.songAudioReleaseYear
              header.songAudioReleaseLive)
        ∧ (header.songReleaseType ≠ c.RELEASETYPE_PUBLIC_AUDIO →
            header.songReleaseType = c.RELEASETYPE_PUBLIC_VIDEO →
            data.releaseInfo = ReleaseInfo.video header.songVideoReleaseTitle
              header.songVideoReleaseLive)
        ∧ (header.songReleaseType ≠ c.RELEASETYPE_PUBLIC_AUDIO →
            header.songReleaseType ≠ c.RELEASETYPE_PUBLIC_VIDEO →
            header.songReleaseType = c.RELEASETYPE_BOOTLEG →
            data.releaseInfo = ReleaseInfo.bootleg header.songBootlegTitle
              header.songBootlegDate)
        ∧ (header.songReleaseType ≠ c.RELEASETYPE_PUBLIC_AUDIO →
            header.songReleaseType ≠ c.RELEASETYPE_PUBLIC_VIDEO →
            header.songReleaseType ≠ c.RELEASETYPE_BOOTLEG →
            data.releaseInfo = ReleaseInfo.unreleased)
        ∧ (header.songAuthorType = c.AUTHORTYPE_TRADITIONAL →
            data.authorInfo = AuthorInfo.traditional)
        ∧ (header.songAuthorType ≠ c.AUTHORTYPE_TRADITIONAL →
            data.authorInfo = AuthorInfo.authors header.songComposer header.songLyricist))
    ∧ (header.fileType ≠ c.FILETYPE_SONG →
      ∃ data, convertHeader c header info = ScoreInfo.lesson data
        ∧ data.title = header.lessonTitle ∧ data.subtitle = header.lessonSubtitle
        ∧ data.musicStyle = header.lessonMusicStyle
        ∧ data.difficultyLevel = header.lessonLevel
        ∧ data.author = header.lessonAuthor ∧ data.notes = header.lessonNotes
        ∧ data.copyright = header.lessonCopyright) := by
  refine ⟨fun hsong => ?_, fun hsong => ?_⟩
  · refine ⟨SongData.mk header.songTitle header.songArtist (convertReleaseInfo c header)
        (convertAuthorInfo c header) header.songArranger header.songGuitarScoreTranscriber
        header.songCopyright header.songLyrics header.songGuitarScoreNotes,
      by simp only [convertHeader, hsong, if_true, ScoreInfo.setSongData],
      rfl, rfl, rfl, rfl, rfl, rfl, rfl, ?_, ?_, ?_, ?_, ?_, ?_⟩
    · intro h
      simp only [convertReleaseInfo, h, if_true]
    · intro h1 h2
      unfold convertReleaseInfo
      rw [if_neg h1, if_pos h2]
    · intro h1 h2 h3
      unfold convertReleaseInfo
      rw [if_neg h1, if_neg h2, if_pos h3]
    · intro h1 h2 h3
      simp only [convertReleaseInfo, h1, h2, h3, if_false]
    · intro h
      simp only [convertAuthorInfo, h, if_true]
    · intro h
      simp only [convertAuthorInfo, h, if_false]
  · exact ⟨LessonData.mk header.lessonTitle header.lessonSubtitle header.lessonMusicStyle
        header.lessonLevel header.lessonAuthor header.lessonNotes header.lessonCopyright,
      by simp only [convertHeader, hsong, if_false, ScoreInfo.setLessonData],
      rfl, rfl, rfl, rfl, rfl, rfl, rfl⟩

/-- Claim C24, witness: the amended statement at a song header (file type 0,
bootleg release, known authors) and at a header of file type 2. -/
theorem convertHeader_song_or_lesson_witness :
    (∃ data, convertHeader sampleHeaderConstants (sampleHeader 0) default = ScoreInfo.song data
      ∧ data.title = "Song"
      ∧ data.releaseInfo = ReleaseInfo.bootleg "Tape" ⟨1999, 12, 31⟩
      ∧ data.authorInfo = AuthorInfo.authors "Composer" "Lyricist")
    ∧ (∃ data, convertHeader sampleHeaderConstants (sampleHeader 2) default
        = ScoreInfo.lesson data ∧ data.title = "Lesson") := by
  obtain ⟨data, h, ht, -, -, -, -, -, -, -, -, hb, -, -, ha⟩ :=
    (convertHeader_song_or_lesson sampleHeaderConstants (sampleHeader 0) default).1 (by decide)
  obtain ⟨data2, h2, ht2, -⟩ :=
    (convertHeader_song_or_lesson sampleHeaderConstants (sampleHeader 2) default).2 (by decide)
  exact ⟨⟨data, h, ht, hb (by decide) (by decide) (by decide), ha (by decide)⟩,
    ⟨data2, h2, ht2⟩⟩

/-- Claim C25, counterexample: for a document with one score `load` fails at
the assertion, and the caller's score, which held a lesson info and line
spacing 6, is left with the song info of the header and line spacing 9. -/
theorem load_one_score_changes_caller_score :
    sampleOneScoreDocument.scores.length ≠ 2
    ∧ (∃ after, load sampleHeaderConstants sampleExternals sampleMergeExternals 4
          sampleOneScoreDocument sampleCallerScore = LoadResult.assertionFailed after
        ∧ after ≠ sampleCallerScore
        ∧ after.lineSpacing = 9
        ∧ after.scoreInfo = convertHeader sampleHeaderConstants (sampleHeader 0) default) := by
  refine ⟨by decide,
    ((sampleCallerScore.setScoreInfo
      (convertHeader sampleHeaderConstants (sampleHeader 0) default)).setLineSpacing 9),
    by decide, ?_, rfl, rfl⟩
  intro h
  have h2 := congrArg LoadedScore.lineSpacing h
  revert h2
  decide

/-- Claim C25, amended: when the number of scores of the legacy document is
not 2, `load` fails at its assertion whatever else the document holds; no
conversion has run, so the players, instruments and systems of the caller's
score are as they were, but its score info and line spacing have already been
replaced by those of the document. -/
theorem load_requires_two_scores (c : HeaderConstants) (ext : Externals)
    (mext : MergeExternals) (fuel : Nat) (document : PowerTabDocument.Document)
    (score : LoadedScore) (hcount : document.scores.length ≠ 2) :
    ∃ after, load c ext mext fuel document score = LoadResult.assertionFailed after
      ∧ after.score = score.score
      ∧ after.scoreInfo = convertHeader c document.header default
      ∧ after.lineSpacing = document.tablatureStaffLineSpacing := by
  refine ⟨((score.setScoreInfo (convertHeader c document.header default)).setLineSpacing
    document.tablatureStaffLineSpacing), ?_, rfl, rfl, rfl⟩
  unfold load
  simp only [hcount, ne_eq, not_false_eq_true, if_true]

/-- Claim C25, witness: the document with one score. -/
theorem load_requires_two_scores_witness :
    sampleOneScoreDocument.scores.length ≠ 2
    ∧ ∃ after, load sampleHeaderConstants sampleExternals sampleMergeExternals 4
          sampleOneScoreDocument sampleCallerScore = LoadResult.assertionFailed after
        ∧ after.score = sampleCallerScore.score
        ∧ after.scoreInfo = convertHeader sampleHeaderConstants sampleOneScoreDocument.header
            default
        ∧ after.lineSpacing = sampleOneScoreDocument.tablatureStaffLineSpacing :=
  ⟨by decide, load_requires_two_scores sampleHeaderConstants sampleExternals
    sampleMergeExternals 4 sampleOneScoreDocument sampleCallerScore (by decide)⟩

/-- A run of digits followed by text that does not begin with a digit is read
as a whole. -/
theorem uintParser_digits (digits tail : List Char) (hne : digits ≠ [])
    (hall : ∀ c ∈ digits, c.isDigit = true)
    (htail : ∀ c ∈ tail.head?, c.isDigit = false) :
    Qi.uintParser (digits ++ tail) = some (Qi.digitsValue digits, tail) := by
  have htake : tail.takeWhile Char.isDigit = [] := by
    cases tail with
    | nil => rfl
    | cons c cs =>
      have hc : c.isDigit = false := htail c (by simp)
      simp [List.takeWhile_cons, hc]
  have hdrop : tail.dropWhile Char.isDigit = tail := by
    cases tail with
    | nil => rfl
    | cons c cs =>
      have hc : c.isDigit = false := htail c (by simp)
      simp [List.dropWhile_cons, hc]
  have h1 : (digits ++ tail).takeWhile Char.isDigit = digits := by
    rw [List.takeWhile_append_of_pos hall, htake, List.append_nil]
  have h2 : (digits ++ tail).dropWhile Char.isDigit = tail := by
    rw [List.dropWhile_append_of_pos hall, hdrop]
  unfold Qi.uintParser
  rw [h1, h2]
  cases digits with
  | nil => exact absurd rfl hne
  | cons c cs => rfl

/-- A well-formed literal followed by text that does not begin with a digit is
read as its value. -/
theorem intParser_literal (t : IntLiteral) (tail : List Char) (ht : t.WellFormed)
    (htail : ∀ c ∈ tail.head?, c.isDigit = false) :
    Qi.intParser (t.chars ++ tail) = some (t.value, tail) := by
  obtain ⟨negative, digits⟩ := t
  obtain ⟨hne, hall, hrange⟩ := ht
  simp only at hne hall hrange
  have hparse := uintParser_digits digits tail hne hall htail
  cases negative with
  | true =>
    simp only [if_true] at hrange
    simp only [IntLiteral.chars, IntLiteral.value, if_true, List.cons_append, Qi.intParser,
      hparse, hrange]
  | false =>
    simp only [Bool.false_eq_true, if_false] at hrange
    cases digits with
    | nil => exact absurd rfl hne
    | cons c cs =>
      have hc : c.isDigit = true := hall c (by simp)
      have hminus : c ≠ '-' := by
        intro h
        rw [h] at hc
        revert hc
        decide
      have hplus : c ≠ '+' := by
        intro h
        rw [h] at hc
        revert hc
        decide
      rw [List.cons_append] at hparse
      simp only [IntLiteral.chars, IntLiteral.value, Bool.false_eq_true, if_false,
        List.cons_append, Qi.intParser, hminus, hplus, hparse, hrange, if_true]

/-- After `rhythms[id] = rhythm` the id holds the rhythm and every other id
what it held. -/
theorem lookup_assign (rhythms : List (Int × Gpx.Rhythm)) (id : Int) (rhythm : Gpx.Rhythm)
    (key : Int) :
    (Gpx.assign rhythms id rhythm).lookup key
      = if key = id then some rhythm else rhythms.lookup key := by
  induction rhythms with
  | nil =>
    simp only [Gpx.assign, List.lookup, beq_iff_eq]
    by_cases h : key = id
    · simp [h]
    · have hb : (key == id) = false := by simpa using h
      simp [h, hb]
  | cons entry rest ih =>
    obtain ⟨k, v⟩ := entry
    unfold Gpx.assign
    by_cases hk : k = id
    · simp only [hk, if_true, List.lookup_cons]
      by_cases h : key = id
      · simp [h]
      · have hb : (key == id) = false := by simpa using h
        simp [h, hb]
    · simp only [hk, if_false, List.lookup_cons, ih]
      by_cases h : key = id
      · have hb : (id == k) = false := by
          simpa using fun h2 : id = k => hk h2.symm
        simp [h, hb]
      · simp [h]

/-- A string outside the seven names is not in the table. -/
theorem lookup_noteValue_none (s : String) (hs : s ∉ noteValueNames) :
    Gpx.noteValuesToInt.lookup s = none := by
  simp only [noteValueNames, List.mem_cons, List.mem_singleton, List.not_mem_nil, or_false,
    not_or] at hs
  obtain ⟨h1, h2, h3, h4, h5, h6, h7⟩ := hs
  have b1 : (s == "Whole") = false := by simpa using h1
  have b2 : (s == "Half") = false := by simpa using h2
  have b3 : (s == "Quarter") = false := by simpa using h3
  have b4 : (s == "Eighth") = false := by simpa using h4
  have b5 : (s == "16th") = false := by simpa using h5
  have b6 : (s == "32nd") = false := by simpa using h6
  have b7 : (s == "64th") = false := by simpa using h7
  simp only [Gpx.noteValuesToInt, List.lookup, b1, b2, b3, b4, b5, b6, b7]

/-- A name of the table has a value in it. -/
theorem lookup_noteValue_some (s : String) (hs : s ∈ noteValueNames) :
    ∃ v, Gpx.noteValuesToInt.lookup s = some v := by
  simp only [noteValueNames, List.mem_cons, List.mem_singleton, List.not_mem_nil,
    or_false] at hs
  rcases hs with h | h | h | h | h | h | h <;> subst h <;>
    exact Option.isSome_iff_exists.1 (by decide)

/-- The loop of `readRhythms` over nodes whose note values are all in the
table. -/
theorem readRhythms_valid (nodes : List Gpx.RhythmNode) :
    ∀ rhythms : List (Int × Gpx.Rhythm), (∀ node ∈ nodes, node.noteValue ∈ noteValueNames) →
      ∃ result, Gpx.readRhythms nodes rhythms = some result
        ∧ ∀ id, result.lookup id = expectedRhythm nodes rhythms id := by
  induction nodes with
  | nil =>
    intro rhythms _
    exact ⟨rhythms, rfl, fun id => rfl⟩
  | cons node rest ih =>
    intro rhythms hvalid
    obtain ⟨v, hv⟩ := lookup_noteValue_some node.noteValue (hvalid node (by simp))
    obtain ⟨result, hresult, hlookup⟩ :=
      ih (Gpx.assign rhythms node.id ⟨node.id, v⟩) (fun n hn => hvalid n (by simp [hn]))
    refine ⟨result, ?_, ?_⟩
    · simp only [Gpx.readRhythms, Gpx.readRhythm, hv, hresult]
    · intro id
      rw [hlookup id]
      unfold expectedRhythm
      rw [List.reverse_cons, List.find?_append]
      cases hfind : rest.reverse.find? (fun n => n.id = id) with
      | some n => simp only [Option.or]
      | none =>
        simp only [Option.or, List.find?_cons, List.find?_nil, lookup_assign]
        by_cases hid : node.id = id
        · simp [hid, hv]
        · have hid2 : ¬ id = node.id := fun h => hid h.symm
          simp [hid, hid2]

/-- The loop of `readRhythms` fails at a node whose note value is not in the
table. -/
theorem readRhythms_invalid (nodes : List Gpx.RhythmNode) :
    ∀ rhythms : List (Int × Gpx.Rhythm), (∃ node ∈ nodes, node.noteValue ∉ noteValueNames) →
      Gpx.readRhythms nodes rhythms = none := by
  induction nodes with
  | nil =>
    intro rhythms h
    obtain ⟨node, hnode, -⟩ := h
    simp at hnode
  | cons node rest ih =>
    intro rhythms h
    unfold Gpx.readRhythms
    cases hread : Gpx.readRhythm rhythms node with
    | none => rfl
    | some next =>
      simp only
      apply ih
      obtain ⟨bad, hbad, hname⟩ := h
      rcases List.mem_cons.1 hbad with heq | hmem
      · subst heq
        have hnone := lookup_noteValue_none bad.noteValue hname
        simp only [Gpx.readRhythm, hnone] at hread
        exact absurd hread (by simp)
      · exact ⟨bad, hmem, hname⟩

/-- Claim C29: the note-value table of `readRhythms` is Whole 1, Half 2,
Quarter 4, Eighth 8, 16th 16, 32nd 32, 64th 64 and nothing else.  A node whose
note value is in the table is stored under its id as the rhythm with that id
and the table value, every other id keeping its rhythm; over a list of such
nodes every id ends with the rhythm of its last node.  A node with any other
note value fails the assertion, and so does the loop over nodes of which one
has such a value. -/
theorem readRhythms_note_values (nodes : List Gpx.RhythmNode)
    (rhythms : List (Int × Gpx.Rhythm)) (node : Gpx.RhythmNode) :
    (noteValueNames.map (fun name => Gpx.noteValuesToInt.lookup name)
        = [some 1, some 2, some 4, some 8, some 16, some 32, some 64]
      ∧ ∀ name, name ∉ noteValueNames → Gpx.noteValuesToInt.lookup name = none)
    ∧ (∀ value, Gpx.noteValuesToInt.lookup node.noteValue = some value →
        ∃ result, Gpx.readRhythm rhythms node = some result
          ∧ result.lookup node.id = some ⟨node.id, value⟩
          ∧ ∀ id, id ≠ node.id → result.lookup id = rhythms.lookup id)
    ∧ (node.noteValue ∉ noteValueNames → Gpx.readRhythm rhythms node = none)
    ∧ ((∀ n ∈ nodes, n.noteValue ∈ noteValueNames) →
        ∃ result, Gpx.readRhythms nodes rhythms = some result
          ∧ ∀ id, result.lookup id = expectedRhythm nodes rhythms id)
    ∧ ((∃ n ∈ nodes, n.noteValue ∉ noteValueNames) →
        Gpx.readRhythms nodes rhythms = none) := by
  refine ⟨⟨by decide, lookup_noteValue_none⟩, ?_, ?_, readRhythms_valid nodes rhythms,
    readRhythms_invalid nodes rhythms⟩
  · intro value hvalue
    refine ⟨Gpx.assign rhythms node.id ⟨node.id, value⟩, ?_, ?_, ?_⟩
    · simp only [Gpx.readRhythm, hvalue]
    · rw [lookup_assign, if_pos rfl]
    · intro id hid
      rw [lookup_assign, if_neg hid]
  · intro hname
    simp only [Gpx.readRhythm, lookup_noteValue_none node.noteValue hname]

/-- Claim C29, witness: three nodes with the ids 0, 1, 0 and the note values
Quarter, 16th, Half leave 2 under id 0 and 16 under id 1; a node with the note
value "128th" fails the assertion. -/
theorem readRhythms_note_values_witness :
    (∃ result, Gpx.readRhythms sampleRhythmNodes [] = some result
      ∧ result.lookup 0 = some ⟨0, 2⟩ ∧ result.lookup 1 = some ⟨1, 16⟩
      ∧ result.lookup 2 = none)
    ∧ Gpx.readRhythm [] ⟨7, "128th"⟩ = none
    ∧ Gpx.readRhythms (sampleRhythmNodes ++ [⟨7, "128th"⟩]) [] = none := by
  have h := readRhythms_note_values sampleRhythmNodes [] ⟨7, "128th"⟩
  have h2 := readRhythms_note_values (sampleRhythmNodes ++ [⟨7, "128th"⟩]) [] default
  obtain ⟨result, hresult, hlookup⟩ := h.2.2.2.1 (by decide)
  refine ⟨⟨result, hresult, ?_, ?_, ?_⟩, h.2.2.1 (by decide), h2.2.2.2.2 ?_⟩
  · rw [hlookup 0]
    decide
  · rw [hlookup 1]
    decide
  · rw [hlookup 2]
    decide
  · exact ⟨⟨7, "128th"⟩, by decide, by decide⟩

/-- Claim C31, counterexample: guitar and bass both have a change at the start
of the first bar.  The destination change is stored with the bass player (1, 1)
on staff 1, but `prevPlayerChange` holds the change without it. -/
theorem mergePlayerChanges_prev_lacks_bass_player :
    (mergePlayerChanges sampleMergeExternals sampleChangeBass default sampleChangeGuitar
        default none 1 1 1).map
        (fun r => (r.1.systems.map (fun system => system.playerChanges), r.2))
      = some ([[{ position := 0, activePlayers := [(0, ⟨0, 0⟩), (1, ⟨1, 1⟩)] }]],
              some { position := 0, activePlayers := [(0, ⟨0, 0⟩)] })
    ∧ (⟨1, ⟨1, 1⟩⟩ : Int × ActivePlayer)
        ∉ ({ position := 0, activePlayers := [(0, ⟨0, 0⟩)] } : PlayerChange).activePlayers := by
  decide

/-- Claim C31, amended: whenever `mergePlayerChanges` acts on a bar span, the
value it stores in `prevPlayerChange` is the destination player change as it
was before the bass players of that call were added: the change stored in the
destination system has the same position and the active players of
`prevPlayerChange` followed by the bass players, and equals `prevPlayerChange`
only when the source has no currently effective player change. -/
theorem mergePlayerChanges_prev_is_change_before_merge (ext : MergeExternals)
    (srcScore destScore : Score) (srcLoc destLoc : ScoreLocation) (prev : Option PlayerChange)
    (numDestPlayers numDestInstruments numDestStaves : Nat)
    (srcSystem destSystem : System) (srcBar nextSrcBar destBar nextDestBar : Barline)
    (h1 : srcScore.systems[srcLoc.systemIndex]? = some srcSystem)
    (h2 : destScore.systems[destLoc.systemIndex]? = some destSystem)
    (h3 : srcSystem.barlines[srcLoc.barlineIndex]? = some srcBar)
    (h4 : srcSystem.barlines[srcLoc.barlineIndex + 1]? = some nextSrcBar)
    (h5 : destSystem.barlines[destLoc.barlineIndex]? = some destBar)
    (h6 : destSystem.barlines[destLoc.barlineIndex + 1]? = some nextDestBar)
    (hacts : ScoreUtils.findInRange ext (fun c : PlayerChange => c.position)
          srcSystem.playerChanges srcBar.position ((nextSrcBar.position : Int) - 1) ≠ []
      ∨ ScoreUtils.findInRange ext (fun c : PlayerChange => c.position)
          destSystem.playerChanges destBar.position ((nextDestBar.position : Int) - 1) ≠ []) :
    ∃ (index : Nat) (held : System) (before stored : PlayerChange),
      mergePlayerChanges ext srcScore srcLoc destScore destLoc prev numDestPlayers
          numDestInstruments numDestStaves
        = some (destScore.setSystem destLoc.systemIndex (held.setPlayerChange index stored),
                some before)
      ∧ held.playerChanges[index]? = some before
      ∧ stored.position = before.position
      ∧ (∀ srcChange,
          ext.getCurrentPlayers srcScore srcLoc.systemIndex srcLoc.positionIndex
            = some srcChange →
          stored.activePlayers
            = before.activePlayers
              ++ bassActivePlayers numDestPlayers numDestInstruments numDestStaves srcChange
                  srcSystem.staves.length)
      ∧ (ext.getCurrentPlayers srcScore srcLoc.systemIndex srcLoc.positionIndex = none →
          stored = before) := by
  have hnot : ¬ ((ScoreUtils.findInRange ext (fun c : PlayerChange => c.position)
        srcSystem.playerChanges srcBar.position ((nextSrcBar.position : Int) - 1)).isEmpty
      && (ScoreUtils.findInRange ext (fun c : PlayerChange => c.position)
        destSystem.playerChanges destBar.position
        ((nextDestBar.position : Int) - 1)).isEmpty) = true := by
    intro hboth
    rw [Bool.and_eq_true, List.isEmpty_iff, List.isEmpty_iff] at hboth
    rcases hacts with h | h
    · exact h hboth.1
    · exact h hboth.2
  have hspec := fun (srcChange c : PlayerChange) => mergeActivePlayers_spec numDestPlayers
    numDestInstruments numDestStaves srcChange srcSystem.staves.length c
  by_cases hdest : ScoreUtils.findInRange ext (fun c : PlayerChange => c.position)
      destSystem.playerChanges destBar.position ((nextDestBar.position : Int) - 1) = []
  · -- no destination change in the span: one is inserted and found by its position
    obtain ⟨i, c, hi, hc⟩ := findIdx?_of_exists
      (destSystem.insertPlayerChange
        ((prev.getD default).setPosition destLoc.positionIndex)).playerChanges
      (fun c => decide (c.position = destLoc.positionIndex))
      ⟨(prev.getD default).setPosition destLoc.positionIndex,
        by simp [System.insertPlayerChange], by simp [PlayerChange.setPosition]⟩
    cases hcur : ext.getCurrentPlayers srcScore srcLoc.systemIndex srcLoc.positionIndex with
    | none =>
      unfold mergePlayerChanges ScoreLocation.getBarline ScoreLocation.getNextBarline
      simp only [h1, h2, h3, h4, h5, h6, hnot, if_false, hcur]
      simp only [hdest, List.isEmpty_nil, if_true, hi, hc]
      exact ⟨i, _, c, c, rfl, hc, rfl, fun _ h => Option.noConfusion h, fun _ => rfl⟩
    | some srcChange =>
      unfold mergePlayerChanges ScoreLocation.getBarline ScoreLocation.getNextBarline
      simp only [h1, h2, h3, h4, h5, h6, hnot, if_false, hcur]
      simp only [hdest, List.isEmpty_nil, if_true, hi, hc]
      refine ⟨i, _, c, _, rfl, hc, (hspec srcChange c).1, ?_, fun h => Option.noConfusion h⟩
      intro other hother
      rw [← Option.some.inj hother]
      exact (hspec srcChange c).2
  · -- a destination change in the span: the first one is taken
    have hex : ∃ x, x ∈ destSystem.playerChanges
        ∧ ext.inRange x.position destBar.position ((nextDestBar.position : Int) - 1) = true := by
      obtain ⟨x, hx⟩ := List.exists_mem_of_ne_nil _ hdest
      unfold ScoreUtils.findInRange at hx
      obtain ⟨hx1, hx2⟩ := List.mem_filter.mp hx
      exact ⟨x, hx1, hx2⟩
    obtain ⟨i, c, hi, hc⟩ := findIdx?_of_exists destSystem.playerChanges
      (fun c => ext.inRange c.position destBar.position ((nextDestBar.position : Int) - 1)) hex
    have hempty : (ScoreUtils.findInRange ext (fun c : PlayerChange => c.position)
        destSystem.playerChanges destBar.position
        ((nextDestBar.position : Int) - 1)).isEmpty = false := by
      cases hl : ScoreUtils.findInRange ext (fun c : PlayerChange => c.position)
          destSystem.playerChanges destBar.position ((nextDestBar.position : Int) - 1) with
      | nil => exact absurd hl hdest
      | cons a rest => rfl
    cases hcur : ext.getCurrentPlayers srcScore srcLoc.systemIndex srcLoc.positionIndex with
    | none =>
      unfold mergePlayerChanges ScoreLocation.getBarline ScoreLocation.getNextBarline
      simp only [h1, h2, h3, h4, h5, h6, hnot, if_false, hcur]
      simp only [hempty, Bool.false_eq_true, if_false, hi, hc]
      exact ⟨i, _, c, c, rfl, hc, rfl, fun _ h => Option.noConfusion h, fun _ => rfl⟩
    | some srcChange =>
      unfold mergePlayerChanges ScoreLocation.getBarline ScoreLocation.getNextBarline
      simp only [h1, h2, h3, h4, h5, h6, hnot, if_false, hcur]
      simp only [hempty, Bool.false_eq_true, if_false, hi, hc]
      refine ⟨i, _, c, _, rfl, hc, (hspec srcChange c).1, ?_, fun h => Option.noConfusion h⟩
      intro other hother
      rw [← Option.some.inj hother]
      exact (hspec srcChange c).2

set_option maxRecDepth 100000 in
/-- Claim C31, witness: the sample of the counterexample; `prevPlayerChange` is
the guitar change, the stored change has the bass player after it. -/
theorem mergePlayerChanges_prev_is_change_before_merge_witness :
    ∃ (index : Nat) (held : System) (before stored : PlayerChange),
      mergePlayerChanges sampleMergeExternals sampleChangeBass default sampleChangeGuitar
          default none 1 1 1
        = some (sampleChangeGuitar.setSystem 0 (held.setPlayerChange index stored),
                some before)
      ∧ held.playerChanges[index]? = some before
      ∧ stored.position = before.position
      ∧ stored.activePlayers
          = before.activePlayers
            ++ bassActivePlayers 1 1 1 { position := 0, activePlayers := [(0, ⟨0, 0⟩)] } 1 := by
  obtain ⟨index, held, before, stored, h, hheld, hpos, hsome, -⟩ :=
    mergePlayerChanges_prev_is_change_before_merge sampleMergeExternals sampleChangeBass
      sampleChangeGuitar default default none 1 1 1 sampleChangeBassSystem
      sampleChangeGuitarSystem { (default : Barline) with position := 0 }
      { (default : Barline) with position := 10 } { (default : Barline) with position := 0 }
      { (default : Barline) with position := 10 } rfl rfl rfl rfl rfl rfl
      (Or.inl (by decide))
  exact ⟨index, held, before, stored, h, hheld, hpos, hsome _ (by decide)⟩

/-- Claim C32 (evaluation at all 36 inputs): the pair returned by `convertKey`
names the pitch class of the legacy key for every legacy key and variation but
three.  At (C, Down) and (C sharp, Down) the returned key is `-1`, which is no
letter and has no pitch class; at (A flat, Up) the pair is (B, DoubleFlat),
which names pitch class 9, not 8. -/
theorem convertKey_pitch_class_iff (oldKey : Fin 12) (oldVariation : Fin 3)
    (key variation : Int) :
    (ChordName.pitchClass (convertKey oldKey.val oldVariation.val key variation)
        = some (oldKey.val : Int) ↔
      ¬ (oldVariation.val = PowerTabDocument.ChordName.variationDown
          ∧ (oldKey.val = PowerTabDocument.ChordName.C
              ∨ oldKey.val = PowerTabDocument.ChordName.CSharp))
      ∧ ¬ (oldVariation.val = PowerTabDocument.ChordName.variationUp
          ∧ oldKey.val = PowerTabDocument.ChordName.AFlat))
    ∧ convertKey PowerTabDocument.ChordName.C PowerTabDocument.ChordName.variationDown
        key variation = (-1, ChordName.DoubleSharp)
    ∧ ChordName.pitchClass (convertKey PowerTabDocument.ChordName.C
        PowerTabDocument.ChordName.variationDown key variation) = none
    ∧ convertKey PowerTabDocument.ChordName.AFlat PowerTabDocument.ChordName.variationUp
        key variation = (ChordName.B, ChordName.DoubleFlat)
    ∧ ChordName.pitchClass (convertKey PowerTabDocument.ChordName.AFlat
        PowerTabDocument.ChordName.variationUp key variation) = some 9 := by
  rw [convertKey_entry_irrelevant _ _ oldKey.isLt,
    convertKey_entry_irrelevant PowerTabDocument.ChordName.C _ (by decide),
    convertKey_entry_irrelevant PowerTabDocument.ChordName.AFlat _ (by decide)]
  revert oldKey oldVariation
  decide

/-- One iteration of the irregular-grouping loop keeps the invariant. -/
theorem irregularGroupingStep_invariant (positions : List PowerTabDocument.Position)
    (st : GroupingState) (p : PowerTabDocument.Position) (hp : p ∈ positions)
    (h : GroupingInvariant positions st) :
    GroupingInvariant positions (irregularGroupingStep st p) := by
  obtain ⟨hemitted, hopen⟩ := h
  unfold irregularGroupingStep
  split_ifs with hstart hmiddle hend hgrace
  · exact ⟨hemitted, Or.inr ⟨p, hp, hstart, rfl, rfl, rfl, le_refl 1⟩⟩
  · refine ⟨hemitted, ?_⟩
    rcases hopen with h0 | ⟨q, hq, hqs, h1, h2, h3, h4⟩
    · exact Or.inl h0
    · exact Or.inr ⟨q, hq, hqs, h1, h2, h3, Nat.le_succ_of_le h4⟩
  · refine ⟨?_, Or.inl ⟨rfl, rfl, rfl⟩⟩
    intro g hg
    simp only [Voice.insertIrregularGrouping, List.mem_append, List.mem_singleton] at hg
    rcases hg with hg | hg
    · exact hemitted g hg
    · subst hg
      rcases hopen with ⟨h1, h2, h3⟩ | ⟨q, hq, hqs, h1, h2, h3, h4⟩
      · exact Or.inr ⟨h1, h2, h3, Nat.le_add_left 1 _⟩
      · exact Or.inl ⟨q, hq, hqs, h1, h2, h3, Nat.succ_le_succ h4⟩
  · refine ⟨hemitted, ?_⟩
    rcases hopen with h0 | ⟨q, hq, hqs, h1, h2, h3, h4⟩
    · exact Or.inl h0
    · exact Or.inr ⟨q, hq, hqs, h1, h2, h3, Nat.le_succ_of_le h4⟩
  · exact ⟨hemitted, hopen⟩

/-- The irregular-grouping loop keeps the invariant over any part of the
positions of the voice. -/
theorem foldl_irregularGroupingStep_invariant (positions : List PowerTabDocument.Position) :
    ∀ (l : List PowerTabDocument.Position) (st : GroupingState), (∀ p ∈ l, p ∈ positions) →
      GroupingInvariant positions st →
      GroupingInvariant positions (l.foldl irregularGroupingStep st) := by
  intro l
  induction l with
  | nil => intro st _ h; exact h
  | cons p rest ih =>
    intro st hmem h
    exact ih _ (fun q hq => hmem q (List.mem_cons_of_mem p hq))
      (irregularGroupingStep_invariant positions st p (hmem p (List.mem_cons_self p rest)) h)

/-- The irregular-grouping loop removes no grouping. -/
theorem foldl_irregularGroupingStep_keeps (g : IrregularGrouping) :
    ∀ (l : List PowerTabDocument.Position) (st : GroupingState),
      g ∈ st.v.irregularGroupings → g ∈ (l.foldl irregularGroupingStep st).v.irregularGroupings := by
  intro l
  induction l with
  | nil => intro st h; exact h
  | cons p rest ih =>
    intro st h
    apply ih
    unfold irregularGroupingStep
    split_ifs
    · exact h
    · exact h
    · simp only [Voice.insertIrregularGrouping, List.mem_append, List.mem_singleton]
      exact Or.inl h
    · exact h
    · exact h

/-- The groupings of a voice after the irregular-grouping loop, for arbitrary
flags, when the voice had none before. -/
theorem convertIrregularGroupings_arbitrary_flags (positions : List PowerTabDocument.Position)
    (v : Voice) (hv : v.irregularGroupings = []) :
    (∀ g ∈ (convertIrregularGroupings positions v).irregularGroupings,
        StartsAtStart positions g ∨ WithoutStart g)
    ∧ ∀ p rest, positions = p :: rest → p.isIrregularGroupingStart = false →
        p.isIrregularGroupingMiddle = false → p.isIrregularGroupingEnd = true →
        (⟨0, 1, 0, 0⟩ : IrregularGrouping)
          ∈ (convertIrregularGroupings positions v).irregularGroupings := by
  constructor
  · have h := foldl_irregularGroupingStep_invariant positions positions
      { v := v, startPos := 0, positionCount := 0, notesPlayed := 0, notesPlayedOver := 0 }
      (fun p hp => hp)
      ⟨by simp only [hv, List.not_mem_nil, false_implies, implies_true],
        Or.inl ⟨rfl, rfl, rfl⟩⟩
    exact h.1
  · intro p rest hpos hstart hmiddle hend
    subst hpos
    unfold convertIrregularGroupings
    rw [List.foldl_cons]
    apply foldl_irregularGroupingStep_keeps
    unfold irregularGroupingStep
    simp only [hstart, hmiddle, hend, Bool.false_eq_true, if_false, if_true,
      Voice.insertIrregularGrouping, List.mem_append, List.mem_singleton, Nat.zero_add, or_true]

/-- Claim C33, counterexample: a voice whose only position is flagged as the end
of a grouping.  No position is flagged as start, yet the converted voice holds
the grouping (0, 1, 0, 0), with a position count of 1. -/
theorem convertStaff_end_flag_without_start_emits :
    (∀ p ∈ sampleStrayEndStaff.getPositions 0, p.isIrregularGroupingStart = false)
    ∧ ((convertStaff sampleStrayEndStaff [] default).2.voices.map
        (fun v => v.irregularGroupings)) = [[⟨0, 1, 0, 0⟩], []] := by
  decide

/-- Claim C33, amended: for arbitrary flag sequences, every irregular grouping
the staff converter emits into a voice either starts at the position of a legacy
position of that voice flagged as irregular-grouping start, takes its
notes-played and notes-played-over from that position and has a position count
of at least 2, or comes from an end flag with no preceding start and then has
start position 0, notes-played and notes-played-over 0 and a position count of
at least 1.  Such a grouping is emitted: a voice that begins with a position
flagged only as end gets the grouping (0, 1, 0, 0). -/
theorem convertStaff_groupings_of_arbitrary_flags (oldStaff : PowerTabDocument.Staff)
    (dynamics : List PowerTabDocument.Dynamic) (voice : Nat) (v : Voice)
    (hv : (convertStaff oldStaff dynamics default).2.voices[voice]? = some v) :
    (∀ g ∈ v.irregularGroupings,
        StartsAtStart (oldStaff.getPositions voice) g ∨ WithoutStart g)
    ∧ ∀ p rest, oldStaff.getPositions voice = p :: rest →
        p.isIrregularGroupingStart = false → p.isIrregularGroupingMiddle = false →
        p.isIrregularGroupingEnd = true →
        (⟨0, 1, 0, 0⟩ : IrregularGrouping) ∈ v.irregularGroupings := by
  rw [convertStaff_voices] at hv
  match voice, hv with
  | 0, hv =>
    simp only [List.getElem?_cons_zero, Option.some.injEq] at hv
    rw [← hv]
    exact convertIrregularGroupings_arbitrary_flags _ _ rfl
  | 1, hv =>
    simp only [List.getElem?_cons_succ, List.getElem?_cons_zero, Option.some.injEq] at hv
    rw [← hv]
    exact convertIrregularGroupings_arbitrary_flags _ _ rfl
  | n + 2, hv =>
    simp only [List.getElem?_cons_succ, List.getElem?_nil] at hv
    exact absurd hv (by simp)

/-- Claim C33, witness: the voice with the triplet at 2, 4, 6 holds a grouping
that goes back to the start position at 2; the voice of the single end position
holds the grouping (0, 1, 0, 0). -/
theorem convertStaff_groupings_of_arbitrary_flags_witness :
    (∃ v, (convertStaff sampleGroupedStaff [] default).2.voices[0]? = some v
      ∧ v.irregularGroupings = [⟨2, 3, 3, 2⟩]
      ∧ ∀ g ∈ v.irregularGroupings,
          StartsAtStart (sampleGroupedStaff.getPositions 0) g ∨ WithoutStart g)
    ∧ ∃ v, (convertStaff sampleStrayEndStaff [] default).2.voices[0]? = some v
      ∧ (⟨0, 1, 0, 0⟩ : IrregularGrouping) ∈ v.irregularGroupings :=
  ⟨⟨_, rfl, by decide,
      (convertStaff_groupings_of_arbitrary_flags sampleGroupedStaff [] 0 _ rfl).1⟩,
    ⟨_, rfl,
      (convertStaff_groupings_of_arbitrary_flags sampleStrayEndStaff [] 0 _ rfl).2
        (sampleTaggedPosition 4 false false true) [] rfl rfl rfl rfl⟩⟩

/-- The state of the guitar-in resolver at the head of system `i` is the fold of
the flagged guitar-ins of the earlier systems over "every guitar inactive". -/
theorem activePlayersAfter_eq_foldl (ext : Externals) (oldScore : PowerTabDocument.Score) :
    ∀ i : Nat, activePlayersAfter ext oldScore i
      = (flaggedGuitarInsBefore oldScore i).foldl applyGuitarIn
          (List.replicate ext.MAX_NUM_GUITARS (-1)) := by
  intro i
  induction i with
  | zero => rfl
  | succ n ih =>
    unfold activePlayersAfter flaggedGuitarInsBefore
    rw [ih, List.range_succ, List.flatMap_append, List.foldl_append]
    simp only [flaggedGuitarInsBefore, List.flatMap_cons, List.flatMap_nil, List.append_nil]

/-- A guitar-in keeps every slot of the `activePlayers` array. -/
theorem foldl_applyGuitarIn_slot :
    ∀ (l : List PowerTabDocument.GuitarIn) (state : List Int) (k : Nat),
      (∃ x, state[k]? = some x) → ∃ y, (l.foldl applyGuitarIn state)[k]? = some y := by
  intro l
  induction l with
  | nil => intro state k h; exact h
  | cons g rest ih =>
    intro state k h
    obtain ⟨x, hx⟩ := h
    apply ih
    rw [applyGuitarIn_getElem?, hx]
    exact ⟨_, rfl⟩

/-- A guitar stays on its staff as long as no guitar-in targets that staff or
names that guitar. -/
theorem foldl_applyGuitarIn_keeps :
    ∀ (since : List PowerTabDocument.GuitarIn) (state : List Int) (k : Nat) (staff : Int),
      state[k]? = some staff →
      (∀ g ∈ since, (g.staff : Int) ≠ staff ∧ bitset8 g.staffGuitars k = false) →
      (since.foldl applyGuitarIn state)[k]? = some staff := by
  intro since
  induction since with
  | nil => intro state k staff h _; exact h
  | cons g rest ih =>
    intro state k staff h hsince
    obtain ⟨hstaff, hbit⟩ := hsince g (List.mem_cons_self g rest)
    apply ih _ k staff _ (fun g2 hg2 => hsince g2 (List.mem_cons_of_mem g hg2))
    rw [applyGuitarIn_getElem?, h]
    simp only [Option.map_some', hbit, Bool.false_eq_true, if_false]
    rw [if_neg (fun h2 => hstaff h2.symm)]

/-- The player changes written by the loop over the guitar-ins of a system:
each holds the state after some number of the flagged guitar-ins. -/
theorem foldl_guitarInStep_emitted :
    ∀ (l : List PowerTabDocument.GuitarIn) (st : GuitarInState),
      ∃ emitted : List PlayerChange,
        (l.foldl guitarInStep st).system.playerChanges = st.system.playerChanges ++ emitted
        ∧ ∀ c ∈ emitted, ∃ (n : Nat) (pos : Nat),
            c = getPlayerChange
              (((l.filter (fun g => g.hasStaffGuitarsSet)).take n).foldl applyGuitarIn
                st.activePlayers) pos := by
  intro l
  induction l with
  | nil => intro st; exact ⟨[], by simp, by simp⟩
  | cons g rest ih =>
    intro st
    by_cases hflag : g.hasStaffGuitarsSet = true
    · obtain ⟨emitted, hchanges, hall⟩ := ih (guitarInStep st g)
      have hstate : (guitarInStep st g).activePlayers = applyGuitarIn st.activePlayers g := by
        simp only [guitarInStep, hflag, Bool.not_true, Bool.false_eq_true, if_false]
      have htail : ∀ c ∈ emitted, ∃ (n : Nat) (pos : Nat),
          c = getPlayerChange
            ((((g :: rest).filter (fun g => g.hasStaffGuitarsSet)).take n).foldl applyGuitarIn
              st.activePlayers) pos := by
        intro c hc
        obtain ⟨n, pos, hn⟩ := hall c hc
        refine ⟨n + 1, pos, ?_⟩
        rw [hn, hstate]
        simp only [List.filter_cons, hflag, if_true, List.take_succ_cons, List.foldl_cons]
      by_cases hpos : g.position = st.currentPosition
      · refine ⟨emitted, ?_, htail⟩
        rw [List.foldl_cons, hchanges]
        simp only [guitarInStep, hflag, Bool.not_true, Bool.false_eq_true, if_false, hpos,
          ne_eq, not_true_eq_false]
      · refine ⟨getPlayerChange st.activePlayers st.currentPosition :: emitted, ?_, ?_⟩
        · rw [List.foldl_cons, hchanges]
          simp only [guitarInStep, hflag, Bool.not_true, Bool.false_eq_true, if_false, hpos,
            ne_eq, not_false_eq_true, if_true, System.insertPlayerChange, List.append_assoc,
            List.singleton_append]
        · intro c hc
          rcases List.mem_cons.1 hc with hfirst | hrest
          · exact ⟨0, st.currentPosition, by simp [hfirst]⟩
          · exact htail c hrest
    · have hstep : guitarInStep st g = st := by
        simp only [guitarInStep, hflag, Bool.not_false, if_true]
      obtain ⟨emitted, hchanges, hall⟩ := ih st
      refine ⟨emitted, by rw [List.foldl_cons, hstep, hchanges], ?_⟩
      intro c hc
      obtain ⟨n, pos, hn⟩ := hall c hc
      exact ⟨n, pos, by simp only [List.filter_cons, hflag, Bool.false_eq_true, if_false, hn]⟩

/-- The player changes a system receives from `convertGuitarIns`: none when the
legacy system has no guitar-in, and otherwise changes that each hold the state
after some number of the flagged guitar-ins of the system. -/
theorem systemAfterGuitarIns_emitted (oldScore : PowerTabDocument.Score) (i : Nat)
    (entry : List Int) (system : System) :
    ∃ emitted : List PlayerChange,
      (systemAfterGuitarIns oldScore i entry system).playerChanges
        = system.playerChanges ++ emitted
      ∧ (oldScore.getGuitarInsInSystem i = [] → emitted = [])
      ∧ ∀ c ∈ emitted, ∃ n : Nat,
          c = getPlayerChange
            (((flaggedGuitarIns oldScore i).take n).foldl applyGuitarIn entry) c.position := by
  unfold systemAfterGuitarIns
  cases hins : oldScore.getGuitarInsInSystem i with
  | nil => exact ⟨[], by simp, fun _ => rfl, by simp⟩
  | cons front rest =>
    obtain ⟨emitted, hchanges, hall⟩ := foldl_guitarInStep_emitted (front :: rest)
      { system := system, activePlayers := entry, currentPosition := front.position }
    obtain ⟨hstate, -⟩ := foldl_guitarInStep_spec (front :: rest)
      { system := system, activePlayers := entry, currentPosition := front.position }
    have hfix : ∀ (state : List Int) (pos : Nat) (c : PlayerChange),
        c = getPlayerChange state pos → c = getPlayerChange state c.position := by
      intro state pos c hc
      have hp : c.position = pos := by rw [hc]; exact (getPlayerChange_spec state pos).1
      rw [hp]
      exact hc
    refine ⟨emitted ++ [getPlayerChange
        ((front :: rest).foldl guitarInStep
          { system := system, activePlayers := entry,
            currentPosition := front.position }).activePlayers
        ((front :: rest).foldl guitarInStep
          { system := system, activePlayers := entry,
            currentPosition := front.position }).currentPosition], ?_, ?_, ?_⟩
    · simp only [convertGuitarInsOfSystem, System.insertPlayerChange, hchanges,
        List.append_assoc]
    · intro h
      exact absurd h (by simp)
    · intro c hc
      rcases List.mem_append.1 hc with hmid | hlast
      · obtain ⟨n, pos, hn⟩ := hall c hmid
        refine ⟨n, hfix _ pos c ?_⟩
        rw [hn]
        simp only [flaggedGuitarIns, hins]
      · simp only [List.mem_singleton] at hlast
        refine ⟨(flaggedGuitarIns oldScore i).length, hfix _
          ((front :: rest).foldl guitarInStep
            { system := system, activePlayers := entry,
              currentPosition := front.position }).currentPosition c ?_⟩
        rw [hlast, hstate, List.take_length]
        simp only [flaggedGuitarIns, hins]


/-- Claim C34: `convertGuitarIns` carries its `activePlayers` state across
systems.  A system without any guitar-in is left as it was and receives no
player change.  Every player change emitted in system `i` holds the state after
the flagged guitar-ins of all earlier systems and the first `n` flagged
guitar-ins of system `i`, for some `n`; so it lists every guitar `k` that a
guitar-in `a` of an earlier system activated, on the staff of `a`, unless a
guitar-in processed after `a` and before the change targeted that staff or
named that guitar. -/
theorem convertGuitarIns_carries_active_players (ext : Externals)
    (oldScore : PowerTabDocument.Score) (score : Score)
    (hlen : oldScore.systems.length ≤ score.systems.length) :
    ∃ result : Score,
      convertGuitarIns ext oldScore score = some result
      ∧ ∀ (i : Nat) (original : System), i < oldScore.systems.length →
          score.systems[i]? = some original →
          ∃ (system : System) (emitted : List PlayerChange),
            result.systems[i]? = some system
            ∧ system.playerChanges = original.playerChanges ++ emitted
            ∧ (oldScore.getGuitarInsInSystem i = [] → system = original)
            ∧ ∀ change ∈ emitted, ∃ n : Nat,
                change = getPlayerChange
                  ((flaggedGuitarInsBefore oldScore i
                      ++ (flaggedGuitarIns oldScore i).take n).foldl applyGuitarIn
                    (List.replicate ext.MAX_NUM_GUITARS (-1))) change.position
                ∧ ∀ (before rest : List PowerTabDocument.GuitarIn)
                    (a : PowerTabDocument.GuitarIn) (k : Nat),
                    flaggedGuitarInsBefore oldScore i = before ++ a :: rest →
                    k < ext.MAX_NUM_GUITARS → bitset8 a.staffGuitars k = true →
                    (∀ g ∈ rest ++ (flaggedGuitarIns oldScore i).take n,
                      g.staff ≠ a.staff ∧ bitset8 g.staffGuitars k = false) →
                    (⟨k, k⟩ : ActivePlayer) ∈ change.getActivePlayers (a.staff : Int) := by
  obtain ⟨result, hresult, -, -, -, hsystems⟩ := convertGuitarIns_systems ext oldScore score hlen
  refine ⟨result, hresult, ?_⟩
  intro i original hi horiginal
  obtain ⟨emitted, hchanges, hnone, hall⟩ := systemAfterGuitarIns_emitted oldScore i
    (activePlayersAfter ext oldScore i) original
  refine ⟨systemAfterGuitarIns oldScore i (activePlayersAfter ext oldScore i) original,
    emitted, ?_, hchanges, ?_, ?_⟩
  · rw [hsystems i, horiginal]
    simp only [Option.map_some', hi, if_true]
  · intro hins
    unfold systemAfterGuitarIns
    rw [hins]
  · intro change hchange
    obtain ⟨n, hn⟩ := hall change hchange
    rw [activePlayersAfter_eq_foldl, ← List.foldl_append] at hn
    refine ⟨n, hn, ?_⟩
    intro before rest a k hsplit hk hbit hsince
    have hinit : ∃ x, (List.replicate ext.MAX_NUM_GUITARS (-1 : Int))[k]? = some x :=
      ⟨-1, by rw [List.getElem?_replicate]; simp [hk]⟩
    obtain ⟨y, hy⟩ := foldl_applyGuitarIn_slot before _ k hinit
    have hactive : (applyGuitarIn
        (before.foldl applyGuitarIn (List.replicate ext.MAX_NUM_GUITARS (-1))) a)[k]?
        = some (a.staff : Int) := by
      rw [applyGuitarIn_getElem?, hy]
      simp only [Option.map_some', hbit, if_true]
    have hkept := foldl_applyGuitarIn_keeps (rest ++ (flaggedGuitarIns oldScore i).take n)
      _ k (a.staff : Int) hactive
      (fun g hg => ⟨fun h => (hsince g hg).1 (Int.ofNat_inj.1 h), (hsince g hg).2⟩)
    rw [hn]
    apply ((getPlayerChange_spec _ _).2 (a.staff : Int) ⟨k, k⟩).2
    refine ⟨k, ?_, Int.ofNat_nonneg _, rfl⟩
    rw [hsplit, List.append_assoc, List.foldl_append, List.cons_append, List.foldl_cons]
    exact hkept

set_option maxRecDepth 100000 in
/-- Claim C34, witness: three systems, guitar 0 activated on staff 0 in the
first, no guitar-in in the second, guitar 1 activated on staff 1 in the third.
The second system receives no player change, and the change of the third lists
guitar 0 on staff 0 next to guitar 1 on staff 1. -/
theorem convertGuitarIns_carries_active_players_witness :
    sampleCarryScore.systems.length ≤ sampleCarryTarget.systems.length
    ∧ (convertGuitarIns sampleExternals sampleCarryScore sampleCarryTarget).map
          (fun result => result.systems.map (fun system => system.playerChanges))
        = some [[{ position := 0, activePlayers := [(0, ⟨0, 0⟩)] }], [],
                [{ position := 4, activePlayers := [(0, ⟨0, 0⟩), (1, ⟨1, 1⟩)] }]]
    ∧ ∃ result : Score,
        convertGuitarIns sampleExternals sampleCarryScore sampleCarryTarget = some result
        ∧ ∃ (system : System) (emitted : List PlayerChange),
            result.systems[2]? = some system
            ∧ system.playerChanges = [] ++ emitted
            ∧ ∀ change ∈ emitted,
                (⟨0, 0⟩ : ActivePlayer) ∈ change.getActivePlayers 0 := by
  refine ⟨by decide, by decide, ?_⟩
  obtain ⟨result, hresult, hall⟩ :=
    convertGuitarIns_carries_active_players sampleExternals sampleCarryScore sampleCarryTarget
      (by decide)
  obtain ⟨system, emitted, hsystem, hchanges, -, hemitted⟩ := hall 2 default (by decide) rfl
  refine ⟨result, hresult, system, emitted, hsystem, hchanges, ?_⟩
  intro change hchange
  obtain ⟨n, -, hcarry⟩ := hemitted change hchange
  have hbefore : flaggedGuitarInsBefore sampleCarryScore 2
      = [] ++ { system := 0, staff := 0, position := 0, hasStaffGuitarsSet := true,
                staffGuitars := 1 } :: [] := by decide
  have hsince : ∀ g ∈ [] ++ (flaggedGuitarIns sampleCarryScore 2).take n,
      g.staff ≠ 0 ∧ bitset8 g.staffGuitars 0 = false := by
    intro g hg
    have hmem : g ∈ flaggedGuitarIns sampleCarryScore 2 :=
      List.mem_of_mem_take (by simpa using hg)
    have hflagged : flaggedGuitarIns sampleCarryScore 2
        = [{ system := 2, staff := 1, position := 4, hasStaffGuitarsSet := true,
             staffGuitars := 2 }] := by decide
    rw [hflagged, List.mem_singleton] at hmem
    rw [hmem]
    decide
  exact hcarry [] [] _ 0 hbefore (by decide) (by decide) hsince

set_option maxRecDepth 100000 in
/-- Claim C35 (evaluation at the failing input): `sampleLateGuitarInScore` has
its only guitar-in at position 40 of a system whose content ends at position 12.
The conversion finishes; the end sentinel of the system is at position 31, and
staff 0 holds the dynamic seeded by `convertInitialVolumes` at position 40,
which is not before the end sentinel. -/
theorem convertScore_seeded_dynamic_beyond_end_sentinel :
    convertScore sampleExternals sampleLateGuitarInScore default
        = Outcome.done sampleLateGuitarInConverted
    ∧ sampleLateGuitarInConverted.systems.map
        (fun system => (system.barlines.getLast?.map (fun bar => bar.position),
          system.staves.map (fun staff => staff.dynamics)))
        = [(some 31, [[{ position := 40, volume := 96 }]])]
    ∧ ∃ system ∈ sampleLateGuitarInConverted.systems, ∃ endBar ∈ system.barlines.getLast?,
        ∃ staff ∈ system.staves, ∃ dynamic ∈ staff.dynamics,
          ¬ dynamic.position < endBar.position :=
  ⟨by decide, by decide, by decide⟩

/-- Replacing a system by one with as many barlines keeps the bars of a score. -/
theorem bars_setSystem (score : Score) (i : Nat) (system other : System)
    (h : score.systems[i]? = some system)
    (hlen : other.barlines.length = system.barlines.length) :
    (score.setSystem i other).bars = score.bars :=
  map_set_of_eq _ _ _ system _ h hlen

/-- The number of barlines of the system a cursor is in. -/
theorem bars_getD (score : Score) (i : Nat) (system : System)
    (h : score.systems[i]? = some system) : score.bars.getD i 0 = system.barlines.length := by
  unfold Score.bars
  rw [List.getD_eq_getElem?_getD, List.getElem?_map, h]
  rfl

/-- A layout-keeping `InsertNotes` keeps the bars. -/
theorem keepsBars_of_keepsLayout (ext : MergeExternals) (h : KeepsLayout ext) :
    KeepsBars ext := by
  intro score loc positions groups
  have hl := congrArg (List.map Prod.fst) (h score loc positions groups)
  simpa [Score.layout, Score.bars, System.layout, List.map_map, Function.comp_def] using hl

/-- Inserting a position keeps the bars. -/
theorem insertPositionAt_bars (score result : Score) (loc : ScoreLocation)
    (position : Position) (h : score.insertPositionAt loc position = some result) :
    result.bars = score.bars := by
  unfold Score.insertPositionAt at h
  cases hsystem : score.systems[loc.systemIndex]? with
  | none => rw [hsystem] at h; cases h
  | some system =>
    rw [hsystem] at h
    simp only [] at h
    cases hstaff : system.staves[loc.staffIndex]? with
    | none => rw [hstaff] at h; cases h
    | some staff =>
      rw [hstaff] at h
      simp only [] at h
      cases hvoice : staff.voices[loc.voiceIndex]? with
      | none => rw [hvoice] at h; cases h
      | some voice =>
        rw [hvoice] at h
        cases h
        exact bars_setSystem _ _ system _ hsystem rfl

/-- The function `mergePlayerChanges` keeps the bars. -/
theorem mergePlayerChanges_bars (ext : MergeExternals) (srcScore destScore : Score)
    (srcLoc destLoc : ScoreLocation) (prev : Option PlayerChange)
    (numDestPlayers numDestInstruments numDestStaves : Nat) :
    ∀ r, mergePlayerChanges ext srcScore srcLoc destScore destLoc prev numDestPlayers
        numDestInstruments numDestStaves = some r → r.1.bars = destScore.bars := by
  unfold mergePlayerChanges
  cases srcScore.systems[srcLoc.systemIndex]? with
  | none => exact fun _ h => by cases h
  | some srcSystem =>
    cases hdest : destScore.systems[destLoc.systemIndex]? with
    | none => exact fun _ h => by cases h
    | some destSystem =>
      cases srcLoc.getBarline srcScore with
      | none => exact fun _ h => by cases h
      | some srcBar =>
        cases srcLoc.getNextBarline srcScore with
        | none => exact fun _ h => by cases h
        | some nextSrcBar =>
          cases destLoc.getBarline destScore with
          | none => exact fun _ h => by cases h
          | some destBar =>
            cases destLoc.getNextBarline destScore with
            | none => exact fun _ h => by cases h
            | some nextDestBar =>
              intro r h
              simp only [] at h
              split_ifs at h with hnone hempty
              · cases h
                rfl
              · split at h
                · cases h
                · split at h
                  · cases h
                  · cases h
                    exact bars_setSystem _ _ destSystem _ hdest rfl
              · split at h
                · cases h
                · split at h
                  · cases h
                  · cases h
                    exact bars_setSystem _ _ destSystem _ hdest rfl

/-- The body of the voice loop keeps the bars. -/
theorem mergeVoice_bars (ext : MergeExternals) (hext : KeepsBars ext)
    (srcBar nextSrcBar : Barline) (destLoc : ScoreLocation) (srcVoice : Voice) (v : Nat)
    (acc : Score × Nat) :
    ∀ r, mergeVoice ext srcBar nextSrcBar destLoc srcVoice v acc = some r →
      r.1.bars = acc.1.bars := by
  intro r h
  unfold mergeVoice at h
  simp only [] at h
  split_ifs at h with hrest hnotes
  · split at h
    · cases h
    · split at h
      · cases h
      · rename_i score hinsert
        cases h
        exact insertPositionAt_bars _ _ _ _ hinsert
  · cases h
    exact hext _ _ _ _
  · cases h
    rfl

/-- The voice loop keeps the bars. -/
theorem mergeVoices_bars (ext : MergeExternals) (hext : KeepsBars ext)
    (srcBar nextSrcBar : Barline) (destLoc : ScoreLocation) (srcStaff : Staff) :
    ∀ (vs : List Nat) (acc r : Score × Nat),
      mergeVoices ext srcBar nextSrcBar destLoc srcStaff vs acc = some r →
      r.1.bars = acc.1.bars := by
  intro vs
  induction vs with
  | nil =>
    intro acc r h
    cases h
    rfl
  | cons v rest ih =>
    intro acc r h
    rw [mergeVoices] at h
    cases hvoice : srcStaff.voices[v]? with
    | none => rw [hvoice] at h; cases h
    | some srcVoice =>
      rw [hvoice] at h
      simp only [] at h
      cases hstep : mergeVoice ext srcBar nextSrcBar destLoc srcVoice v acc with
      | none => rw [hstep] at h; cases h
      | some next =>
        rw [hstep] at h
        simp only [] at h
        exact (ih next r h).trans (mergeVoice_bars ext hext _ _ _ _ _ _ next hstep)

/-- The body of the staff loop keeps the bars. -/
theorem mergeStaff_bars (ext : MergeExternals) (hext : KeepsBars ext)
    (srcBar nextSrcBar : Barline) (destLoc : ScoreLocation) (numDestStaves i : Nat)
    (srcStaff : Staff) (acc r : Score × Nat)
    (h : mergeStaff ext srcBar nextSrcBar destLoc numDestStaves i srcStaff acc = some r) :
    r.1.bars = acc.1.bars := by
  unfold mergeStaff at h
  cases hsystem : acc.1.systems[destLoc.systemIndex]? with
  | none => rw [hsystem] at h; cases h
  | some destSystem =>
    rw [hsystem] at h
    simp only [] at h
    refine (mergeVoices_bars ext hext _ _ _ _ _ _ r h).trans ?_
    simp only []
    split_ifs
    · exact bars_setSystem _ _ destSystem _ hsystem rfl
    · rfl

/-- The staff loop keeps the bars. -/
theorem mergeStaves_bars (ext : MergeExternals) (hext : KeepsBars ext)
    (srcBar nextSrcBar : Barline) (destLoc : ScoreLocation) (numDestStaves : Nat) :
    ∀ (staves : List Staff) (i : Nat) (acc r : Score × Nat),
      mergeStaves ext srcBar nextSrcBar destLoc numDestStaves i staves acc = some r →
      r.1.bars = acc.1.bars := by
  intro staves
  induction staves with
  | nil =>
    intro i acc r h
    cases h
    rfl
  | cons srcStaff rest ih =>
    intro i acc r h
    rw [mergeStaves] at h
    cases hstep : mergeStaff ext srcBar nextSrcBar destLoc numDestStaves i srcStaff acc with
    | none => rw [hstep] at h; cases h
    | some next =>
      rw [hstep] at h
      simp only [] at h
      exact (ih (i + 1) next r h).trans (mergeStaff_bars ext hext _ _ _ _ _ _ _ next hstep)


/-- The part of an iteration up to the end of the staff loop keeps the bars of
the destination and the bar the destination cursor is at. -/
theorem mergeBar_bars (ext : MergeExternals) (hext : KeepsBars ext) (srcScore : Score)
    (numDestPlayers numDestInstruments : Nat) (st : MergeState) :
    ∀ result, mergeBar ext srcScore numDestPlayers numDestInstruments st = some result →
      result.destScore.bars = st.destScore.bars
      ∧ result.destLoc.systemIndex = st.destLoc.systemIndex
      ∧ result.destLoc.barlineIndex = st.destLoc.barlineIndex := by
  unfold mergeBar
  cases srcScore.systems[st.srcLoc.systemIndex]? with
  | none => exact fun _ h => by cases h
  | some srcSystem =>
    cases st.destScore.systems[st.destLoc.systemIndex]? with
    | none => exact fun _ h => by cases h
    | some destSystem =>
      cases st.destLoc.getBarline st.destScore with
      | none => exact fun _ h => by cases h
      | some destBar =>
        cases st.srcLoc.getBarline srcScore with
        | none => exact fun _ h => by cases h
        | some srcBar =>
          cases st.srcLoc.getNextBarline srcScore with
          | none => exact fun _ h => by cases h
          | some nextSrcBar =>
            intro result h
            simp only [] at h
            have hloc : (if st.destLoc.positionIndex ≠ 0 then Caret.moveHorizontal st.destLoc
                  else st.destLoc).systemIndex = st.destLoc.systemIndex
                ∧ (if st.destLoc.positionIndex ≠ 0 then Caret.moveHorizontal st.destLoc
                  else st.destLoc).barlineIndex = st.destLoc.barlineIndex := by
              split_ifs
              · exact ⟨rfl, rfl⟩
              · exact ⟨rfl, rfl⟩
            have hchanges : ∀ r : Score × Option PlayerChange,
                (if st.multibarRestCount = 0 then
                    mergePlayerChanges ext srcScore st.srcLoc st.destScore st.destLoc
                      st.prevPlayerChange numDestPlayers numDestInstruments
                      (if decide ((st.destLoc.systemIndex : Int) ≠ st.currentSystemIndex) = true
                        then destSystem.staves.length else st.numDestStaves)
                  else some (st.destScore, st.prevPlayerChange)) = some r →
                r.1.bars = st.destScore.bars := by
              intro r hr
              by_cases hcount : st.multibarRestCount = 0
              · rw [if_pos hcount] at hr
                exact mergePlayerChanges_bars _ _ _ _ _ _ _ _ _ r hr
              · rw [if_neg hcount] at hr
                rw [← Option.some.inj hr]
            cases hmerged : (if st.multibarRestCount = 0 then
                mergePlayerChanges ext srcScore st.srcLoc st.destScore st.destLoc
                  st.prevPlayerChange numDestPlayers numDestInstruments
                  (if decide ((st.destLoc.systemIndex : Int) ≠ st.currentSystemIndex) = true
                    then destSystem.staves.length else st.numDestStaves)
              else some (st.destScore, st.prevPlayerChange)) with
            | none => rw [hmerged] at h; cases h
            | some r =>
              rw [hmerged] at h
              obtain ⟨destScore, prevPlayerChange⟩ := r
              simp only [] at h
              cases hstaves : mergeStaves ext srcBar nextSrcBar
                  (if st.destLoc.positionIndex ≠ 0 then Caret.moveHorizontal st.destLoc
                    else st.destLoc)
                  (if decide ((st.destLoc.systemIndex : Int) ≠ st.currentSystemIndex) = true
                    then destSystem.staves.length else st.numDestStaves)
                  0 srcSystem.staves (destScore, st.multibarRestCount) with
              | none => rw [hstaves] at h; cases h
              | some r2 =>
                rw [hstaves] at h
                obtain ⟨merged, multibarRestCount⟩ := r2
                simp only [Option.some.injEq] at h
                rw [← h]
                exact ⟨(mergeStaves_bars ext hext _ _ _ _ _ _ _ _ hstaves).trans
                  (hchanges _ hmerged), hloc.1, hloc.2⟩

/-- When the end of an iteration goes on to the next one, the destination score
is as it was and the destination cursor has moved to the next bar. -/
theorem mergeAdvance_next (srcScore : Score) (st next : MergeState)
    (h : mergeAdvance srcScore st = MergeStep.next next) :
    next.destScore = st.destScore
    ∧ Caret.moveToNextBar st.destScore st.destLoc = some next.destLoc := by
  unfold mergeAdvance at h
  cases hmove : Caret.moveToNextBar st.destScore st.destLoc with
  | none => rw [hmove] at h; cases h
  | some destLoc =>
    rw [hmove] at h
    simp only [] at h
    split_ifs at h <;> (try split at h) <;> cases h <;> exact ⟨rfl, rfl⟩

/-- A step of the cursor goes to a later (system, barline) pair and leaves
fewer bars after it. -/
theorem moveToNextBar_barsAfter (score : Score) (loc next : ScoreLocation)
    (h : Caret.moveToNextBar score loc = some next) :
    loc.before next
    ∧ barsAfter score.bars next.systemIndex next.barlineIndex
        < barsAfter score.bars loc.systemIndex loc.barlineIndex := by
  unfold Caret.moveToNextBar at h
  cases hsystem : score.systems[loc.systemIndex]? with
  | none => rw [hsystem] at h; cases h
  | some system =>
    rw [hsystem] at h
    simp only [] at h
    have hbars := bars_getD score loc.systemIndex system hsystem
    split_ifs at h with hin hsys
    · split at h
      · cases h
      · cases h
        refine ⟨Or.inr ⟨rfl, Nat.lt_succ_self _⟩, ?_⟩
        unfold barsAfter
        simp only [hbars]
        omega
    · cases h
      refine ⟨Or.inl (Nat.lt_succ_self _), ?_⟩
      have hlen : loc.systemIndex + 1 < score.bars.length := by
        unfold Score.bars
        rw [List.length_map]
        exact hsys
      unfold barsAfter
      simp only []
      rw [List.drop_eq_getElem_cons hlen, List.map_cons, List.sum_cons,
        List.getD_eq_getElem _ 0 hlen]
      unfold barStops
      omega

/-- The loop of `merge` ends within as many iterations as there are bars from
the destination cursor on; iterations allowed beyond that are not used. -/
theorem mergeLoop_fuel (ext : MergeExternals) (hext : KeepsBars ext) (srcScore : Score)
    (numDestPlayers numDestInstruments : Nat) :
    ∀ (fuel : Nat) (st : MergeState),
      barsAfter st.destScore.bars st.destLoc.systemIndex st.destLoc.barlineIndex < fuel →
      mergeLoop ext srcScore numDestPlayers numDestInstruments fuel st ≠ MergeResult.outOfFuel
      ∧ ∀ more, mergeLoop ext srcScore numDestPlayers numDestInstruments (fuel + more) st
          = mergeLoop ext srcScore numDestPlayers numDestInstruments fuel st := by
  intro fuel
  induction fuel with
  | zero => intro st h; exact absurd h (Nat.not_lt_zero _)
  | succ fuel ih =>
    intro st hfuel
    have hsucc : ∀ more, fuel + 1 + more = (fuel + more) + 1 := fun more => by omega
    cases hiter : mergeIteration ext srcScore numDestPlayers numDestInstruments st with
    | none =>
      refine ⟨?_, fun more => ?_⟩
      · rw [mergeLoop, hiter]
        exact fun h => by cases h
      · rw [hsucc, mergeLoop, mergeLoop, hiter]
    | some step =>
      cases step with
      | next st2 =>
        unfold mergeIteration at hiter
        cases hbar : mergeBar ext srcScore numDestPlayers numDestInstruments st with
        | none => rw [hbar] at hiter; cases hiter
        | some mid =>
          rw [hbar] at hiter
          simp only [Option.map_some', Option.some.injEq] at hiter
          obtain ⟨hb1, hb2, hb3⟩ := mergeBar_bars ext hext _ _ _ _ mid hbar
          obtain ⟨ha1, ha2⟩ := mergeAdvance_next srcScore mid st2 hiter
          have hlt := (moveToNextBar_barsAfter mid.destScore mid.destLoc st2.destLoc ha2).2
          rw [hb1, hb2, hb3] at hlt
          have hnext : barsAfter st2.destScore.bars st2.destLoc.systemIndex
              st2.destLoc.barlineIndex < fuel := by
            rw [ha1, hb1]
            omega
          obtain ⟨h1, h2⟩ := ih st2 hnext
          have hiter2 : mergeIteration ext srcScore numDestPlayers numDestInstruments st
              = some (MergeStep.next st2) := by
            unfold mergeIteration
            rw [hbar, Option.map_some', hiter]
          refine ⟨?_, fun more => ?_⟩
          · rw [mergeLoop, hiter2]
            exact h1
          · rw [hsucc, mergeLoop, mergeLoop, hiter2]
            exact h2 more
      | destinationDone st2 =>
        refine ⟨?_, fun more => ?_⟩
        · rw [mergeLoop, hiter]
          exact fun h => by cases h
        · rw [hsucc, mergeLoop, mergeLoop, hiter]
      | sourceDone st2 =>
        refine ⟨?_, fun more => ?_⟩
        · rw [mergeLoop, hiter]
          exact fun h => by cases h
        · rw [hsucc, mergeLoop, mergeLoop, hiter]


/-- Claim C36: `merge` terminates when `InsertNotes` adds no system or barline
and the destination has a system.  Every iteration of the loop that goes on to
a next one leaves the bars of the destination as they were and has moved the
destination cursor to a later (system, barline) pair; every other iteration
leaves the loop.  So the loop ends within as many iterations as the destination
has bars: with that many iterations allowed the result is not "out of
iterations", and allowing more does not change it. -/
theorem merge_terminates (ext : MergeExternals) (destScore srcScore : Score)
    (hext : KeepsBars ext) (hdest : destScore.systems ≠ []) :
    (∀ (numDestPlayers numDestInstruments : Nat) (st next : MergeState),
        mergeIteration ext srcScore numDestPlayers numDestInstruments st
          = some (MergeStep.next next) →
        st.destLoc.before next.destLoc ∧ next.destScore.bars = st.destScore.bars)
    ∧ merge ext destScore.numBars destScore srcScore ≠ MergeResult.outOfFuel
    ∧ ∀ more, merge ext (destScore.numBars + more) destScore srcScore
        = merge ext destScore.numBars destScore srcScore := by
  refine ⟨?_, ?_⟩
  · intro numDestPlayers numDestInstruments st next hiter
    unfold mergeIteration at hiter
    cases hbar : mergeBar ext srcScore numDestPlayers numDestInstruments st with
    | none => rw [hbar] at hiter; cases hiter
    | some mid =>
      rw [hbar] at hiter
      simp only [Option.map_some', Option.some.injEq] at hiter
      obtain ⟨hb1, hb2, hb3⟩ := mergeBar_bars ext hext _ _ _ _ mid hbar
      obtain ⟨ha1, ha2⟩ := mergeAdvance_next srcScore mid next hiter
      have hbefore := (moveToNextBar_barsAfter mid.destScore mid.destLoc next.destLoc ha2).1
      unfold ScoreLocation.before at hbefore ⊢
      rw [hb2, hb3] at hbefore
      exact ⟨hbefore, by rw [ha1, hb1]⟩
  · have hstart : ∀ players instruments,
        barsAfter (initialMergeState
            (List.foldl Score.insertInstrument (List.foldl Score.insertPlayer destScore players)
              instruments)).destScore.bars
          (initialMergeState
            (List.foldl Score.insertInstrument (List.foldl Score.insertPlayer destScore players)
              instruments)).destLoc.systemIndex
          (initialMergeState
            (List.foldl Score.insertInstrument (List.foldl Score.insertPlayer destScore players)
              instruments)).destLoc.barlineIndex
          < destScore.numBars := by
      intro players instruments
      have hbars : (List.foldl Score.insertInstrument
          (List.foldl Score.insertPlayer destScore players) instruments).bars
          = destScore.bars := by
        unfold Score.bars
        rw [foldl_insert_players_systems]
      have hloc : (initialMergeState (List.foldl Score.insertInstrument
          (List.foldl Score.insertPlayer destScore players) instruments)).destLoc
          = default := rfl
      have hscore : (initialMergeState (List.foldl Score.insertInstrument
          (List.foldl Score.insertPlayer destScore players) instruments)).destScore
          = List.foldl Score.insertInstrument
              (List.foldl Score.insertPlayer destScore players) instruments := rfl
      rw [hloc, hscore, hbars]
      unfold Score.numBars barsAfter
      cases hlist : destScore.bars with
      | nil =>
        unfold Score.bars at hlist
        exact absurd (List.map_eq_nil_iff.1 hlist) hdest
      | cons k rest =>
        have h0 : (default : ScoreLocation).systemIndex = 0 := rfl
        have h1 : (default : ScoreLocation).barlineIndex = 0 := rfl
        simp only [h0, h1, List.drop_succ_cons, List.drop_zero, List.getD_cons_zero,
          List.map_cons, List.sum_cons]
        unfold barStops
        omega
    unfold merge
    cases srcScore.systems[0]? with
    | none => exact ⟨fun h => MergeResult.noConfusion h, fun _ => rfl⟩
    | some system =>
      simp only []
      split_ifs
      · exact ⟨fun h => MergeResult.noConfusion h, fun _ => rfl⟩
      · exact mergeLoop_fuel ext hext srcScore _ _ _ _ (hstart _ _)

set_option maxRecDepth 100000 in
/-- Claim C36, witness: the guitar score of two bars and the bass score of two
bars.  With two iterations allowed the merge ends with a merged score, and
allowing more changes nothing. -/
theorem merge_terminates_witness :
    KeepsBars sampleMergeExternals
    ∧ sampleMergeGuitar.systems ≠ []
    ∧ sampleMergeGuitar.numBars = 2
    ∧ merge sampleMergeExternals 2 sampleMergeGuitar sampleMergeBass
        = MergeResult.merged sampleMergeResult
    ∧ merge sampleMergeExternals sampleMergeGuitar.numBars sampleMergeGuitar sampleMergeBass
        ≠ MergeResult.outOfFuel
    ∧ ∀ more, merge sampleMergeExternals (sampleMergeGuitar.numBars + more) sampleMergeGuitar
          sampleMergeBass
        = merge sampleMergeExternals sampleMergeGuitar.numBars sampleMergeGuitar
            sampleMergeBass :=
  ⟨keepsBars_of_keepsLayout _ sampleMergeExternals_keepsLayout, by decide, by decide,
    by decide,
    (merge_terminates sampleMergeExternals sampleMergeGuitar sampleMergeBass
      (keepsBars_of_keepsLayout _ sampleMergeExternals_keepsLayout) (by decide)).2⟩

/-- Claim C37: with a preset-name table of 128 entries, converting a legacy
guitar fails with the out-of-range error of the preset-name lookup if and only
if the preset is not one of 0..127.  In the failing case the score is left with
the player of the guitar appended and the instruments as they were, so that
players and instruments, if they were parallel before, no longer are; in the
other case one player and one instrument have been appended. -/
theorem convertGuitar_fails_iff_preset_out_of_range (ext : Externals)
    (guitar : PowerTabDocument.Guitar) (score : Score)
    (htable : ext.presetNames.length = 128) :
    ((∃ state, convertGuitar ext guitar score = Outcome.outOfRange state)
        ↔ ¬ guitar.preset ≤ 127)
    ∧ (¬ guitar.preset ≤ 127 →
        ∃ (state : Score) (player : Player),
          convertGuitar ext guitar score = Outcome.outOfRange state
          ∧ player.description = guitar.description
          ∧ state.players = score.players ++ [player]
          ∧ state.instruments = score.instruments
          ∧ state.systems = score.systems
          ∧ (score.players.length = score.instruments.length →
              state.players.length ≠ state.instruments.length))
    ∧ (guitar.preset ≤ 127 →
        ∃ (result : Score) (player : Player) (instrument : Instrument),
          convertGuitar ext guitar score = Outcome.done result
          ∧ result.players = score.players ++ [player]
          ∧ result.instruments = score.instruments ++ [instrument]
          ∧ instrument.midiPreset = guitar.preset) := by
  by_cases hpreset : guitar.preset ≤ 127
  · have hlt : guitar.preset < ext.presetNames.length := by omega
    have hdone : convertGuitar ext guitar score
        = Outcome.done ((score.insertPlayer
            { description := guitar.description, pan := guitar.pan,
              tuning := (convertTuning guitar.tuning default).setCapo guitar.capo }).insertInstrument
            { midiPreset := guitar.preset, description := ext.presetNames[guitar.preset] }) := by
      simp only [convertGuitar, List.getElem?_eq_getElem hlt]
    refine ⟨⟨?_, fun h => absurd hpreset h⟩, fun h => absurd hpreset h, fun _ => ?_⟩
    · rintro ⟨state, hstate⟩
      rw [hdone] at hstate
      cases hstate
    · exact ⟨_, _, _, hdone, rfl, rfl, rfl⟩
  · have hge : ext.presetNames.length ≤ guitar.preset := by omega
    have hfail : convertGuitar ext guitar score
        = Outcome.outOfRange (score.insertPlayer
            { description := guitar.description, pan := guitar.pan,
              tuning := (convertTuning guitar.tuning default).setCapo guitar.capo }) := by
      simp only [convertGuitar, List.getElem?_eq_none hge]
    refine ⟨⟨fun _ => hpreset, fun _ => ⟨_, hfail⟩⟩, fun _ => ?_, fun h => absurd h hpreset⟩
    refine ⟨_, _, hfail, rfl, rfl, rfl, rfl, ?_⟩
    intro hparallel
    simp only [Score.insertPlayer, List.length_append, List.length_singleton]
    omega

set_option maxRecDepth 100000 in
/-- Claim C37, witness: a guitar with preset 200 and the General MIDI table of
128 names; the conversion into the empty score fails and leaves one player and
no instrument. -/
theorem convertGuitar_fails_iff_preset_out_of_range_witness :
    sampleExternals.presetNames.length = 128
    ∧ ¬ sampleBadPresetGuitar.preset ≤ 127
    ∧ ∃ (state : Score) (player : Player),
        convertGuitar sampleExternals sampleBadPresetGuitar default = Outcome.outOfRange state
        ∧ player.description = "Lead"
        ∧ state.players = [player]
        ∧ state.instruments = []
        ∧ state.players.length ≠ state.instruments.length := by
  obtain ⟨state, player, h1, h2, h3, h4, -, h6⟩ :=
    (convertGuitar_fails_iff_preset_out_of_range sampleExternals sampleBadPresetGuitar default
      (by decide)).2.1 (by decide)
  exact ⟨by decide, by decide, state, player, h1, h2, h3, h4, h6 rfl⟩

/-- Claim C28, counterexample: the list "1 2 x" is malformed, yet the parser
matches its head "1 2", so that no diagnostic is emitted and the list produced
is 1, 2 and not empty. -/
theorem convertStringToList_keeps_parsed_prefix :
    Gpx.convertStringToList (Qi.parse Qi.intParser) "1 2 x" [] [] = ([1, 2], []) := by
  decide

/-- The repetition of the list parser reads every further element of a list
and stops at text that does not continue the list. -/
theorem listTail_items {T : Type} (element : List Char → Option (T × List Char))
    (trailing : List Char) (hend : EndsListOf element trailing) :
    ∀ (rest : List (List Char × T)), (∀ item ∈ rest, ReadsAs element trailing item) →
      ∀ (fuel : Nat) (dest : List T), rest.length ≤ fuel →
        Qi.listTail element fuel (rest.flatMap (fun item => ' ' :: item.1) ++ trailing) dest
          = dest ++ rest.map (fun item => item.2) := by
  intro rest
  induction rest with
  | nil =>
    intro _ fuel dest _
    simp only [List.flatMap_nil, List.nil_append, List.map_nil, List.append_nil]
    cases fuel with
    | zero => rfl
    | succ fuel =>
      cases trailing with
      | nil => rfl
      | cons c cs =>
        have hspace := hend c (by simp)
        unfold Qi.listTail
        by_cases hc : c = ' '
        · have hnone := hspace hc
          simp only [List.tail_cons] at hnone
          simp only [hc, if_true, hnone]
        · simp only [hc, if_false]
  | cons item rest ih =>
    intro hrest fuel dest hfuel
    cases fuel with
    | zero => simp at hfuel
    | succ fuel =>
      have hfuel2 : rest.length ≤ fuel := by
        simp only [List.length_cons] at hfuel
        omega
      have htail : rest.flatMap (fun item => ' ' :: item.1) ++ trailing = trailing
          ∨ ∃ more, rest.flatMap (fun item => ' ' :: item.1) ++ trailing = ' ' :: more := by
        cases rest with
        | nil => exact Or.inl rfl
        | cons u us => exact Or.inr ⟨_, rfl⟩
      have hparse := hrest item (by simp) _ htail
      have hih := ih (fun u hu => hrest u (by simp [hu])) fuel (dest ++ [item.2]) hfuel2
      simp only [List.flatMap_cons, List.cons_append, List.append_assoc, Qi.listTail, if_true,
        hparse, hih, List.map_cons, List.singleton_append, List.nil_append]

/-- The list parser on a list of elements followed by text that does not
continue it. -/
theorem parse_items {T : Type} (element : List Char → Option (T × List Char))
    (first : List Char × T) (rest : List (List Char × T)) (trailing : List Char)
    (hitems : ∀ item ∈ first :: rest, ReadsAs element trailing item)
    (hend : EndsListOf element trailing) :
    Qi.parse element
        (joinWithSpaces first.1 (rest.map (fun item => item.1)) ++ trailing) []
      = (true, (first :: rest).map (fun item => item.2)) := by
  have hflat : (rest.map (fun item => item.1)).flatMap (fun text => ' ' :: text)
      = rest.flatMap (fun item => ' ' :: item.1) := by
    induction rest with
    | nil => rfl
    | cons u us ih =>
      simp only [List.map_cons, List.flatMap_cons]
      rw [ih (fun item hitem => hitems item (by
        rcases List.mem_cons.1 hitem with h | h
        · exact h ▸ List.mem_cons_self _ _
        · exact List.mem_cons_of_mem _ (List.mem_cons_of_mem _ h)))]
  have htail : rest.flatMap (fun item => ' ' :: item.1) ++ trailing = trailing
      ∨ ∃ more, rest.flatMap (fun item => ' ' :: item.1) ++ trailing = ' ' :: more := by
    cases rest with
    | nil => exact Or.inl rfl
    | cons u us => exact Or.inr ⟨_, rfl⟩
  have hparse := hitems first (List.mem_cons_self _ _) _ htail
  have hlen : rest.length
      ≤ (first.1 ++ (rest.flatMap (fun item => ' ' :: item.1) ++ trailing)).length := by
    have h : rest.length ≤ (rest.flatMap (fun item => ' ' :: item.1)).length := by
      clear hitems hparse htail hflat
      induction rest with
      | nil => simp
      | cons u us ih =>
        simp only [List.flatMap_cons, List.length_cons, List.cons_append, List.length_append]
        omega
    simp only [List.length_append]
    omega
  have hrest := listTail_items element trailing hend rest
    (fun item hitem => hitems item (List.mem_cons_of_mem _ hitem)) _ [first.2] hlen
  simp only [joinWithSpaces, hflat, List.append_assoc, Qi.parse, hparse, List.nil_append, hrest,
    List.map_cons, List.singleton_append]

/-- Claim C28, amended: at every element type, `convertStringToList` returns the
listed values in order and emits no diagnostic for a list of elements that the
element parser of the type reads, also when text follows that does not continue
the list: the text that follows is ignored.  A diagnostic is emitted, and the
list produced is empty, for the malformed lists that do not begin with an
element.  At `int` the elements read are the integers with an optional minus
sign that fit 32 bits. -/
theorem convertStringToList_list_at_head {T : Type}
    (element : List Char → Option (T × List Char))
    (first : List Char × T) (rest : List (List Char × T)) (trailing : List Char)
    (cerr : List String)
    (hitems : ∀ item ∈ first :: rest, ReadsAs element trailing item)
    (hend : EndsListOf element trailing) :
    Gpx.convertStringToList (Qi.parse element)
        (String.mk (joinWithSpaces first.1 (rest.map (fun item => item.1)) ++ trailing)) [] cerr
      = ((first :: rest).map (fun item => item.2), cerr)
    ∧ (∀ source : String, element source.toList = none →
        Gpx.convertStringToList (Qi.parse element) source [] cerr
          = ([], cerr ++ ["Parsing of list failed!!"]))
    ∧ ∀ (literal : IntLiteral) (literals : List IntLiteral) (text : List Char),
        literal.WellFormed → (∀ t ∈ literals, t.WellFormed) → EndsList text →
        Gpx.convertStringToList (Qi.parse Qi.intParser)
            (String.mk (renderList literal literals ++ text)) [] cerr
          = ((literal :: literals).map IntLiteral.value, cerr) := by
  refine ⟨?_, ?_, ?_⟩
  · have hparse := parse_items element first rest trailing hitems hend
    simp only [Gpx.convertStringToList, String.toList, hparse, Bool.not_true,
      Bool.false_eq_true, if_false]
  · intro source hnone
    simp only [Gpx.convertStringToList, Qi.parse, hnone, Bool.not_false, if_true]
  · intro literal literals text hliteral hliterals htext
    have hreads : ∀ t : IntLiteral, t.WellFormed →
        ReadsAs Qi.intParser text (t.chars, t.value) := by
      intro t ht tail htail
      apply intParser_literal t tail ht
      rcases htail with h | ⟨more, h⟩
      · rw [h]
        exact fun c hc => (htext c hc).1
      · rw [h]
        intro c hc
        simp only [List.head?_cons, Option.mem_def, Option.some.injEq] at hc
        rw [← hc]
        decide
    have hparse := parse_items Qi.intParser (literal.chars, literal.value)
      (literals.map (fun t => (t.chars, t.value))) text
      (by
        intro item hitem
        rcases List.mem_cons.1 hitem with h | h
        · rw [h]
          exact hreads literal hliteral
        · obtain ⟨t, ht, hitemt⟩ := List.mem_map.1 h
          rw [← hitemt]
          exact hreads t (hliterals t ht))
      (fun c hc hspace => (htext c hc).2 hspace)
    have hjoin : joinWithSpaces literal.chars
        ((literals.map (fun t => (t.chars, t.value))).map (fun item => item.1))
        = renderList literal literals := by
      simp only [joinWithSpaces, renderList, List.map_map, Function.comp_def, List.flatMap_map]
    have hvalues : ((literal.chars, literal.value)
        :: literals.map (fun t => (t.chars, t.value))).map (fun item => item.2)
        = (literal :: literals).map IntLiteral.value := by
      simp only [List.map_cons, List.map_map, Function.comp_def]
    rw [hjoin, hvalues] at hparse
    simp only [Gpx.convertStringToList, String.toList, hparse, Bool.not_true,
      Bool.false_eq_true, if_false]

/-- Claim C28, witness: the list "1 2" followed by " x", read as a list of
`int`, and the text "x 1", which does not begin with an integer. -/
theorem convertStringToList_list_at_head_witness :
    (∀ item ∈ [(['1'], (1 : Int)), (['2'], 2)], ReadsAs Qi.intParser [' ', 'x'] item)
    ∧ EndsListOf Qi.intParser [' ', 'x']
    ∧ Gpx.convertStringToList (Qi.parse Qi.intParser)
        (String.mk (joinWithSpaces ['1'] [['2']] ++ [' ', 'x'])) [] []
      = ([1, 2], [])
    ∧ Gpx.convertStringToList (Qi.parse Qi.intParser) "x 1" [] []
      = ([], ["Parsing of list failed!!"]) := by
  have hdigit : ∀ (c : Char) (v : Nat), c.isDigit = true → Qi.digitsValue [c] = v →
      v ≤ 2147483647 → ReadsAs Qi.intParser [' ', 'x'] ([c], (v : Int)) := by
    intro c v hc hv hrange tail htail
    have hform : (⟨false, [c]⟩ : IntLiteral).WellFormed := by
      refine ⟨by simp, ?_, ?_⟩
      · intro d hd
        simp only [List.mem_singleton] at hd
        rw [hd]
        exact hc
      · simp only [Bool.false_eq_true, if_false, hv]
        exact hrange
    have h := intParser_literal ⟨false, [c]⟩ tail hform (by
      rcases htail with h | ⟨more, h⟩ <;> rw [h] <;> intro d hd <;>
        simp only [List.head?_cons, Option.mem_def, Option.some.injEq] at hd <;>
        rw [← hd] <;> decide)
    simp only [IntLiteral.chars, IntLiteral.value, Bool.false_eq_true, if_false, hv] at h
    exact h
  have hitems : ∀ item ∈ [(['1'], (1 : Int)), (['2'], 2)],
      ReadsAs Qi.intParser [' ', 'x'] item := by
    intro item hitem
    simp only [List.mem_cons, List.mem_singleton, List.not_mem_nil, or_false] at hitem
    rcases hitem with h | h
    · rw [h]
      exact hdigit '1' 1 (by decide) (by decide) (by decide)
    · rw [h]
      exact hdigit '2' 2 (by decide) (by decide) (by decide)
  have hend : EndsListOf Qi.intParser [' ', 'x'] := by
    intro c hc _
    decide
  have h := convertStringToList_list_at_head Qi.intParser (['1'], (1 : Int)) [(['2'], 2)]
    [' ', 'x'] [] hitems hend
  exact ⟨hitems, hend, h.1, h.2.1 "x 1" (by decide)⟩

/-! ### Positions of the merged score (claims C18 and C19) -/

/-- The positions of the voices of a system depend on its staves only. -/
theorem System.positionsAt_of_staves (a b : System) (h : a.staves = b.staves) (t v : Nat) :
    a.positionsAt t v = b.positionsAt t v := by
  unfold System.positionsAt
  rw [h]

/-- Replacing a system changes the positions of that system only. -/
theorem positionsAt_setSystem (score : Score) (i : Nat) (old system : System)
    (h : score.systems[i]? = some old) (s t v : Nat) :
    (score.setSystem i system).positionsAt s t v
      = if s = i then system.positionsAt t v else score.positionsAt s t v := by
  have hlt : i < score.systems.length := by
    by_contra hcon
    rw [List.getElem?_eq_none (by omega)] at h
    cases h
  unfold Score.positionsAt Score.setSystem
  by_cases hs : s = i
  · subst hs
    simp only [List.getElem?_set_self hlt, if_true]
  · simp only [List.getElem?_set_ne (fun h2 => hs h2.symm), hs, if_false]

/-- Replacing a system by one with the same barlines keeps the barlines of the
score. -/
theorem barlinesOf_setSystem (score : Score) (i : Nat) (old system : System)
    (h : score.systems[i]? = some old) (hbars : system.barlines = old.barlines) :
    (score.setSystem i system).barlinesOf = score.barlinesOf :=
  map_set_of_eq _ _ _ old _ h hbars

/-- The barlines of the system of a score. -/
theorem barlinesOf_getElem? (score : Score) (i : Nat) :
    score.barlinesOf[i]? = score.systems[i]?.map (fun system => system.barlines) := by
  unfold Score.barlinesOf
  rw [List.getElem?_map]

/-- A staff appended for the bass holds no position. -/
theorem positionsAt_insertStaff (system : System) (srcStaff : Staff) (t v : Nat) :
    (system.insertStaff (bassStaff srcStaff)).positionsAt t v = system.positionsAt t v := by
  unfold System.positionsAt System.insertStaff
  simp only []
  by_cases ht : t < system.staves.length
  · rw [List.getElem?_append_left ht]
  · have hnone : system.staves[t]? = none := List.getElem?_eq_none (by omega)
    rw [hnone]
    by_cases heq : t = system.staves.length
    · subst heq
      rw [List.getElem?_append_right (le_refl _)]
      simp only [Nat.sub_self, List.getElem?_cons_zero]
      unfold Staff.positionsOf bassStaff
      have hvoices : (default : Staff).voices = [default, default] := rfl
      simp only [hvoices]
      match v with
      | 0 => rfl
      | 1 => rfl
      | n + 2 => rfl
    · rw [List.getElem?_eq_none (by simp only [List.length_append, List.length_singleton]; omega)]

/-- Inserting a position into a voice of a staff appends it to the positions
of that voice. -/
theorem positionsAt_insertPosition (system : System) (t0 v0 : Nat) (staff : Staff)
    (voice : Voice) (p : Position) (hstaff : system.staves[t0]? = some staff)
    (hvoice : staff.voices[v0]? = some voice) (t v : Nat) :
    (system.setStaff t0 (staff.modifyVoice v0 (fun w => w.insertPosition p))).positionsAt t v
      = system.positionsAt t v ++ (if t = t0 ∧ v = v0 then [p] else []) := by
  have hlt : t0 < system.staves.length := by
    by_contra hcon
    rw [List.getElem?_eq_none (by omega)] at hstaff
    cases hstaff
  have hvlt : v0 < staff.voices.length := by
    by_contra hcon
    rw [List.getElem?_eq_none (by omega)] at hvoice
    cases hvoice
  unfold System.positionsAt System.setStaff
  simp only []
  by_cases ht : t = t0
  · subst ht
    rw [List.getElem?_set_self hlt, hstaff]
    simp only []
    unfold Staff.positionsOf Staff.modifyVoice
    simp only []
    by_cases hv : v = v0
    · subst hv
      rw [List.getElem?_modify_eq, hvoice]
      simp only [Option.map_eq_map, Option.map_some', Voice.insertPosition, true_and, if_true,
        and_self]
    · rw [List.getElem?_modify_ne _ _ (fun h2 => hv h2.symm)]
      simp only [hv, and_false, if_false, List.append_nil]
  · rw [List.getElem?_set_ne (fun h2 => ht h2.symm)]
    simp only [ht, false_and, if_false, List.append_nil]

/-- The call `insertPosition` of `merge`: the position is appended to the voice
at the location, and nothing else changes. -/
theorem insertPositionAt_positionsAt (score result : Score) (loc : ScoreLocation)
    (position : Position) (h : score.insertPositionAt loc position = some result) :
    result.barlinesOf = score.barlinesOf
    ∧ ∀ s t v, result.positionsAt s t v
        = score.positionsAt s t v
          ++ (if s = loc.systemIndex ∧ t = loc.staffIndex ∧ v = loc.voiceIndex then [position]
              else []) := by
  unfold Score.insertPositionAt at h
  cases hsystem : score.systems[loc.systemIndex]? with
  | none => rw [hsystem] at h; cases h
  | some system =>
    rw [hsystem] at h
    simp only [] at h
    cases hstaff : system.staves[loc.staffIndex]? with
    | none => rw [hstaff] at h; cases h
    | some staff =>
      rw [hstaff] at h
      simp only [] at h
      cases hvoice : staff.voices[loc.voiceIndex]? with
      | none => rw [hvoice] at h; cases h
      | some voice =>
        rw [hvoice] at h
        simp only [Option.some.injEq] at h
        rw [← h]
        refine ⟨barlinesOf_setSystem _ _ system _ hsystem rfl, ?_⟩
        intro s t v
        rw [positionsAt_setSystem _ _ system _ hsystem]
        by_cases hs : s = loc.systemIndex
        · rw [if_pos hs, positionsAt_insertPosition system _ _ staff voice _ hstaff hvoice]
          have hscore : score.positionsAt s t v = system.positionsAt t v := by
            unfold Score.positionsAt
            rw [hs, hsystem]
          rw [hscore]
          simp only [hs, true_and]
        · rw [if_neg hs]
          simp only [hs, false_and, if_false, List.append_nil]

/-- The positions in a range after a position has been appended to a voice. -/
theorem positionsIn_of_positionsAt (a b : Score) (s t v : Nat) (added : List Position)
    (h : a.positionsAt s t v = b.positionsAt s t v ++ added) (lo hi : Nat) :
    a.positionsIn s t v lo hi
      = b.positionsIn s t v lo hi
        ++ added.filter (fun p => decide (lo ≤ p.position) && decide (p.position < hi)) := by
  unfold Score.positionsIn
  rw [h, List.filter_append]

/-- The whole rest of `merge` is at the position it is made for. -/
theorem wholeRest_position (position : Nat) : (wholeRest position).position = position := rfl

/-- Nothing done leaves everything alone. -/
theorem StepFrame.refl (inBar : Prop) (sys lo hi : Nat) (touched : Nat → Nat → Prop)
    (score : Score) : StepFrame inBar sys lo hi touched score score :=
  ⟨rfl, fun _ _ _ _ => rfl, fun _ _ _ _ _ _ _ => rfl⟩

/-- Two parts of an iteration one after the other. -/
theorem StepFrame.trans {inBar : Prop} {sys lo hi : Nat} {touched : Nat → Nat → Prop}
    {a b c : Score} (h1 : StepFrame inBar sys lo hi touched a b)
    (h2 : StepFrame inBar sys lo hi touched b c) : StepFrame inBar sys lo hi touched a c :=
  ⟨h2.1.trans h1.1, fun s t v hn => (h2.2.1 s t v hn).trans (h1.2.1 s t v hn),
    fun hin s t v l h hr => (h2.2.2 hin s t v l h hr).trans (h1.2.2 hin s t v l h hr)⟩

/-- A part that works on fewer voices. -/
theorem StepFrame.mono {inBar : Prop} {sys lo hi : Nat} {touched wider : Nat → Nat → Prop}
    {a b : Score} (h : StepFrame inBar sys lo hi touched a b)
    (hw : ∀ t v, touched t v → wider t v) : StepFrame inBar sys lo hi wider a b :=
  ⟨h.1, fun s t v hn => h.2.1 s t v (fun hc => hn ⟨hc.1, hw t v hc.2⟩), h.2.2⟩

/-- A part that changes no position at all. -/
theorem StepFrame.of_positionsAt (inBar : Prop) (sys lo hi : Nat)
    (touched : Nat → Nat → Prop) (a b : Score) (hbars : b.barlinesOf = a.barlinesOf)
    (h : ∀ s t v, b.positionsAt s t v = a.positionsAt s t v) :
    StepFrame inBar sys lo hi touched a b :=
  ⟨hbars, fun s t v _ => h s t v, fun _ s t v l r _ => by
    unfold Score.positionsIn
    rw [h s t v]⟩

/-- The barline a cursor is at, by the barlines of the score. -/
theorem getBarline_of_barlinesOf (a b : Score) (h : a.barlinesOf = b.barlinesOf)
    (loc : ScoreLocation) :
    loc.getBarline a = loc.getBarline b ∧ loc.getNextBarline a = loc.getNextBarline b := by
  have hsys := congrArg (fun l => l[loc.systemIndex]?) h
  simp only [barlinesOf_getElem?] at hsys
  unfold ScoreLocation.getBarline ScoreLocation.getNextBarline
  cases ha : a.systems[loc.systemIndex]? with
  | none =>
    rw [ha] at hsys
    cases hb : b.systems[loc.systemIndex]? with
    | none => exact ⟨rfl, rfl⟩
    | some y => rw [hb] at hsys; cases hsys
  | some x =>
    rw [ha] at hsys
    cases hb : b.systems[loc.systemIndex]? with
    | none => rw [hb] at hsys; cases hsys
    | some y =>
      rw [hb] at hsys
      simp only [Option.map_some', Option.some.injEq] at hsys
      simp only [hsys, and_self]

/-- Appending the staff for the bass changes no position. -/
theorem StepFrame.insertStaff (inBar : Prop) (sys lo hi : Nat) (touched : Nat → Nat → Prop)
    (score : Score) (i : Nat) (system : System) (srcStaff : Staff)
    (h : score.systems[i]? = some system) :
    StepFrame inBar sys lo hi touched score
      (score.setSystem i (system.insertStaff (bassStaff srcStaff))) := by
  apply StepFrame.of_positionsAt
  · exact barlinesOf_setSystem _ _ system _ h rfl
  · intro s t v
    rw [positionsAt_setSystem _ _ system _ h]
    split_ifs with hs
    · rw [positionsAt_insertStaff]
      unfold Score.positionsAt
      rw [hs, h]
    · rfl

/-- The whole rest of a bar goes into the voice at the location and is inside
the bar. -/
theorem StepFrame.insertWholeRest (inBar : Prop) (score result : Score) (loc : ScoreLocation)
    (bar : Barline) (hi : Nat) (hbar : loc.getBarline score = some bar)
    (hwide : inBar → bar.position + 1 < hi)
    (h : insertWholeRest score loc = some result) :
    StepFrame inBar loc.systemIndex bar.position hi
        (fun t v => t = loc.staffIndex ∧ v = loc.voiceIndex) score result
    ∧ result.positionsAt loc.systemIndex loc.staffIndex loc.voiceIndex
        = score.positionsAt loc.systemIndex loc.staffIndex loc.voiceIndex
          ++ [wholeRest (bar.position + 1)] := by
  unfold PowerTabOldImporter.insertWholeRest at h
  rw [hbar] at h
  simp only [] at h
  obtain ⟨hbars, hpos⟩ := insertPositionAt_positionsAt score result loc _ h
  refine ⟨⟨hbars, ?_, ?_⟩, ?_⟩
  · intro s t v hn
    rw [hpos s t v, if_neg (fun hc => hn ⟨hc.1, hc.2.1, hc.2.2⟩), List.append_nil]
  · intro hyes s t v l r hrange
    have hwide2 := hwide hyes
    rw [positionsIn_of_positionsAt _ _ s t v _ (hpos s t v)]
    split_ifs
    · have hout : (decide (l ≤ (wholeRest (bar.position + 1)).position)
          && decide ((wholeRest (bar.position + 1)).position < r)) = false := by
        rw [wholeRest_position]
        rcases hrange with h1 | h1
        · have : ¬ bar.position + 1 < r := by omega
          simp [this]
        · have : ¬ l ≤ bar.position + 1 := by omega
          simp [this]
      simp only [List.filter_cons, hout, Bool.false_eq_true, if_false, List.filter_nil,
        List.append_nil]
    · simp only [List.filter_nil, List.append_nil]
  · rw [hpos, if_pos ⟨rfl, rfl, rfl⟩]

/-- The action `InsertNotes` of a bar, under the conditions on the action. -/
theorem StepFrame.insertNotes (inBar : Prop) (ext : MergeExternals)
    (hlocal : InsertsLocally ext) (hin : inBar → InsertsInBar ext) (score : Score)
    (loc : ScoreLocation) (positions : List Position) (groups : List IrregularGrouping)
    (bar : Barline) (hi : Nat) (hbar : loc.getBarline score = some bar)
    (hnext : inBar → NextBarAt score loc bar hi) :
    StepFrame inBar loc.systemIndex bar.position hi
      (fun t v => t = loc.staffIndex ∧ v = loc.voiceIndex) score
      (ext.insertNotes score loc positions groups) := by
  obtain ⟨hbars, hother⟩ := hlocal score loc positions groups
  refine ⟨hbars, ?_, ?_⟩
  · intro s t v hn
    exact hother s t v (fun hc => hn ⟨hc.1, hc.2.1, hc.2.2⟩)
  · intro hyes s t v l r hrange
    obtain ⟨nextBar, hnb, hpos, _⟩ := hnext hyes
    by_cases hc : s = loc.systemIndex ∧ t = loc.staffIndex ∧ v = loc.voiceIndex
    · obtain ⟨h1, h2, h3⟩ := hc
      subst h1 h2 h3
      exact (hin hyes).2 score loc positions groups bar nextBar l r hbar hnb
        (by rw [hpos]; exact hrange)
    · unfold Score.positionsIn
      rw [hother s t v hc]

/-- The end of the bar of a cursor depends on the barlines of the score and on
the system and barline of the cursor only. -/
theorem NextBarAt.of_barlinesOf {a b : Score} {loc loc2 : ScoreLocation} {bar : Barline}
    {hi : Nat} (h : NextBarAt a loc bar hi) (hbars : b.barlinesOf = a.barlinesOf)
    (hsys : loc2.systemIndex = loc.systemIndex) (hidx : loc2.barlineIndex = loc.barlineIndex) :
    NextBarAt b loc2 bar hi := by
  obtain ⟨nextBar, h1, h2, h3⟩ := h
  refine ⟨nextBar, ?_, h2, h3⟩
  have hloc : loc2.getNextBarline b = loc.getNextBarline b := by
    unfold ScoreLocation.getNextBarline
    rw [hsys, hidx]
  rw [hloc, (getBarline_of_barlinesOf b a hbars loc).2]
  exact h1

/-- The barline of a cursor depends on the barlines of the score and on the
system and barline of the cursor only. -/
theorem getBarline_transfer (a b : Score) (loc loc2 : ScoreLocation)
    (hbars : b.barlinesOf = a.barlinesOf)
    (hsys : loc2.systemIndex = loc.systemIndex) (hidx : loc2.barlineIndex = loc.barlineIndex) :
    loc2.getBarline b = loc.getBarline a := by
  have hloc : loc2.getBarline b = loc.getBarline b := by
    unfold ScoreLocation.getBarline
    rw [hsys, hidx]
  rw [hloc, (getBarline_of_barlinesOf b a hbars loc).1]
/-- The body of the voice loop of `merge`, by what it does to the positions:
only the voice it is called for changes, and only inside the bar; the count it
leaves is that of the check for a multi-bar rest; when that count is not zero,
or the source bar holds no position of voice 0, the voice gets the whole rest
of the bar and nothing else. -/
theorem mergeVoice_effect (inBar : Prop) (ext : MergeExternals) (hlocal : InsertsLocally ext)
    (hin : inBar → InsertsInBar ext) (srcBar nextSrcBar : Barline) (destLoc : ScoreLocation)
    (srcVoice : Voice) (v : Nat) (acc r : Score × Nat) (bar : Barline) (hi : Nat)
    (hbar : destLoc.getBarline acc.1 = some bar)
    (hnext : inBar → NextBarAt acc.1 destLoc bar hi)
    (h : mergeVoice ext srcBar nextSrcBar destLoc srcVoice v acc = some r) :
    StepFrame inBar destLoc.systemIndex bar.position hi
        (fun t w => t = destLoc.staffIndex ∧ w = v) acc.1 r.1
    ∧ r.2 = checkMultiBarRest (ScoreUtils.findInRange ext (fun p : Position => p.position)
        srcVoice.positions srcBar.position nextSrcBar.position) acc.2
    ∧ ((r.2 ≠ 0 ∨ (ScoreUtils.findInRange ext (fun p : Position => p.position)
            srcVoice.positions srcBar.position nextSrcBar.position = [] ∧ v = 0)) →
        r.1.positionsAt destLoc.systemIndex destLoc.staffIndex v
          = acc.1.positionsAt destLoc.systemIndex destLoc.staffIndex v
            ++ [wholeRest (bar.position + 1)]) := by
  have hbar2 : ({ destLoc with voiceIndex := v } : ScoreLocation).getBarline acc.1
      = some bar := hbar
  have hnext2 : inBar → NextBarAt acc.1 ({ destLoc with voiceIndex := v } : ScoreLocation)
      bar hi := fun hyes => hnext hyes
  unfold mergeVoice at h
  simp only [] at h
  by_cases hrest : checkMultiBarRest (ScoreUtils.findInRange ext (fun p : Position => p.position)
        srcVoice.positions srcBar.position nextSrcBar.position) acc.2 ≠ 0
      ∨ (ScoreUtils.findInRange ext (fun p : Position => p.position)
          srcVoice.positions srcBar.position nextSrcBar.position = [] ∧ v = 0)
  · rw [if_pos hrest, hbar2] at h
    simp only [] at h
    cases hins : acc.1.insertPositionAt { destLoc with voiceIndex := v }
        (wholeRest (bar.position + 1)) with
    | none => rw [hins] at h; cases h
    | some score =>
      rw [hins] at h
      simp only [Option.some.injEq] at h
      rw [← h]
      have hwhole : insertWholeRest acc.1 { destLoc with voiceIndex := v } = some score := by
        unfold insertWholeRest
        rw [hbar2]
        exact hins
      obtain ⟨hframe, hpos⟩ := StepFrame.insertWholeRest inBar acc.1 score
        { destLoc with voiceIndex := v } bar hi hbar2
        (fun hyes => by obtain ⟨_, _, _, hw⟩ := hnext hyes; exact hw) hwhole
      exact ⟨hframe, rfl, fun _ => hpos⟩
  · rw [if_neg hrest] at h
    have hzero : checkMultiBarRest (ScoreUtils.findInRange ext (fun p : Position => p.position)
        srcVoice.positions srcBar.position nextSrcBar.position) acc.2 = 0 := by
      by_contra hne
      exact hrest (Or.inl hne)
    by_cases hnotes : ScoreUtils.findInRange ext (fun p : Position => p.position)
        srcVoice.positions srcBar.position nextSrcBar.position ≠ []
    · rw [if_pos hnotes] at h
      simp only [Option.some.injEq] at h
      rw [← h]
      refine ⟨StepFrame.insertNotes inBar ext hlocal hin acc.1 { destLoc with voiceIndex := v }
        _ _ bar hi hbar2 hnext2, rfl, ?_⟩
      intro hcase
      rcases hcase with hc | hc
      · exact absurd hzero hc
      · exact absurd hc.1 hnotes
    · rw [if_neg hnotes] at h
      simp only [Option.some.injEq] at h
      rw [← h]
      refine ⟨StepFrame.refl _ _ _ _ _ _, rfl, ?_⟩
      intro hcase
      exact absurd hcase hrest

/-- Appending the staff for the bass keeps the barlines and every position. -/
theorem staffAdded_positions (score : Score) (i : Nat) (system : System) (srcStaff : Staff)
    (h : score.systems[i]? = some system) :
    (score.setSystem i (system.insertStaff (bassStaff srcStaff))).barlinesOf = score.barlinesOf
    ∧ ∀ s t v, (score.setSystem i (system.insertStaff (bassStaff srcStaff))).positionsAt s t v
        = score.positionsAt s t v := by
  refine ⟨barlinesOf_setSystem _ _ system _ h rfl, ?_⟩
  intro s t v
  rw [positionsAt_setSystem _ _ system _ h]
  split_ifs with hs
  · rw [positionsAt_insertStaff]
    unfold Score.positionsAt
    rw [hs, h]
  · rfl

/-- A count that is running stays through the check; with no count running the
check gives the count it latches. -/
theorem checkMultiBarRest_cases (positions : List Position) (count : Nat) :
    (count ≠ 0 → checkMultiBarRest positions count = count)
    ∧ (count = 0 → checkMultiBarRest positions count = checkMultiBarRest positions 0) :=
  ⟨fun h => checkMultiBarRest_running positions count h, fun h => by rw [h]⟩

/-- The body of the staff loop of `merge`, by what it does to the positions.
Only the two voices of staff `numDestStaves + i` change, and only inside the bar;
the count goes through the check of voice 0 and then of voice 1; a voice whose
check leaves a count, and voice 0 when the source bar holds no position of it,
gets the whole rest of the bar and nothing else. -/
theorem mergeStaff_effect (inBar : Prop) (ext : MergeExternals) (hlocal : InsertsLocally ext)
    (hin : inBar → InsertsInBar ext) (srcBar nextSrcBar : Barline) (destLoc : ScoreLocation)
    (numDestStaves i : Nat) (srcStaff : Staff) (acc r : Score × Nat) (bar : Barline) (hi : Nat)
    (hbar : destLoc.getBarline acc.1 = some bar)
    (hnext : inBar → NextBarAt acc.1 destLoc bar hi)
    (h : mergeStaff ext srcBar nextSrcBar destLoc numDestStaves i srcStaff acc = some r) :
    ∃ v0 v1, srcStaff.voices[0]? = some v0 ∧ srcStaff.voices[1]? = some v1
      ∧ StepFrame inBar destLoc.systemIndex bar.position hi
          (fun t w => t = numDestStaves + i ∧ w < Staff.NUM_VOICES) acc.1 r.1
      ∧ r.2 = checkMultiBarRest (positionsInBar ext srcBar nextSrcBar v1)
          (checkMultiBarRest (positionsInBar ext srcBar nextSrcBar v0) acc.2)
      ∧ ((checkMultiBarRest (positionsInBar ext srcBar nextSrcBar v0) acc.2 ≠ 0
            ∨ positionsInBar ext srcBar nextSrcBar v0 = []) →
          r.1.positionsAt destLoc.systemIndex (numDestStaves + i) 0
            = acc.1.positionsAt destLoc.systemIndex (numDestStaves + i) 0
              ++ [wholeRest (bar.position + 1)])
      ∧ (r.2 ≠ 0 →
          r.1.positionsAt destLoc.systemIndex (numDestStaves + i) 1
            = acc.1.positionsAt destLoc.systemIndex (numDestStaves + i) 1
              ++ [wholeRest (bar.position + 1)]) := by
  unfold mergeStaff at h
  cases hsystem : acc.1.systems[destLoc.systemIndex]? with
  | none => rw [hsystem] at h; cases h
  | some destSystem =>
    rw [hsystem] at h
    simp only [] at h
    have hrange : List.range Staff.NUM_VOICES = [0, 1] := rfl
    rw [hrange] at h
    -- the score with the staff for the bass
    have hadded : ∃ score : Score,
        score = (if destSystem.staves.length ≤ numDestStaves + i then
            acc.1.setSystem destLoc.systemIndex (destSystem.insertStaff (bassStaff srcStaff))
          else acc.1)
        ∧ score.barlinesOf = acc.1.barlinesOf
        ∧ ∀ s t v, score.positionsAt s t v = acc.1.positionsAt s t v := by
      refine ⟨_, rfl, ?_⟩
      split_ifs
      · exact staffAdded_positions acc.1 _ destSystem srcStaff hsystem
      · exact ⟨rfl, fun _ _ _ => rfl⟩
    obtain ⟨score, hscore, hsbars, hspos⟩ := hadded
    rw [← hscore] at h
    rw [mergeVoices] at h
    cases hv0 : srcStaff.voices[0]? with
    | none => rw [hv0] at h; cases h
    | some v0 =>
      rw [hv0] at h
      simp only [] at h
      cases hstep0 : mergeVoice ext srcBar nextSrcBar
          { destLoc with staffIndex := numDestStaves + i } v0 0 (score, acc.2) with
      | none => rw [hstep0] at h; cases h
      | some m =>
        rw [hstep0] at h
        simp only [] at h
        rw [mergeVoices] at h
        cases hv1 : srcStaff.voices[1]? with
        | none => rw [hv1] at h; cases h
        | some v1 =>
          rw [hv1] at h
          simp only [] at h
          cases hstep1 : mergeVoice ext srcBar nextSrcBar
              { destLoc with staffIndex := numDestStaves + i } v1 1 m with
          | none => rw [hstep1] at h; cases h
          | some r2 =>
            rw [hstep1] at h
            simp only [mergeVoices, Option.some.injEq] at h
            subst h
            have hbar0 : ({ destLoc with staffIndex := numDestStaves + i } : ScoreLocation).getBarline
                (score, acc.2).1 = some bar :=
              (getBarline_transfer acc.1 score destLoc _ hsbars rfl rfl).trans hbar
            have hnext0 : inBar → NextBarAt (score, acc.2).1
                ({ destLoc with staffIndex := numDestStaves + i } : ScoreLocation) bar hi :=
              fun hyes => (hnext hyes).of_barlinesOf hsbars rfl rfl
            obtain ⟨hf0, hc0, hp0⟩ := mergeVoice_effect inBar ext hlocal hin srcBar nextSrcBar
              { destLoc with staffIndex := numDestStaves + i } v0 0 (score, acc.2) m bar hi
              hbar0 hnext0 hstep0
            have hbar1 : ({ destLoc with staffIndex := numDestStaves + i } : ScoreLocation).getBarline
                m.1 = some bar :=
              (getBarline_transfer score m.1 _ _ hf0.1 rfl rfl).trans hbar0
            have hnext1 : inBar → NextBarAt m.1
                ({ destLoc with staffIndex := numDestStaves + i } : ScoreLocation) bar hi :=
              fun hyes => (hnext0 hyes).of_barlinesOf hf0.1 rfl rfl
            obtain ⟨hf1, hc1, hp1⟩ := mergeVoice_effect inBar ext hlocal hin srcBar nextSrcBar
              { destLoc with staffIndex := numDestStaves + i } v1 1 m r2 bar hi
              hbar1 hnext1 hstep1
            have hframe0 : StepFrame inBar destLoc.systemIndex bar.position hi
                (fun t w => t = numDestStaves + i ∧ w < Staff.NUM_VOICES) acc.1 score :=
              StepFrame.of_positionsAt _ _ _ _ _ _ _ hsbars hspos
            have hwide0 : ∀ t w, (t = numDestStaves + i ∧ w = 0) →
                (t = numDestStaves + i ∧ w < Staff.NUM_VOICES) :=
              fun t w hc => ⟨hc.1, by rw [hc.2]; decide⟩
            have hwide1 : ∀ t w, (t = numDestStaves + i ∧ w = 1) →
                (t = numDestStaves + i ∧ w < Staff.NUM_VOICES) :=
              fun t w hc => ⟨hc.1, by rw [hc.2]; decide⟩
            refine ⟨v0, v1, rfl, rfl,
              (hframe0.trans (hf0.mono hwide0)).trans (hf1.mono hwide1), ?_, ?_, ?_⟩
            · rw [hc1, hc0]
              rfl
            · intro hcond
              have hkeep := hf1.2.1 destLoc.systemIndex (numDestStaves + i) 0
                (fun hc => by cases hc.2.2)
              rw [hkeep, ← hspos]
              apply hp0
              rw [hc0]
              rcases hcond with hc | hc
              · exact Or.inl hc
              · exact Or.inr ⟨hc, rfl⟩
            · intro hcond
              have hkeep := hf0.2.1 destLoc.systemIndex (numDestStaves + i) 1
                (fun hc => by cases hc.2.2)
              rw [← hspos, ← hkeep]
              exact hp1 (Or.inl hcond)

/-- The count of a voice of the first source staff. -/
theorem latchOf_cons_zero (ext : MergeExternals) (srcBar nextSrcBar : Barline) (s : Staff)
    (rest : List Staff) (w : Nat) (srcVoice : Voice) (h : s.voices[w]? = some srcVoice) :
    latchOf ext srcBar nextSrcBar (s :: rest) 0 w
      = checkMultiBarRest (positionsInBar ext srcBar nextSrcBar srcVoice) 0 := by
  unfold latchOf
  simp only [List.getElem?_cons_zero, h]

/-- The count of a voice of a later source staff. -/
theorem latchOf_cons_succ (ext : MergeExternals) (srcBar nextSrcBar : Barline) (s : Staff)
    (rest : List Staff) (j w : Nat) :
    latchOf ext srcBar nextSrcBar (s :: rest) (j + 1) w
      = latchOf ext srcBar nextSrcBar rest j w := by
  unfold latchOf
  simp only [List.getElem?_cons_succ]

/-- The count after the two checks of a staff, when one of its voices latches a
count or a count is running. -/
theorem staffCount_ne_zero (ext : MergeExternals) (srcBar nextSrcBar : Barline) (s : Staff)
    (rest : List Staff) (v0 v1 : Voice) (hv0 : s.voices[0]? = some v0)
    (hv1 : s.voices[1]? = some v1) (count w : Nat) (hw : w < Staff.NUM_VOICES)
    (h : count ≠ 0 ∨ latchOf ext srcBar nextSrcBar (s :: rest) 0 w ≠ 0) :
    checkMultiBarRest (positionsInBar ext srcBar nextSrcBar v1)
      (checkMultiBarRest (positionsInBar ext srcBar nextSrcBar v0) count) ≠ 0 := by
  by_cases hcount : count = 0
  · rcases h with h | h
    · exact absurd hcount h
    · subst hcount
      have hw2 : w = 0 ∨ w = 1 := by
        have : w < 2 := hw
        omega
      rcases hw2 with hw2 | hw2
      · subst hw2
        rw [latchOf_cons_zero ext srcBar nextSrcBar s rest 0 v0 hv0] at h
        rw [checkMultiBarRest_running _ _ h]
        exact h
      · subst hw2
        rw [latchOf_cons_zero ext srcBar nextSrcBar s rest 1 v1 hv1] at h
        by_cases h0 : checkMultiBarRest (positionsInBar ext srcBar nextSrcBar v0) 0 = 0
        · rw [h0]
          exact h
        · rw [checkMultiBarRest_running _ _ h0]
          exact h0
  · rw [checkMultiBarRest_running _ _ hcount, checkMultiBarRest_running _ _ hcount]
    exact hcount

/-- The staff loop of `merge`, by what it does to the positions.  Only the
voices of the staves appended for the source staves change, and only inside the
bar; a running count stays; a voice that latches a count leaves a count; every
voice from the first that latches a count on (every voice when a count is
running), and voice 0 of a staff when the source bar holds no position of it,
gets the whole rest of the bar and nothing else. -/
theorem mergeStaves_effect (inBar : Prop) (ext : MergeExternals) (hlocal : InsertsLocally ext)
    (hin : inBar → InsertsInBar ext) (srcBar nextSrcBar : Barline) (destLoc : ScoreLocation)
    (numDestStaves : Nat) (bar : Barline) (hi : Nat) :
    ∀ (staves : List Staff) (i : Nat) (acc r : Score × Nat),
      destLoc.getBarline acc.1 = some bar → (inBar → NextBarAt acc.1 destLoc bar hi) →
      mergeStaves ext srcBar nextSrcBar destLoc numDestStaves i staves acc = some r →
      StepFrame inBar destLoc.systemIndex bar.position hi
          (fun t w => numDestStaves + i ≤ t ∧ t < numDestStaves + i + staves.length
            ∧ w < Staff.NUM_VOICES) acc.1 r.1
      ∧ (acc.2 ≠ 0 → r.2 = acc.2)
      ∧ (∀ j w, w < Staff.NUM_VOICES → latchOf ext srcBar nextSrcBar staves j w ≠ 0 → r.2 ≠ 0)
      ∧ ∀ k v, v < Staff.NUM_VOICES → k < staves.length →
          (acc.2 ≠ 0
            ∨ (∃ j w, w < Staff.NUM_VOICES ∧ (j < k ∨ (j = k ∧ w ≤ v))
                ∧ latchOf ext srcBar nextSrcBar staves j w ≠ 0)
            ∨ (v = 0 ∧ EmptyInBar ext srcBar nextSrcBar staves k)) →
          r.1.positionsAt destLoc.systemIndex (numDestStaves + i + k) v
            = acc.1.positionsAt destLoc.systemIndex (numDestStaves + i + k) v
              ++ [wholeRest (bar.position + 1)] := by
  intro staves
  induction staves with
  | nil =>
    intro i acc r _ _ h
    rw [mergeStaves] at h
    simp only [Option.some.injEq] at h
    subst h
    refine ⟨StepFrame.refl _ _ _ _ _ _, fun _ => rfl, ?_, ?_⟩
    · intro j w _ hl
      exact absurd rfl hl
    · intro k v _ hk
      exact absurd hk (Nat.not_lt_zero k)
  | cons s rest ih =>
    intro i acc r hbar hnext h
    rw [mergeStaves] at h
    cases hstep : mergeStaff ext srcBar nextSrcBar destLoc numDestStaves i s acc with
    | none => rw [hstep] at h; cases h
    | some m =>
      rw [hstep] at h
      simp only [] at h
      obtain ⟨v0, v1, hv0, hv1, hf1, hc1, hp0, hp1⟩ := mergeStaff_effect inBar ext hlocal hin
        srcBar nextSrcBar destLoc numDestStaves i s acc m bar hi hbar hnext hstep
      have hbarm : destLoc.getBarline m.1 = some bar :=
        (getBarline_transfer acc.1 m.1 destLoc destLoc hf1.1 rfl rfl).trans hbar
      have hnextm : inBar → NextBarAt m.1 destLoc bar hi :=
        fun hyes => (hnext hyes).of_barlinesOf hf1.1 rfl rfl
      obtain ⟨hf2, hrun2, hlatch2, hrest2⟩ := ih (i + 1) m r hbarm hnextm h
      have hm : ∀ w, w < Staff.NUM_VOICES →
          (acc.2 ≠ 0 ∨ latchOf ext srcBar nextSrcBar (s :: rest) 0 w ≠ 0) → m.2 ≠ 0 := by
        intro w hw hc
        rw [hc1]
        exact staffCount_ne_zero ext srcBar nextSrcBar s rest v0 v1 hv0 hv1 acc.2 w hw hc
      have hmrun : acc.2 ≠ 0 → m.2 = acc.2 := by
        intro hacc
        rw [hc1, checkMultiBarRest_running _ _ hacc, checkMultiBarRest_running _ _ hacc]
      refine ⟨?_, ?_, ?_, ?_⟩
      · refine (hf1.mono ?_).trans (hf2.mono ?_)
        · intro t w hc
          refine ⟨by omega, ?_, hc.2⟩
          simp only [List.length_cons]
          omega
        · intro t w hc
          refine ⟨by omega, ?_, hc.2.2⟩
          simp only [List.length_cons]
          omega
      · intro hacc
        rw [hrun2 (by rw [hmrun hacc]; exact hacc), hmrun hacc]
      · intro j w hw hl
        cases j with
        | zero =>
          have hm0 := hm w hw (Or.inr hl)
          rw [hrun2 hm0]
          exact hm0
        | succ j =>
          rw [latchOf_cons_succ] at hl
          exact hlatch2 j w hw hl
      · intro k v hv hk hcond
        cases k with
        | zero =>
          have hkeep := hf2.2.1 destLoc.systemIndex (numDestStaves + i + 0) v
            (fun hc => by omega)
          rw [hkeep]
          have hv2 : v = 0 ∨ v = 1 := by
            have : v < 2 := hv
            omega
          rcases hv2 with hv2 | hv2
          · subst hv2
            apply hp0
            rcases hcond with hc | hc | hc
            · left
              rw [checkMultiBarRest_running _ _ hc]
              exact hc
            · obtain ⟨j, w, hw, hord, hl⟩ := hc
              have hj : j = 0 ∧ w = 0 := by omega
              obtain ⟨hj1, hj2⟩ := hj
              subst hj1 hj2
              rw [latchOf_cons_zero ext srcBar nextSrcBar s rest 0 v0 hv0] at hl
              left
              by_cases hacc : acc.2 = 0
              · rw [hacc]
                exact hl
              · rw [checkMultiBarRest_running _ _ hacc]
                exact hacc
            · obtain ⟨_, srcStaff, srcVoice, hs, hvoice, hempty⟩ := hc
              simp only [List.getElem?_cons_zero, Option.some.injEq] at hs
              subst hs
              rw [hv0] at hvoice
              simp only [Option.some.injEq] at hvoice
              subst hvoice
              exact Or.inr hempty
          · subst hv2
            apply hp1
            rcases hcond with hc | hc | hc
            · exact hm 0 (by decide) (Or.inl hc)
            · obtain ⟨j, w, hw, hord, hl⟩ := hc
              have hj : j = 0 := by omega
              subst hj
              exact hm w hw (Or.inr hl)
            · exact absurd hc.1 (by decide)
        | succ k =>
          have hidx : numDestStaves + i + (k + 1) = numDestStaves + (i + 1) + k := by omega
          have hkeep := hf1.2.1 destLoc.systemIndex (numDestStaves + i + (k + 1)) v
            (fun hc => by omega)
          rw [← hkeep, hidx]
          apply hrest2 k v hv (by simpa using hk)
          rcases hcond with hc | hc | hc
          · exact Or.inl (hm 0 (by decide) (Or.inl hc))
          · obtain ⟨j, w, hw, hord, hl⟩ := hc
            cases j with
            | zero => exact Or.inl (hm w hw (Or.inr hl))
            | succ j =>
              rw [latchOf_cons_succ] at hl
              exact Or.inr (Or.inl ⟨j, w, hw, by omega, hl⟩)
          · obtain ⟨hv0b, srcStaff, srcVoice, hs, hvoice, hempty⟩ := hc
            simp only [List.getElem?_cons_succ] at hs
            exact Or.inr (Or.inr ⟨hv0b, srcStaff, srcVoice, hs, hvoice, hempty⟩)

/-- The count the body of the voice loop leaves is that of the check. -/
theorem mergeVoice_count (ext : MergeExternals) (srcBar nextSrcBar : Barline)
    (destLoc : ScoreLocation) (srcVoice : Voice) (v : Nat) (acc r : Score × Nat)
    (h : mergeVoice ext srcBar nextSrcBar destLoc srcVoice v acc = some r) :
    r.2 = checkMultiBarRest (positionsInBar ext srcBar nextSrcBar srcVoice) acc.2 := by
  unfold mergeVoice at h
  simp only [] at h
  split_ifs at h
  · split at h
    · cases h
    · split at h
      · cases h
      · cases h
        rfl
  · cases h
    rfl
  · cases h
    rfl

/-- The count the body of the staff loop leaves is that of the checks of voice 0
and voice 1, in this order. -/
theorem mergeStaff_count (ext : MergeExternals) (srcBar nextSrcBar : Barline)
    (destLoc : ScoreLocation) (numDestStaves i : Nat) (srcStaff : Staff) (acc r : Score × Nat)
    (h : mergeStaff ext srcBar nextSrcBar destLoc numDestStaves i srcStaff acc = some r) :
    ∃ v0 v1, srcStaff.voices[0]? = some v0 ∧ srcStaff.voices[1]? = some v1
      ∧ r.2 = checkMultiBarRest (positionsInBar ext srcBar nextSrcBar v1)
          (checkMultiBarRest (positionsInBar ext srcBar nextSrcBar v0) acc.2) := by
  unfold mergeStaff at h
  cases hsystem : acc.1.systems[destLoc.systemIndex]? with
  | none => rw [hsystem] at h; cases h
  | some destSystem =>
    rw [hsystem] at h
    simp only [] at h
    have hrange : List.range Staff.NUM_VOICES = [0, 1] := rfl
    rw [hrange, mergeVoices] at h
    cases hv0 : srcStaff.voices[0]? with
    | none => rw [hv0] at h; cases h
    | some v0 =>
      rw [hv0] at h
      simp only [] at h
      split at h
      · cases h
      · rename_i m hstep0
        rw [mergeVoices] at h
        cases hv1 : srcStaff.voices[1]? with
        | none => rw [hv1] at h; cases h
        | some v1 =>
          rw [hv1] at h
          simp only [] at h
          split at h
          · cases h
          · rename_i r2 hstep1
            simp only [mergeVoices, Option.some.injEq] at h
            subst h
            refine ⟨v0, v1, rfl, rfl, ?_⟩
            rw [mergeVoice_count ext srcBar nextSrcBar _ v1 1 m r2 hstep1,
              mergeVoice_count ext srcBar nextSrcBar _ v0 0 _ m hstep0]

/-- The count the staff loop latches: when the loop is entered with no count
running and leaves one, that count is the one of the first voice, in the order of
the loop, whose check gives a count. -/
theorem mergeStaves_latch (ext : MergeExternals) (srcBar nextSrcBar : Barline)
    (destLoc : ScoreLocation) (numDestStaves : Nat) :
    ∀ (staves : List Staff) (i : Nat) (acc r : Score × Nat),
      mergeStaves ext srcBar nextSrcBar destLoc numDestStaves i staves acc = some r →
      acc.2 = 0 → r.2 ≠ 0 →
      ∃ j w, w < Staff.NUM_VOICES ∧ latchOf ext srcBar nextSrcBar staves j w = r.2
        ∧ ∀ j2 w2, w2 < Staff.NUM_VOICES → (j2 < j ∨ (j2 = j ∧ w2 < w)) →
            latchOf ext srcBar nextSrcBar staves j2 w2 = 0 := by
  intro staves
  induction staves with
  | nil =>
    intro i acc r h hacc hr
    rw [mergeStaves] at h
    simp only [Option.some.injEq] at h
    subst h
    exact absurd hacc hr
  | cons s rest ih =>
    intro i acc r h hacc hr
    rw [mergeStaves] at h
    cases hstep : mergeStaff ext srcBar nextSrcBar destLoc numDestStaves i s acc with
    | none => rw [hstep] at h; cases h
    | some m =>
      rw [hstep] at h
      simp only [] at h
      obtain ⟨v0, v1, hv0, hv1, hc⟩ := mergeStaff_count ext srcBar nextSrcBar destLoc
        numDestStaves i s acc m hstep
      rw [hacc] at hc
      have hl0 := latchOf_cons_zero ext srcBar nextSrcBar s rest 0 v0 hv0
      have hl1 := latchOf_cons_zero ext srcBar nextSrcBar s rest 1 v1 hv1
      by_cases h0 : checkMultiBarRest (positionsInBar ext srcBar nextSrcBar v0) 0 = 0
      · rw [h0] at hc
        by_cases h1 : checkMultiBarRest (positionsInBar ext srcBar nextSrcBar v1) 0 = 0
        · rw [h1] at hc
          obtain ⟨j, w, hw, hl, hfirst⟩ := ih (i + 1) m r h hc hr
          refine ⟨j + 1, w, hw, ?_, ?_⟩
          · rw [latchOf_cons_succ]
            exact hl
          · intro j2 w2 hw2 hord
            cases j2 with
            | zero =>
              have hw3 : w2 = 0 ∨ w2 = 1 := by
                have : w2 < 2 := hw2
                omega
              rcases hw3 with hw3 | hw3
              · rw [hw3, hl0]
                exact h0
              · rw [hw3, hl1]
                exact h1
            | succ j2 =>
              rw [latchOf_cons_succ]
              exact hfirst j2 w2 hw2 (by omega)
        · have hrun : r.2 = m.2 :=
            ((mergeStaves_running ext srcBar nextSrcBar destLoc numDestStaves rest (i + 1) m
              (by rw [hc]; exact h1)).2 r h).1
          refine ⟨0, 1, by decide, ?_, ?_⟩
          · rw [hl1, hrun, hc]
          · intro j2 w2 hw2 hord
            have hj : j2 = 0 ∧ w2 = 0 := by omega
            rw [hj.1, hj.2, hl0]
            exact h0
      · rw [checkMultiBarRest_running _ _ h0] at hc
        have hrun : r.2 = m.2 :=
          ((mergeStaves_running ext srcBar nextSrcBar destLoc numDestStaves rest (i + 1) m
            (by rw [hc]; exact h0)).2 r h).1
        refine ⟨0, 0, by decide, ?_, ?_⟩
        · rw [hl0, hrun, hc]
        · intro j2 w2 hw2 hord
          omega

/-- The function `mergePlayerChanges` keeps the barlines and every position. -/
theorem mergePlayerChanges_positions (ext : MergeExternals) (srcScore destScore : Score)
    (srcLoc destLoc : ScoreLocation) (prev : Option PlayerChange)
    (numDestPlayers numDestInstruments numDestStaves : Nat) :
    ∀ r, mergePlayerChanges ext srcScore srcLoc destScore destLoc prev numDestPlayers
        numDestInstruments numDestStaves = some r →
      r.1.barlinesOf = destScore.barlinesOf
      ∧ ∀ s t v, r.1.positionsAt s t v = destScore.positionsAt s t v := by
  unfold mergePlayerChanges
  cases srcScore.systems[srcLoc.systemIndex]? with
  | none => exact fun _ h => by cases h
  | some srcSystem =>
    cases hdest : destScore.systems[destLoc.systemIndex]? with
    | none => exact fun _ h => by cases h
    | some destSystem =>
      cases srcLoc.getBarline srcScore with
      | none => exact fun _ h => by cases h
      | some srcBar =>
        cases srcLoc.getNextBarline srcScore with
        | none => exact fun _ h => by cases h
        | some nextSrcBar =>
          cases destLoc.getBarline destScore with
          | none => exact fun _ h => by cases h
          | some destBar =>
            cases destLoc.getNextBarline destScore with
            | none => exact fun _ h => by cases h
            | some nextDestBar =>
              intro r h
              simp only [] at h
              have hset : ∀ system : System, system.barlines = destSystem.barlines →
                  system.staves = destSystem.staves →
                  (destScore.setSystem destLoc.systemIndex system).barlinesOf
                      = destScore.barlinesOf
                  ∧ ∀ s t v, (destScore.setSystem destLoc.systemIndex system).positionsAt s t v
                      = destScore.positionsAt s t v := by
                intro system hb hs
                refine ⟨barlinesOf_setSystem _ _ destSystem _ hdest hb, ?_⟩
                intro s t v
                rw [positionsAt_setSystem _ _ destSystem _ hdest]
                split_ifs with hsys
                · rw [System.positionsAt_of_staves system destSystem hs]
                  unfold Score.positionsAt
                  rw [hsys, hdest]
                · rfl
              split_ifs at h with hnone hempty
              · cases h
                exact ⟨rfl, fun _ _ _ => rfl⟩
              · split at h
                · cases h
                · split at h
                  · cases h
                  · cases h
                    exact hset _ rfl rfl
              · split at h
                · cases h
                · split at h
                  · cases h
                  · cases h
                    exact hset _ rfl rfl

/-- The destination cursor after the step past the barline is in the same bar. -/
theorem moveHorizontal_bar (loc : ScoreLocation) :
    (if loc.positionIndex ≠ 0 then Caret.moveHorizontal loc else loc).systemIndex
        = loc.systemIndex
    ∧ (if loc.positionIndex ≠ 0 then Caret.moveHorizontal loc else loc).barlineIndex
        = loc.barlineIndex := by
  split_ifs
  · exact ⟨rfl, rfl⟩
  · exact ⟨rfl, rfl⟩

/-- The parts of an iteration of the loop of `merge` up to the end of the staff
loop, one after the other: the lookups, the player changes (merged when no count
is running), and the staff loop. -/
theorem mergeBar_parts (ext : MergeExternals) (srcScore : Score)
    (numDestPlayers numDestInstruments : Nat) (st mid : MergeState)
    (h : mergeBar ext srcScore numDestPlayers numDestInstruments st = some mid) :
    ∃ (srcSystem destSystem : System) (destBar srcBar nextSrcBar : Barline)
        (changes : Score × Option PlayerChange) (r : Score × Nat),
      srcScore.systems[st.srcLoc.systemIndex]? = some srcSystem
      ∧ st.destScore.systems[st.destLoc.systemIndex]? = some destSystem
      ∧ st.destLoc.getBarline st.destScore = some destBar
      ∧ st.srcLoc.getBarline srcScore = some srcBar
      ∧ st.srcLoc.getNextBarline srcScore = some nextSrcBar
      ∧ mid.numDestStaves
          = (if (st.destLoc.systemIndex : Int) ≠ st.currentSystemIndex then
              destSystem.staves.length else st.numDestStaves)
      ∧ mid.currentSystemIndex
          = (if (st.destLoc.systemIndex : Int) ≠ st.currentSystemIndex then
              st.currentSystemIndex + 1 else st.currentSystemIndex)
      ∧ mid.destLoc
          = (if st.destLoc.positionIndex ≠ 0 then Caret.moveHorizontal st.destLoc
              else st.destLoc)
      ∧ mid.srcLoc = st.srcLoc
      ∧ (if st.multibarRestCount = 0 then
            mergePlayerChanges ext srcScore st.srcLoc st.destScore st.destLoc
              st.prevPlayerChange numDestPlayers numDestInstruments mid.numDestStaves
          else some (st.destScore, st.prevPlayerChange)) = some changes
      ∧ mergeStaves ext srcBar nextSrcBar mid.destLoc mid.numDestStaves 0 srcSystem.staves
          (changes.1, st.multibarRestCount) = some r
      ∧ mid.destScore = r.1
      ∧ mid.multibarRestCount = r.2
      ∧ mid.prevPlayerChange = changes.2 := by
  revert h
  unfold mergeBar
  cases srcScore.systems[st.srcLoc.systemIndex]? with
  | none => exact fun h => by cases h
  | some srcSystem =>
    cases st.destScore.systems[st.destLoc.systemIndex]? with
    | none => exact fun h => by cases h
    | some destSystem =>
      cases st.destLoc.getBarline st.destScore with
      | none => exact fun h => by cases h
      | some destBar =>
        cases st.srcLoc.getBarline srcScore with
        | none => exact fun h => by cases h
        | some srcBar =>
          cases st.srcLoc.getNextBarline srcScore with
          | none => exact fun h => by cases h
          | some nextSrcBar =>
            intro h
            simp only [] at h
            cases hmerged : (if st.multibarRestCount = 0 then
                mergePlayerChanges ext srcScore st.srcLoc st.destScore st.destLoc
                  st.prevPlayerChange numDestPlayers numDestInstruments
                  (if decide ((st.destLoc.systemIndex : Int) ≠ st.currentSystemIndex) = true
                    then destSystem.staves.length else st.numDestStaves)
              else some (st.destScore, st.prevPlayerChange)) with
            | none => rw [hmerged] at h; cases h
            | some changes =>
              rw [hmerged] at h
              obtain ⟨destScore, prevPlayerChange⟩ := changes
              simp only [] at h
              cases hstaves : mergeStaves ext srcBar nextSrcBar
                  (if st.destLoc.positionIndex ≠ 0 then Caret.moveHorizontal st.destLoc
                    else st.destLoc)
                  (if decide ((st.destLoc.systemIndex : Int) ≠ st.currentSystemIndex) = true
                    then destSystem.staves.length else st.numDestStaves)
                  0 srcSystem.staves (destScore, st.multibarRestCount) with
              | none => rw [hstaves] at h; cases h
              | some r =>
                rw [hstaves] at h
                obtain ⟨merged, multibarRestCount⟩ := r
                simp only [Option.some.injEq] at h
                subst h
                exact ⟨srcSystem, destSystem, destBar, srcBar, nextSrcBar,
                  (destScore, prevPlayerChange), (merged, multibarRestCount),
                  rfl, rfl, rfl, rfl, rfl, by simp only [decide_eq_true_eq],
                  by simp only [decide_eq_true_eq], rfl, rfl, hmerged, hstaves, rfl, rfl, rfl⟩

/-- An iteration of the loop of `merge` up to the end of the staff loop, by what
it does to the positions.  Only the voices of the staves for the source staves
change, and only inside the bar; every voice from the first that latches a count
on (every voice when a count is running), and voice 0 of a staff when the source
bar holds no position of it, gets the whole rest of the bar and nothing else. -/
theorem mergeBar_effect (inBar : Prop) (ext : MergeExternals) (hlocal : InsertsLocally ext)
    (hin : inBar → InsertsInBar ext) (srcScore : Score)
    (numDestPlayers numDestInstruments : Nat) (st mid : MergeState) (bar : Barline) (hi : Nat)
    (hbar : st.destLoc.getBarline st.destScore = some bar)
    (hnext : inBar → NextBarAt st.destScore st.destLoc bar hi)
    (h : mergeBar ext srcScore numDestPlayers numDestInstruments st = some mid) :
    ∃ (srcSystem : System) (srcBar nextSrcBar : Barline),
      srcScore.systems[st.srcLoc.systemIndex]? = some srcSystem
      ∧ st.srcLoc.getBarline srcScore = some srcBar
      ∧ st.srcLoc.getNextBarline srcScore = some nextSrcBar
      ∧ StepFrame inBar st.destLoc.systemIndex bar.position hi
          (fun t w => mid.numDestStaves ≤ t ∧ t < mid.numDestStaves + srcSystem.staves.length
            ∧ w < Staff.NUM_VOICES) st.destScore mid.destScore
      ∧ ∀ k v, v < Staff.NUM_VOICES → k < srcSystem.staves.length →
          (st.multibarRestCount ≠ 0
            ∨ (∃ j w, w < Staff.NUM_VOICES ∧ (j < k ∨ (j = k ∧ w ≤ v))
                ∧ latchOf ext srcBar nextSrcBar srcSystem.staves j w ≠ 0)
            ∨ (v = 0 ∧ EmptyInBar ext srcBar nextSrcBar srcSystem.staves k)) →
          mid.destScore.positionsAt st.destLoc.systemIndex (mid.numDestStaves + k) v
            = st.destScore.positionsAt st.destLoc.systemIndex (mid.numDestStaves + k) v
              ++ [wholeRest (bar.position + 1)] := by
  obtain ⟨srcSystem, destSystem, destBar, srcBar, nextSrcBar, changes, r, hsrc, hdest, hdbar,
    hsbar, hsnext, hnds, hcur, hloc, hsloc, hchanges, hstaves, hscore, hcount, hprev⟩ :=
    mergeBar_parts ext srcScore numDestPlayers numDestInstruments st mid h
  have hsys : mid.destLoc.systemIndex = st.destLoc.systemIndex := by
    rw [hloc]
    exact (moveHorizontal_bar st.destLoc).1
  have hidx : mid.destLoc.barlineIndex = st.destLoc.barlineIndex := by
    rw [hloc]
    exact (moveHorizontal_bar st.destLoc).2
  have hkept : changes.1.barlinesOf = st.destScore.barlinesOf
      ∧ ∀ s t v, changes.1.positionsAt s t v = st.destScore.positionsAt s t v := by
    by_cases hzero : st.multibarRestCount = 0
    · rw [if_pos hzero] at hchanges
      exact mergePlayerChanges_positions _ _ _ _ _ _ _ _ _ changes hchanges
    · rw [if_neg hzero] at hchanges
      simp only [Option.some.injEq] at hchanges
      rw [← hchanges]
      exact ⟨rfl, fun _ _ _ => rfl⟩
  have hbar2 : mid.destLoc.getBarline (changes.1, st.multibarRestCount).1 = some bar :=
    (getBarline_transfer st.destScore changes.1 st.destLoc mid.destLoc hkept.1 hsys hidx).trans
      hbar
  have hnext2 : inBar → NextBarAt (changes.1, st.multibarRestCount).1 mid.destLoc bar hi :=
    fun hyes => (hnext hyes).of_barlinesOf hkept.1 hsys hidx
  obtain ⟨hframe, _, _, hrests⟩ := mergeStaves_effect inBar ext hlocal hin srcBar nextSrcBar
    mid.destLoc mid.numDestStaves bar hi srcSystem.staves 0 (changes.1, st.multibarRestCount) r
    hbar2 hnext2 hstaves
  rw [hsys] at hframe hrests
  simp only [Nat.add_zero] at hframe hrests
  rw [← hscore] at hframe hrests
  refine ⟨srcSystem, srcBar, nextSrcBar, hsrc, hsbar, hsnext, ?_, ?_⟩
  · exact (StepFrame.of_positionsAt _ _ _ _ _ _ _ hkept.1 hkept.2).trans hframe
  · intro k v hv hk hcond
    rw [hrests k v hv hk hcond, hkept.2]

/-- The end of an iteration with a running count that goes on to the next
iteration: the count goes down by one, `prevPlayerChange` stays, and the source
cursor stays while the count is above zero and moves when it has reached zero. -/
theorem mergeAdvance_running_next (srcScore : Score) (st next : MergeState)
    (hcount : st.multibarRestCount ≠ 0)
    (h : mergeAdvance srcScore st = MergeStep.next next) :
    next.multibarRestCount = st.multibarRestCount - 1
    ∧ next.prevPlayerChange = st.prevPlayerChange
    ∧ next.destScore = st.destScore
    ∧ (2 ≤ st.multibarRestCount → next.srcLoc = st.srcLoc)
    ∧ (st.multibarRestCount = 1 →
        next.srcLoc = (Caret.moveToNextBar srcScore st.srcLoc).getD st.srcLoc) := by
  obtain ⟨_, hmove⟩ := mergeAdvance_next srcScore st next h
  obtain ⟨hmany, hone⟩ := mergeAdvance_running srcScore st next.destLoc hcount hmove
  by_cases h2 : 2 ≤ st.multibarRestCount
  · rw [hmany h2] at h
    simp only [MergeStep.next.injEq] at h
    rw [← h]
    exact ⟨rfl, rfl, rfl, fun _ => rfl, fun h1 => by omega⟩
  · have h1 : st.multibarRestCount = 1 := by omega
    rw [hone h1] at h
    refine ⟨?_, ?_, ?_, fun hc => absurd hc h2, fun _ => ?_⟩
    · cases hsrc : Caret.moveToNextBar srcScore st.srcLoc with
      | none =>
        rw [hsrc] at h
        simp only [] at h
        split_ifs at h
        simp only [MergeStep.next.injEq] at h
        rw [← h, h1]
      | some srcLoc =>
        rw [hsrc] at h
        simp only [MergeStep.next.injEq] at h
        rw [← h, h1]
    · cases hsrc : Caret.moveToNextBar srcScore st.srcLoc with
      | none =>
        rw [hsrc] at h
        simp only [] at h
        split_ifs at h
        simp only [MergeStep.next.injEq] at h
        rw [← h]
      | some srcLoc =>
        rw [hsrc] at h
        simp only [MergeStep.next.injEq] at h
        rw [← h]
    · cases hsrc : Caret.moveToNextBar srcScore st.srcLoc with
      | none =>
        rw [hsrc] at h
        simp only [] at h
        split_ifs at h
        simp only [MergeStep.next.injEq] at h
        rw [← h]
      | some srcLoc =>
        rw [hsrc] at h
        simp only [MergeStep.next.injEq] at h
        rw [← h]
    · cases hsrc : Caret.moveToNextBar srcScore st.srcLoc with
      | none =>
        rw [hsrc] at h
        simp only [] at h
        split_ifs at h
        simp only [MergeStep.next.injEq] at h
        rw [← h]
        rfl
      | some srcLoc =>
        rw [hsrc] at h
        simp only [MergeStep.next.injEq] at h
        rw [← h]
        rfl

/-- An iteration of the loop that goes on to the next one, by its two parts. -/
theorem mergeIteration_next (ext : MergeExternals) (srcScore : Score)
    (numDestPlayers numDestInstruments : Nat) (st next : MergeState)
    (h : mergeIteration ext srcScore numDestPlayers numDestInstruments st
      = some (MergeStep.next next)) :
    ∃ mid, mergeBar ext srcScore numDestPlayers numDestInstruments st = some mid
      ∧ mergeAdvance srcScore mid = MergeStep.next next := by
  unfold mergeIteration at h
  cases hbar : mergeBar ext srcScore numDestPlayers numDestInstruments st with
  | none => rw [hbar] at h; cases h
  | some mid =>
    rw [hbar] at h
    simp only [Option.map_some', Option.some.injEq] at h
    exact ⟨mid, rfl, h⟩

/-- The iterations before iteration `k + 1`: the first of them, and `k` more. -/
theorem mergeIterations_succ (ext : MergeExternals) (srcScore : Score)
    (numDestPlayers numDestInstruments : Nat) (k : Nat) (st result : MergeState)
    (h : mergeIterations ext srcScore numDestPlayers numDestInstruments (k + 1) st
      = some result) :
    ∃ next, mergeIteration ext srcScore numDestPlayers numDestInstruments st
        = some (MergeStep.next next)
      ∧ mergeIterations ext srcScore numDestPlayers numDestInstruments k next = some result := by
  rw [mergeIterations] at h
  split at h
  · rename_i next hnext
    exact ⟨next, hnext, h⟩
  · cases h

/-- The iterations while a count is running.  Before the count has run out it
goes down by one in each iteration, and the source cursor and
`prevPlayerChange` stay; in the iteration in which it runs out the source cursor
moves to its next bar. -/
theorem mergeIterations_running (ext : MergeExternals) (srcScore : Score)
    (numDestPlayers numDestInstruments : Nat) :
    ∀ (n : Nat) (s sn : MergeState), s.multibarRestCount ≠ 0 → n ≤ s.multibarRestCount →
      mergeIterations ext srcScore numDestPlayers numDestInstruments n s = some sn →
      (n < s.multibarRestCount →
        sn.multibarRestCount = s.multibarRestCount - n ∧ sn.srcLoc = s.srcLoc
        ∧ sn.prevPlayerChange = s.prevPlayerChange)
      ∧ (n = s.multibarRestCount →
        sn.multibarRestCount = 0
        ∧ sn.srcLoc = (Caret.moveToNextBar srcScore s.srcLoc).getD s.srcLoc
        ∧ sn.prevPlayerChange = s.prevPlayerChange) := by
  intro n
  induction n with
  | zero =>
    intro s sn hcount _ h
    rw [mergeIterations] at h
    simp only [Option.some.injEq] at h
    subst h
    exact ⟨fun _ => ⟨rfl, rfl, rfl⟩, fun hc => absurd hc.symm hcount⟩
  | succ n ih =>
    intro s sn hcount hle h
    obtain ⟨s1, hiter, hrest⟩ := mergeIterations_succ ext srcScore numDestPlayers
      numDestInstruments n s sn h
    obtain ⟨m, hbar, hadv⟩ := mergeIteration_next ext srcScore numDestPlayers
      numDestInstruments s s1 hiter
    obtain ⟨hmc, hms, hmp, _⟩ := (mergeBar_running ext srcScore numDestPlayers
      numDestInstruments s hcount).2 m hbar
    obtain ⟨h1c, h1p, _, h1many, h1one⟩ := mergeAdvance_running_next srcScore m s1
      (by rw [hmc]; exact hcount) hadv
    rw [hmc] at h1c h1many h1one
    rw [hms] at h1many h1one
    rw [hmp] at h1p
    by_cases h2 : 2 ≤ s.multibarRestCount
    · have hs1 : s1.multibarRestCount ≠ 0 := by omega
      obtain ⟨hlt, heq⟩ := ih s1 sn hs1 (by omega) hrest
      constructor
      · intro hn
        obtain ⟨a, b, c⟩ := hlt (by omega)
        exact ⟨by omega, b.trans (h1many h2), c.trans h1p⟩
      · intro hn
        obtain ⟨a, b, c⟩ := heq (by omega)
        refine ⟨a, ?_, c.trans h1p⟩
        rw [b, h1many h2]
    · have hone : s.multibarRestCount = 1 := by omega
      have hn : n = 0 := by omega
      subst hn
      rw [mergeIterations] at hrest
      simp only [Option.some.injEq] at hrest
      subst hrest
      constructor
      · intro hlt
        omega
      · intro _
        exact ⟨by omega, h1one hone, h1p⟩

/-- Changing a voice of a staff changes the positions of that voice only. -/
theorem positionsAt_modifyVoice (system : System) (t0 v0 : Nat) (staff : Staff)
    (f : Voice → Voice) (hstaff : system.staves[t0]? = some staff) (t v : Nat) :
    (system.setStaff t0 (staff.modifyVoice v0 f)).positionsAt t v
      = if t = t0 ∧ v = v0 then
          (match staff.voices[v0]? with
           | none => []
           | some voice => (f voice).positions)
        else system.positionsAt t v := by
  have hlt : t0 < system.staves.length := by
    by_contra hcon
    rw [List.getElem?_eq_none (by omega)] at hstaff
    cases hstaff
  unfold System.positionsAt System.setStaff
  simp only []
  by_cases ht : t = t0
  · subst ht
    rw [List.getElem?_set_self hlt, hstaff]
    simp only []
    unfold Staff.positionsOf Staff.modifyVoice
    simp only []
    by_cases hv : v = v0
    · subst hv
      rw [List.getElem?_modify_eq]
      simp only [and_self, if_true]
      cases staff.voices[v]? with
      | none => rfl
      | some voice => rfl
    · rw [List.getElem?_modify_ne _ _ (fun h2 => hv h2.symm)]
      simp only [hv, and_false, if_false]
  · rw [List.getElem?_set_ne (fun h2 => ht h2.symm)]
    simp only [ht, false_and, if_false]

/-- Appending positions to the voice at a location: the barlines and the other
voices stay, and the voice at the location has the positions appended if it
is there. -/
theorem modifyVoiceAt_append (score : Score) (loc : ScoreLocation) (added : List Position)
    (groups : List IrregularGrouping) :
    (score.modifyVoiceAt loc
        (fun voice => ⟨voice.positions ++ added, voice.irregularGroupings ++ groups⟩)).barlinesOf
      = score.barlinesOf
    ∧ (∀ s t v, ¬ (s = loc.systemIndex ∧ t = loc.staffIndex ∧ v = loc.voiceIndex) →
        (score.modifyVoiceAt loc
          (fun voice =>
            ⟨voice.positions ++ added, voice.irregularGroupings ++ groups⟩)).positionsAt s t v
          = score.positionsAt s t v)
    ∧ ((score.modifyVoiceAt loc
          (fun voice => ⟨voice.positions ++ added, voice.irregularGroupings ++ groups⟩)).positionsAt
            loc.systemIndex loc.staffIndex loc.voiceIndex
          = score.positionsAt loc.systemIndex loc.staffIndex loc.voiceIndex ++ added
      ∨ (score.modifyVoiceAt loc
          (fun voice => ⟨voice.positions ++ added, voice.irregularGroupings ++ groups⟩)).positionsAt
            loc.systemIndex loc.staffIndex loc.voiceIndex
          = score.positionsAt loc.systemIndex loc.staffIndex loc.voiceIndex) := by
  unfold Score.modifyVoiceAt
  cases hsystem : score.systems[loc.systemIndex]? with
  | none => exact ⟨rfl, fun _ _ _ _ => rfl, Or.inr rfl⟩
  | some system =>
    simp only []
    cases hstaff : system.staves[loc.staffIndex]? with
    | none => exact ⟨rfl, fun _ _ _ _ => rfl, Or.inr rfl⟩
    | some staff =>
      simp only []
      have hscore : ∀ t v, score.positionsAt loc.systemIndex t v = system.positionsAt t v := by
        intro t v
        unfold Score.positionsAt
        rw [hsystem]
      refine ⟨barlinesOf_setSystem _ _ system _ hsystem rfl, ?_, ?_⟩
      · intro s t v hn
        rw [positionsAt_setSystem _ _ system _ hsystem]
        by_cases hs : s = loc.systemIndex
        · rw [if_pos hs, positionsAt_modifyVoice system _ _ staff _ hstaff,
            if_neg (fun hc => hn ⟨hs, hc.1, hc.2⟩), hs, hscore]
        · rw [if_neg hs]
      · rw [positionsAt_setSystem _ _ system _ hsystem, if_pos rfl,
          positionsAt_modifyVoice system _ _ staff _ hstaff, if_pos ⟨rfl, rfl⟩, hscore]
        unfold System.positionsAt Staff.positionsOf
        rw [hstaff]
        simp only []
        cases staff.voices[loc.voiceIndex]? with
        | none => exact Or.inr rfl
        | some voice => exact Or.inl rfl

/-- The sample `InsertNotes` leaves the barlines and the other voices alone. -/
theorem sampleMergeExternals_insertsLocally : InsertsLocally sampleMergeExternals := by
  intro score loc positions groups
  obtain ⟨h1, h2, _⟩ := modifyVoiceAt_append score loc positions groups
  exact ⟨h1, h2⟩

/-- C19 as the code has it, for an iteration of the loop of `merge` that is
entered with no count running and latches a count `N` (`mid` is the state at the
end of its staff loop, `N` its count).  `N` is the count the check gives for the
first voice, in the order of the loop, whose check gives a count, and the check
gives the count of the first position with a multi-bar rest.  In the bar of the
latch the player changes are merged, and every voice from the latching one on
gets the whole rest at `destBar.position + 1` and nothing else.  At the head of
each of the `N - 1` iterations after it the count is `N - n`, the source cursor
is where it was, and in that bar player changes are not merged, the collaborators
(`InsertNotes` among them) have no part, every voice of every staff for a source
staff gets the whole rest of the bar and nothing else, and every other voice is
as before.  At the head of iteration `N` the count is zero and the source cursor
has moved to its next bar. -/
theorem merge_multibar_rest (ext : MergeExternals) (srcScore : Score)
    (numDestPlayers numDestInstruments : Nat) (st mid : MergeState) (destBar : Barline)
    (srcSystem : System) (srcBar nextSrcBar : Barline)
    (hlocal : InsertsLocally ext)
    (hzero : st.multibarRestCount = 0)
    (hmid : mergeBar ext srcScore numDestPlayers numDestInstruments st = some mid)
    (hlatched : mid.multibarRestCount ≠ 0)
    (hbar : st.destLoc.getBarline st.destScore = some destBar)
    (hsrc : srcScore.systems[st.srcLoc.systemIndex]? = some srcSystem)
    (hsbar : st.srcLoc.getBarline srcScore = some srcBar)
    (hsnext : st.srcLoc.getNextBarline srcScore = some nextSrcBar) :
    (∃ j w, w < Staff.NUM_VOICES
        ∧ latchOf ext srcBar nextSrcBar srcSystem.staves j w = mid.multibarRestCount
        ∧ ∀ j2 w2, w2 < Staff.NUM_VOICES → (j2 < j ∨ (j2 = j ∧ w2 < w)) →
            latchOf ext srcBar nextSrcBar srcSystem.staves j2 w2 = 0)
    ∧ (∀ (positions : List Position) (pos : Position),
        positions.find? (fun p => p.hasMultiBarRest) = some pos →
        checkMultiBarRest positions 0 = pos.getMultiBarRestCount)
    ∧ (∃ changes, mergePlayerChanges ext srcScore st.srcLoc st.destScore st.destLoc
          st.prevPlayerChange numDestPlayers numDestInstruments mid.numDestStaves = some changes
        ∧ mid.prevPlayerChange = changes.2)
    ∧ (∀ k v, v < Staff.NUM_VOICES → k < srcSystem.staves.length →
        (∃ j w, w < Staff.NUM_VOICES ∧ (j < k ∨ (j = k ∧ w ≤ v))
          ∧ latchOf ext srcBar nextSrcBar srcSystem.staves j w ≠ 0) →
        mid.destScore.positionsAt st.destLoc.systemIndex (mid.numDestStaves + k) v
          = st.destScore.positionsAt st.destLoc.systemIndex (mid.numDestStaves + k) v
            ++ [wholeRest (destBar.position + 1)])
    ∧ (∀ (n : Nat) (stn : MergeState), 1 ≤ n → n < mid.multibarRestCount →
        mergeIterations ext srcScore numDestPlayers numDestInstruments n st = some stn →
        stn.multibarRestCount = mid.multibarRestCount - n
        ∧ stn.srcLoc = st.srcLoc
        ∧ stn.prevPlayerChange = mid.prevPlayerChange
        ∧ (∀ other : MergeExternals,
            mergeBar other srcScore numDestPlayers numDestInstruments stn
              = mergeBar ext srcScore numDestPlayers numDestInstruments stn)
        ∧ ∀ (midn : MergeState) (barn : Barline),
            mergeBar ext srcScore numDestPlayers numDestInstruments stn = some midn →
            stn.destLoc.getBarline stn.destScore = some barn →
            midn.multibarRestCount = stn.multibarRestCount
            ∧ midn.srcLoc = st.srcLoc
            ∧ midn.prevPlayerChange = stn.prevPlayerChange
            ∧ midn.destScore.systems.map (fun system => system.playerChanges)
                = stn.destScore.systems.map (fun system => system.playerChanges)
            ∧ (∀ k v, v < Staff.NUM_VOICES → k < srcSystem.staves.length →
                midn.destScore.positionsAt stn.destLoc.systemIndex (midn.numDestStaves + k) v
                  = stn.destScore.positionsAt stn.destLoc.systemIndex
                      (midn.numDestStaves + k) v
                    ++ [wholeRest (barn.position + 1)])
            ∧ ∀ s t v,
                ¬ (s = stn.destLoc.systemIndex ∧ midn.numDestStaves ≤ t
                  ∧ t < midn.numDestStaves + srcSystem.staves.length
                  ∧ v < Staff.NUM_VOICES) →
                midn.destScore.positionsAt s t v = stn.destScore.positionsAt s t v)
    ∧ ∀ stN : MergeState,
        mergeIterations ext srcScore numDestPlayers numDestInstruments mid.multibarRestCount st
          = some stN →
        stN.multibarRestCount = 0
        ∧ stN.srcLoc = (Caret.moveToNextBar srcScore st.srcLoc).getD st.srcLoc := by
  obtain ⟨srcSystem2, destSystem, destBar2, srcBar2, nextSrcBar2, changes, r, hsrc2, hdest,
    hdbar, hsbar2, hsnext2, hnds, hcur, hloc, hsloc, hchanges, hstaves, hscore, hcount, hprev⟩ :=
    mergeBar_parts ext srcScore numDestPlayers numDestInstruments st mid hmid
  rw [hsrc] at hsrc2
  rw [hsbar] at hsbar2
  rw [hsnext] at hsnext2
  simp only [Option.some.injEq] at hsrc2 hsbar2 hsnext2
  subst hsrc2 hsbar2 hsnext2
  -- the iteration after the latch
  have hfirst : ∀ (n : Nat) (sn : MergeState),
      mergeIterations ext srcScore numDestPlayers numDestInstruments (n + 1) st = some sn →
      ∃ s1, mergeAdvance srcScore mid = MergeStep.next s1
        ∧ mergeIterations ext srcScore numDestPlayers numDestInstruments n s1 = some sn := by
    intro n sn h
    obtain ⟨s1, hiter, hrest⟩ := mergeIterations_succ ext srcScore numDestPlayers
      numDestInstruments n st sn h
    obtain ⟨m, hm, hadv⟩ := mergeIteration_next ext srcScore numDestPlayers
      numDestInstruments st s1 hiter
    rw [hmid] at hm
    simp only [Option.some.injEq] at hm
    subst hm
    exact ⟨s1, hadv, hrest⟩
  refine ⟨?_, ?_, ?_, ?_, ?_, ?_⟩
  · have hl := mergeStaves_latch ext srcBar nextSrcBar mid.destLoc mid.numDestStaves
      srcSystem.staves 0 (changes.1, st.multibarRestCount) r hstaves hzero
      (by rw [← hcount]; exact hlatched)
    rw [← hcount] at hl
    exact hl
  · intro positions pos h
    unfold checkMultiBarRest
    simp only [if_true, h]
  · rw [if_pos hzero] at hchanges
    exact ⟨changes, hchanges, hprev⟩
  · intro k v hv hk hcond
    obtain ⟨srcSystem3, srcBar3, nextSrcBar3, hsrc3, hsbar3, hsnext3, _, hrests⟩ :=
      mergeBar_effect False ext hlocal (fun hf => hf.elim) srcScore numDestPlayers
        numDestInstruments st mid destBar 0 hbar (fun hf => hf.elim) hmid
    rw [hsrc] at hsrc3
    rw [hsbar] at hsbar3
    rw [hsnext] at hsnext3
    simp only [Option.some.injEq] at hsrc3 hsbar3 hsnext3
    subst hsrc3 hsbar3 hsnext3
    exact hrests k v hv hk (Or.inr (Or.inl hcond))
  · intro n stn hn1 hnN hiter
    obtain ⟨n, rfl⟩ : ∃ m, n = m + 1 := ⟨n - 1, by omega⟩
    obtain ⟨s1, hadv, hrest⟩ := hfirst n stn hiter
    obtain ⟨h1c, h1p, _, h1many, _⟩ := mergeAdvance_running_next srcScore mid s1 hlatched hadv
    have h1s : s1.srcLoc = st.srcLoc := (h1many (by omega)).trans hsloc
    obtain ⟨hlt, _⟩ := mergeIterations_running ext srcScore numDestPlayers numDestInstruments
      n s1 stn (by omega) (by omega) hrest
    obtain ⟨hnc, hns, hnp⟩ := hlt (by omega)
    have hstn : stn.multibarRestCount ≠ 0 := by omega
    obtain ⟨hother, hrun⟩ := mergeBar_running ext srcScore numDestPlayers numDestInstruments
      stn hstn
    refine ⟨by omega, hns.trans h1s, hnp.trans h1p, hother, ?_⟩
    intro midn barn hmidn hbarn
    obtain ⟨hrc, hrs, hrp, hrchanges⟩ := hrun midn hmidn
    obtain ⟨srcSystem3, srcBar3, nextSrcBar3, hsrc3, _, _, hframe, hrests⟩ :=
      mergeBar_effect False ext hlocal (fun hf => hf.elim) srcScore numDestPlayers
        numDestInstruments stn midn barn 0 hbarn (fun hf => hf.elim) hmidn
    rw [hns.trans h1s, hsrc] at hsrc3
    simp only [Option.some.injEq] at hsrc3
    subst hsrc3
    refine ⟨hrc, hrs.trans (hns.trans h1s), hrp, hrchanges, ?_, ?_⟩
    · intro k v hv hk
      exact hrests k v hv hk (Or.inl hstn)
    · intro s t v hnot
      exact hframe.2.1 s t v hnot
  · intro stN hiter
    obtain ⟨n, hn⟩ : ∃ m, mid.multibarRestCount = m + 1 :=
      ⟨mid.multibarRestCount - 1, by omega⟩
    rw [hn] at hiter
    obtain ⟨s1, hadv, hrest⟩ := hfirst n stN hiter
    obtain ⟨h1c, _, _, h1many, h1one⟩ := mergeAdvance_running_next srcScore mid s1 hlatched hadv
    by_cases h2 : 2 ≤ mid.multibarRestCount
    · obtain ⟨_, heq⟩ := mergeIterations_running ext srcScore numDestPlayers
        numDestInstruments n s1 stN (by omega) (by omega) hrest
      obtain ⟨a, b, _⟩ := heq (by omega)
      refine ⟨a, ?_⟩
      rw [b, h1many h2, hsloc]
    · have hn0 : n = 0 := by omega
      subst hn0
      rw [mergeIterations] at hrest
      simp only [Option.some.injEq] at hrest
      subst hrest
      refine ⟨by omega, ?_⟩
      rw [h1one (by omega), hsloc]

set_option maxRecDepth 100000 in
/-- Witness of C19 as amended, on `sampleRestBass` merged into `sampleLongGuitar`.
The first iteration is entered with no count and latches the count 2 of the rest
in voice 0 of the bass staff; both voices of the staff for the bass get the whole
rest at 1.  The second iteration is entered with the count 1 and the source
cursor where it was; every collaborator gives the same bar, and voice 0 gets the
whole rest at 11.  The third iteration is entered with the count 0 and the
source cursor on its next bar. -/
theorem merge_multibar_rest_witness :
    sampleRestEntry.multibarRestCount = 0
    ∧ mergeBar sampleMergeExternals sampleRestBass 1 1 sampleRestEntry = some sampleRestLatched
    ∧ sampleRestLatched.multibarRestCount = 2
    ∧ sampleRestLatched.numDestStaves = 1
    ∧ sampleRestLatched.destScore.positionsAt sampleRestEntry.destLoc.systemIndex
          (sampleRestLatched.numDestStaves + 0) 0
        = sampleRestEntry.destScore.positionsAt sampleRestEntry.destLoc.systemIndex
            (sampleRestLatched.numDestStaves + 0) 0
          ++ [wholeRest ((sampleMergeBarline 0).position + 1)]
    ∧ sampleRestLatched.destScore.positionsAt sampleRestEntry.destLoc.systemIndex
          (sampleRestLatched.numDestStaves + 0) 1
        = sampleRestEntry.destScore.positionsAt sampleRestEntry.destLoc.systemIndex
            (sampleRestLatched.numDestStaves + 0) 1
          ++ [wholeRest ((sampleMergeBarline 0).position + 1)]
    ∧ mergeIterations sampleMergeExternals sampleRestBass 1 1 1 sampleRestEntry
        = some sampleRestState
    ∧ sampleRestState.multibarRestCount = sampleRestLatched.multibarRestCount - 1
    ∧ sampleRestState.srcLoc = sampleRestEntry.srcLoc
    ∧ (∀ other : MergeExternals,
        mergeBar other sampleRestBass 1 1 sampleRestState
          = mergeBar sampleMergeExternals sampleRestBass 1 1 sampleRestState)
    ∧ mergeBar sampleMergeExternals sampleRestBass 1 1 sampleRestState = some sampleRestRunning
    ∧ sampleRestRunning.destScore.positionsAt sampleRestState.destLoc.systemIndex
          (sampleRestRunning.numDestStaves + 0) 0
        = sampleRestState.destScore.positionsAt sampleRestState.destLoc.systemIndex
            (sampleRestRunning.numDestStaves + 0) 0
          ++ [wholeRest ((sampleMergeBarline 10).position + 1)]
    ∧ mergeIterations sampleMergeExternals sampleRestBass 1 1 sampleRestLatched.multibarRestCount
          sampleRestEntry
        = some sampleRestEnd
    ∧ sampleRestEnd.multibarRestCount = 0
    ∧ sampleRestEnd.srcLoc
        = (Caret.moveToNextBar sampleRestBass sampleRestEntry.srcLoc).getD
            sampleRestEntry.srcLoc
    ∧ sampleRestEnd.srcLoc = ⟨0, 1, 10, 0, 0⟩ :=
  have h := merge_multibar_rest sampleMergeExternals sampleRestBass 1 1 sampleRestEntry
    sampleRestLatched (sampleMergeBarline 0)
    (sampleMergeSystem [0, 10, 20]
      [sampleMergeStaff 4 1 [sampleMultiBarRest 1 2, sampleNotePosition 11] []])
    (sampleMergeBarline 0) (sampleMergeBarline 10)
    sampleMergeExternals_insertsLocally (by decide) (by decide) (by decide) (by decide)
    (by decide) (by decide) (by decide)
  have hrun := h.2.2.2.2.1 1 sampleRestState (by decide) (by decide) (by decide)
  have hend := h.2.2.2.2.2 sampleRestEnd (by decide)
  ⟨by decide, by decide, by decide, by decide,
   h.2.2.2.1 0 0 (by decide) (by decide) ⟨0, 0, by decide, Or.inr ⟨rfl, le_refl 0⟩, by decide⟩,
   h.2.2.2.1 0 1 (by decide) (by decide) ⟨0, 0, by decide, Or.inr ⟨rfl, by decide⟩, by decide⟩,
   by decide, hrun.1, hrun.2.1, hrun.2.2.2.1, by decide,
   (hrun.2.2.2.2 sampleRestRunning (sampleMergeBarline 10) (by decide)
     (by decide)).2.2.2.2.1 0 0 (by decide) (by decide),
   by decide, hend.1, hend.2, by decide⟩

/-! ### The merger: bars without source positions (claim C18) -/

end PowerTabOldImporter
